import Mathlib

/-!
# A shallow embedding of the chess board engine

The development follows `chessPieceClasses.{h,cpp}` and `chessBoardClass.{h,cpp}`.

* A C++ `chessPiece*` that points into one of the twelve piece vectors is a
  `PieceRef`: the colour and type of the vector plus the index of the element.
  `getColor()` and `getType()` are read off the reference, because every element
  of `std::vector<whitePawn>` is a white pawn, and so on.
* `board[8][8]` is a function on coordinates; `getSquareContents` is its
  bounds-checked reader, exactly as in the source.
* Every bounded `for` loop whose body stops at the first occupied square is a
  search through the list of squares the loop visits.
* Coordinates are `Int` (the scans look at squares such as `col - 2`).
-/

namespace Chess

inductive PIECE_COLOR where
  | WHITE | BLACK
deriving DecidableEq

inductive PIECE_TYPE where
  | PAWN | KNIGHT | BISHOP | ROOK | QUEEN | KING
deriving DecidableEq

inductive PIN_DIR where
  | RIGHT | UP_RIGHT | UP | UP_LEFT | LEFT | DOWN_LEFT | DOWN | DOWN_RIGHT
deriving DecidableEq

open PIECE_COLOR PIECE_TYPE PIN_DIR

/-- The data members of a piece object.  `enPassant` is the member of the two pawn
classes and `canCastle` the member of the rook and king classes; the other classes
do not read them. -/
structure chessPiece where
  column : Int
  row : Int
  captured : Bool
  enPassant : Bool
  canCastle : Bool
deriving DecidableEq

/-- A pointer to an element of one of the twelve piece vectors. -/
structure PieceRef where
  color : PIECE_COLOR
  type : PIECE_TYPE
  idx : Nat
deriving DecidableEq

/-- The answer typed at the promotion prompt of `pawnPromotion` that ends its input
loop (1 knight, 2 bishop, 3 rook, 4 queen). -/
inductive PromotionChoice where
  | knight | bishop | rook | queen
deriving DecidableEq

def PromotionChoice.toType : PromotionChoice → PIECE_TYPE
  | .knight => KNIGHT
  | .bishop => BISHOP
  | .rook => ROOK
  | .queen => QUEEN

/-! ## Piece classes (`chessPieceClasses.h`, `chessPieceClasses.cpp`) -/

/-- `chessPiece::inBounds`. -/
def inBounds (c r : Int) : Bool := !(c > 7 || c < 0 || r > 7 || r < 0)

/-- `chessPiece::isMove`. -/
def isMove (p : chessPiece) (c r : Int) : Bool := !(c == p.column && r == p.row)

def blackPawn.validMovement (p : chessPiece) (c r : Int) : Bool :=
  if !inBounds c r then false
  else if !isMove p c r then false
  else if p.column = c ∧ p.row = 6 ∧ r = 4 then true
  else if p.column = c ∧ p.row - r = 1 then true
  else if p.row - r = 1 ∧ (p.column - c).natAbs = 1 then true
  else false

def blackKnight.validMovement (p : chessPiece) (c r : Int) : Bool :=
  if !inBounds c r then false
  else if !isMove p c r then false
  else decide ((p.column - c).natAbs + (p.row - r).natAbs = 3 ∧ r ≠ p.row ∧ c ≠ p.column)

def blackBishop.validMovement (p : chessPiece) (c r : Int) : Bool :=
  if !inBounds c r then false
  else if !isMove p c r then false
  else decide ((r - p.row).natAbs = (c - p.column).natAbs)

def blackRook.validMovement (p : chessPiece) (c r : Int) : Bool :=
  if !inBounds c r then false
  else if !isMove p c r then false
  else decide ((c = p.column ∧ r ≠ p.row) ∨ (r = p.row ∧ c ≠ p.column))

def blackQueen.validMovement (p : chessPiece) (c r : Int) : Bool :=
  if !inBounds c r then false
  else if !isMove p c r then false
  else decide ((r - p.row).natAbs = (c - p.column).natAbs
    ∨ ((c = p.column ∧ r ≠ p.row) ∨ (r = p.row ∧ c ≠ p.column)))

def blackKing.validMovement (p : chessPiece) (c r : Int) : Bool :=
  if !inBounds c r then false
  else if !isMove p c r then false
  else if (c - p.column).natAbs = 2 ∧ r = p.row ∧ p.row = 7 then
    (if p.canCastle then true else false)
  else if r = p.row ∨ c = p.column then
    decide ((r - p.row).natAbs + (c - p.column).natAbs = 1)
  else decide ((r - p.row).natAbs + (c - p.column).natAbs = 2)

def whitePawn.validMovement (p : chessPiece) (c r : Int) : Bool :=
  if !inBounds c r then false
  else if !isMove p c r then false
  else if p.column = c ∧ p.row = 1 ∧ r = 3 then true
  else if p.column = c ∧ r - p.row = 1 then true
  else if r - p.row = 1 ∧ (p.column - c).natAbs = 1 then true
  else false

def whiteKnight.validMovement (p : chessPiece) (c r : Int) : Bool :=
  if !inBounds c r then false
  else if !isMove p c r then false
  else decide ((p.column - c).natAbs + (p.row - r).natAbs = 3 ∧ r ≠ p.row ∧ c ≠ p.column)

def whiteBishop.validMovement (p : chessPiece) (c r : Int) : Bool :=
  if !inBounds c r then false
  else if !isMove p c r then false
  else decide ((r - p.row).natAbs = (c - p.column).natAbs)

def whiteRook.validMovement (p : chessPiece) (c r : Int) : Bool :=
  if !inBounds c r then false
  else if !isMove p c r then false
  else decide ((c = p.column ∧ r ≠ p.row) ∨ (r = p.row ∧ c ≠ p.column))

def whiteQueen.validMovement (p : chessPiece) (c r : Int) : Bool :=
  if !inBounds c r then false
  else if !isMove p c r then false
  else decide ((r - p.row).natAbs = (c - p.column).natAbs
    ∨ ((c = p.column ∧ r ≠ p.row) ∨ (r = p.row ∧ c ≠ p.column)))

def whiteKing.validMovement (p : chessPiece) (c r : Int) : Bool :=
  if !inBounds c r then false
  else if !isMove p c r then false
  else if (c - p.column).natAbs = 2 ∧ r = p.row ∧ p.row = 0 then
    (if p.canCastle then true else false)
  else if r = p.row ∨ c = p.column then
    decide ((r - p.row).natAbs + (c - p.column).natAbs = 1)
  else decide ((r - p.row).natAbs + (c - p.column).natAbs = 2)

/-- The virtual call `piece.validMovement(c, r)`, dispatched on the class of the object. -/
def validMovement (color : PIECE_COLOR) (type : PIECE_TYPE) (p : chessPiece) (c r : Int) : Bool :=
  match color, type with
  | BLACK, PAWN => blackPawn.validMovement p c r
  | BLACK, KNIGHT => blackKnight.validMovement p c r
  | BLACK, BISHOP => blackBishop.validMovement p c r
  | BLACK, ROOK => blackRook.validMovement p c r
  | BLACK, QUEEN => blackQueen.validMovement p c r
  | BLACK, KING => blackKing.validMovement p c r
  | WHITE, PAWN => whitePawn.validMovement p c r
  | WHITE, KNIGHT => whiteKnight.validMovement p c r
  | WHITE, BISHOP => whiteBishop.validMovement p c r
  | WHITE, ROOK => whiteRook.validMovement p c r
  | WHITE, QUEEN => whiteQueen.validMovement p c r
  | WHITE, KING => whiteKing.validMovement p c r

/-- The virtual call `piece.moveTo(c, r)`; the black and the white class of a type
define it identically. -/
def moveTo (type : PIECE_TYPE) (p : chessPiece) (c r : Int) : chessPiece :=
  match type with
  | PAWN =>
    { p with enPassant := (if (p.row - r).natAbs = 2 then true else p.enPassant),
             column := c, row := r }
  | ROOK => { p with column := c, row := r, canCastle := false }
  | KING => { p with column := c, row := r, canCastle := false }
  | _ => { p with column := c, row := r }

def setCaptured (flag : Bool) (p : chessPiece) : chessPiece := { p with captured := flag }

def setEnPassant (flag : Bool) (p : chessPiece) : chessPiece := { p with enPassant := flag }

/-- The object the constructor `<Color><Type>(c, r)` builds: rooks and kings start
castle-eligible, pawns start without the en-passant flag. -/
def newPiece (type : PIECE_TYPE) (c r : Int) : chessPiece :=
  { column := c, row := r, captured := false, enPassant := false,
    canCastle := (type = ROOK ∨ type = KING) }

/-! ## The board (`chessBoardClass.h`) -/

structure chessBoardClass where
  bPawns : List chessPiece
  bKnights : List chessPiece
  bBishops : List chessPiece
  bRooks : List chessPiece
  bQueens : List chessPiece
  bKing : List chessPiece
  wPawns : List chessPiece
  wKnights : List chessPiece
  wBishops : List chessPiece
  wRooks : List chessPiece
  wQueens : List chessPiece
  wKing : List chessPiece
  ownedByAI : Bool
  checkVector : List PieceRef
  escapeVector : List (Int × Int)
  attackVector : List (Int × Int)
  saviorVector : List PieceRef
  defenderVector : List (PieceRef × PIN_DIR)
  pinVector : List ((PieceRef × PieceRef) × PIN_DIR)
  board : Int → Int → Option PieceRef
  turn : PIECE_COLOR
  checkmate : Bool

/-- The piece vector of a colour and type. -/
def pieces (b : chessBoardClass) (color : PIECE_COLOR) (type : PIECE_TYPE) : List chessPiece :=
  match color, type with
  | BLACK, PAWN => b.bPawns
  | BLACK, KNIGHT => b.bKnights
  | BLACK, BISHOP => b.bBishops
  | BLACK, ROOK => b.bRooks
  | BLACK, QUEEN => b.bQueens
  | BLACK, KING => b.bKing
  | WHITE, PAWN => b.wPawns
  | WHITE, KNIGHT => b.wKnights
  | WHITE, BISHOP => b.wBishops
  | WHITE, ROOK => b.wRooks
  | WHITE, QUEEN => b.wQueens
  | WHITE, KING => b.wKing

def setPieces (b : chessBoardClass) (color : PIECE_COLOR) (type : PIECE_TYPE)
    (l : List chessPiece) : chessBoardClass :=
  match color, type with
  | BLACK, PAWN => { b with bPawns := l }
  | BLACK, KNIGHT => { b with bKnights := l }
  | BLACK, BISHOP => { b with bBishops := l }
  | BLACK, ROOK => { b with bRooks := l }
  | BLACK, QUEEN => { b with bQueens := l }
  | BLACK, KING => { b with bKing := l }
  | WHITE, PAWN => { b with wPawns := l }
  | WHITE, KNIGHT => { b with wKnights := l }
  | WHITE, BISHOP => { b with wBishops := l }
  | WHITE, ROOK => { b with wRooks := l }
  | WHITE, QUEEN => { b with wQueens := l }
  | WHITE, KING => { b with wKing := l }

/-- The object a pointer denotes.  On the boards built by `init` and `move` every
pointer stored in the lookup table denotes an element of its vector (`tableSound`),
so the fallback value is not read there. -/
def deref (b : chessBoardClass) (p : PieceRef) : chessPiece :=
  (pieces b p.color p.type).getD p.idx (newPiece p.type 0 0)

/-- A member call through a pointer that changes the object in place. -/
def updatePiece (b : chessBoardClass) (p : PieceRef) (f : chessPiece → chessPiece) :
    chessBoardClass :=
  setPieces b p.color p.type ((pieces b p.color p.type).set p.idx (f (deref b p)))

/-- `chessBoardClass::getSquareContents`. -/
def getSquareContents (b : chessBoardClass) (c r : Int) : Option PieceRef :=
  if c < 0 ∨ c > 7 ∨ r < 0 ∨ r > 7 then none else b.board c r

/-- The assignment `board[c][r] = v`. -/
def setSquare (b : chessBoardClass) (c r : Int) (v : Option PieceRef) : chessBoardClass :=
  { b with board := fun c1 r1 => if c1 = c ∧ r1 = r then v else b.board c1 r1 }

/-! Assignments to the remaining data members. -/

def withTurn (b : chessBoardClass) (v : PIECE_COLOR) : chessBoardClass :=
  { b with turn := v }

def withCheckmate (b : chessBoardClass) (v : Bool) : chessBoardClass :=
  { b with checkmate := v }

def withCheckVector (b : chessBoardClass) (v : List PieceRef) : chessBoardClass :=
  { b with checkVector := v }

def withEscapeVector (b : chessBoardClass) (v : List (Int × Int)) : chessBoardClass :=
  { b with escapeVector := v }

def withAttackVector (b : chessBoardClass) (v : List (Int × Int)) : chessBoardClass :=
  { b with attackVector := v }

def withSaviorVector (b : chessBoardClass) (v : List PieceRef) : chessBoardClass :=
  { b with saviorVector := v }

def withDefenderVector (b : chessBoardClass) (v : List (PieceRef × PIN_DIR)) : chessBoardClass :=
  { b with defenderVector := v }

def withPinVector (b : chessBoardClass) (v : List ((PieceRef × PieceRef) × PIN_DIR)) :
    chessBoardClass :=
  { b with pinVector := v }

def enemyOf : PIECE_COLOR → PIECE_COLOR
  | WHITE => BLACK
  | BLACK => WHITE

/-- `&wKing.front()` or `&bKing.front()`. -/
def kingRef (color : PIECE_COLOR) : PieceRef := ⟨color, KING, 0⟩

/-! ## Directional scans

The source scans the eight directions with eight `for` loops of one shape: the
tracer starts one step away from `(col, row)`, advances by one step, and the loop
guard bounds only the coordinates that move, on the side they move towards.
`rayLen` is the number of iterations of that loop and `ray` lists the squares it
visits, in order. -/

def dirStep : PIN_DIR → Int × Int
  | RIGHT => (1, 0)
  | UP_RIGHT => (1, 1)
  | UP => (0, 1)
  | UP_LEFT => (-1, 1)
  | LEFT => (-1, 0)
  | DOWN_LEFT => (-1, -1)
  | DOWN => (0, -1)
  | DOWN_RIGHT => (1, -1)

def rayLen : PIN_DIR → Int → Int → Nat
  | RIGHT, c, _ => (7 - c).toNat
  | UP_RIGHT, c, r => min (7 - c).toNat (7 - r).toNat
  | UP, _, r => (7 - r).toNat
  | UP_LEFT, c, r => min c.toNat (7 - r).toNat
  | LEFT, c, _ => c.toNat
  | DOWN_LEFT, c, r => min c.toNat r.toNat
  | DOWN, _, r => r.toNat
  | DOWN_RIGHT, c, r => min (7 - c).toNat r.toNat

/-- The `n`-th square (counting from 1) from `(c, r)` in direction `d`. -/
def stepFrom (d : PIN_DIR) (c r : Int) (n : Nat) : Int × Int :=
  (c + (n : Int) * (dirStep d).1, r + (n : Int) * (dirStep d).2)

def ray (d : PIN_DIR) (c r : Int) : List (Int × Int) :=
  (List.range' 1 (rayLen d c r)).map (stepFrom d c r)

/-- The first occupied square a directional loop meets, with its occupant: the point
at which every such loop in the source does its work and executes `break`. -/
def firstOccupant (b : chessBoardClass) (d : PIN_DIR) (c r : Int) :
    Option ((Int × Int) × PieceRef) :=
  (ray d c r).findSome? (fun sq => (getSquareContents b sq.1 sq.2).map (fun p => (sq, p)))

/-- The eight knight offsets in the order the source probes them. -/
def knightOffsets : List (Int × Int) :=
  [(2, 1), (1, 2), (-1, 2), (-2, 1), (-2, -1), (-1, -2), (1, -2), (2, -1)]

/-- The knight probes shared by `getAttackers` and `scanForSaviors`. -/
def knightsAround (b : chessBoardClass) (color : PIECE_COLOR) (col row : Int) : List PieceRef :=
  knightOffsets.filterMap (fun o =>
    match getSquareContents b (col + o.1) (row + o.2) with
    | none => none
    | some p => if p.color = color ∧ p.type = KNIGHT then some p else none)

/-- The test `getAttackers` applies to the first occupant of a direction. -/
def threatens (d : PIN_DIR) (enemyColor : PIECE_COLOR) (col row : Int)
    (sq : Int × Int) (p : PieceRef) : Bool :=
  let adjacent : Bool := sq = stepFrom d col row 1
  match d with
  | LEFT | RIGHT | DOWN | UP =>
    p.color = enemyColor ∧ (p.type = QUEEN ∨ p.type = ROOK ∨ (p.type = KING ∧ adjacent))
  | UP_RIGHT | UP_LEFT =>
    p.color = enemyColor
      ∧ (p.type = QUEEN ∨ p.type = BISHOP ∨ (p.type = PAWN ∧ adjacent) ∨ (p.type = KING ∧ adjacent))
      ∧ ¬ (p.type = PAWN ∧ p.color = WHITE)
  | DOWN_LEFT | DOWN_RIGHT =>
    p.color = enemyColor
      ∧ (p.type = QUEEN ∨ p.type = BISHOP ∨ (p.type = PAWN ∧ adjacent) ∨ (p.type = KING ∧ adjacent))
      ∧ ¬ (p.type = PAWN ∧ p.color = BLACK)

def attackerOnRay (b : chessBoardClass) (d : PIN_DIR) (col row : Int) : List PieceRef :=
  match firstOccupant b d col row with
  | none => []
  | some (sq, p) => if threatens d (enemyOf b.turn) col row sq p then [p] else []

/-- `chessBoardClass::getAttackers(int col, int row)`. -/
def getAttackers (b : chessBoardClass) (col row : Int) : List PieceRef :=
  attackerOnRay b LEFT col row ++ attackerOnRay b RIGHT col row
    ++ attackerOnRay b DOWN col row ++ attackerOnRay b UP col row
    ++ attackerOnRay b UP_RIGHT col row ++ attackerOnRay b UP_LEFT col row
    ++ attackerOnRay b DOWN_LEFT col row ++ attackerOnRay b DOWN_RIGHT col row
    ++ knightsAround b (enemyOf b.turn) col row

/-- The first statement of the king-aware `getAttackers`:
`board[king->getColumn()][king->getRow()] = NULL`. -/
def liftKing (b : chessBoardClass) (king : PieceRef) : chessBoardClass :=
  setSquare b (deref b king).column (deref b king).row none

/-- The board the king-aware `getAttackers` leaves behind: the square of the king was
emptied and is then pointed at the king. -/
def restoreKing (b : chessBoardClass) (king : PieceRef) : chessBoardClass :=
  setSquare (liftKing b king) (deref b king).column (deref b king).row (some king)

/-- `chessBoardClass::getAttackers(chessPiece* king, int col, int row)`: the square of
the king is emptied, the same scan runs, and the square is pointed back at the king.
The second component is the board the call leaves behind. -/
def getAttackersKing (b : chessBoardClass) (king : PieceRef) (col row : Int) :
    List PieceRef × chessBoardClass :=
  (getAttackers (liftKing b king) col row, restoreKing b king)

/-- `chessBoardClass::scanForCheck`. -/
def scanForCheck (b : chessBoardClass) (king : PieceRef) : List PieceRef × chessBoardClass :=
  getAttackersKing b king (deref b king).column (deref b king).row

/-- The squares `scanForEscapeSquares` visits: the two nested loops run over
`kingCol - 1 .. kingCol + 1` and `kingRow - 1 .. kingRow + 1` and skip what is off the board. -/
def aroundKing (kc kr : Int) : List (Int × Int) :=
  ([kc - 1, kc, kc + 1].filter (fun c => decide (0 ≤ c ∧ c ≤ 7))).flatMap (fun c =>
    ([kr - 1, kr, kr + 1].filter (fun r => decide (0 ≤ r ∧ r ≤ 7))).map (fun r => (c, r)))

/-- One iteration of the inner loop of `scanForEscapeSquares`. -/
def escapeStep (king : PieceRef) (acc : List (Int × Int) × chessBoardClass) (sq : Int × Int) :
    List (Int × Int) × chessBoardClass :=
  match getSquareContents acc.2 sq.1 sq.2 with
  | some occupier =>
    if occupier.color = king.color then acc
    else
      let res := getAttackersKing acc.2 king sq.1 sq.2
      if res.1.length = 0 then (acc.1 ++ [sq], res.2) else (acc.1, res.2)
  | none =>
    let res := getAttackersKing acc.2 king sq.1 sq.2
    if res.1.length = 0 then (acc.1 ++ [sq], res.2) else (acc.1, res.2)

/-- `chessBoardClass::scanForEscapeSquares`. -/
def scanForEscapeSquares (b : chessBoardClass) (king : PieceRef) :
    List (Int × Int) × chessBoardClass :=
  (aroundKing (deref b king).column (deref b king).row).foldl (escapeStep king) ([], b)

/-- The directions in the order `scanForDefenders` scans them. -/
def allDirs : List PIN_DIR :=
  [RIGHT, UP_RIGHT, UP, UP_LEFT, LEFT, DOWN_LEFT, DOWN, DOWN_RIGHT]

/-- The list `scanForDefenders` builds. -/
def defendersOf (b : chessBoardClass) (king : PieceRef) : List (PieceRef × PIN_DIR) :=
  allDirs.filterMap (fun d =>
    match firstOccupant b d (deref b king).column (deref b king).row with
    | none => none
    | some (_, occupier) => if occupier.color = king.color then some (occupier, d) else none)

/-- `chessBoardClass::scanForDefenders`: the list is also stored in `defenderVector`. -/
def scanForDefenders (b : chessBoardClass) (king : PieceRef) :
    List (PieceRef × PIN_DIR) × chessBoardClass :=
  (defendersOf b king, withDefenderVector b (defendersOf b king))

def isOrthogonal : PIN_DIR → Bool
  | RIGHT | UP | LEFT | DOWN => true
  | _ => false

/-- The body of the `switch` of `scanForPins` for one pin candidate. -/
def pinOf (b : chessBoardClass) (friendly : PIECE_COLOR) (cand : PieceRef × PIN_DIR) :
    Option ((PieceRef × PieceRef) × PIN_DIR) :=
  match firstOccupant b cand.2 (deref b cand.1).column (deref b cand.1).row with
  | none => none
  | some (_, occupier) =>
    if occupier.color ≠ friendly then
      if isOrthogonal cand.2 then
        (if occupier.type = ROOK ∨ occupier.type = QUEEN then some ((cand.1, occupier), cand.2)
         else none)
      else
        (if occupier.type = BISHOP ∨ occupier.type = QUEEN then some ((cand.1, occupier), cand.2)
         else none)
    else none

/-- `chessBoardClass::scanForPins`. -/
def scanForPins (b : chessBoardClass) (king : PieceRef) :
    List ((PieceRef × PieceRef) × PIN_DIR) × chessBoardClass :=
  let res := scanForDefenders b king
  if res.1.isEmpty then ([], res.2)
  else (res.1.filterMap (pinOf res.2 king.color), res.2)

/-- The first `n` squares from `(kc, kr)` in the direction `(dc, dr)`: the squares a
loop visits that walks from the square next to its start up to, not including, a
square `n + 1` steps away. -/
def between (kc kr dc dr : Int) (n : Nat) : List (Int × Int) :=
  (List.range' 1 n).map (fun (i : Nat) => (kc + (i : Int) * dc, kr + (i : Int) * dr))

/-- The body of the loop of `setAttackVector` for one checker.  Each inner loop runs
from the square next to the king up to, not including, the square of the checker. -/
def attackLine (kingCol kingRow attackerCol attackerRow : Int) : List (Int × Int) :=
  (attackerCol, attackerRow) ::
  (if kingCol = attackerCol then
    (if kingRow > attackerRow then between kingCol kingRow 0 (-1) (kingRow - attackerRow - 1).toNat
     else between kingCol kingRow 0 1 (attackerRow - kingRow - 1).toNat)
  else if kingRow = attackerRow then
    (if kingCol > attackerCol then between kingCol kingRow (-1) 0 (kingCol - attackerCol - 1).toNat
     else between kingCol kingRow 1 0 (attackerCol - kingCol - 1).toNat)
  else if (kingCol - attackerCol).natAbs = (kingRow - attackerRow).natAbs then
    (if kingCol < attackerCol then
      (if kingRow < attackerRow then
        between kingCol kingRow 1 1 (attackerCol - kingCol - 1).toNat
       else if kingRow > attackerRow then
        between kingCol kingRow 1 (-1) (attackerCol - kingCol - 1).toNat
       else [])
     else if kingCol > attackerCol then
      (if kingRow < attackerRow then
        between kingCol kingRow (-1) 1 (kingCol - attackerCol - 1).toNat
       else if kingRow > attackerRow then
        between kingCol kingRow (-1) (-1) (kingCol - attackerCol - 1).toNat
       else [])
     else [])
  else [])

/-- `chessBoardClass::setAttackVector`. -/
def setAttackVector (b : chessBoardClass) (king : PieceRef) : List (Int × Int) :=
  b.checkVector.flatMap (fun attacker =>
    attackLine (deref b king).column (deref b king).row
      (deref b attacker).column (deref b attacker).row)

/-- The test `scanForSaviors` applies to the first occupant of a direction scanned
from `coordinate`. -/
def saviorOnRay (b : chessBoardClass) (d : PIN_DIR) (coordinate : Int × Int) : List PieceRef :=
  match firstOccupant b d coordinate.1 coordinate.2 with
  | none => []
  | some (_, piece) =>
    match d with
    | LEFT | RIGHT =>
      if piece.color = b.turn ∧ (piece.type = QUEEN ∨ piece.type = ROOK) then [piece] else []
    | UP | DOWN =>
      if piece.color = b.turn ∧ (piece.type = PAWN ∨ piece.type = ROOK ∨ piece.type = QUEEN) then
        (if piece.type = PAWN then
          (if !validMovement piece.color piece.type (deref b piece) coordinate.1 coordinate.2 then []
           else if getSquareContents b coordinate.1 coordinate.2 ≠ none then []
           else [piece])
         else [piece])
      else []
    | _ =>
      if piece.color = b.turn ∧ (piece.type = PAWN ∨ piece.type = BISHOP ∨ piece.type = QUEEN) then
        (if piece.type = PAWN then
          (if !validMovement piece.color piece.type (deref b piece) coordinate.1 coordinate.2 then []
           else if getSquareContents b coordinate.1 coordinate.2 = none then []
           else [piece])
         else [piece])
      else []

/-- `chessBoardClass::scanForSaviors`. -/
def scanForSaviors (b : chessBoardClass) : List PieceRef :=
  b.attackVector.flatMap (fun coordinate =>
    saviorOnRay b LEFT coordinate ++ saviorOnRay b RIGHT coordinate
      ++ saviorOnRay b UP coordinate ++ saviorOnRay b DOWN coordinate
      ++ saviorOnRay b UP_RIGHT coordinate ++ saviorOnRay b UP_LEFT coordinate
      ++ saviorOnRay b DOWN_LEFT coordinate ++ saviorOnRay b DOWN_RIGHT coordinate
      ++ knightsAround b b.turn coordinate.1 coordinate.2)

/-! ## Move legality -/

/-- Whether every square of a list is empty: a loop that returns `false` at the first
occupied square. -/
def allEmpty (b : chessBoardClass) (sqs : List (Int × Int)) : Bool :=
  sqs.all (fun sq => getSquareContents b sq.1 sq.2 = none)

/-- `chessBoardClass::isPathClear`.  Each loop walks from the square next to the origin
up to, not including, the destination. -/
def isPathClear (b : chessBoardClass) (piece : PieceRef) (destC destR : Int) : Bool :=
  let origC := (deref b piece).column
  let origR := (deref b piece).row
  let straight : Bool :=
    if origR = destR then
      (if origC > destC then allEmpty b (between origC origR (-1) 0 (origC - destC - 1).toNat)
       else if origC < destC then allEmpty b (between origC origR 1 0 (destC - origC - 1).toNat)
       else true)
    else if origC = destC then
      (if origR < destR then allEmpty b (between origC origR 0 1 (destR - origR - 1).toNat)
       else if origR > destR then allEmpty b (between origC origR 0 (-1) (origR - destR - 1).toNat)
       else true)
    else true
  let diagonal : Bool :=
    if origC > destC then
      (if origR > destR then
        allEmpty b (between origC origR (-1) (-1)
          (min (origC - destC - 1).toNat (origR - destR - 1).toNat))
       else if origR < destR then
        allEmpty b (between origC origR (-1) 1
          (min (origC - destC - 1).toNat (destR - origR - 1).toNat))
       else true)
    else if origC < destC then
      (if origR > destR then
        allEmpty b (between origC origR 1 (-1)
          (min (destC - origC - 1).toNat (origR - destR - 1).toNat))
       else if origR < destR then
        allEmpty b (between origC origR 1 1
          (min (destC - origC - 1).toNat (destR - origR - 1).toNat))
       else true)
    else true
  straight && diagonal

/-- The third test of `movementLogic` for a pawn: a straight move needs empty squares. -/
def pawnPathBlocked (b : chessBoardClass) (piece : PieceRef) (destC destR : Int) : Bool :=
  let origC := (deref b piece).column
  let origR := (deref b piece).row
  if origC = destC then
    (if piece.color = WHITE then
      (if destR = origR + 1 ∧ getSquareContents b destC destR ≠ none then true
       else if destR = origR + 2 then
        decide (getSquareContents b destC destR ≠ none ∨ getSquareContents b destC (destR - 1) ≠ none)
       else false)
     else
      (if destR = origR - 1 ∧ getSquareContents b destC destR ≠ none then true
       else if destR = origR - 2 then
        decide (getSquareContents b destC destR ≠ none ∨ getSquareContents b destC (destR + 1) ≠ none)
       else false))
  else false

/-- The block "Special Case: En Passant and Pawn Capturing" of `movementLogic`: whether
it returns `false`. -/
def enPassantRefused (b : chessBoardClass) (piece : PieceRef) (destC destR : Int) : Bool :=
  if piece.type = PAWN ∧ ¬ ((deref b piece).column = destC) then
    (if getSquareContents b destC destR = none then
      (match getSquareContents b destC (deref b piece).row with
       | none => true
       | some occupier =>
         if occupier.type ≠ PAWN then true
         else !(deref b occupier).enPassant)
     else false)
  else false

/-- The block "Special Case: Castling" of `movementLogic`: whether it returns `false`.
The two loops of a side run over the squares between the king and the corner; the
bounds test of `validMovement` has already put the destination on the board, so the
loop guards `tracerC != 0` and `tracerC != 7` are reached from the right side. -/
def castlingRefused (b : chessBoardClass) (piece : PieceRef) (destC : Int) : Bool :=
  let origC := (deref b piece).column
  let origR := (deref b piece).row
  if piece.type = KING ∧ (origC - destC).natAbs = 2 then
    let sqs : List (Int × Int) :=
      if destC < origC then between origC origR (-1) 0 (origC - 1).toNat
      else between origC origR 1 0 (7 - origC - 1).toNat
    if !allEmpty b sqs then true
    else if sqs.any (fun sq => decide ((getAttackers b sq.1 sq.2).length > 0)) then true
    else
      match getSquareContents b (if destC < origC then 0 else 7) origR with
      | none => true
      | some rook =>
        if rook.type = ROOK then !(deref b rook).canCastle else false
  else false

/-- The fourth test of `movementLogic` ("King in Check"): whether it returns `false`. -/
def checkRefused (b : chessBoardClass) (piece : PieceRef) (destC destR : Int) : Bool :=
  if b.checkVector.length > 0 then
    (if b.checkVector.length > 1 ∧ piece.type ≠ KING then true
     else if ¬ (b.checkVector.length > 1) ∧ piece.type ≠ KING
        ∧ ¬ (piece ∈ b.saviorVector) then true
     else if ¬ (b.checkVector.length > 1) ∧ piece.type ≠ KING
        ∧ ¬ ((destC, destR) ∈ b.attackVector) then true
     else if piece.type = KING ∧ ¬ ((destC, destR) ∈ b.escapeVector) then true
     else false)
  else false

/-- The fifth test of `movementLogic` ("Check for Pin"), which is also the end of the
function: the value `movementLogic` returns once the earlier tests have passed. -/
def pinTest (b : chessBoardClass) (piece : PieceRef) (destC destR : Int) : Bool :=
  match b.pinVector.find? (fun e => e.1.1 = piece) with
  | none => true
  | some ((_, pinner), pinDirection) =>
    if piece.type = KNIGHT then false
    else if getSquareContents b destC destR = some pinner then true
    else
      let origC := (deref b piece).column
      let origR := (deref b piece).row
      if (pinDirection = LEFT ∨ pinDirection = RIGHT) ∧ origR = destR then true
      else if (pinDirection = UP ∨ pinDirection = DOWN) ∧ origC = destC then true
      else if pinDirection = UP_RIGHT ∨ pinDirection = DOWN_LEFT then
        (if destC - origC = 0 then false
         else if Int.tdiv (destR - origR) (destC - origC) ≠ 1 then false
         else true)
      else if pinDirection = UP_LEFT ∨ pinDirection = DOWN_RIGHT then
        (if destC - origC = 0 then false
         else if Int.tdiv (destR - origR) (destC - origC) ≠ -1 then false
         else true)
      else false

/-- `chessBoardClass::movementLogic`. -/
def movementLogic (b : chessBoardClass) (piece : PieceRef) (destC destR : Int) : Bool :=
  if !validMovement piece.color piece.type (deref b piece) destC destR then false
  else if (match getSquareContents b destC destR with
      | some o => decide (o.color = piece.color)
      | none => false) then false
  else if piece.type ≠ KNIGHT ∧ piece.type ≠ PAWN ∧ !isPathClear b piece destC destR then false
  else if piece.type = PAWN ∧ pawnPathBlocked b piece destC destR then false
  else if enPassantRefused b piece destC destR then false
  else if castlingRefused b piece destC then false
  else if piece.type = KING ∧ !(getAttackers b destC destR).isEmpty then false
  else if checkRefused b piece destC destR then false
  else pinTest b piece destC destR

/-! ## Move execution -/

/-- The loop at the end of `pawnPromotion` that points the board at every element of
the vector the new piece was pushed onto. -/
def resync (b : chessBoardClass) (color : PIECE_COLOR) (type : PIECE_TYPE) : chessBoardClass :=
  (List.range (pieces b color type).length).foldl
    (fun acc i =>
      setSquare acc (deref acc ⟨color, type, i⟩).column (deref acc ⟨color, type, i⟩).row
        (some ⟨color, type, i⟩))
    b

/-- `chessBoardClass::pawnPromotion`.  On a board owned by the AI the new piece is a
queen; otherwise it is the piece chosen at the prompt. -/
def pawnPromotion (b : chessBoardClass) (pawn : PieceRef) (choice : PromotionChoice) :
    chessBoardClass :=
  let color := pawn.color
  let type := if b.ownedByAI then QUEEN else choice.toType
  let col := (deref b pawn).column
  let row := (deref b pawn).row
  let b1 := setSquare b col row none
  let b2 := setPieces b1 color type (pieces b1 color type ++ [newPiece type col row])
  let b3 := setSquare b2 col row (some ⟨color, type, (pieces b1 color type).length⟩)
  resync b3 color type

/-- The castling block of `performMove` for the corner column `corner` and the rook
destination `rookC`; `none` is the dereference of a null rook pointer. -/
def castleMove (b : chessBoardClass) (piece : PieceRef) (origC origR destC destR : Int)
    (corner rookC : Int) : Option chessBoardClass :=
  match getSquareContents b corner origR with
  | none => none
  | some rook =>
    let s1 := setSquare b origC origR none
    let s2 := setSquare s1 corner origR none
    let s3 := updatePiece s2 piece (fun p => moveTo piece.type p destC destR)
    let s4 := setSquare s3 destC destR (some piece)
    let s5 := updatePiece s4 rook (fun p => moveTo rook.type p rookC destR)
    some (setSquare s5 rookC destR (some rook))

/-- The test of the en-passant block of `performMove`: a pawn changes column and the
destination is empty. -/
def enPassantCapture (b : chessBoardClass) (piece : PieceRef) (destC destR : Int) : Bool :=
  piece.type = PAWN ∧ (deref b piece).column ≠ destC ∧ getSquareContents b destC destR = none

/-- The local `occupier` of `performMove` after the en-passant block. -/
def moveOccupier (b : chessBoardClass) (piece : PieceRef) (destC destR : Int) : Option PieceRef :=
  if enPassantCapture b piece destC destR then getSquareContents b destC (deref b piece).row
  else getSquareContents b destC destR

/-- The en-passant block of `performMove`: `board[destC][origR] = NULL`. -/
def afterEnPassant (b : chessBoardClass) (piece : PieceRef) (destC destR : Int) : chessBoardClass :=
  if enPassantCapture b piece destC destR then setSquare b destC (deref b piece).row none else b

/-- The castling block of `performMove`. -/
def afterCastle (b : chessBoardClass) (piece : PieceRef) (origC origR destC destR : Int) :
    Option chessBoardClass :=
  if piece.type = KING ∧ (origC - destC).natAbs = 2 then
    (if destC < origC then castleMove b piece origC origR destC destR 0 (destC + 1)
     else castleMove b piece origC origR destC destR 7 (destC - 1))
  else some b

/-- The "vanilla movement case" of `performMove`: the occupier is flagged captured, the
piece is moved, the destination points at it and the origin is emptied. -/
def placePiece (b : chessBoardClass) (occupier : Option PieceRef) (piece : PieceRef)
    (origC origR destC destR : Int) : chessBoardClass :=
  let b3 := match occupier with
    | some o => updatePiece b o (setCaptured true)
    | none => b
  let b4 := updatePiece b3 piece (fun p => moveTo piece.type p destC destR)
  let b5 := setSquare b4 destC destR (some piece)
  setSquare b5 origC origR none

/-- The promotion block of `performMove`. -/
def promoteOnLastRow (b : chessBoardClass) (piece : PieceRef) (destR : Int) (forceMove : Bool)
    (choice : PromotionChoice) : chessBoardClass :=
  if piece.type = PAWN ∧ (destR = 0 ∨ destR = 7) ∧ !forceMove then
    pawnPromotion (updatePiece b piece (setCaptured true)) piece choice
  else b

/-- `chessBoardClass::performMove`, block by block; `origC`, `origR` and the first
`occupier` are read before anything is written. -/
def performMove (b : chessBoardClass) (piece : PieceRef) (destC destR : Int)
    (forceMove : Bool) (choice : PromotionChoice) : Option chessBoardClass :=
  (afterCastle (afterEnPassant b piece destC destR) piece
      (deref b piece).column (deref b piece).row destC destR).map
    (fun b2 =>
      promoteOnLastRow
        (placePiece b2 (moveOccupier b piece destC destR) piece
          (deref b piece).column (deref b piece).row destC destR)
        piece destR forceMove choice)

/-- `chessBoardClass::swapTurn`. -/
def swapTurn (b : chessBoardClass) : chessBoardClass :=
  let b1 := withTurn b (if b.turn = WHITE then BLACK else WHITE)
  let b2 := withSaviorVector (withAttackVector (withEscapeVector (withPinVector
    (withCheckVector b1 []) []) []) []) []
  if b2.turn = WHITE then setPieces b2 WHITE PAWN ((pieces b2 WHITE PAWN).map (setEnPassant false))
  else setPieces b2 BLACK PAWN ((pieces b2 BLACK PAWN).map (setEnPassant false))

/-- `checkVector = scanForCheck(*king);` -/
def refreshCheck (b : chessBoardClass) : chessBoardClass :=
  withCheckVector (scanForCheck b (kingRef b.turn)).2 (scanForCheck b (kingRef b.turn)).1

/-- `escapeVector = scanForEscapeSquares(*king);` -/
def refreshEscape (b : chessBoardClass) : chessBoardClass :=
  withEscapeVector (scanForEscapeSquares b (kingRef b.turn)).2
    (scanForEscapeSquares b (kingRef b.turn)).1

/-- `pinVector = scanForPins(*king);` -/
def refreshPins (b : chessBoardClass) : chessBoardClass :=
  withPinVector (scanForPins b (kingRef b.turn)).2 (scanForPins b (kingRef b.turn)).1

/-- `if (!checkVector.empty()) { attackVector = setAttackVector(*king); saviorVector = scanForSaviors(); }` -/
def refreshSaviors (b : chessBoardClass) : chessBoardClass :=
  if !b.checkVector.isEmpty then
    withSaviorVector (withAttackVector b (setAttackVector b (kingRef b.turn)))
      (scanForSaviors (withAttackVector b (setAttackVector b (kingRef b.turn))))
  else b

/-- `if (checkVector.size() > 0 && escapeVector.empty() && saviorVector.empty()) checkmate = true;` -/
def refreshCheckmate (b : chessBoardClass) : chessBoardClass :=
  if b.checkVector.length > 0 ∧ b.escapeVector.isEmpty ∧ b.saviorVector.isEmpty then
    withCheckmate b true
  else b

/-- The block that `move` (after `swapTurn`) and `setTurn` (after setting the turn)
both run, statement by statement: check, escape squares, pins, and, when in check,
interposition squares and saviors are recomputed for the king of the side to move, and
`checkmate` is set when there is a checker and neither an escape square nor a savior. -/
def refreshDerived (b : chessBoardClass) : chessBoardClass :=
  refreshCheckmate (refreshSaviors (refreshPins (refreshEscape (refreshCheck b))))

/-- `chessBoardClass::setTurn`. -/
def setTurn (b : chessBoardClass) (c : PIECE_COLOR) : chessBoardClass :=
  refreshDerived (withTurn b c)

/-- `chessBoardClass::move`.  The result is the returned flag and the board after the
call; `none` is the dereference of a null pointer (a forced move from an empty square,
or a forced castling move towards an empty corner).  `move` calls `performMove` without
its fourth argument, so `performMove` always runs with `forceMove == false`. -/
def move (b : chessBoardClass) (origC origR destC destR : Int) (noMove forceMove : Bool)
    (choice : PromotionChoice) : Option (Bool × chessBoardClass) :=
  let run (piece : PieceRef) : Option (Bool × chessBoardClass) :=
    (performMove b piece destC destR false choice).map
      (fun b1 => (true, refreshDerived (swapTurn b1)))
  match getSquareContents b origC origR with
  | none => if forceMove then none else some (false, b)
  | some piece =>
    if forceMove then run piece
    else if piece.color ≠ b.turn then some (false, b)
    else if b.checkmate then some (false, b)
    else if noMove then some (movementLogic b piece destC destR, b)
    else if movementLogic b piece destC destR then run piece
    else some (false, b)

/-- `chessBoardClass::init`.  The vectors and the 64 entries of the lookup table are
rebuilt, the turn, the checkmate flag and the AI flag are reset, and the check, attack,
savior and escape vectors are cleared; `pinVector` and `defenderVector` are not touched. -/
def init (b : chessBoardClass) : chessBoardClass :=
  { b with
    wPawns := (List.range 8).map (fun (col : Nat) => newPiece PAWN (col : Int) 1)
    bPawns := (List.range 8).map (fun (col : Nat) => newPiece PAWN (col : Int) 6)
    wKnights := [newPiece KNIGHT 1 0, newPiece KNIGHT 6 0]
    bKnights := [newPiece KNIGHT 1 7, newPiece KNIGHT 6 7]
    wBishops := [newPiece BISHOP 2 0, newPiece BISHOP 5 0]
    bBishops := [newPiece BISHOP 2 7, newPiece BISHOP 5 7]
    wRooks := [newPiece ROOK 0 0, newPiece ROOK 7 0]
    bRooks := [newPiece ROOK 0 7, newPiece ROOK 7 7]
    wQueens := [newPiece QUEEN 3 0]
    bQueens := [newPiece QUEEN 3 7]
    wKing := [newPiece KING 4 0]
    bKing := [newPiece KING 4 7]
    turn := WHITE
    checkmate := false
    checkVector := []
    attackVector := []
    saviorVector := []
    escapeVector := []
    ownedByAI := false
    board := fun c r =>
      if c < 0 ∨ c > 7 ∨ r < 0 ∨ r > 7 then b.board c r
      else if r = 1 then some ⟨WHITE, PAWN, c.toNat⟩
      else if r = 6 then some ⟨BLACK, PAWN, c.toNat⟩
      else if r = 0 then
        (if c = 1 then some ⟨WHITE, KNIGHT, 0⟩ else if c = 6 then some ⟨WHITE, KNIGHT, 1⟩
         else if c = 2 then some ⟨WHITE, BISHOP, 0⟩ else if c = 5 then some ⟨WHITE, BISHOP, 1⟩
         else if c = 0 then some ⟨WHITE, ROOK, 0⟩ else if c = 7 then some ⟨WHITE, ROOK, 1⟩
         else if c = 3 then some ⟨WHITE, QUEEN, 0⟩ else some ⟨WHITE, KING, 0⟩)
      else if r = 7 then
        (if c = 1 then some ⟨BLACK, KNIGHT, 0⟩ else if c = 6 then some ⟨BLACK, KNIGHT, 1⟩
         else if c = 2 then some ⟨BLACK, BISHOP, 0⟩ else if c = 5 then some ⟨BLACK, BISHOP, 1⟩
         else if c = 0 then some ⟨BLACK, ROOK, 0⟩ else if c = 7 then some ⟨BLACK, ROOK, 1⟩
         else if c = 3 then some ⟨BLACK, QUEEN, 0⟩ else some ⟨BLACK, KING, 0⟩)
      else none }

/-- A board object before `init`: empty vectors and an empty table. -/
def blankBoard : chessBoardClass :=
  { bPawns := [], bKnights := [], bBishops := [], bRooks := [], bQueens := [], bKing := [],
    wPawns := [], wKnights := [], wBishops := [], wRooks := [], wQueens := [], wKing := [],
    ownedByAI := false, checkVector := [], escapeVector := [], attackVector := [],
    saviorVector := [], defenderVector := [], pinVector := [],
    board := fun _ _ => none, turn := WHITE, checkmate := false }

/-- A half-move as the arguments of a non-forced, state-changing `move` call. -/
structure HalfMove where
  origC : Int
  origR : Int
  destC : Int
  destR : Int
  choice : PromotionChoice

/-- Plays a list of half-moves with non-forced `move` calls; `none` as soon as one of
them is refused. -/
def play (b : chessBoardClass) : List HalfMove → Option chessBoardClass
  | [] => some b
  | m :: ms =>
    match move b m.origC m.origR m.destC m.destR false false m.choice with
    | some (true, b1) => play b1 ms
    | _ => none

/-! ## Predicates used to state the properties -/

/-- The 64 squares of the board. -/
def allSquares : List (Int × Int) :=
  (List.range 8).flatMap (fun (c : Nat) =>
    (List.range 8).map (fun (r : Nat) => ((c : Int), (r : Int))))

/-- Every pointer stored in the lookup table denotes an element of its vector, and
that piece records the square the pointer is stored at. -/
def tableSound (b : chessBoardClass) : Bool :=
  allSquares.all (fun sq =>
    match getSquareContents b sq.1 sq.2 with
    | none => true
    | some p =>
      decide (p.idx < (pieces b p.color p.type).length
        ∧ (deref b p).column = sq.1 ∧ (deref b p).row = sq.2))

/-- The positions reached from `init` by successful non-forced `move` calls. -/
inductive Reachable : chessBoardClass → Prop where
  | init (b0 : chessBoardClass) : Reachable (init b0)
  | step (b b1 : chessBoardClass) (origC origR destC destR : Int) (choice : PromotionChoice) :
      Reachable b → move b origC origR destC destR false false choice = some (true, b1) →
      Reachable b1

/-- The row on which a colour's king and rooks start. -/
def homeRow : PIECE_COLOR → Int
  | WHITE => 0
  | BLACK => 7

/-- The standard starting position on a fresh board object. -/
def startBoard : chessBoardClass := init blankBoard

/-- The board after a list of half-moves from the starting position (the starting
position itself if one of them is refused). -/
def boardAfter (ms : List HalfMove) : chessBoardClass :=
  (play startBoard ms).getD startBoard

/-- A half-move that promotes, if at all, to a queen. -/
def hm (origC origR destC destR : Int) : HalfMove :=
  ⟨origC, origR, destC, destR, PromotionChoice.queen⟩

/-- 1. f3 e5 2. g4 Qh4 mate. -/
def foolsMate : List HalfMove :=
  [hm 5 1 5 2, hm 4 6 4 4, hm 6 1 6 3, hm 3 7 7 3]

/-- 1. e4. -/
def kingsPawnOpening : List HalfMove := [hm 4 1 4 3]

/-- 1. e4 d5 2. Qg4 Bxg4 3. exd5 a6 4. d6 a5 5. dxc7 a4 6. cxb8=Q: the white queen is
captured on g4 and a white pawn later promotes to a queen. -/
def promotionGame : List HalfMove :=
  [hm 4 1 4 3, hm 3 6 3 4, hm 3 0 6 3, hm 2 7 6 3, hm 4 3 3 4, hm 0 6 0 5,
   hm 3 4 3 5, hm 0 5 0 4, hm 3 5 2 6, hm 0 4 0 3, hm 2 6 1 7]

/-- 1. g3 Nf6 2. Bg2 Ng8 3. Nf3 Nf6 4. h4 Ng8 5. Rh2 Nf6 6. Bh1 Ng8: the white rook has
left h1 and the white bishop stands there; king and the squares f1, g1 are as for
king-side castling. -/
def bishopInCornerGame : List HalfMove :=
  [hm 6 1 6 2, hm 6 7 5 5, hm 5 0 6 1, hm 5 5 6 7, hm 6 0 5 2, hm 6 7 5 5,
   hm 7 1 7 3, hm 5 5 6 7, hm 7 0 7 1, hm 6 7 5 5, hm 6 1 7 0, hm 5 5 6 7]

/-- 1. e4 f5 2. Qh5+: Black is in check from the queen; g7-g6 interposes. -/
def queenCheckGame : List HalfMove :=
  [hm 4 1 4 3, hm 5 6 5 4, hm 3 0 7 4]

/-- 1. g3 b6 2. Bg2 Ba6 3. Nf3 Nf6 4. e4 Ng8: White has cleared f1 and g1, king and rook
have not moved, and the black bishop on a6 attacks f1. -/
def attackedTransitGame : List HalfMove :=
  [hm 6 1 6 2, hm 1 6 1 5, hm 5 0 6 1, hm 2 7 0 5, hm 6 0 5 2, hm 6 7 5 5,
   hm 4 1 4 3, hm 5 5 6 7]

/-- Whether `(c, r)` lies on the line through `(kc, kr)` in direction `d`. -/
def onLine (d : PIN_DIR) (kc kr c r : Int) : Bool :=
  match d with
  | RIGHT | LEFT => r = kr
  | UP | DOWN => c = kc
  | UP_RIGHT | DOWN_LEFT => r - kr = c - kc
  | UP_LEFT | DOWN_RIGHT => r - kr = kc - c

/-- 1. e4 d5 2. Bb5+ Nc6 3. a3: Black is to move and the black knight on c6 stands
between the king on e8 and the white bishop on b5. -/
def pinnedKnightGame : List HalfMove :=
  [hm 4 1 4 3, hm 3 6 3 4, hm 5 0 1 4, hm 1 7 2 5, hm 0 1 0 2]

/-- What `tableSound` says, as a proposition about every square. -/
def Sound (b : chessBoardClass) : Prop :=
  ∀ c r p, getSquareContents b c r = some p →
    p.idx < (pieces b p.color p.type).length
      ∧ (deref b p).column = c ∧ (deref b p).row = r

/-- A king whose castle flag is up stands on the e-file. -/
def KingHome (b : chessBoardClass) : Prop :=
  ∀ p : PieceRef, p.type = KING → p.idx < (pieces b p.color p.type).length →
    (deref b p).canCastle = true → (deref b p).column = 4

/-- Both king vectors have an element. -/
def KingsExist (b : chessBoardClass) : Prop :=
  ∀ color : PIECE_COLOR, 0 < (pieces b color KING).length

/-- The invariant of the boards built by `init` and executed legal moves that the
proofs below rely on. -/
def Inv (b : chessBoardClass) : Prop := Sound b ∧ KingHome b ∧ KingsExist b

/-- 1. a4 h6 2. a5 b5: the black b-pawn has just advanced two squares and stands beside
the white pawn on a5. -/
def enPassantGame : List HalfMove :=
  [hm 0 1 0 3, hm 7 6 7 5, hm 0 3 0 4, hm 1 6 1 4]

/-- 1. g3 Nf6 2. Bg2 Ng8 3. Nf3 Nf6: White has cleared f1 and g1; king and rook have
not moved; it is White's turn after 3... Nf6 4. (to play). -/
def castlingGame : List HalfMove :=
  [hm 6 1 6 2, hm 6 7 5 5, hm 5 0 6 1, hm 5 5 6 7, hm 6 0 5 2, hm 6 7 5 5]

/-- 1. a3 g6 2. b3 Bg7 3. c3 Nf6 4. d3: Black has cleared f8 and g8; king and rook have
not moved; it is Black's turn. -/
def blackCastlingGame : List HalfMove :=
  [hm 0 1 0 2, hm 6 6 6 5, hm 1 1 1 2, hm 5 7 6 6, hm 2 1 2 2, hm 6 7 5 5, hm 3 1 3 2]

/-- 1. h3 a5 2. h4 a4 3. b4: the white b-pawn has just advanced two squares and stands
beside the black pawn on a4. -/
def blackEnPassantGame : List HalfMove :=
  [hm 7 1 7 2, hm 0 6 0 4, hm 7 2 7 3, hm 0 4 0 3, hm 1 1 1 3]

/-- The game 1. Nf3 e5 2. d4 d6 3. dxe5 Bg4 4. exd6 Bxf3 5. dxc7 a6 6. Nd2 a5 7. Nxf3 a4
8. cxb8=N: the white knight from g1 is captured on f3, the knight from b1 recaptures
there, and a white pawn then promotes to a knight. -/
def knightPromotionGame : List HalfMove :=
  [hm 6 0 5 2, hm 4 6 4 4, hm 3 1 3 3, hm 3 6 3 5, hm 3 3 4 4, hm 2 7 6 3,
   hm 4 4 3 5, hm 6 3 5 2, hm 3 5 2 6, hm 0 6 0 5, hm 1 0 3 1, hm 0 5 0 4,
   hm 3 1 5 2, hm 0 4 0 3, ⟨2, 6, 1, 7, PromotionChoice.knight⟩]

/-- The game 1. d4 e6 2. Nc3 Bb4: the white knight on c3 is pinned against its king by the bishop
on b4, and it is White's turn. -/
def pinnedWhiteKnightGame : List HalfMove :=
  [hm 3 1 3 3, hm 4 6 4 5, hm 1 0 2 2, hm 5 7 1 3]

/-- A forced move from `(ac, ar)` to `(bc, br)` followed by the forced move back; the
result is the board after the second call. -/
def thereAndBack (b : chessBoardClass) (ac ar bc br : Int) (choice : PromotionChoice) :
    Option chessBoardClass :=
  (move b ac ar bc br false true choice).bind
    (fun there => (move there.2 bc br ac ar false true choice).map Prod.snd)

/-- The lookup table refers to each king on the square that king records. -/
def KingsInTable (b : chessBoardClass) : Prop :=
  ∀ color : PIECE_COLOR,
    getSquareContents b (deref b (kingRef color)).column (deref b (kingRef color)).row
      = some (kingRef color)

/-- The board after `init()` and the forced move of the black rook from a8 onto e1,
which captures the white king. -/
def kingCapturedBoard : chessBoardClass :=
  ((move startBoard 0 7 4 0 false true PromotionChoice.queen).map Prod.snd).getD startBoard

/-- The game 1. e4 c6 2. e5 Qa5 3. Ke2 a6 4. Kf3 b6 5. Kg4 Bb7 6. Kg5 d5 7. exd6: the
en-passant capture removes both pawns from the fifth rank, between the white king on g5
and the black queen on a5. -/
def epExposureGame : List HalfMove :=
  [hm 4 1 4 3, hm 2 6 2 5, hm 4 3 4 4, hm 3 7 0 4, hm 4 0 4 1, hm 0 6 0 5,
   hm 4 1 5 2, hm 1 6 1 5, hm 5 2 6 3, hm 2 7 1 6, hm 6 3 6 4, hm 3 6 3 4, hm 4 4 3 5]

/-- The game 1. f4 e5 2. g4 d5 3. d3 Bxg4 4. e3 Bb4+ 5. Qd2 Qh4: the white king is in
check from h4, has no flight square, and the only piece that could interpose, the queen
on d2, is pinned by the bishop on b4. -/
def pinnedSaviorGame : List HalfMove :=
  [hm 5 1 5 3, hm 4 6 4 4, hm 6 1 6 3, hm 3 6 3 4, hm 3 1 3 2, hm 2 7 6 3,
   hm 4 1 4 2, hm 5 7 1 3, hm 3 0 3 1, hm 3 7 7 3]

/-! ## The game tree

`chessGameTree.h` and `chessGameTree.cpp`.  A `chessPiece*` held by an action is a handle
into the vectors of the board of the node the action was generated for; a
`gameStateNode*` is the index of the node in the store of the tree.  `int` values are
integers: the search multiplies and negates values between `-INT_MAX` and `INT_MAX` only.
`evaluateHeuristic`, which reads the board it is given and the action, returns the score
and pushes tags onto the tag list of the action, is a parameter of the search. -/

/-- `action::MOVE_TYPE`, in the order of the enumeration. -/
inductive MOVE_TYPE where
  | BACKWARD | FORWARD | CHECK | DOUBLE_CHECK | CASTLE | CAPTURE | PROMOTION | DRAW
  deriving DecidableEq, Repr

/-- The value of an enumerator. -/
def MOVE_TYPE.toNat : MOVE_TYPE → Nat
  | .BACKWARD => 0
  | .FORWARD => 1
  | .CHECK => 2
  | .DOUBLE_CHECK => 3
  | .CASTLE => 4
  | .CAPTURE => 5
  | .PROMOTION => 6
  | .DRAW => 7

/-- `struct action`.  `piece` is `none` for a null pointer; `bestCategory` is `none` while
the member has not been assigned (the constructors leave it indeterminate). -/
structure action where
  piece : Option PieceRef
  origC : Int
  origR : Int
  destC : Int
  destR : Int
  heuristic : Int
  moveTypeList : List MOVE_TYPE
  bestCategory : Option MOVE_TYPE
  deriving DecidableEq

/-- `struct gameStateNode`.  `bestAction` is `none` while the member has not been assigned;
`actionList` and `next` are stacks, top first. -/
structure gameStateNode where
  gameState : chessBoardClass
  isMinNode : Bool
  isMaxNode : Bool
  depthLevel : Int
  previous : Option Nat
  bestAction : Option action
  actionList : List action
  next : List Nat
  moveHistory : List action
  markedForDelete : Bool

/-- `class chessGameTree`: the nodes that have been allocated and not deleted, and the
three data members. -/
structure chessGameTree where
  nodes : List gameStateNode
  root : Nat
  currentGameState : Nat
  maxDepth : Int

/-- What `evaluateHeuristic(board, moveData)` returns and the tags it pushes onto
`moveData->moveTypeList`. -/
abbrev Heuristic := chessBoardClass → action → Int × List MOVE_TYPE

def INT_MAX : Int := 2147483647

/-! ### `chessBoardClass::operator=` -/

/-- The pinner pointer that `operator=` copies unchanged: it still points into the vectors
of `obj`, so it equals no pointer into the vectors of the object assigned to.  The handle
lies past the end of the vector it names. -/
def stalePinner (obj : chessBoardClass) (q : PieceRef) : PieceRef :=
  ⟨q.color, q.type, q.idx + (pieces obj q.color q.type).length⟩

/-- One iteration of a copy loop of `operator=`, for element `i` of the vector of `obj`
of the given colour and type (pawns to queens): a captured piece is skipped; otherwise the
piece is pushed, the table points at the new element, and the entries of the savior, pin
and defender vectors (side to move) or of the check vector (other side) that point at the
old element are pushed with the new pointer. -/
def copyPiece (obj : chessBoardClass) (color : PIECE_COLOR) (type : PIECE_TYPE)
    (self : chessBoardClass) (i : Nat) : chessBoardClass :=
  let old : PieceRef := ⟨color, type, i⟩
  let p := deref obj old
  if p.captured then self
  else
    let new : PieceRef := ⟨color, type, (pieces self color type).length⟩
    let s1 := setPieces self color type (pieces self color type ++ [p])
    let s2 := setSquare s1 p.column p.row (some new)
    if s2.turn = color then
      let s3 := if old ∈ obj.saviorVector then withSaviorVector s2 (s2.saviorVector ++ [new])
        else s2
      let s4 := withPinVector s3 (s3.pinVector ++
        (obj.pinVector.filter (fun e => e.1.1 = old)).map
          (fun e => ((new, stalePinner obj e.1.2), e.2)))
      withDefenderVector s4 (s4.defenderVector ++
        (obj.defenderVector.filter (fun e => e.1 = old)).map (fun e => (new, e.2)))
    else if old ∈ obj.checkVector then withCheckVector s2 (s2.checkVector ++ [new])
    else s2

/-- A copy loop of `operator=` over one vector of `obj`. -/
def copyVector (obj : chessBoardClass) (color : PIECE_COLOR) (type : PIECE_TYPE)
    (self : chessBoardClass) : chessBoardClass :=
  (List.range (pieces obj color type).length).foldl (copyPiece obj color type) self

/-- The king block of `operator=`: the front of the king vector of `obj` is pushed whether
captured or not, the table points at it, and it is pushed onto the savior vector when it
is the king of the side to move and `obj` lists it there. -/
def copyKing (obj : chessBoardClass) (color : PIECE_COLOR) (self : chessBoardClass) :
    chessBoardClass :=
  match (pieces obj color KING).head? with
  | none => self
  | some k =>
    let s1 := setPieces self color KING (pieces self color KING ++ [k])
    let s2 := setSquare s1 (deref s1 (kingRef color)).column (deref s1 (kingRef color)).row
      (some (kingRef color))
    if s2.turn = color ∧ kingRef color ∈ obj.saviorVector then
      withSaviorVector s2 (s2.saviorVector ++ [kingRef color])
    else s2

/-- The six copy blocks of one colour, in the order of the source. -/
def copyColor (obj : chessBoardClass) (color : PIECE_COLOR) (self : chessBoardClass) :
    chessBoardClass :=
  copyKing obj color
    (copyVector obj color QUEEN (copyVector obj color ROOK (copyVector obj color BISHOP
      (copyVector obj color KNIGHT (copyVector obj color PAWN self)))))

/-- `chessBoardClass::operator=` with `self` the object assigned to: the AI flag is set,
all vectors are cleared, the turn is copied, the 64 entries of the table are nulled, the
pieces of `obj` that are not captured are copied, black first, and the escape and attack
vectors and the checkmate flag are copied. -/
def assign (self obj : chessBoardClass) : chessBoardClass :=
  let s0 : chessBoardClass :=
    { self with
      ownedByAI := true
      bPawns := [], bKnights := [], bBishops := [], bRooks := [], bQueens := [], bKing := []
      wPawns := [], wKnights := [], wBishops := [], wRooks := [], wQueens := [], wKing := []
      checkVector := [], escapeVector := [], attackVector := []
      saviorVector := [], pinVector := [], defenderVector := []
      turn := obj.turn
      board := fun c r => if c < 0 ∨ c > 7 ∨ r < 0 ∨ r > 7 then self.board c r else none }
  let s1 := copyColor obj WHITE (copyColor obj BLACK s0)
  { s1 with
    escapeVector := obj.escapeVector
    attackVector := obj.attackVector
    checkmate := obj.checkmate }

/-! ### Nodes -/

/-- A node as `new gameStateNode` leaves it before any member is assigned: empty
containers, `markedForDelete` true as its declaration says. -/
def freshNode : gameStateNode :=
  { gameState := blankBoard, isMinNode := false, isMaxNode := false, depthLevel := 0,
    previous := none, bestAction := none, actionList := [], next := [], moveHistory := [],
    markedForDelete := true }

/-- `gameStateNode::init(node)`; `nodePtr` is the pointer `node`. -/
def gameStateNode.init (self : gameStateNode) (nodePtr : Nat) (node : gameStateNode) :
    gameStateNode :=
  { self with
    isMaxNode := !node.isMaxNode
    isMinNode := !(!node.isMaxNode)
    depthLevel := node.depthLevel + 1
    markedForDelete := true
    moveHistory := node.moveHistory
    previous := some nodePtr
    gameState := assign (Chess.init self.gameState) node.gameState }

/-- The constructor `chessGameTree::chessGameTree(board, maxD)`. -/
def newGameTree (board : chessBoardClass) (maxD : Int) : chessGameTree :=
  { nodes := [{ freshNode with
      isMaxNode := true
      isMinNode := false
      markedForDelete := false
      depthLevel := 0
      gameState := assign (init freshNode.gameState) board
      previous := none }]
    root := 0
    currentGameState := 0
    maxDepth := maxD }

/-- The node a pointer points at. -/
def chessGameTree.node (T : chessGameTree) (ptr : Nat) : gameStateNode :=
  T.nodes.getD ptr freshNode

/-- `chessGameTree::cleanUpTree(node)` on the node pointed at. -/
def cleanUpTree (node : gameStateNode) : gameStateNode :=
  let n1 := { node with actionList := [] }
  if n1.markedForDelete then { n1 with moveHistory := [] } else n1

/-- `chessGameTree::generateChildNode(node, actionData)`; `none` is the null pointer.  The
boards of the tree are owned by the AI, so a promotion takes no input. -/
def generateChildNode (nodePtr : Nat) (node : gameStateNode) (actionData : action) :
    Option gameStateNode :=
  let child := gameStateNode.init freshNode nodePtr node
  let board := setTurn child.gameState (if node.isMaxNode then WHITE else BLACK)
  match move board actionData.origC actionData.origR actionData.destC actionData.destR
      true false PromotionChoice.queen with
  | some (true, _) =>
    (move board actionData.origC actionData.origR actionData.destC actionData.destR
        false false PromotionChoice.queen).map
      (fun r =>
        { child with
          gameState := r.2
          moveHistory := child.moveHistory ++ [actionData]
          markedForDelete := true
          depthLevel := node.depthLevel + 1
          isMaxNode := !node.isMaxNode
          isMinNode := !node.isMinNode
          previous := some nodePtr })
  | _ => none

/-! ### Action generation -/

/-- `chessPiece::operator==` on the piece `p` of board `b` and the piece `q` of board
`b1`: column, row, colour, type and the captured flag are compared. -/
def samePiece (b : chessBoardClass) (p : PieceRef) (b1 : chessBoardClass) (q : PieceRef) :
    Bool :=
  decide ((deref b p).column = (deref b1 q).column ∧ (deref b p).row = (deref b1 q).row
    ∧ p.color = q.color ∧ p.type = q.type ∧ (deref b p).captured = (deref b1 q).captured)

/-- `board.move(origC, origR, destC, destR, checkLegality)`. -/
def probe (board : chessBoardClass) (origC origR destC destR : Int) : Bool :=
  (move board origC origR destC destR true false PromotionChoice.queen).map Prod.fst
    == some true

/-- `new action(&piece, origC, origR, destC, destR)` followed by
`newAction->heuristic = evaluateHeuristic(board, newAction)`. -/
def mkAction (H : Heuristic) (board : chessBoardClass) (piece : PieceRef)
    (origC origR destC destR : Int) : action :=
  let a0 : action := ⟨some piece, origC, origR, destC, destR, 0, [], none⟩
  { a0 with heuristic := (H board a0).1, moveTypeList := (H board a0).2 }

/-- One `if (board.move(..., checkLegality)) { ... actionList.push_back(newAction); }`. -/
def attempt (H : Heuristic) (board : chessBoardClass) (piece : PieceRef)
    (origC origR : Int) (dest : Int × Int) : List action :=
  if probe board origC origR dest.1 dest.2 then
    [mkAction H board piece origC origR dest.1 dest.2]
  else []

/-- One scanning loop of a bishop, rook or queen in direction `d`: it stops at once when
the piece is pinned in another direction, and at the first destination the probe refuses. -/
def slide (H : Heuristic) (board : chessBoardClass) (piece : PieceRef) (origC origR : Int)
    (pin : Option PIN_DIR) (d : PIN_DIR) : List action :=
  if pin.isSome ∧ pin ≠ some d then []
  else
    ((ray d origC origR).takeWhile (fun sq => probe board origC origR sq.1 sq.2)).map
      (fun sq => mkAction H board piece origC origR sq.1 sq.2)

/-- The destinations `buildActions` probes for a pawn, a knight and a king that is not in
check, as offsets from the origin, in the order of the source. -/
def pawnOffsets : PIECE_COLOR → List (Int × Int)
  | WHITE => [(0, 1), (0, 2), (-1, 1), (1, 1)]
  | BLACK => [(0, -1), (0, -2), (-1, -1), (1, -1)]

def kingOffsets : List (Int × Int) :=
  [(-2, 0), (2, 0), (1, 0), (1, 1), (0, 1), (-1, 1), (-1, 0), (-1, -1), (0, -1), (1, -1)]

/-- The actions `buildActions` pushes for `piece`, a piece of the board of `node`, before
its closing loop. -/
def builtActions (H : Heuristic) (node : gameStateNode) (piece : PieceRef) : List action :=
  let board := assign (init blankBoard) node.gameState
  let type := piece.type
  let kingInCheck : Bool := decide (board.checkVector.length > 0)
  if board.checkVector.length > 1 ∧ type ≠ KING then []
  else if kingInCheck ∧ type ≠ KING
      ∧ ¬ board.saviorVector.any (fun s => samePiece node.gameState piece board s) then []
  else
    let pin : Option PIN_DIR :=
      (board.pinVector.find? (fun e => samePiece node.gameState piece board e.1.1)).map
        (fun e => e.2)
    let origC := (deref node.gameState piece).column
    let origR := (deref node.gameState piece).row
    if kingInCheck then
      if type = KING then
        board.escapeVector.flatMap (fun sq => attempt H board piece origC origR sq)
      else board.attackVector.flatMap (fun sq => attempt H board piece origC origR sq)
    else
      match type with
      | PAWN =>
        (pawnOffsets piece.color).flatMap
          (fun o => attempt H board piece origC origR (origC + o.1, origR + o.2))
      | KNIGHT =>
        if pin.isSome then []
        else knightOffsets.flatMap
          (fun o => attempt H board piece origC origR (origC + o.1, origR + o.2))
      | BISHOP =>
        if pin = some UP ∨ pin = some DOWN ∨ pin = some LEFT ∨ pin = some RIGHT then []
        else [UP_RIGHT, UP_LEFT, DOWN_LEFT, DOWN_RIGHT].flatMap
          (slide H board piece origC origR pin)
      | ROOK =>
        if pin = some UP_RIGHT ∨ pin = some UP_LEFT ∨ pin = some DOWN_LEFT
            ∨ pin = some DOWN_RIGHT then []
        else [RIGHT, UP, LEFT, DOWN].flatMap (slide H board piece origC origR pin)
      | QUEEN =>
        [RIGHT, UP_RIGHT, UP, UP_LEFT, LEFT, DOWN_LEFT, DOWN, DOWN_RIGHT].flatMap
          (slide H board piece origC origR pin)
      | KING =>
        kingOffsets.flatMap
          (fun o => attempt H board piece origC origR (origC + o.1, origR + o.2))

/-- Whether the closing loop of `buildActions` meets an entry it never pops: an action
pushed for `piece` whose destination holds, on the working copy, a piece of the colour of
`piece`. -/
def friendlyFire (node : gameStateNode) (piece : PieceRef) (acts : List action) : Bool :=
  acts.any (fun a =>
    match getSquareContents (assign (init blankBoard) node.gameState) a.destC a.destR with
    | some o => decide (o.color = piece.color)
    | none => false)

/-- `chessGameTree::buildActions(node, piece, actionList)`: the actions pushed onto
`actionList`; `none` when the closing loop does not terminate. -/
def buildActions (H : Heuristic) (node : gameStateNode) (piece : PieceRef) :
    Option (List action) :=
  if friendlyFire node piece (builtActions H node piece) then none
  else some (builtActions H node piece)

/-- The pieces `generateActionList` calls `buildActions` on, in order: every element of
the pawn, knight, bishop, rook and queen vectors of the colour of the node, then the
front of its king vector. -/
def piecesOfNode (node : gameStateNode) : List PieceRef :=
  let color := if node.isMaxNode then WHITE else BLACK
  ([PAWN, KNIGHT, BISHOP, ROOK, QUEEN].flatMap (fun type =>
    (List.range (pieces node.gameState color type).length).map
      (fun i => (⟨color, type, i⟩ : PieceRef)))) ++ [kingRef color]

/-- The calls of `buildActions` on a list of pieces, one after the other, all pushing onto
the same vector. -/
def buildAll (H : Heuristic) (node : gameStateNode) : List PieceRef → Option (List action)
  | [] => some []
  | piece :: rest =>
    (buildActions H node piece).bind (fun acts =>
      (buildAll H node rest).map (fun more => acts ++ more))

/-- The vector `actions` of `generateActionList` after the calls of `buildActions`. -/
def generatedActions (H : Heuristic) (node : gameStateNode) : Option (List action) :=
  buildAll H node (piecesOfNode node)

/-- The greatest tag of a tag list, `BACKWARD` for the empty list. -/
def maxMoveType (tags : List MOVE_TYPE) : MOVE_TYPE :=
  tags.foldl (fun m t => if m.toNat < t.toNat then t else m) MOVE_TYPE.BACKWARD

/-- The assignment `actions.back()->bestCategory = maxMoveType`. -/
def classify (a : action) : action :=
  { a with bestCategory := some (maxMoveType a.moveTypeList) }

/-- One of the seven lists the organizing loop fills: it takes the actions from the back
of the vector, so a list holds its actions in reverse order of generation.  An action
whose greatest tag is `DRAW` matches no case of the `switch` and enters no list. -/
def bucket (acts : List action) (cat : MOVE_TYPE) : List action :=
  (acts.reverse.map classify).filter (fun a => a.bestCategory = some cat)

/-- `std::list::sort` with the comparison `a1->heuristic < a2->heuristic`: a stable sort
by ascending heuristic. -/
def sortByHeuristic (l : List action) : List action :=
  l.insertionSort (fun a1 a2 => a1.heuristic ≤ a2.heuristic)

/-- The place of the category of an action in the enumeration (0 while unassigned). -/
def categoryRank (a : action) : Nat :=
  match a.bestCategory with
  | some c => c.toNat
  | none => 0

/-- The stack after the seven pushing loops, top first. -/
def stackOf (acts : List action) : List action :=
  ([MOVE_TYPE.BACKWARD, MOVE_TYPE.FORWARD, MOVE_TYPE.CHECK, MOVE_TYPE.DOUBLE_CHECK,
    MOVE_TYPE.CASTLE, MOVE_TYPE.CAPTURE, MOVE_TYPE.PROMOTION].flatMap
      (fun cat => sortByHeuristic (bucket acts cat))).reverse

/-- The sentinel `new action(NULL, -1, -1, -1, -1)` with `bestCategory = DRAW`. -/
def drawData : action :=
  ⟨none, -1, -1, -1, -1, 0, [], some MOVE_TYPE.DRAW⟩

/-- `chessGameTree::generateActionList(node)`: the stack returned, top first; `none` when
a call of `buildActions` does not return. -/
def generateActionList (H : Heuristic) (node : gameStateNode) : Option (List action) :=
  (generatedActions H node).map (fun acts =>
    if (stackOf acts).isEmpty ∧ node.gameState.escapeVector.isEmpty then [drawData]
    else stackOf acts)

/-! ### Evaluation -/

def pawnPosValue : List (List Int) :=
  [[0, 0, 0, 0, 0, 0, 0, 0],
   [50, 50, 50, 50, 50, 50, 50, 50],
   [10, 10, 20, 30, 30, 20, 10, 10],
   [5, 5, 10, 25, 25, 10, 5, 5],
   [0, 0, 0, 20, 20, 0, 0, 0],
   [5, -5, -10, 0, 0, -10, -5, 5],
   [5, 10, 10, -20, -20, 10, 10, 5],
   [0, 0, 0, 0, 0, 0, 0, 0]]

def knightPosValue : List (List Int) :=
  [[-50, -40, -30, -30, -30, -30, -40, -50],
   [-40, -20, 0, 0, 0, 0, -20, -40],
   [-30, 0, 10, 15, 15, 10, 0, -30],
   [-30, 5, 15, 20, 20, 15, 5, -30],
   [-30, 0, 15, 20, 20, 15, 0, -30],
   [-30, 5, 10, 15, 15, 10, 5, -30],
   [-40, -20, 0, 5, 5, 0, -20, -40],
   [-50, -40, -30, -30, -30, -30, -40, -50]]

def bishopPosValue : List (List Int) :=
  [[-20, -10, -10, -10, -10, -10, -10, -20],
   [-10, 0, 0, 0, 0, 0, 0, -10],
   [-10, 0, 5, 10, 10, 5, 0, -10],
   [-10, 5, 5, 10, 10, 5, 5, -10],
   [-10, 0, 10, 10, 10, 10, 0, -10],
   [-10, 10, 10, 10, 10, 10, 10, -10],
   [-10, 5, 0, 0, 0, 0, 5, -10],
   [-20, -10, -10, -10, -10, -10, -10, -20]]

def rookPosValue : List (List Int) :=
  [[0, 0, 0, 0, 0, 0, 0, 0],
   [5, 10, 10, 10, 10, 10, 10, 5],
   [-5, 0, 0, 0, 0, 0, 0, -5],
   [-5, 0, 0, 0, 0, 0, 0, -5],
   [-5, 0, 0, 0, 0, 0, 0, -5],
   [-5, 0, 0, 0, 0, 0, 0, -5],
   [-5, 0, 0, 0, 0, 0, 0, -5],
   [0, 0, 0, 5, 5, 0, 0, 0]]

def queenPosValue : List (List Int) :=
  [[-20, -10, -10, -5, -5, -10, -10, -20],
   [-10, 0, 0, 0, 0, 0, 0, -10],
   [-10, 0, 5, 5, 5, 5, 0, -10],
   [-5, 0, 5, 5, 5, 5, 0, -5],
   [0, 0, 5, 5, 5, 5, 0, -5],
   [-10, 5, 5, 5, 5, 5, 0, -10],
   [-10, 0, 5, 0, 0, 0, 0, -10],
   [-20, -10, -10, -5, -5, -10, -10, -20]]

def kingPosValue_MID : List (List Int) :=
  [[-30, -40, -40, -50, -50, -40, -40, -30],
   [-30, -40, -40, -50, -50, -40, -40, -30],
   [-30, -40, -40, -50, -50, -40, -40, -30],
   [-30, -40, -40, -50, -50, -40, -40, -30],
   [-20, -30, -30, -40, -40, -30, -30, -20],
   [-10, -20, -20, -20, -20, -20, -20, -10],
   [20, 20, 0, 0, 0, 0, 20, 20],
   [20, 30, 10, 0, 0, 10, 30, 20]]

def kingPosValue_END : List (List Int) :=
  [[-50, -40, -30, -20, -20, -30, -40, -50],
   [-30, -20, -10, 0, 0, -10, -20, -30],
   [-30, -10, 20, 30, 30, 20, -10, -30],
   [-30, -10, 30, 40, 40, 30, -10, -30],
   [-30, -10, 30, 40, 40, 30, -10, -30],
   [-30, -10, 20, 30, 30, 20, -10, -30],
   [-30, -30, 0, 0, 0, 0, -30, -30],
   [-50, -30, -30, -30, -30, -30, -30, -50]]

/-- The element `table[i][j]` of an 8 by 8 table; 0 outside the table. -/
def tableAt (table : List (List Int)) (i j : Int) : Int :=
  if 0 ≤ i ∧ i < 8 ∧ 0 ≤ j ∧ j < 8 then (table.getD i.toNat []).getD j.toNat 0 else 0

/-- The standard value of a piece type (`val`). -/
def pieceValue : PIECE_TYPE → Int
  | PAWN => 100
  | KNIGHT => 300
  | BISHOP => 300
  | ROOK => 500
  | QUEEN => 900
  | KING => 100000

/-- The table entry read for a piece: white pieces read row `7 - row`, black pieces row
`row`. -/
def posValue (table : List (List Int)) (color : PIECE_COLOR) (p : chessPiece) : Int :=
  match color with
  | WHITE => tableAt table (7 - p.row) p.column
  | BLACK => tableAt table p.row p.column

/-- One of the positional loops of `evaluatePosition`: the sum of the entries of `table`
over every element of the vector. -/
def vectorPosValue (table : List (List Int)) (g : chessBoardClass) (color : PIECE_COLOR)
    (type : PIECE_TYPE) : Int :=
  ((pieces g color type).map (posValue table color)).sum

/-- The number of elements of a vector. -/
def vectorSize (g : chessBoardClass) (color : PIECE_COLOR) (type : PIECE_TYPE) : Int :=
  ((pieces g color type).length : Int)

/-- The `endgame` flag of `evaluatePosition`. -/
def isEndgame (g : chessBoardClass) : Bool :=
  if vectorSize g WHITE QUEEN ≥ 1 ∨ vectorSize g BLACK QUEEN ≥ 1 then
    decide (vectorSize g WHITE KNIGHT = 0 ∧ vectorSize g WHITE BISHOP = 0
      ∧ vectorSize g WHITE ROOK = 0 ∧ vectorSize g BLACK KNIGHT = 0
      ∧ vectorSize g BLACK BISHOP = 0 ∧ vectorSize g BLACK ROOK = 0)
  else if vectorSize g WHITE QUEEN = 0 ∧ vectorSize g BLACK QUEEN = 0 then
    decide (vectorSize g WHITE KNIGHT + vectorSize g WHITE BISHOP + vectorSize g WHITE ROOK ≤ 2
      ∧ vectorSize g BLACK KNIGHT + vectorSize g BLACK BISHOP + vectorSize g BLACK ROOK ≤ 2)
  else false

/-- The positional total of one colour: the five loops and the king term, read from the
table of the phase. -/
def colorPosValue (g : chessBoardClass) (color : PIECE_COLOR) : Int :=
  vectorPosValue pawnPosValue g color PAWN + vectorPosValue knightPosValue g color KNIGHT
    + vectorPosValue bishopPosValue g color BISHOP + vectorPosValue rookPosValue g color ROOK
    + vectorPosValue queenPosValue g color QUEEN
    + posValue (if isEndgame g then kingPosValue_END else kingPosValue_MID) color
        (deref g (kingRef color))

/-- The material term `potentialDiff`: the standard values times the differences of the
vector sizes. -/
def netMaterialChange (g : chessBoardClass) : Int :=
  pieceValue QUEEN * (vectorSize g WHITE QUEEN - vectorSize g BLACK QUEEN)
    + pieceValue ROOK * (vectorSize g WHITE ROOK - vectorSize g BLACK ROOK)
    + pieceValue BISHOP * (vectorSize g WHITE BISHOP - vectorSize g BLACK BISHOP)
    + pieceValue KNIGHT * (vectorSize g WHITE KNIGHT - vectorSize g BLACK KNIGHT)
    + pieceValue PAWN * (vectorSize g WHITE PAWN - vectorSize g BLACK PAWN)

/-- `chessGameTree::evaluatePosition(node)`. -/
def evaluatePosition (node : gameStateNode) : Int :=
  if node.gameState.checkmate then INT_MAX
  else
    (if node.gameState.turn = WHITE then 1 else -1)
      * (netMaterialChange node.gameState
          + (colorPosValue node.gameState WHITE - colorPosValue node.gameState BLACK))

/-! ### The search -/

/-- The `while` loop of `negamax` over the action stack.  `score a alpha` is the value
`-negamax(child, -beta, -alpha, remainingDepth - 1, -color)` for the child of the action
`a`, `none` when it is not obtained.  The result is the value returned, the best action
recorded and the actions left on the stack. -/
def negamaxLoop (score : action → Int → Option Int) (beta : Int) :
    List action → Option action → Int → Option (Int × Option action × List action)
  | [], best, alpha => some (alpha, best, [])
  | a :: rest, best, alpha =>
    match score a alpha with
    | none => none
    | some s =>
      if s ≥ beta then some (beta, if s > alpha then some a else best, rest)
      else if s > alpha then negamaxLoop score beta rest (some a) s
      else negamaxLoop score beta rest best alpha

/-- `chessGameTree::negamax(node, alpha, beta, remainingDepth, color)` for the tree with
the given `maxDepth`; `nodePtr` is the pointer `node`.  The result is the value returned
and the node as the call leaves it.  `none`: the recursion is deeper than the first
argument allows, a call of `buildActions` does not return, the top of an empty action
stack is read, or `generateChildNode` returns the null pointer (the code then continues
with the top of the stack `next`).  A node created during the search is deleted before
the call that created it returns; its pointer is `nodePtr + 1`. -/
def negamax (H : Heuristic) (maxDepth : Int) :
    Nat → Nat → gameStateNode → Int → Int → Int → Int → Option (Int × gameStateNode)
  | 0, _, _, _, _, _, _ => none
  | fuel + 1, nodePtr, node, alpha, beta, remainingDepth, color =>
    if node.gameState.checkmate = true then some (-color * INT_MAX, node)
    else if remainingDepth = 0 ∧ Int.tmod maxDepth 2 = 1 then
      some (color * evaluatePosition node, node)
    else if remainingDepth = 0 ∧ Int.tmod maxDepth 2 = 0 then
      some (-color * evaluatePosition node, node)
    else
      match generateActionList H node with
      | none => none
      | some [] => none
      | some (top :: rest) =>
        if top.bestCategory = some MOVE_TYPE.DRAW then
          some (0, { node with actionList := top :: rest })
        else
          (negamaxLoop
            (fun a al =>
              (generateChildNode nodePtr node a).bind (fun child =>
                (negamax H maxDepth fuel (nodePtr + 1) child (-beta) (-al)
                  (remainingDepth - 1) (-color)).map (fun r => -r.1)))
            beta (top :: rest) node.bestAction alpha).map
            (fun r => (r.1, { node with bestAction := r.2.1, actionList := r.2.2 }))

/-- `chessGameTree::findBestMove`: the action returned (`none`: the member `bestAction` of
the current node has never been assigned) and the tree after the call. -/
def findBestMove (H : Heuristic) (fuel : Nat) (T : chessGameTree) :
    Option (Option action × chessGameTree) :=
  let node := T.node T.currentGameState
  let color : Int := if node.isMaxNode then 1 else -1
  (negamax H T.maxDepth fuel T.currentGameState node (-100000000) 100000000 T.maxDepth
      color).map
    (fun r => (r.2.bestAction, { T with nodes := T.nodes.set T.currentGameState r.2 }))

/-- `chessGameTree::signalMove(moveData)`.  The new node is allocated at the end of the
store.  `none` is a null dereference inside `move`. -/
def signalMove (T : chessGameTree) (moveData : action) : Option chessGameTree :=
  let cur := cleanUpTree (T.node T.currentGameState)
  let newState0 := gameStateNode.init freshNode T.currentGameState cur
  let board := setTurn newState0.gameState (if cur.isMaxNode then WHITE else BLACK)
  let cur1 := { cur with next := [], actionList := [] }
  (move board moveData.origC moveData.origR moveData.destC moveData.destR false false
      PromotionChoice.queen).map
    (fun r =>
      let newState :=
        { newState0 with
          gameState := r.2
          moveHistory := newState0.moveHistory ++ [moveData]
          previous := some T.currentGameState
          markedForDelete := false }
      { T with
        nodes := T.nodes.set T.currentGameState
            { cur1 with next := T.nodes.length :: cur1.next, bestAction := some moveData }
          ++ [newState]
        currentGameState := T.nodes.length })

/-! ### Positions used with the game tree -/

/-- The game 1. Nc3 e6 2. Ne4 Ne7 3. a3 g6 4. Nf6 mate: the white king has not left e1 and
every square around it holds a white piece. -/
def knightMateGame : List HalfMove :=
  [hm 1 0 2 2, hm 4 6 4 5, hm 2 2 4 3, hm 6 7 4 6, hm 0 1 0 2, hm 6 6 6 5, hm 4 3 5 5]

/-- The board after `knightMateGame` and the call `setTurn(WHITE)`: the checkmate flag,
set when Black was mated, is still set, and it is White's turn. -/
def staleFlagBoard : chessBoardClass := setTurn (boardAfter knightMateGame) WHITE

/-- A stalemate: the white king on a1, the black queen on b3 and the black king on c2,
no other piece left, White to move; the derived state is computed by `setTurn`. -/
def cornerStalemateBoard : chessBoardClass :=
  setTurn
    { blankBoard with
      wKing := [{ column := 0, row := 0, captured := false, enPassant := false,
                  canCastle := false }]
      bKing := [{ column := 2, row := 1, captured := false, enPassant := false,
                  canCastle := false }]
      bQueens := [{ column := 1, row := 2, captured := false, enPassant := false,
                    canCastle := false }]
      board := fun c r =>
        if c = 0 ∧ r = 0 then some (kingRef WHITE)
        else if c = 2 ∧ r = 1 then some (kingRef BLACK)
        else if c = 1 ∧ r = 2 then some ⟨BLACK, QUEEN, 0⟩
        else none }
    WHITE

/-- The root of the tree built on `cornerStalemateBoard`. -/
def stalemateNode : gameStateNode := (newGameTree cornerStalemateBoard 1).node 0

/-- The board with the captured elements removed from every vector. -/
def withoutCaptured (g : chessBoardClass) : chessBoardClass :=
  { g with
    bPawns := g.bPawns.filter (fun p => !p.captured)
    bKnights := g.bKnights.filter (fun p => !p.captured)
    bBishops := g.bBishops.filter (fun p => !p.captured)
    bRooks := g.bRooks.filter (fun p => !p.captured)
    bQueens := g.bQueens.filter (fun p => !p.captured)
    wPawns := g.wPawns.filter (fun p => !p.captured)
    wKnights := g.wKnights.filter (fun p => !p.captured)
    wBishops := g.wBishops.filter (fun p => !p.captured)
    wRooks := g.wRooks.filter (fun p => !p.captured)
    wQueens := g.wQueens.filter (fun p => !p.captured) }

/-- The evaluation the specification describes for a position that is not checkmate:
`s * (M + P)` with `s` the sign of the side to move, `M` the standard values times the
differences of the numbers of non-captured pieces, and `P` the piece-square total of the
non-captured white pieces minus that of the non-captured black pieces. -/
def describedEvaluation (g : chessBoardClass) : Int :=
  (if g.turn = WHITE then 1 else -1)
    * (netMaterialChange (withoutCaptured g)
        + (colorPosValue (withoutCaptured g) WHITE - colorPosValue (withoutCaptured g) BLACK))

/-- The game 1. e4 d5. -/
def centreCounterGame : List HalfMove := [hm 4 1 4 3, hm 3 6 3 4]

/-- The node `generateChildNode` creates for 2. exd5 under the root of the tree built on
the board after 1. e4 d5. -/
def captureNode : gameStateNode :=
  (generateChildNode 0 ((newGameTree (boardAfter centreCounterGame) 1).node 0)
    ⟨some ⟨WHITE, PAWN, 4⟩, 4, 3, 3, 4, 0, [], none⟩).getD freshNode

/-- A check along a file: the white king on e2, the black rook on e8 and the black king
on a8, no other piece left, White to move; the derived state is computed by `setTurn`. -/
def fileCheckBoard : chessBoardClass :=
  setTurn
    { blankBoard with
      wKing := [{ column := 4, row := 1, captured := false, enPassant := false,
                  canCastle := false }]
      bKing := [{ column := 0, row := 7, captured := false, enPassant := false,
                  canCastle := false }]
      bRooks := [{ column := 4, row := 7, captured := false, enPassant := false,
                   canCastle := false }]
      board := fun c r =>
        if c = 4 ∧ r = 1 then some (kingRef WHITE)
        else if c = 0 ∧ r = 7 then some (kingRef BLACK)
        else if c = 4 ∧ r = 7 then some ⟨BLACK, ROOK, 0⟩
        else none }
    WHITE

/-- The game 1. d4 Nc6 2. Bf4 Na5 3. Qd2 Nc4 4. Nc3 Na3: White has cleared b1, c1 and d1,
king and queen-side rook have not moved, and the black knight on a3 attacks b1 and neither
c1 nor d1. -/
def knightOnA3Game : List HalfMove :=
  [hm 3 1 3 3, hm 1 7 2 5, hm 2 0 5 3, hm 2 5 0 4, hm 3 0 3 1, hm 0 4 2 3, hm 1 0 2 2,
   hm 2 3 0 2]

/-- The maximum of the scores of a non-empty list of actions, `none` when a score is not
obtained. -/
def unprunedMax (score : action → Option Int) : action → List action → Option Int
  | a, [] => score a
  | a, b :: rest => (score a).bind (fun s => (unprunedMax score b rest).map (fun m => max s m))

/-- The value the specification compares `negamax` with: the recursion of `negamax` with
the window and the beta cutoff removed.  The three terminal tests and the draw sentinel
are those of `negamax`; otherwise the value is the maximum, over the actions of the node,
of the negated value of the child of the action.  `none`: the recursion is deeper than the
first argument allows or a value of the recursion of `negamax` is not obtained. -/
def unprunedValue (H : Heuristic) (maxDepth : Int) :
    Nat → Nat → gameStateNode → Int → Int → Option Int
  | 0, _, _, _, _ => none
  | fuel + 1, nodePtr, node, remainingDepth, color =>
    if node.gameState.checkmate = true then some (-color * INT_MAX)
    else if remainingDepth = 0 ∧ Int.tmod maxDepth 2 = 1 then
      some (color * evaluatePosition node)
    else if remainingDepth = 0 ∧ Int.tmod maxDepth 2 = 0 then
      some (-color * evaluatePosition node)
    else
      match generateActionList H node with
      | none => none
      | some [] => none
      | some (top :: rest) =>
        if top.bestCategory = some MOVE_TYPE.DRAW then some 0
        else
          unprunedMax
            (fun a =>
              (generateChildNode nodePtr node a).bind (fun child =>
                (unprunedValue H maxDepth fuel (nodePtr + 1) child (remainingDepth - 1)
                  (-color)).map (fun v => -v)))
            top rest

/-- The negated unpruned value of the child of an action, at a node searched with the
recursion allowance `fuel + 1`. -/
def unprunedChildScore (H : Heuristic) (maxDepth : Int) (fuel nodePtr : Nat)
    (node : gameStateNode) (remainingDepth color : Int) (a : action) : Option Int :=
  (generateChildNode nodePtr node a).bind (fun child =>
    (unprunedValue H maxDepth fuel (nodePtr + 1) child (remainingDepth - 1) (-color)).map
      (fun v => -v))

/-- A check in the corner: the white king on a1, the black rook on a8 and the black king
on h8, no other piece left, White to move; the derived state is computed by `setTurn`. -/
def cornerCheckBoard : chessBoardClass :=
  setTurn
    { blankBoard with
      wKing := [{ column := 0, row := 0, captured := false, enPassant := false,
                  canCastle := false }]
      bKing := [{ column := 7, row := 7, captured := false, enPassant := false,
                  canCastle := false }]
      bRooks := [{ column := 0, row := 7, captured := false, enPassant := false,
                   canCastle := false }]
      board := fun c r =>
        if c = 0 ∧ r = 0 then some (kingRef WHITE)
        else if c = 7 ∧ r = 7 then some (kingRef BLACK)
        else if c = 0 ∧ r = 7 then some ⟨BLACK, ROOK, 0⟩
        else none }
    WHITE

/-- The game 1. e4 f6 2. d4 g5: White is to move and 3. Qh5 is mate. -/
def mateInOneGame : List HalfMove :=
  [hm 4 1 4 3, hm 5 6 5 5, hm 3 1 3 3, hm 6 6 6 4]

/-- The action 3. Qd1-h5 in the tree built on the board after `mateInOneGame`. -/
def matingAction : action := ⟨some ⟨WHITE, QUEEN, 0⟩, 3, 0, 7, 4, 0, [], none⟩

/-- A piece of `obj` that `operator=` copies, standing on `(c, r)`: an element of a pawn,
knight, bishop, rook or queen vector that is not captured, or the front of a king vector,
recording that square. -/
def LivePiece (obj : chessBoardClass) (p : PieceRef) (c r : Int) : Prop :=
  p.idx < (pieces obj p.color p.type).length
    ∧ (deref obj p).column = c ∧ (deref obj p).row = r
    ∧ (p.type = KING → p.idx = 0)
    ∧ (p.type ≠ KING → (deref obj p).captured = false)

/-- The lookup table and the vectors of a board describe one position: every table entry
denotes an element of its vector that records the square of the entry and is either the
front of a king vector or not captured; every element of a pawn, knight, bishop, rook or
queen vector that is not captured stands in the table on the square it records; and so
does the front of each king vector. -/
def wellFormed (b : chessBoardClass) : Bool :=
  tableSound b
    && allSquares.all (fun sq =>
        match getSquareContents b sq.1 sq.2 with
        | none => true
        | some p => if p.type = KING then decide (p.idx = 0) else !(deref b p).captured)
    && [WHITE, BLACK].all (fun color =>
        [PAWN, KNIGHT, BISHOP, ROOK, QUEEN].all (fun type =>
          (List.range (pieces b color type).length).all (fun i =>
            (deref b ⟨color, type, i⟩).captured
              || decide (getSquareContents b (deref b ⟨color, type, i⟩).column
                  (deref b ⟨color, type, i⟩).row = some ⟨color, type, i⟩)))
          && decide (getSquareContents b (deref b (kingRef color)).column
              (deref b (kingRef color)).row = some (kingRef color)))

/-- What holds of a board `s` while `operator=` fills it from `obj`: every table entry of
`s` denotes an element of its vector of `s` that records the square of the entry, a king
entry is the front of its vector, and `obj` has a piece to copy of the same colour and
type on that square; no pin entry names a king; the turn is that of `obj`. -/
def CopyInv (obj s : chessBoardClass) : Prop :=
  (∀ c r p1, getSquareContents s c r = some p1 →
      p1.idx < (pieces s p1.color p1.type).length
        ∧ (deref s p1).column = c ∧ (deref s p1).row = r
        ∧ (p1.type = KING → p1.idx = 0)
        ∧ ∃ p, LivePiece obj p c r ∧ p.color = p1.color ∧ p.type = p1.type)
    ∧ (∀ e ∈ s.pinVector, e.1.1.type ≠ KING)
    ∧ s.turn = obj.turn

/-! ### `evaluateHeuristic` -/

/-- `chessGameTree::getNetPawnPromotion(board, moveData)` converted to `int`, as
`evaluateHeuristic` stores it.  `owner` is the board whose vectors `moveData->piece` points
into; the local the source names `destR` is `moveData->piece->getRow()`, the row the piece
records.  A null `piece` is not passed. -/
def getNetPawnPromotion (owner : chessBoardClass) (moveData : action) : Int :=
  match moveData.piece with
  | none => 0
  | some piece =>
    if piece.type ≠ PAWN then 0
    else if piece.color = WHITE then
      (if (deref owner piece).row = 7 then pieceValue QUEEN - 6 else 0)
    else
      (if (deref owner piece).row = 0 then pieceValue QUEEN - 6 else 0)

/-- The block "Determine captureVal" of `evaluateHeuristic`: the value and the tag pushed. -/
def captureVal (board : chessBoardClass) (moveData : action) (piece : PieceRef) :
    Int × List MOVE_TYPE :=
  match getSquareContents board moveData.destC moveData.destR with
  | none => (0, [])
  | some capture =>
    let gain : Int :=
      if capture.type = PAWN then
        (if capture.color = WHITE then
          (if (deref board capture).row = 5 then 4 * pieceValue PAWN
           else if (deref board capture).row = 6 then 6 * pieceValue PAWN
           else 0)
         else
          (if (deref board capture).row = 2 then 4 * pieceValue PAWN
           else if (deref board capture).row = 1 then 6 * pieceValue PAWN
           else 0))
      else if capture.type = KNIGHT then pieceValue KNIGHT
      else if capture.type = BISHOP then pieceValue BISHOP
      else if capture.type = ROOK then pieceValue ROOK
      else if capture.type = QUEEN then pieceValue QUEEN
      else 0
    let pieceVal : Int :=
      match piece.type with
      | KING => Int.tdiv (pieceValue KING) 75
      | t => pieceValue t
    (gain - pieceVal, [MOVE_TYPE.CAPTURE])

/-- The block "Determine positional value" of `evaluateHeuristic`: for a white piece and
for a black pawn the table entry of the destination minus that of the origin; for the
other black pieces the source subtracts the entry of the origin from itself. -/
def positionVal (board : chessBoardClass) (moveData : action) (piece : PieceRef) : Int :=
  let kingTable := if isEndgame board then kingPosValue_END else kingPosValue_MID
  match piece.color with
  | WHITE =>
    let table :=
      match piece.type with
      | PAWN => pawnPosValue
      | KNIGHT => knightPosValue
      | BISHOP => bishopPosValue
      | ROOK => rookPosValue
      | QUEEN => queenPosValue
      | KING => kingTable
    tableAt table (7 - moveData.destR) moveData.destC
      - tableAt table (7 - moveData.origR) moveData.origC
  | BLACK =>
    match piece.type with
    | PAWN =>
      tableAt pawnPosValue moveData.destR moveData.destC
        - tableAt pawnPosValue moveData.origR moveData.origC
    | _ => 0

/-- `chessGameTree::evaluateHeuristic(board, moveData)`: the value returned and the tags
pushed, in order.  The sizes of the vectors `getCheckers(board, moveData)` and
`getDefenders(board, moveData, defenders)` return are parameters; `owner` is the board
whose vectors `moveData->piece` points into.  The `double` values of the source are
multiples of 1/8 and the conversions to `int` truncate a non-negative value. -/
def evaluateHeuristic (getCheckers getDefenders : chessBoardClass → action → Nat)
    (owner : chessBoardClass) : Heuristic :=
  fun board moveData =>
    match moveData.piece with
    | none => (0, [])
    | some piece =>
      let capture := captureVal board moveData piece
      let checkers := getCheckers board moveData
      let check : Int × List MOVE_TYPE :=
        if checkers = 1 then (2, [MOVE_TYPE.CHECK])
        else if checkers > 1 then (5, [MOVE_TYPE.DOUBLE_CHECK])
        else (0, [])
      if capture.1 ≥ 0 ∧ check.1 > 0 then (capture.1 + check.1, capture.2 ++ check.2)
      else
        let forwardMovementVal : Int :=
          if piece.color = WHITE then moveData.destR - moveData.origR
          else moveData.origR - moveData.destR
        let direction : MOVE_TYPE :=
          if forwardMovementVal ≥ 0 then MOVE_TYPE.FORWARD else MOVE_TYPE.BACKWARD
        let castle : Bool := decide (piece.type = KING ∧ (moveData.origC - moveData.destC).natAbs = 2)
        let kingDefenseVal : Int :=
          (100 * (if castle then 10 else 1)
            * ((getDefenders board moveData : Int) + (board.defenderVector.length : Int))) / 16
        let pawnPromotion := getNetPawnPromotion owner moveData
        (100 * forwardMovementVal + kingDefenseVal + pawnPromotion
            + 100 * positionVal board moveData piece,
          capture.2 ++ check.2 ++ [direction] ++ (if castle then [MOVE_TYPE.CASTLE] else [])
            ++ (if pawnPromotion > 0 then [MOVE_TYPE.PROMOTION] else []))

/-- 1. e4 d5 2. Qg4 Bxg4 3. exd5 a6 4. d6 a5 5. dxc7 a4: a white pawn stands on c7 with
White to move; it can step to c8 or capture on b8 or d8. -/
def pawnOnC7Game : List HalfMove :=
  [hm 4 1 4 3, hm 3 6 3 4, hm 3 0 6 3, hm 2 7 6 3, hm 4 3 3 4, hm 0 6 0 5, hm 3 4 3 5,
   hm 0 5 0 4, hm 3 5 2 6, hm 0 4 0 3]

/-- A piece reflected to the row `7 - row`. -/
def mirrorPiece (p : chessPiece) : chessPiece := { p with row := 7 - p.row }

/-- A pointer to the element with the same type and index in the vector of the other
colour. -/
def mirrorRef (p : PieceRef) : PieceRef := ⟨enemyOf p.color, p.type, p.idx⟩

/-- The position with the colours of all pieces swapped, every row `r` reflected to
`7 - r` and the move given to the other side: the vectors of the two colours change
places, element by element, and the lookup table and the derived collections follow. -/
def mirror (g : chessBoardClass) : chessBoardClass :=
  { g with
    bPawns := g.wPawns.map mirrorPiece
    bKnights := g.wKnights.map mirrorPiece
    bBishops := g.wBishops.map mirrorPiece
    bRooks := g.wRooks.map mirrorPiece
    bQueens := g.wQueens.map mirrorPiece
    bKing := g.wKing.map mirrorPiece
    wPawns := g.bPawns.map mirrorPiece
    wKnights := g.bKnights.map mirrorPiece
    wBishops := g.bBishops.map mirrorPiece
    wRooks := g.bRooks.map mirrorPiece
    wQueens := g.bQueens.map mirrorPiece
    wKing := g.bKing.map mirrorPiece
    checkVector := g.checkVector.map mirrorRef
    escapeVector := g.escapeVector.map (fun sq => (sq.1, 7 - sq.2))
    attackVector := g.attackVector.map (fun sq => (sq.1, 7 - sq.2))
    saviorVector := g.saviorVector.map mirrorRef
    board := fun c r => (g.board c (7 - r)).map mirrorRef
    turn := enemyOf g.turn }

/-- 1. g3 d5 2. Bg2 e6 3. Nh3 a6: White, to move, can castle king-side, capture on d5 with
the bishop, and move the bishop and the knight backward. -/
def bishopTakesOrCastlesGame : List HalfMove :=
  [hm 6 1 6 2, hm 3 6 3 4, hm 5 0 6 1, hm 4 6 4 5, hm 6 0 7 2, hm 0 6 0 5]

/-! ## Frame facts -/

section Frame

variable (b : chessBoardClass)

@[simp] theorem pieces_setPieces (c : PIECE_COLOR) (t : PIECE_TYPE) (l : List chessPiece)
    (c1 : PIECE_COLOR) (t1 : PIECE_TYPE) :
    pieces (setPieces b c t l) c1 t1 = if c = c1 ∧ t = t1 then l else pieces b c1 t1 := by
  cases c <;> cases t <;> cases c1 <;> cases t1 <;> simp [pieces, setPieces]

@[simp] theorem setPieces_board (c : PIECE_COLOR) (t : PIECE_TYPE) (l : List chessPiece) :
    (setPieces b c t l).board = b.board := by
  cases c <;> cases t <;> rfl

@[simp] theorem setPieces_turn (c : PIECE_COLOR) (t : PIECE_TYPE) (l : List chessPiece) :
    (setPieces b c t l).turn = b.turn := by
  cases c <;> cases t <;> rfl

@[simp] theorem setPieces_checkmate (c : PIECE_COLOR) (t : PIECE_TYPE) (l : List chessPiece) :
    (setPieces b c t l).checkmate = b.checkmate := by
  cases c <;> cases t <;> rfl

@[simp] theorem setPieces_ownedByAI (c : PIECE_COLOR) (t : PIECE_TYPE) (l : List chessPiece) :
    (setPieces b c t l).ownedByAI = b.ownedByAI := by
  cases c <;> cases t <;> rfl

@[simp] theorem setPieces_checkVector (c : PIECE_COLOR) (t : PIECE_TYPE) (l : List chessPiece) :
    (setPieces b c t l).checkVector = b.checkVector := by
  cases c <;> cases t <;> rfl

@[simp] theorem setPieces_pinVector (c : PIECE_COLOR) (t : PIECE_TYPE) (l : List chessPiece) :
    (setPieces b c t l).pinVector = b.pinVector := by
  cases c <;> cases t <;> rfl

@[simp] theorem pieces_setSquare (c r : Int) (v : Option PieceRef) (c1 : PIECE_COLOR)
    (t1 : PIECE_TYPE) : pieces (setSquare b c r v) c1 t1 = pieces b c1 t1 := by
  cases c1 <;> cases t1 <;> rfl

@[simp] theorem setSquare_turn (c r : Int) (v : Option PieceRef) :
    (setSquare b c r v).turn = b.turn := rfl

@[simp] theorem setSquare_checkmate (c r : Int) (v : Option PieceRef) :
    (setSquare b c r v).checkmate = b.checkmate := rfl

@[simp] theorem setSquare_ownedByAI (c r : Int) (v : Option PieceRef) :
    (setSquare b c r v).ownedByAI = b.ownedByAI := rfl

@[simp] theorem setSquare_checkVector (c r : Int) (v : Option PieceRef) :
    (setSquare b c r v).checkVector = b.checkVector := rfl

@[simp] theorem setSquare_pinVector (c r : Int) (v : Option PieceRef) :
    (setSquare b c r v).pinVector = b.pinVector := rfl

@[simp] theorem deref_setSquare (c r : Int) (v : Option PieceRef) (p : PieceRef) :
    deref (setSquare b c r v) p = deref b p := by
  simp [deref]

theorem getSquareContents_setSquare (c r : Int) (v : Option PieceRef) (c1 r1 : Int) :
    getSquareContents (setSquare b c r v) c1 r1
      = if c1 = c ∧ r1 = r then (if c1 < 0 ∨ c1 > 7 ∨ r1 < 0 ∨ r1 > 7 then none else v)
        else getSquareContents b c1 r1 := by
  simp only [getSquareContents, setSquare]
  split_ifs <;> rfl

@[simp] theorem updatePiece_board (p : PieceRef) (f : chessPiece → chessPiece) :
    (updatePiece b p f).board = b.board := by
  simp [updatePiece]

@[simp] theorem updatePiece_turn (p : PieceRef) (f : chessPiece → chessPiece) :
    (updatePiece b p f).turn = b.turn := by
  simp [updatePiece]

@[simp] theorem updatePiece_checkmate (p : PieceRef) (f : chessPiece → chessPiece) :
    (updatePiece b p f).checkmate = b.checkmate := by
  simp [updatePiece]

@[simp] theorem updatePiece_ownedByAI (p : PieceRef) (f : chessPiece → chessPiece) :
    (updatePiece b p f).ownedByAI = b.ownedByAI := by
  simp [updatePiece]

@[simp] theorem updatePiece_checkVector (p : PieceRef) (f : chessPiece → chessPiece) :
    (updatePiece b p f).checkVector = b.checkVector := by
  simp [updatePiece]

@[simp] theorem updatePiece_pinVector (p : PieceRef) (f : chessPiece → chessPiece) :
    (updatePiece b p f).pinVector = b.pinVector := by
  simp [updatePiece]

@[simp] theorem getSquareContents_updatePiece (p : PieceRef) (f : chessPiece → chessPiece)
    (c r : Int) : getSquareContents (updatePiece b p f) c r = getSquareContents b c r := by
  simp [getSquareContents]

theorem pieces_updatePiece (p : PieceRef) (f : chessPiece → chessPiece)
    (c : PIECE_COLOR) (t : PIECE_TYPE) :
    pieces (updatePiece b p f) c t
      = if p.color = c ∧ p.type = t then (pieces b c t).set p.idx (f (deref b p))
        else pieces b c t := by
  simp only [updatePiece, pieces_setPieces]
  split_ifs with h
  · rw [h.1, h.2]
  · rfl

theorem length_pieces_updatePiece (p : PieceRef) (f : chessPiece → chessPiece)
    (c : PIECE_COLOR) (t : PIECE_TYPE) :
    (pieces (updatePiece b p f) c t).length = (pieces b c t).length := by
  rw [pieces_updatePiece]
  split_ifs <;> simp

theorem deref_updatePiece (p : PieceRef) (f : chessPiece → chessPiece) (q : PieceRef) :
    deref (updatePiece b p f) q
      = if q = p ∧ p.idx < (pieces b p.color p.type).length then f (deref b p) else deref b q := by
  obtain ⟨pc, pt, pi⟩ := p
  obtain ⟨qc, qt, qi⟩ := q
  simp only [deref, pieces_updatePiece, PieceRef.mk.injEq]
  by_cases h : pc = qc ∧ pt = qt
  · obtain ⟨rfl, rfl⟩ := h
    simp only [and_self, if_true, true_and]
    by_cases hi : qi = pi
    · subst hi
      by_cases hl : qi < (pieces b pc pt).length
      · simp [List.getD_eq_getElem?_getD, List.getElem?_set, hl]
      · have hl2 : (pieces b pc pt).length ≤ qi := Nat.le_of_not_lt hl
        simp [List.getD_eq_getElem?_getD, List.getElem?_set, hl, List.getElem?_eq_none hl2]
    · have hi2 : ¬ pi = qi := fun e => hi e.symm
      simp [List.getD_eq_getElem?_getD, List.getElem?_set, hi, hi2]
  · have h2 : ¬ (qc = pc ∧ qt = pt ∧ qi = pi) := fun e => h ⟨e.1.symm, e.2.1.symm⟩
    simp [h, h2]

end Frame

/-! ## Basic facts about the state primitives -/

section Setters

variable (b : chessBoardClass)

@[simp] theorem withTurn_turn (v : PIECE_COLOR) : (withTurn b v).turn = v := rfl

@[simp] theorem withTurn_checkmate (v : PIECE_COLOR) : (withTurn b v).checkmate = b.checkmate := rfl

@[simp] theorem withTurn_checkVector (v : PIECE_COLOR) : (withTurn b v).checkVector = b.checkVector := rfl

@[simp] theorem withTurn_escapeVector (v : PIECE_COLOR) : (withTurn b v).escapeVector = b.escapeVector := rfl

@[simp] theorem withTurn_attackVector (v : PIECE_COLOR) : (withTurn b v).attackVector = b.attackVector := rfl

@[simp] theorem withTurn_saviorVector (v : PIECE_COLOR) : (withTurn b v).saviorVector = b.saviorVector := rfl

@[simp] theorem withTurn_defenderVector (v : PIECE_COLOR) : (withTurn b v).defenderVector = b.defenderVector := rfl

@[simp] theorem withTurn_pinVector (v : PIECE_COLOR) : (withTurn b v).pinVector = b.pinVector := rfl

@[simp] theorem withTurn_board (v : PIECE_COLOR) : (withTurn b v).board = b.board := rfl

@[simp] theorem withTurn_ownedByAI (v : PIECE_COLOR) : (withTurn b v).ownedByAI = b.ownedByAI := rfl

@[simp] theorem pieces_withTurn (v : PIECE_COLOR) (c : PIECE_COLOR) (t : PIECE_TYPE) :
    pieces (withTurn b v) c t = pieces b c t := by
  cases c <;> cases t <;> rfl

@[simp] theorem deref_withTurn (v : PIECE_COLOR) (p : PieceRef) : deref (withTurn b v) p = deref b p := by
  simp [deref]

@[simp] theorem getSquareContents_withTurn (v : PIECE_COLOR) (c r : Int) :
    getSquareContents (withTurn b v) c r = getSquareContents b c r := rfl

@[simp] theorem withCheckmate_turn (v : Bool) : (withCheckmate b v).turn = b.turn := rfl

@[simp] theorem withCheckmate_checkmate (v : Bool) : (withCheckmate b v).checkmate = v := rfl

@[simp] theorem withCheckmate_checkVector (v : Bool) : (withCheckmate b v).checkVector = b.checkVector := rfl

@[simp] theorem withCheckmate_escapeVector (v : Bool) : (withCheckmate b v).escapeVector = b.escapeVector := rfl

@[simp] theorem withCheckmate_attackVector (v : Bool) : (withCheckmate b v).attackVector = b.attackVector := rfl

@[simp] theorem withCheckmate_saviorVector (v : Bool) : (withCheckmate b v).saviorVector = b.saviorVector := rfl

@[simp] theorem withCheckmate_defenderVector (v : Bool) : (withCheckmate b v).defenderVector = b.defenderVector := rfl

@[simp] theorem withCheckmate_pinVector (v : Bool) : (withCheckmate b v).pinVector = b.pinVector := rfl

@[simp] theorem withCheckmate_board (v : Bool) : (withCheckmate b v).board = b.board := rfl

@[simp] theorem withCheckmate_ownedByAI (v : Bool) : (withCheckmate b v).ownedByAI = b.ownedByAI := rfl

@[simp] theorem pieces_withCheckmate (v : Bool) (c : PIECE_COLOR) (t : PIECE_TYPE) :
    pieces (withCheckmate b v) c t = pieces b c t := by
  cases c <;> cases t <;> rfl

@[simp] theorem deref_withCheckmate (v : Bool) (p : PieceRef) : deref (withCheckmate b v) p = deref b p := by
  simp [deref]

@[simp] theorem getSquareContents_withCheckmate (v : Bool) (c r : Int) :
    getSquareContents (withCheckmate b v) c r = getSquareContents b c r := rfl

@[simp] theorem withCheckVector_turn (v : List PieceRef) : (withCheckVector b v).turn = b.turn := rfl

@[simp] theorem withCheckVector_checkmate (v : List PieceRef) : (withCheckVector b v).checkmate = b.checkmate := rfl

@[simp] theorem withCheckVector_checkVector (v : List PieceRef) : (withCheckVector b v).checkVector = v := rfl

@[simp] theorem withCheckVector_escapeVector (v : List PieceRef) : (withCheckVector b v).escapeVector = b.escapeVector := rfl

@[simp] theorem withCheckVector_attackVector (v : List PieceRef) : (withCheckVector b v).attackVector = b.attackVector := rfl

@[simp] theorem withCheckVector_saviorVector (v : List PieceRef) : (withCheckVector b v).saviorVector = b.saviorVector := rfl

@[simp] theorem withCheckVector_defenderVector (v : List PieceRef) : (withCheckVector b v).defenderVector = b.defenderVector := rfl

@[simp] theorem withCheckVector_pinVector (v : List PieceRef) : (withCheckVector b v).pinVector = b.pinVector := rfl

@[simp] theorem withCheckVector_board (v : List PieceRef) : (withCheckVector b v).board = b.board := rfl

@[simp] theorem withCheckVector_ownedByAI (v : List PieceRef) : (withCheckVector b v).ownedByAI = b.ownedByAI := rfl

@[simp] theorem pieces_withCheckVector (v : List PieceRef) (c : PIECE_COLOR) (t : PIECE_TYPE) :
    pieces (withCheckVector b v) c t = pieces b c t := by
  cases c <;> cases t <;> rfl

@[simp] theorem deref_withCheckVector (v : List PieceRef) (p : PieceRef) : deref (withCheckVector b v) p = deref b p := by
  simp [deref]

@[simp] theorem getSquareContents_withCheckVector (v : List PieceRef) (c r : Int) :
    getSquareContents (withCheckVector b v) c r = getSquareContents b c r := rfl

@[simp] theorem withEscapeVector_turn (v : List (Int × Int)) : (withEscapeVector b v).turn = b.turn := rfl

@[simp] theorem withEscapeVector_checkmate (v : List (Int × Int)) : (withEscapeVector b v).checkmate = b.checkmate := rfl

@[simp] theorem withEscapeVector_checkVector (v : List (Int × Int)) : (withEscapeVector b v).checkVector = b.checkVector := rfl

@[simp] theorem withEscapeVector_escapeVector (v : List (Int × Int)) : (withEscapeVector b v).escapeVector = v := rfl

@[simp] theorem withEscapeVector_attackVector (v : List (Int × Int)) : (withEscapeVector b v).attackVector = b.attackVector := rfl

@[simp] theorem withEscapeVector_saviorVector (v : List (Int × Int)) : (withEscapeVector b v).saviorVector = b.saviorVector := rfl

@[simp] theorem withEscapeVector_defenderVector (v : List (Int × Int)) : (withEscapeVector b v).defenderVector = b.defenderVector := rfl

@[simp] theorem withEscapeVector_pinVector (v : List (Int × Int)) : (withEscapeVector b v).pinVector = b.pinVector := rfl

@[simp] theorem withEscapeVector_board (v : List (Int × Int)) : (withEscapeVector b v).board = b.board := rfl

@[simp] theorem withEscapeVector_ownedByAI (v : List (Int × Int)) : (withEscapeVector b v).ownedByAI = b.ownedByAI := rfl

@[simp] theorem pieces_withEscapeVector (v : List (Int × Int)) (c : PIECE_COLOR) (t : PIECE_TYPE) :
    pieces (withEscapeVector b v) c t = pieces b c t := by
  cases c <;> cases t <;> rfl

@[simp] theorem deref_withEscapeVector (v : List (Int × Int)) (p : PieceRef) : deref (withEscapeVector b v) p = deref b p := by
  simp [deref]

@[simp] theorem getSquareContents_withEscapeVector (v : List (Int × Int)) (c r : Int) :
    getSquareContents (withEscapeVector b v) c r = getSquareContents b c r := rfl

@[simp] theorem withAttackVector_turn (v : List (Int × Int)) : (withAttackVector b v).turn = b.turn := rfl

@[simp] theorem withAttackVector_checkmate (v : List (Int × Int)) : (withAttackVector b v).checkmate = b.checkmate := rfl

@[simp] theorem withAttackVector_checkVector (v : List (Int × Int)) : (withAttackVector b v).checkVector = b.checkVector := rfl

@[simp] theorem withAttackVector_escapeVector (v : List (Int × Int)) : (withAttackVector b v).escapeVector = b.escapeVector := rfl

@[simp] theorem withAttackVector_attackVector (v : List (Int × Int)) : (withAttackVector b v).attackVector = v := rfl

@[simp] theorem withAttackVector_saviorVector (v : List (Int × Int)) : (withAttackVector b v).saviorVector = b.saviorVector := rfl

@[simp] theorem withAttackVector_defenderVector (v : List (Int × Int)) : (withAttackVector b v).defenderVector = b.defenderVector := rfl

@[simp] theorem withAttackVector_pinVector (v : List (Int × Int)) : (withAttackVector b v).pinVector = b.pinVector := rfl

@[simp] theorem withAttackVector_board (v : List (Int × Int)) : (withAttackVector b v).board = b.board := rfl

@[simp] theorem withAttackVector_ownedByAI (v : List (Int × Int)) : (withAttackVector b v).ownedByAI = b.ownedByAI := rfl

@[simp] theorem pieces_withAttackVector (v : List (Int × Int)) (c : PIECE_COLOR) (t : PIECE_TYPE) :
    pieces (withAttackVector b v) c t = pieces b c t := by
  cases c <;> cases t <;> rfl

@[simp] theorem deref_withAttackVector (v : List (Int × Int)) (p : PieceRef) : deref (withAttackVector b v) p = deref b p := by
  simp [deref]

@[simp] theorem getSquareContents_withAttackVector (v : List (Int × Int)) (c r : Int) :
    getSquareContents (withAttackVector b v) c r = getSquareContents b c r := rfl

@[simp] theorem withSaviorVector_turn (v : List PieceRef) : (withSaviorVector b v).turn = b.turn := rfl

@[simp] theorem withSaviorVector_checkmate (v : List PieceRef) : (withSaviorVector b v).checkmate = b.checkmate := rfl

@[simp] theorem withSaviorVector_checkVector (v : List PieceRef) : (withSaviorVector b v).checkVector = b.checkVector := rfl

@[simp] theorem withSaviorVector_escapeVector (v : List PieceRef) : (withSaviorVector b v).escapeVector = b.escapeVector := rfl

@[simp] theorem withSaviorVector_attackVector (v : List PieceRef) : (withSaviorVector b v).attackVector = b.attackVector := rfl

@[simp] theorem withSaviorVector_saviorVector (v : List PieceRef) : (withSaviorVector b v).saviorVector = v := rfl

@[simp] theorem withSaviorVector_defenderVector (v : List PieceRef) : (withSaviorVector b v).defenderVector = b.defenderVector := rfl

@[simp] theorem withSaviorVector_pinVector (v : List PieceRef) : (withSaviorVector b v).pinVector = b.pinVector := rfl

@[simp] theorem withSaviorVector_board (v : List PieceRef) : (withSaviorVector b v).board = b.board := rfl

@[simp] theorem withSaviorVector_ownedByAI (v : List PieceRef) : (withSaviorVector b v).ownedByAI = b.ownedByAI := rfl

@[simp] theorem pieces_withSaviorVector (v : List PieceRef) (c : PIECE_COLOR) (t : PIECE_TYPE) :
    pieces (withSaviorVector b v) c t = pieces b c t := by
  cases c <;> cases t <;> rfl

@[simp] theorem deref_withSaviorVector (v : List PieceRef) (p : PieceRef) : deref (withSaviorVector b v) p = deref b p := by
  simp [deref]

@[simp] theorem getSquareContents_withSaviorVector (v : List PieceRef) (c r : Int) :
    getSquareContents (withSaviorVector b v) c r = getSquareContents b c r := rfl

@[simp] theorem withDefenderVector_turn (v : List (PieceRef × PIN_DIR)) : (withDefenderVector b v).turn = b.turn := rfl

@[simp] theorem withDefenderVector_checkmate (v : List (PieceRef × PIN_DIR)) : (withDefenderVector b v).checkmate = b.checkmate := rfl

@[simp] theorem withDefenderVector_checkVector (v : List (PieceRef × PIN_DIR)) : (withDefenderVector b v).checkVector = b.checkVector := rfl

@[simp] theorem withDefenderVector_escapeVector (v : List (PieceRef × PIN_DIR)) : (withDefenderVector b v).escapeVector = b.escapeVector := rfl

@[simp] theorem withDefenderVector_attackVector (v : List (PieceRef × PIN_DIR)) : (withDefenderVector b v).attackVector = b.attackVector := rfl

@[simp] theorem withDefenderVector_saviorVector (v : List (PieceRef × PIN_DIR)) : (withDefenderVector b v).saviorVector = b.saviorVector := rfl

@[simp] theorem withDefenderVector_defenderVector (v : List (PieceRef × PIN_DIR)) : (withDefenderVector b v).defenderVector = v := rfl

@[simp] theorem withDefenderVector_pinVector (v : List (PieceRef × PIN_DIR)) : (withDefenderVector b v).pinVector = b.pinVector := rfl

@[simp] theorem withDefenderVector_board (v : List (PieceRef × PIN_DIR)) : (withDefenderVector b v).board = b.board := rfl

@[simp] theorem withDefenderVector_ownedByAI (v : List (PieceRef × PIN_DIR)) : (withDefenderVector b v).ownedByAI = b.ownedByAI := rfl

@[simp] theorem pieces_withDefenderVector (v : List (PieceRef × PIN_DIR)) (c : PIECE_COLOR) (t : PIECE_TYPE) :
    pieces (withDefenderVector b v) c t = pieces b c t := by
  cases c <;> cases t <;> rfl

@[simp] theorem deref_withDefenderVector (v : List (PieceRef × PIN_DIR)) (p : PieceRef) : deref (withDefenderVector b v) p = deref b p := by
  simp [deref]

@[simp] theorem getSquareContents_withDefenderVector (v : List (PieceRef × PIN_DIR)) (c r : Int) :
    getSquareContents (withDefenderVector b v) c r = getSquareContents b c r := rfl

@[simp] theorem withPinVector_turn (v : List ((PieceRef × PieceRef) × PIN_DIR)) : (withPinVector b v).turn = b.turn := rfl

@[simp] theorem withPinVector_checkmate (v : List ((PieceRef × PieceRef) × PIN_DIR)) : (withPinVector b v).checkmate = b.checkmate := rfl

@[simp] theorem withPinVector_checkVector (v : List ((PieceRef × PieceRef) × PIN_DIR)) : (withPinVector b v).checkVector = b.checkVector := rfl

@[simp] theorem withPinVector_escapeVector (v : List ((PieceRef × PieceRef) × PIN_DIR)) : (withPinVector b v).escapeVector = b.escapeVector := rfl

@[simp] theorem withPinVector_attackVector (v : List ((PieceRef × PieceRef) × PIN_DIR)) : (withPinVector b v).attackVector = b.attackVector := rfl

@[simp] theorem withPinVector_saviorVector (v : List ((PieceRef × PieceRef) × PIN_DIR)) : (withPinVector b v).saviorVector = b.saviorVector := rfl

@[simp] theorem withPinVector_defenderVector (v : List ((PieceRef × PieceRef) × PIN_DIR)) : (withPinVector b v).defenderVector = b.defenderVector := rfl

@[simp] theorem withPinVector_pinVector (v : List ((PieceRef × PieceRef) × PIN_DIR)) : (withPinVector b v).pinVector = v := rfl

@[simp] theorem withPinVector_board (v : List ((PieceRef × PieceRef) × PIN_DIR)) : (withPinVector b v).board = b.board := rfl

@[simp] theorem withPinVector_ownedByAI (v : List ((PieceRef × PieceRef) × PIN_DIR)) : (withPinVector b v).ownedByAI = b.ownedByAI := rfl

@[simp] theorem pieces_withPinVector (v : List ((PieceRef × PieceRef) × PIN_DIR)) (c : PIECE_COLOR) (t : PIECE_TYPE) :
    pieces (withPinVector b v) c t = pieces b c t := by
  cases c <;> cases t <;> rfl

@[simp] theorem deref_withPinVector (v : List ((PieceRef × PieceRef) × PIN_DIR)) (p : PieceRef) : deref (withPinVector b v) p = deref b p := by
  simp [deref]

@[simp] theorem getSquareContents_withPinVector (v : List ((PieceRef × PieceRef) × PIN_DIR)) (c r : Int) :
    getSquareContents (withPinVector b v) c r = getSquareContents b c r := rfl

@[simp] theorem setPieces_escapeVector (c : PIECE_COLOR) (t : PIECE_TYPE) (l : List chessPiece) :
    (setPieces b c t l).escapeVector = b.escapeVector := by
  cases c <;> cases t <;> rfl

@[simp] theorem setSquare_escapeVector (c r : Int) (v : Option PieceRef) :
    (setSquare b c r v).escapeVector = b.escapeVector := rfl

@[simp] theorem updatePiece_escapeVector (p : PieceRef) (f : chessPiece → chessPiece) :
    (updatePiece b p f).escapeVector = b.escapeVector := by
  simp [updatePiece]

@[simp] theorem setPieces_attackVector (c : PIECE_COLOR) (t : PIECE_TYPE) (l : List chessPiece) :
    (setPieces b c t l).attackVector = b.attackVector := by
  cases c <;> cases t <;> rfl

@[simp] theorem setSquare_attackVector (c r : Int) (v : Option PieceRef) :
    (setSquare b c r v).attackVector = b.attackVector := rfl

@[simp] theorem updatePiece_attackVector (p : PieceRef) (f : chessPiece → chessPiece) :
    (updatePiece b p f).attackVector = b.attackVector := by
  simp [updatePiece]

@[simp] theorem setPieces_saviorVector (c : PIECE_COLOR) (t : PIECE_TYPE) (l : List chessPiece) :
    (setPieces b c t l).saviorVector = b.saviorVector := by
  cases c <;> cases t <;> rfl

@[simp] theorem setSquare_saviorVector (c r : Int) (v : Option PieceRef) :
    (setSquare b c r v).saviorVector = b.saviorVector := rfl

@[simp] theorem updatePiece_saviorVector (p : PieceRef) (f : chessPiece → chessPiece) :
    (updatePiece b p f).saviorVector = b.saviorVector := by
  simp [updatePiece]

@[simp] theorem setPieces_defenderVector (c : PIECE_COLOR) (t : PIECE_TYPE) (l : List chessPiece) :
    (setPieces b c t l).defenderVector = b.defenderVector := by
  cases c <;> cases t <;> rfl

@[simp] theorem setSquare_defenderVector (c r : Int) (v : Option PieceRef) :
    (setSquare b c r v).defenderVector = b.defenderVector := rfl

@[simp] theorem updatePiece_defenderVector (p : PieceRef) (f : chessPiece → chessPiece) :
    (updatePiece b p f).defenderVector = b.defenderVector := by
  simp [updatePiece]


end Setters

/-! ## What the scans leave behind -/

@[simp] theorem deref_liftKing (b : chessBoardClass) (king p : PieceRef) :
    deref (liftKing b king) p = deref b p := by
  simp [liftKing]

@[simp] theorem deref_restoreKing (b : chessBoardClass) (king p : PieceRef) :
    deref (restoreKing b king) p = deref b p := by
  simp [restoreKing]

@[simp] theorem pieces_restoreKing (b : chessBoardClass) (king : PieceRef) (c : PIECE_COLOR)
    (t : PIECE_TYPE) : pieces (restoreKing b king) c t = pieces b c t := by
  simp [restoreKing, liftKing]

theorem restoreKing_of_placed (b : chessBoardClass) (king : PieceRef)
    (h : b.board (deref b king).column (deref b king).row = some king) :
    restoreKing b king = b := by
  have hb : (restoreKing b king).board = b.board := by
    funext c r
    simp only [restoreKing, liftKing, setSquare]
    split_ifs with h1
    · rw [h1.1, h1.2, h]
    · rfl
  cases b
  simp only [restoreKing, liftKing, setSquare] at hb ⊢
  simp only [chessBoardClass.mk.injEq, true_and, and_true]
  exact hb

theorem restoreKing_placed (b : chessBoardClass) (king : PieceRef) :
    (restoreKing b king).board (deref (restoreKing b king) king).column
      (deref (restoreKing b king) king).row = some king := by
  simp only [deref_restoreKing]
  simp [restoreKing, liftKing, setSquare]

theorem escapeStep_snd (king : PieceRef) (acc : List (Int × Int) × chessBoardClass)
    (sq : Int × Int) :
    (escapeStep king acc sq).2 = acc.2 ∨ (escapeStep king acc sq).2 = restoreKing acc.2 king := by
  unfold escapeStep
  cases getSquareContents acc.2 sq.1 sq.2 with
  | none =>
    simp only [getAttackersKing]
    split_ifs <;> simp
  | some o =>
    simp only [getAttackersKing]
    split_ifs <;> simp

theorem foldl_escapeStep_snd (king : PieceRef) (l : List (Int × Int))
    (acc : List (Int × Int) × chessBoardClass)
    (h : acc.2.board (deref acc.2 king).column (deref acc.2 king).row = some king) :
    (l.foldl (escapeStep king) acc).2 = acc.2 := by
  induction l generalizing acc with
  | nil => rfl
  | cons sq l ih =>
    simp only [List.foldl_cons]
    have hs : (escapeStep king acc sq).2 = acc.2 := by
      rcases escapeStep_snd king acc sq with h1 | h1
      · exact h1
      · rw [h1, restoreKing_of_placed _ _ h]
    rw [ih _ (by rw [hs]; exact h), hs]

theorem scanForEscapeSquares_snd (b : chessBoardClass) (king : PieceRef)
    (h : b.board (deref b king).column (deref b king).row = some king) :
    (scanForEscapeSquares b king).2 = b :=
  foldl_escapeStep_snd king _ ([], b) h

theorem scanForPins_snd (b : chessBoardClass) (king : PieceRef) :
    (scanForPins b king).2 = withDefenderVector b (defendersOf b king) := by
  simp only [scanForPins, scanForDefenders]
  split_ifs <;> rfl

theorem refreshCheck_eq (b : chessBoardClass) :
    refreshCheck b = withCheckVector (restoreKing b (kingRef b.turn))
      (getAttackers (liftKing b (kingRef b.turn)) (deref b (kingRef b.turn)).column
        (deref b (kingRef b.turn)).row) := rfl

theorem refreshEscape_eq (b : chessBoardClass)
    (h : b.board (deref b (kingRef b.turn)).column (deref b (kingRef b.turn)).row
      = some (kingRef b.turn)) :
    refreshEscape b = withEscapeVector b (scanForEscapeSquares b (kingRef b.turn)).1 := by
  unfold refreshEscape
  rw [scanForEscapeSquares_snd b _ h]

theorem refreshPins_eq (b : chessBoardClass) :
    refreshPins b = withPinVector (withDefenderVector b (defendersOf b (kingRef b.turn)))
      (scanForPins b (kingRef b.turn)).1 := by
  unfold refreshPins
  rw [scanForPins_snd]

/-- The board `refreshDerived` returns: the table is the one the first king-aware scan
leaves, the six vectors are recomputed, and `checkmate` is raised exactly on the test of
the source; nothing else changes. -/
theorem refreshDerived_eq (b : chessBoardClass) :
    ∃ (cv : List PieceRef) (ev av : List (Int × Int)) (sv : List PieceRef)
      (dv : List (PieceRef × PIN_DIR)) (pv : List ((PieceRef × PieceRef) × PIN_DIR)),
      refreshDerived b =
        withCheckmate (withSaviorVector (withAttackVector (withPinVector (withDefenderVector
          (withEscapeVector (withCheckVector (restoreKing b (kingRef b.turn)) cv) ev) dv) pv) av) sv)
          (if cv.length > 0 ∧ ev.isEmpty ∧ sv.isEmpty then true else b.checkmate) := by
  unfold refreshDerived
  rw [refreshCheck_eq]
  generalize getAttackers (liftKing b (kingRef b.turn)) (deref b (kingRef b.turn)).column
    (deref b (kingRef b.turn)).row = cv
  have hturn : (withCheckVector (restoreKing b (kingRef b.turn)) cv).turn = b.turn := by
    simp [restoreKing, liftKing]
  rw [refreshEscape_eq _ (by
    rw [hturn]
    simp only [deref_withCheckVector, withCheckVector_board]
    exact restoreKing_placed b (kingRef b.turn))]
  rw [hturn]
  generalize (scanForEscapeSquares (withCheckVector (restoreKing b (kingRef b.turn)) cv)
    (kingRef b.turn)).1 = ev
  rw [refreshPins_eq]
  generalize hb2 : withEscapeVector (withCheckVector (restoreKing b (kingRef b.turn)) cv) ev = b2
  have hturn2 : b2.turn = b.turn := by rw [← hb2]; simp [restoreKing, liftKing]
  rw [hturn2]
  generalize defendersOf b2 (kingRef b.turn) = dv
  generalize (scanForPins b2 (kingRef b.turn)).1 = pv
  generalize hb3 : withPinVector (withDefenderVector b2 dv) pv = b3
  have hcv : b3.checkVector = cv := by rw [← hb3, ← hb2]; simp
  have hev : b3.escapeVector = ev := by rw [← hb3, ← hb2]; simp
  have hcm : b3.checkmate = b.checkmate := by rw [← hb3, ← hb2]; simp [restoreKing, liftKing]
  unfold refreshSaviors
  by_cases hc : cv.isEmpty = true
  · have hnil : cv = [] := List.isEmpty_iff.mp hc
    subst hnil
    refine ⟨[], ev, b3.attackVector, b3.saviorVector, dv, pv, ?_⟩
    simp only [hcv, List.isEmpty_nil, Bool.not_true, Bool.false_eq_true, if_false]
    unfold refreshCheckmate
    simp only [hcv, List.length_nil, gt_iff_lt, lt_self_iff_false, false_and, if_false]
    rw [← hcm]
    subst hb3
    subst hb2
    rfl
  · simp only [hcv, hc, Bool.not_false, if_true]
    generalize hav : setAttackVector b3 (kingRef b3.turn) = av
    generalize hsv : scanForSaviors (withAttackVector b3 av) = sv
    refine ⟨cv, ev, av, sv, dv, pv, ?_⟩
    unfold refreshCheckmate
    simp only [withSaviorVector_checkVector, withAttackVector_checkVector, hcv,
      withSaviorVector_escapeVector, withAttackVector_escapeVector, hev,
      withSaviorVector_saviorVector]
    split_ifs
    · subst hb3
      subst hb2
      rfl
    · rw [← hcm]
      subst hb3
      subst hb2
      rfl

/-! ## What `performMove` and `swapTurn` leave untouched -/

/-- The turn, the checkmate flag and the AI flag agree. -/
def SameMeta (b b1 : chessBoardClass) : Prop :=
  b1.turn = b.turn ∧ b1.checkmate = b.checkmate ∧ b1.ownedByAI = b.ownedByAI

theorem SameMeta.sm_refl (b : chessBoardClass) : SameMeta b b := ⟨rfl, rfl, rfl⟩

theorem SameMeta.sm_trans {b b1 b2 : chessBoardClass} (h1 : SameMeta b b1) (h2 : SameMeta b1 b2) :
    SameMeta b b2 :=
  ⟨h2.1.trans h1.1, h2.2.1.trans h1.2.1, h2.2.2.trans h1.2.2⟩

theorem sameMeta_setSquare (b : chessBoardClass) (c r : Int) (v : Option PieceRef) :
    SameMeta b (setSquare b c r v) := ⟨rfl, rfl, rfl⟩

theorem sameMeta_updatePiece (b : chessBoardClass) (p : PieceRef) (f : chessPiece → chessPiece) :
    SameMeta b (updatePiece b p f) := ⟨by simp, by simp, by simp⟩

theorem sameMeta_setPieces (b : chessBoardClass) (c : PIECE_COLOR) (t : PIECE_TYPE)
    (l : List chessPiece) : SameMeta b (setPieces b c t l) := ⟨by simp, by simp, by simp⟩

theorem sameMeta_foldl_setSquare (f : chessBoardClass → Nat → Int × Int × Option PieceRef)
    (l : List Nat) (acc : chessBoardClass) :
    SameMeta acc (l.foldl (fun a i => setSquare a (f a i).1 (f a i).2.1 (f a i).2.2) acc) := by
  induction l generalizing acc with
  | nil => exact SameMeta.sm_refl acc
  | cons i l ih => exact (sameMeta_setSquare acc _ _ _).sm_trans (ih _)

theorem sameMeta_resync (b : chessBoardClass) (c : PIECE_COLOR) (t : PIECE_TYPE) :
    SameMeta b (resync b c t) :=
  sameMeta_foldl_setSquare
    (fun a i => ((deref a ⟨c, t, i⟩).column, (deref a ⟨c, t, i⟩).row, some ⟨c, t, i⟩)) _ b

theorem sameMeta_pawnPromotion (b : chessBoardClass) (pawn : PieceRef) (choice : PromotionChoice) :
    SameMeta b (pawnPromotion b pawn choice) := by
  unfold pawnPromotion
  exact (((sameMeta_setSquare b _ _ _).sm_trans (sameMeta_setPieces _ _ _ _)).sm_trans
    (sameMeta_setSquare _ _ _ _)).sm_trans (sameMeta_resync _ _ _)

theorem sameMeta_castleMove (b b1 : chessBoardClass) (piece : PieceRef)
    (origC origR destC destR corner rookC : Int)
    (h : castleMove b piece origC origR destC destR corner rookC = some b1) : SameMeta b b1 := by
  unfold castleMove at h
  cases hr : getSquareContents b corner origR with
  | none => simp [hr] at h
  | some rook =>
    simp only [hr, Option.some.injEq] at h
    subst h
    exact (((((sameMeta_setSquare b _ _ _).sm_trans (sameMeta_setSquare _ _ _ _)).sm_trans
      (sameMeta_updatePiece _ _ _)).sm_trans (sameMeta_setSquare _ _ _ _)).sm_trans
      (sameMeta_updatePiece _ _ _)).sm_trans (sameMeta_setSquare _ _ _ _)

theorem sameMeta_afterEnPassant (b : chessBoardClass) (piece : PieceRef) (destC destR : Int) :
    SameMeta b (afterEnPassant b piece destC destR) := by
  unfold afterEnPassant
  split_ifs
  · exact sameMeta_setSquare _ _ _ _
  · exact SameMeta.sm_refl b

theorem sameMeta_afterCastle (b b1 : chessBoardClass) (piece : PieceRef)
    (origC origR destC destR : Int)
    (h : afterCastle b piece origC origR destC destR = some b1) : SameMeta b b1 := by
  unfold afterCastle at h
  split_ifs at h
  · exact sameMeta_castleMove _ _ _ _ _ _ _ _ _ h
  · exact sameMeta_castleMove _ _ _ _ _ _ _ _ _ h
  · simp only [Option.some.injEq] at h
    rw [h]
    exact SameMeta.sm_refl _

theorem sameMeta_placePiece (b : chessBoardClass) (occupier : Option PieceRef) (piece : PieceRef)
    (origC origR destC destR : Int) :
    SameMeta b (placePiece b occupier piece origC origR destC destR) := by
  unfold placePiece
  cases occupier with
  | none =>
    exact ((sameMeta_updatePiece _ _ _).sm_trans (sameMeta_setSquare _ _ _ _)).sm_trans
      (sameMeta_setSquare _ _ _ _)
  | some o =>
    exact (((sameMeta_updatePiece _ _ _).sm_trans (sameMeta_updatePiece _ _ _)).sm_trans
      (sameMeta_setSquare _ _ _ _)).sm_trans (sameMeta_setSquare _ _ _ _)

theorem sameMeta_promoteOnLastRow (b : chessBoardClass) (piece : PieceRef) (destR : Int)
    (forceMove : Bool) (choice : PromotionChoice) :
    SameMeta b (promoteOnLastRow b piece destR forceMove choice) := by
  unfold promoteOnLastRow
  split_ifs
  · exact (sameMeta_updatePiece _ _ _).sm_trans (sameMeta_pawnPromotion _ _ _)
  · exact SameMeta.sm_refl b

theorem sameMeta_performMove (b b1 : chessBoardClass) (piece : PieceRef) (destC destR : Int)
    (forceMove : Bool) (choice : PromotionChoice)
    (h : performMove b piece destC destR forceMove choice = some b1) : SameMeta b b1 := by
  unfold performMove at h
  simp only [Option.map_eq_some'] at h
  obtain ⟨b2, hcastle, hrest⟩ := h
  rw [← hrest]
  exact (((sameMeta_afterEnPassant b piece destC destR).sm_trans
    (sameMeta_afterCastle _ _ _ _ _ _ _ hcastle)).sm_trans (sameMeta_placePiece _ _ _ _ _ _ _)).sm_trans
    (sameMeta_promoteOnLastRow _ _ _ _ _)

theorem sameMeta_swapTurn_checkmate (b : chessBoardClass) :
    (swapTurn b).checkmate = b.checkmate := by
  unfold swapTurn
  split_ifs <;> simp

/-- A successful non-forced, state-changing `move` ran `performMove`, `swapTurn` and the
recomputation on a board whose checkmate flag was down, for the piece found on the
origin square, which is of the colour to move and passed `movementLogic`. -/
theorem move_success (b b1 : chessBoardClass) (origC origR destC destR : Int)
    (choice : PromotionChoice)
    (h : move b origC origR destC destR false false choice = some (true, b1)) :
    ∃ piece bm, getSquareContents b origC origR = some piece ∧ piece.color = b.turn
      ∧ b.checkmate = false ∧ movementLogic b piece destC destR = true
      ∧ performMove b piece destC destR false choice = some bm
      ∧ b1 = refreshDerived (swapTurn bm) := by
  unfold move at h
  cases hp : getSquareContents b origC origR with
  | none => simp [hp] at h
  | some piece =>
    simp only [hp, Bool.false_eq_true, if_false] at h
    by_cases hcol : piece.color ≠ b.turn
    · simp [hcol] at h
    · by_cases hcm : b.checkmate = true
      · simp [hcol, hcm] at h
      · by_cases hl : movementLogic b piece destC destR = true
        · cases hpm : performMove b piece destC destR false choice with
          | none => simp [hcol, hcm, hl, hpm] at h
          | some bm =>
            simp only [hcol, hcm, hl, hpm, if_true, if_false, Option.map_some',
              Option.some.injEq, Prod.mk.injEq, true_and, Bool.false_eq_true] at h
            exact ⟨piece, bm, rfl, not_not.mp hcol, by simpa using hcm, hl, hpm, h.symm⟩
        · simp [hcol, hcm, hl] at h

/-- After the recomputation the checkmate flag is up exactly when it was up before or
there is a checker and neither an escape square nor a savior. -/
theorem refreshDerived_checkmate (b : chessBoardClass) :
    (refreshDerived b).checkmate = true ↔
      (b.checkmate = true ∨ ((refreshDerived b).checkVector ≠ []
        ∧ (refreshDerived b).escapeVector = [] ∧ (refreshDerived b).saviorVector = [])) := by
  obtain ⟨cv, ev, av, sv, dv, pv, h⟩ := refreshDerived_eq b
  rw [h]
  simp only [withCheckmate_checkmate, withCheckmate_checkVector, withSaviorVector_checkVector,
    withAttackVector_checkVector, withPinVector_checkVector, withDefenderVector_checkVector,
    withEscapeVector_checkVector, withCheckVector_checkVector, withCheckmate_escapeVector,
    withSaviorVector_escapeVector, withAttackVector_escapeVector, withPinVector_escapeVector,
    withDefenderVector_escapeVector, withEscapeVector_escapeVector, withCheckmate_saviorVector,
    withSaviorVector_saviorVector]
  have hlen : cv.length > 0 ↔ cv ≠ [] := by
    cases cv <;> simp
  by_cases hcond : cv.length > 0 ∧ ev.isEmpty = true ∧ sv.isEmpty = true
  · simp only [hcond, and_self, if_true, true_iff]
    right
    exact ⟨hlen.mp hcond.1, List.isEmpty_iff.mp hcond.2.1, List.isEmpty_iff.mp hcond.2.2⟩
  · simp only [hcond, if_false]
    constructor
    · intro h1
      exact Or.inl h1
    · rintro (h1 | ⟨h1, h2, h3⟩)
      · exact h1
      · exact absurd ⟨hlen.mpr h1, List.isEmpty_iff.mpr h2, List.isEmpty_iff.mpr h3⟩ hcond

/-- C1. In every position reached from `init()` by successful non-forced `move()`
calls, `getCheckmate()` is true if and only if the checker collection is non-empty and
the escape-square and savior collections are empty. -/
theorem C1_checkmate_iff (b : chessBoardClass) (hb : Reachable b) :
    b.checkmate = true ↔ (b.checkVector ≠ [] ∧ b.escapeVector = [] ∧ b.saviorVector = []) := by
  cases hb with
  | init b0 => simp [init]
  | step b0 _ origC origR destC destR choice _ hmove =>
    obtain ⟨piece, bm, _, _, hcm, _, hperf, rfl⟩ := move_success _ _ _ _ _ _ _ hmove
    rw [refreshDerived_checkmate]
    have h0 : (swapTurn bm).checkmate = false := by
      rw [sameMeta_swapTurn_checkmate, (sameMeta_performMove _ _ _ _ _ _ _ hperf).2.1, hcm]
    simp [h0]

theorem play_reachable (ms : List HalfMove) (b b1 : chessBoardClass) (hb : Reachable b)
    (h : play b ms = some b1) : Reachable b1 := by
  induction ms generalizing b with
  | nil =>
    simp only [play, Option.some.injEq] at h
    rw [← h]
    exact hb
  | cons m ms ih =>
    simp only [play] at h
    cases hm : move b m.origC m.origR m.destC m.destR false false m.choice with
    | none => simp [hm] at h
    | some res =>
      obtain ⟨ok, b2⟩ := res
      cases ok with
      | false => simp [hm] at h
      | true =>
        simp only [hm] at h
        exact ih b2 (Reachable.step b b2 _ _ _ _ _ hb hm) h

theorem boardAfter_reachable (ms : List HalfMove) (h : (play startBoard ms).isSome = true) :
    Reachable (boardAfter ms) := by
  obtain ⟨b1, hb1⟩ := Option.isSome_iff_exists.mp h
  have : boardAfter ms = b1 := by simp [boardAfter, hb1]
  rw [this]
  exact play_reachable ms _ _ (Reachable.init blankBoard) hb1

set_option maxRecDepth 100000 in
/-- Witness for C1: after 1. f3 e5 2. g4 Qh4 the board is reachable, the checkmate flag
is up, and the three collections are as the equivalence says. -/
theorem C1_checkmate_iff_witness :
    Reachable (boardAfter foolsMate) ∧ (boardAfter foolsMate).checkmate = true
      ∧ ((boardAfter foolsMate).checkVector ≠ [] ∧ (boardAfter foolsMate).escapeVector = []
        ∧ (boardAfter foolsMate).saviorVector = []) :=
  have h : (play startBoard foolsMate).isSome = true
      ∧ (boardAfter foolsMate).checkmate = true := by decide!
  ⟨boardAfter_reachable foolsMate h.1, h.2,
    (C1_checkmate_iff (boardAfter foolsMate) (boardAfter_reachable foolsMate h.1)).mp h.2⟩

/-! ## The recomputation changes neither the pieces, nor the turn, nor (up to the
square of the king) the table -/

theorem pieces_refreshDerived (b : chessBoardClass) (c : PIECE_COLOR) (t : PIECE_TYPE) :
    pieces (refreshDerived b) c t = pieces b c t := by
  obtain ⟨cv, ev, av, sv, dv, pv, h⟩ := refreshDerived_eq b
  rw [h]
  simp

theorem deref_refreshDerived (b : chessBoardClass) (p : PieceRef) :
    deref (refreshDerived b) p = deref b p := by
  simp [deref, pieces_refreshDerived]

theorem turn_refreshDerived (b : chessBoardClass) : (refreshDerived b).turn = b.turn := by
  obtain ⟨cv, ev, av, sv, dv, pv, h⟩ := refreshDerived_eq b
  rw [h]
  simp [restoreKing, liftKing]

theorem ownedByAI_refreshDerived (b : chessBoardClass) :
    (refreshDerived b).ownedByAI = b.ownedByAI := by
  obtain ⟨cv, ev, av, sv, dv, pv, h⟩ := refreshDerived_eq b
  rw [h]
  simp [restoreKing, liftKing]

theorem getSquareContents_refreshDerived (b : chessBoardClass) (c r : Int) :
    getSquareContents (refreshDerived b) c r
      = getSquareContents (restoreKing b (kingRef b.turn)) c r := by
  obtain ⟨cv, ev, av, sv, dv, pv, h⟩ := refreshDerived_eq b
  rw [h]
  simp

theorem getSquareContents_restoreKing (b : chessBoardClass) (king : PieceRef) (c r : Int) :
    getSquareContents (restoreKing b king) c r
      = if c = (deref b king).column ∧ r = (deref b king).row
          then (if c < 0 ∨ c > 7 ∨ r < 0 ∨ r > 7 then none else some king)
        else getSquareContents b c r := by
  unfold restoreKing liftKing
  rw [getSquareContents_setSquare, getSquareContents_setSquare]
  split_ifs <;> rfl

theorem turn_swapTurn (b : chessBoardClass) :
    (swapTurn b).turn = enemyOf b.turn := by
  unfold swapTurn
  cases h : b.turn <;> simp [h, enemyOf]

theorem pieces_swapTurn (b : chessBoardClass) (c : PIECE_COLOR) (t : PIECE_TYPE) :
    pieces (swapTurn b) c t
      = if c = enemyOf b.turn ∧ t = PAWN then (pieces b c t).map (setEnPassant false)
        else pieces b c t := by
  unfold swapTurn
  cases h : b.turn <;> cases c <;> cases t <;> simp [h, enemyOf]

theorem getSquareContents_swapTurn (b : chessBoardClass) (c r : Int) :
    getSquareContents (swapTurn b) c r = getSquareContents b c r := by
  unfold swapTurn
  simp only [getSquareContents]
  split_ifs <;> simp

theorem play_append (b : chessBoardClass) (ms ns : List HalfMove) :
    play b (ms ++ ns) = (play b ms).bind (fun b1 => play b1 ns) := by
  induction ms generalizing b with
  | nil => rfl
  | cons m ms ih =>
    simp only [List.cons_append, play]
    cases hm : move b m.origC m.origR m.destC m.destR false false m.choice with
    | none => rfl
    | some res =>
      obtain ⟨ok, b2⟩ := res
      cases ok with
      | false => rfl
      | true => exact ih b2

/-- The last half-move of a game that `play` accepts is a successful `move` call from the
board after the earlier half-moves to the board after the whole game. -/
theorem move_boardAfter (ms : List HalfMove) (m : HalfMove)
    (h : (play startBoard (ms ++ [m])).isSome = true) :
    move (boardAfter ms) m.origC m.origR m.destC m.destR false false m.choice
      = some (true, boardAfter (ms ++ [m])) := by
  unfold boardAfter
  rw [play_append] at h ⊢
  cases hms : play startBoard ms with
  | none => simp [hms] at h
  | some b1 =>
    simp only [hms, Option.some_bind, Option.getD_some, play] at h ⊢
    cases hmv : move b1 m.origC m.origR m.destC m.destR false false m.choice with
    | none => simp [hmv] at h
    | some res =>
      obtain ⟨ok, b2⟩ := res
      cases ok with
      | false => simp [hmv] at h
      | true => simp

set_option maxRecDepth 100000 in
/-- C2, the code at the failing input. After 1. e4 d5 2. Qg4 Bxg4 3. exd5 a6 4. d6 a5
5. dxc7 a4 the lookup table holds the black bishop on g4; after 6. cxb8=Q it holds the
captured white queen there, and the black bishop, which is not captured and still
records g4 as its square, is in no entry of g4. -/
theorem C2_table_points_at_captured_queen :
    (play startBoard promotionGame).isSome = true
      ∧ getSquareContents (boardAfter (promotionGame.take 10)) 6 3 = some ⟨BLACK, BISHOP, 0⟩
      ∧ getSquareContents (boardAfter promotionGame) 6 3 = some ⟨WHITE, QUEEN, 0⟩
      ∧ (deref (boardAfter promotionGame) ⟨WHITE, QUEEN, 0⟩).captured = true
      ∧ (deref (boardAfter promotionGame) ⟨BLACK, BISHOP, 0⟩).captured = false
      ∧ (deref (boardAfter promotionGame) ⟨BLACK, BISHOP, 0⟩).column = 6
      ∧ (deref (boardAfter promotionGame) ⟨BLACK, BISHOP, 0⟩).row = 3 := by
  decide!

set_option maxRecDepth 100000 in
/-- C7, the code at the failing input. After 1. g3 Nf6 2. Bg2 Ng8 3. Nf3 Nf6 4. h4 Ng8
5. Rh2 Nf6 6. Bh1 Ng8 the corner h1 holds a white bishop and the rook stands on h2;
the two-square king move e1-g1 is accepted, and executing it puts the bishop on f1. -/
theorem C7_castling_with_bishop_in_corner :
    (play startBoard bishopInCornerGame).isSome = true
      ∧ getSquareContents (boardAfter bishopInCornerGame) 7 0 = some ⟨WHITE, BISHOP, 1⟩
      ∧ getSquareContents (boardAfter bishopInCornerGame) 7 1 = some ⟨WHITE, ROOK, 1⟩
      ∧ movementLogic (boardAfter bishopInCornerGame) (kingRef WHITE) 6 0 = true
      ∧ (play startBoard (bishopInCornerGame ++ [hm 4 0 6 0])).isSome = true
      ∧ getSquareContents (boardAfter (bishopInCornerGame ++ [hm 4 0 6 0])) 6 0
          = some (kingRef WHITE)
      ∧ getSquareContents (boardAfter (bishopInCornerGame ++ [hm 4 0 6 0])) 5 0
          = some ⟨WHITE, BISHOP, 1⟩ := by
  decide!

/-! ## The gates of `movementLogic` -/

/-- `movementLogic` returns `true` exactly when none of its tests returns `false`. -/
theorem movementLogic_eq_true (b : chessBoardClass) (piece : PieceRef) (destC destR : Int) :
    movementLogic b piece destC destR = true ↔
      validMovement piece.color piece.type (deref b piece) destC destR = true
      ∧ (∀ o, getSquareContents b destC destR = some o → o.color ≠ piece.color)
      ∧ ¬ (piece.type ≠ KNIGHT ∧ piece.type ≠ PAWN ∧ isPathClear b piece destC destR = false)
      ∧ ¬ (piece.type = PAWN ∧ pawnPathBlocked b piece destC destR = true)
      ∧ enPassantRefused b piece destC destR = false
      ∧ castlingRefused b piece destC = false
      ∧ ¬ (piece.type = KING ∧ (getAttackers b destC destR).isEmpty = false)
      ∧ checkRefused b piece destC destR = false
      ∧ pinTest b piece destC destR = true := by
  unfold movementLogic
  cases ho : getSquareContents b destC destR with
  | none =>
    simp only [reduceCtorEq, false_implies, implies_true, true_and, Bool.false_eq_true, if_false]
    split_ifs <;> simp_all
  | some o =>
    simp only [Option.some.injEq, forall_eq', decide_eq_true_eq]
    split_ifs <;> simp_all

/-- C4. When the side to move is in check, an accepted king move goes to an escape
square, and an accepted move of any other piece happens with exactly one checker, by a
piece of the savior collection, onto a square of the interposition collection; so with
two or more checkers every non-king move is rejected. -/
theorem C4_check_gate (b : chessBoardClass) (piece : PieceRef) (destC destR : Int)
    (hcheck : b.checkVector ≠ [])
    (hacc : movementLogic b piece destC destR = true) :
    if piece.type = KING then (destC, destR) ∈ b.escapeVector
    else (b.checkVector.length = 1 ∧ piece ∈ b.saviorVector
      ∧ (destC, destR) ∈ b.attackVector) := by
  have hr := ((movementLogic_eq_true b piece destC destR).mp hacc).2.2.2.2.2.2.2.1
  have hlen : b.checkVector.length > 0 := by
    cases hcv : b.checkVector with
    | nil => exact absurd hcv hcheck
    | cons x xs => simp
  unfold checkRefused at hr
  simp only [hlen, if_true] at hr
  by_cases hk : piece.type = KING
  · simp only [hk, if_true]
    by_contra hne
    simp [hk, hne] at hr
  · simp only [hk, if_false]
    by_cases h1 : b.checkVector.length > 1
    · simp [h1, hk] at hr
    · have hl1 : b.checkVector.length = 1 := by omega
      by_cases hs : piece ∈ b.saviorVector
      · by_cases ha : (destC, destR) ∈ b.attackVector
        · exact ⟨hl1, hs, ha⟩
        · simp [h1, hk, hs, ha] at hr
      · simp [h1, hk, hs] at hr

set_option maxRecDepth 100000 in
/-- Witness for C4: after 1. e4 f5 2. Qh5+ Black is in check, the move g7-g6 is
accepted, and the g-pawn is a savior moving onto an interposition square. -/
theorem C4_check_gate_witness :
    (boardAfter queenCheckGame).checkVector ≠ []
      ∧ movementLogic (boardAfter queenCheckGame) ⟨BLACK, PAWN, 6⟩ 6 5 = true
      ∧ ((boardAfter queenCheckGame).checkVector.length = 1
        ∧ (⟨BLACK, PAWN, 6⟩ : PieceRef) ∈ (boardAfter queenCheckGame).saviorVector
        ∧ ((6 : Int), (5 : Int)) ∈ (boardAfter queenCheckGame).attackVector) :=
  have h : (boardAfter queenCheckGame).checkVector ≠ []
      ∧ movementLogic (boardAfter queenCheckGame) ⟨BLACK, PAWN, 6⟩ 6 5 = true := by decide!
  ⟨h.1, h.2, C4_check_gate (boardAfter queenCheckGame) ⟨BLACK, PAWN, 6⟩ 6 5 h.1 h.2⟩

/-- A king's shape test accepts a two-column move along its row only on the home row
and with the castle flag up. -/
theorem king_two_columns (color : PIECE_COLOR) (p : chessPiece) (c r : Int)
    (h : validMovement color KING p c r = true) (h2 : (c - p.column).natAbs = 2)
    (hr : r = p.row) : p.row = homeRow color ∧ p.canCastle = true := by
  cases color
  · simp only [validMovement, whiteKing.validMovement] at h
    split_ifs at h with h1 h3 h4 h5 h6
    · exact ⟨h4.2.2, h5⟩
    · simp only [hr, sub_self, Int.natAbs_zero, zero_add, decide_eq_true_eq] at h
      omega
    · exact absurd (Or.inl hr) h6
  · simp only [validMovement, blackKing.validMovement] at h
    split_ifs at h with h1 h3 h4 h5 h6
    · exact ⟨h4.2.2, h5⟩
    · simp only [hr, sub_self, Int.natAbs_zero, zero_add, decide_eq_true_eq] at h
      omega
    · exact absurd (Or.inl hr) h6

theorem mem_between (kc kr dc dr : Int) (n : Nat) (sq : Int × Int) :
    sq ∈ between kc kr dc dr n ↔
      ∃ i : Nat, 1 ≤ i ∧ i ≤ n ∧ sq = (kc + (i : Int) * dc, kr + (i : Int) * dr) := by
  simp only [between, List.mem_map, List.mem_range'_1]
  constructor
  · rintro ⟨i, ⟨h1, h2⟩, rfl⟩
    exact ⟨i, h1, by omega, rfl⟩
  · rintro ⟨i, h1, h2, rfl⟩
    exact ⟨i, ⟨h1, by omega⟩, rfl⟩

/-- C6. A two-square king move along the row is rejected whenever a square the king
passes over or lands on is occupied or has an attacker, for a king that is on the
e-file whenever its castle flag is up (the flag is raised only by the constructors
`whiteKing(4, 0)` and `blackKing(4, 7)` and every `moveTo` lowers it). -/
theorem C6_castling_refused (b : chessBoardClass) (king : PieceRef) (destC destR sqC : Int)
    (hk : king.type = KING)
    (hhome : (deref b king).canCastle = true → (deref b king).column = 4)
    (htwo : (destC - (deref b king).column).natAbs = 2 ∧ destR = (deref b king).row)
    (hsq : ((deref b king).column < sqC ∧ sqC ≤ destC)
      ∨ (destC ≤ sqC ∧ sqC < (deref b king).column))
    (hbad : getSquareContents b sqC (deref b king).row ≠ none
      ∨ getAttackers b sqC (deref b king).row ≠ []) :
    movementLogic b king destC destR = false := by
  by_contra hne
  have hacc : movementLogic b king destC destR = true := by
    simpa using hne
  obtain ⟨hvalid, _, _, _, _, hcastle, _⟩ := (movementLogic_eq_true b king destC destR).mp hacc
  rw [hk] at hvalid
  obtain ⟨_, hflag⟩ := king_two_columns _ _ _ _ hvalid htwo.1 htwo.2
  have hcol := hhome hflag
  rw [hcol] at htwo hsq
  unfold castlingRefused at hcastle
  have habs : ((deref b king).column - destC).natAbs = 2 := by
    rw [hcol]
    omega
  simp only [hk, habs, and_self, if_true] at hcastle
  rw [hcol] at hcastle
  have hmem : (sqC, (deref b king).row) ∈
      (if destC < 4 then between 4 (deref b king).row (-1) 0 3
       else between 4 (deref b king).row 1 0 2) := by
    split_ifs with hlt
    · rw [mem_between]
      refine ⟨(4 - sqC).toNat, by omega, by omega, ?_⟩
      have : (((4 - sqC).toNat : Nat) : Int) = 4 - sqC := by omega
      rw [this]
      simp
    · rw [mem_between]
      refine ⟨(sqC - 4).toNat, by omega, by omega, ?_⟩
      have : (((sqC - 4).toNat : Nat) : Int) = sqC - 4 := by omega
      rw [this]
      simp
  have h3 : ((4 : Int) - 1).toNat = 3 := by decide
  have h2 : ((7 : Int) - 4 - 1).toNat = 2 := by decide
  rw [h3, h2] at hcastle
  by_cases hempty : allEmpty b (if destC < 4 then between 4 (deref b king).row (-1) 0 3
      else between 4 (deref b king).row 1 0 2) = true
  · by_cases hatt : (if destC < 4 then between 4 (deref b king).row (-1) 0 3
        else between 4 (deref b king).row 1 0 2).any
          (fun sq => decide ((getAttackers b sq.1 sq.2).length > 0)) = true
    · simp only [hempty, hatt, Bool.not_true, Bool.false_eq_true, if_false, if_true,
        reduceCtorEq] at hcastle
    · rcases hbad with hocc | hattacked
      · have := (List.all_eq_true.mp hempty) _ hmem
        simp only [decide_eq_true_eq] at this
        exact hocc this
      · apply hatt
        rw [List.any_eq_true]
        refine ⟨_, hmem, ?_⟩
        simp only [gt_iff_lt, decide_eq_true_eq]
        exact List.length_pos.mpr hattacked
  · simp only [hempty, Bool.not_false, if_true, reduceCtorEq] at hcastle

set_option maxRecDepth 100000 in
/-- Witness for C6: after 1. g3 b6 2. Bg2 Ba6 3. Nf3 Nf6 4. e4 Ng8 the square f1 is
attacked by the bishop on a6, and e1-g1 is rejected. -/
theorem C6_castling_refused_witness :
    getAttackers (boardAfter attackedTransitGame) 5 0 ≠ []
      ∧ movementLogic (boardAfter attackedTransitGame) (kingRef WHITE) 6 0 = false :=
  have h : getAttackers (boardAfter attackedTransitGame) 5 0 ≠ []
      ∧ ((deref (boardAfter attackedTransitGame) (kingRef WHITE)).canCastle = true →
          (deref (boardAfter attackedTransitGame) (kingRef WHITE)).column = 4)
      ∧ (((6 : Int) - (deref (boardAfter attackedTransitGame) (kingRef WHITE)).column).natAbs = 2
          ∧ (0 : Int) = (deref (boardAfter attackedTransitGame) (kingRef WHITE)).row)
      ∧ (((deref (boardAfter attackedTransitGame) (kingRef WHITE)).column < 5 ∧ (5 : Int) ≤ 6)
          ∨ ((6 : Int) ≤ 5 ∧ 5 < (deref (boardAfter attackedTransitGame) (kingRef WHITE)).column))
      ∧ getAttackers (boardAfter attackedTransitGame) 5
          (deref (boardAfter attackedTransitGame) (kingRef WHITE)).row ≠ [] := by
    decide!
  ⟨h.1,
    C6_castling_refused (boardAfter attackedTransitGame) (kingRef WHITE) 6 0 5 rfl
      h.2.1 h.2.2.1 h.2.2.2.1 (Or.inr h.2.2.2.2)⟩

/-! ## Directional scans -/

theorem findSome_range'_eq {β : Type} (f : Nat → Option β) (n s i : Nat) (y : β)
    (hs : s ≤ i) (hi : i < s + n) (hnone : ∀ j, s ≤ j → j < i → f j = none)
    (hsome : f i = some y) : (List.range' s n).findSome? f = some y := by
  induction n generalizing s with
  | zero => omega
  | succ n ih =>
    rw [List.range'_succ, List.findSome?_cons]
    by_cases hsi : s = i
    · subst hsi
      rw [hsome]
    · rw [hnone s (le_refl s) (by omega)]
      exact ih (s + 1) (by omega) (by omega) (fun j h1 h2 => hnone j (by omega) h2)

theorem getSquareContents_inBounds (b : chessBoardClass) (c r : Int) (p : PieceRef)
    (h : getSquareContents b c r = some p) : 0 ≤ c ∧ c ≤ 7 ∧ 0 ≤ r ∧ r ≤ 7 := by
  unfold getSquareContents at h
  split_ifs at h with h1
  omega

/-- A square on the board that is `n ≥ 1` steps away is visited by the directional loop. -/
theorem le_rayLen (d : PIN_DIR) (c r : Int) (n : Nat)
    (hb : 0 ≤ (stepFrom d c r n).1 ∧ (stepFrom d c r n).1 ≤ 7
      ∧ 0 ≤ (stepFrom d c r n).2 ∧ (stepFrom d c r n).2 ≤ 7) : n ≤ rayLen d c r := by
  cases d <;> simp only [stepFrom, dirStep, rayLen] at hb ⊢ <;> omega

theorem firstOccupant_eq (b : chessBoardClass) (d : PIN_DIR) (c r : Int) (i : Nat) (p : PieceRef)
    (hi : 1 ≤ i)
    (hgap : ∀ j, 1 ≤ j → j < i →
      getSquareContents b (stepFrom d c r j).1 (stepFrom d c r j).2 = none)
    (hp : getSquareContents b (stepFrom d c r i).1 (stepFrom d c r i).2 = some p) :
    firstOccupant b d c r = some (stepFrom d c r i, p) := by
  unfold firstOccupant ray
  rw [List.findSome?_map]
  have hle := le_rayLen d c r i (getSquareContents_inBounds _ _ _ _ hp)
  apply findSome_range'_eq _ _ 1 i _ hi (by omega)
  · intro j h1 h2
    simp [hgap j h1 h2]
  · simp [hp]

theorem firstOccupant_some (b : chessBoardClass) (d : PIN_DIR) (c r : Int)
    (sq : Int × Int) (p : PieceRef) (h : firstOccupant b d c r = some (sq, p)) :
    ∃ i : Nat, 1 ≤ i ∧ sq = stepFrom d c r i ∧ getSquareContents b sq.1 sq.2 = some p := by
  unfold firstOccupant ray at h
  rw [List.findSome?_map] at h
  obtain ⟨i, hi, hfi⟩ := List.exists_of_findSome?_eq_some h
  rw [List.mem_range'_1] at hi
  simp only [Function.comp_apply, Option.map_eq_some', Prod.mk.injEq] at hfi
  obtain ⟨q, hq, hsq, hqp⟩ := hfi
  subst hsq
  subst hqp
  exact ⟨i, hi.1, rfl, hq⟩

/-- Two squares reached from one origin in two directions coincide only if the
directions do. -/
theorem stepFrom_inj_dir (d1 d2 : PIN_DIR) (c r : Int) (i j : Nat) (hi : 1 ≤ i) (hj : 1 ≤ j)
    (h : stepFrom d1 c r i = stepFrom d2 c r j) : d1 = d2 ∧ i = j := by
  cases d1 <;> cases d2 <;>
    simp only [stepFrom, dirStep, Prod.mk.injEq] at h <;>
    first
      | (constructor
         · rfl
         · omega)
      | (exfalso; omega)

theorem mem_allSquares (c r : Int) :
    (c, r) ∈ allSquares ↔ 0 ≤ c ∧ c ≤ 7 ∧ 0 ≤ r ∧ r ≤ 7 := by
  simp only [allSquares, List.mem_flatMap, List.mem_map, List.mem_range, Prod.mk.injEq]
  constructor
  · rintro ⟨a, ha, a1, ha1, rfl, rfl⟩
    omega
  · intro h
    exact ⟨c.toNat, by omega, r.toNat, by omega, by omega, by omega⟩

/-- What `tableSound` says, square by square. -/
theorem tableSound_iff (b : chessBoardClass) : tableSound b = true ↔ Sound b := by
  unfold tableSound Sound
  rw [List.all_eq_true]
  constructor
  · intro h c r p hp
    have hb := getSquareContents_inBounds b c r p hp
    have := h (c, r) ((mem_allSquares c r).mpr hb)
    simp only [hp, decide_eq_true_eq] at this
    exact this
  · intro h sq _
    cases hp : getSquareContents b sq.1 sq.2 with
    | none => rfl
    | some p =>
      simp only [decide_eq_true_eq]
      exact h _ _ _ hp

theorem find?_eq_some_of_unique {α : Type} (l : List α) (p : α → Bool) (y : α)
    (hy : y ∈ l) (hpy : p y = true) (huniq : ∀ z ∈ l, p z = true → z = y) :
    l.find? p = some y := by
  cases h : l.find? p with
  | none =>
    rw [List.find?_eq_none] at h
    exact absurd hpy (h y hy)
  | some z =>
    rw [huniq z (List.mem_of_find?_eq_some h) (List.find?_some h)]

theorem stepFrom_add (d : PIN_DIR) (c r : Int) (i j : Nat) :
    stepFrom d (stepFrom d c r i).1 (stepFrom d c r i).2 j = stepFrom d c r (i + j) := by
  cases d <;> simp only [stepFrom, dirStep, Prod.mk.injEq] <;> constructor <;> push_cast <;> ring

theorem firstOccupant_congr (b1 b2 : chessBoardClass) (d : PIN_DIR) (c r : Int)
    (h : ∀ c1 r1, getSquareContents b1 c1 r1 = getSquareContents b2 c1 r1) :
    firstOccupant b1 d c r = firstOccupant b2 d c r := by
  unfold firstOccupant
  simp only [h]

theorem mem_allDirs (d : PIN_DIR) : d ∈ allDirs := by
  cases d <;> simp [allDirs]

/-- The entry `movementLogic` finds in a freshly computed `pinVector` for a piece that
is the first occupant of direction `d` from its king, with an enemy slider of the
matching kind as the next occupant. -/
theorem find_pin (b : chessBoardClass) (king P Q : PieceRef) (d : PIN_DIR) (i k : Nat)
    (hsound : tableSound b = true)
    (hi : 1 ≤ i) (hik : i < k)
    (hP : getSquareContents b (stepFrom d (deref b king).column (deref b king).row i).1
      (stepFrom d (deref b king).column (deref b king).row i).2 = some P)
    (hPc : P.color = king.color)
    (hgap1 : ∀ j, 1 ≤ j → j < i →
      getSquareContents b (stepFrom d (deref b king).column (deref b king).row j).1
        (stepFrom d (deref b king).column (deref b king).row j).2 = none)
    (hQ : getSquareContents b (stepFrom d (deref b king).column (deref b king).row k).1
      (stepFrom d (deref b king).column (deref b king).row k).2 = some Q)
    (hQc : Q.color ≠ king.color)
    (hQt : if isOrthogonal d then Q.type = ROOK ∨ Q.type = QUEEN
      else Q.type = BISHOP ∨ Q.type = QUEEN)
    (hgap2 : ∀ j, i < j → j < k →
      getSquareContents b (stepFrom d (deref b king).column (deref b king).row j).1
        (stepFrom d (deref b king).column (deref b king).row j).2 = none) :
    (scanForPins b king).1.find? (fun e => e.1.1 = P) = some ((P, Q), d) := by
  have hs := (tableSound_iff b).mp hsound
  have hfirst := firstOccupant_eq b d _ _ i P hi hgap1 hP
  have hPpos := hs _ _ _ hP
  have hdef : (P, d) ∈ defendersOf b king := by
    unfold defendersOf
    rw [List.mem_filterMap]
    exact ⟨d, mem_allDirs d, by simp [hfirst, hPc]⟩
  have hsecond : firstOccupant b d (deref b P).column (deref b P).row
      = some (stepFrom d (deref b king).column (deref b king).row k, Q) := by
    rw [hPpos.2.1, hPpos.2.2]
    have hk : k = i + (k - i) := by omega
    have := firstOccupant_eq b d
      (stepFrom d (deref b king).column (deref b king).row i).1
      (stepFrom d (deref b king).column (deref b king).row i).2 (k - i) Q (by omega)
      (by
        intro j h1 h2
        rw [stepFrom_add]
        exact hgap2 (i + j) (by omega) (by omega))
      (by
        rw [stepFrom_add, ← hk]
        exact hQ)
    rw [this, stepFrom_add, ← hk]
  have hpin : pinOf b king.color (P, d) = some ((P, Q), d) := by
    unfold pinOf
    simp only [hsecond]
    cases hd : isOrthogonal d <;> simp [hd] at hQt <;> simp [hQc, hd, hQt]
  have hcongr : ∀ cand, pinOf (scanForDefenders b king).2 king.color cand
      = pinOf b king.color cand := by
    intro cand
    unfold pinOf scanForDefenders
    simp only [deref_withDefenderVector]
    rw [firstOccupant_congr (withDefenderVector b (defendersOf b king)) b _ _ _
      (fun c1 r1 => rfl)]
  have hne : (scanForDefenders b king).1.isEmpty = false := by
    simp only [scanForDefenders]
    cases hl : defendersOf b king with
    | nil => rw [hl] at hdef; exact absurd hdef (List.not_mem_nil _)
    | cons x xs => rfl
  unfold scanForPins
  simp only [hne, Bool.false_eq_true, if_false]
  apply find?_eq_some_of_unique
  · rw [List.mem_filterMap]
    exact ⟨(P, d), hdef, by rw [hcongr]; exact hpin⟩
  · simp
  · intro z hz hzP
    rw [List.mem_filterMap] at hz
    obtain ⟨cand, hcand, hz2⟩ := hz
    rw [hcongr] at hz2
    obtain ⟨P1, d1⟩ := cand
    have hz3 : z.1.1 = P1 ∧ z.2 = d1 := by
      unfold pinOf at hz2
      split at hz2
      · simp at hz2
      · split_ifs at hz2 <;> simp at hz2 <;> subst hz2 <;> exact ⟨rfl, rfl⟩
    simp only [decide_eq_true_eq] at hzP
    have hP1 : P1 = P := hz3.1.symm.trans hzP
    subst hP1
    have hd1 : d1 = d := by
      simp only [scanForDefenders, defendersOf, List.mem_filterMap] at hcand
      obtain ⟨d2, _, hd2⟩ := hcand
      cases hfo : firstOccupant b d2 (deref b king).column (deref b king).row with
      | none => simp [hfo] at hd2
      | some res =>
        obtain ⟨sq, occ⟩ := res
        simp only [hfo] at hd2
        split_ifs at hd2
        simp only [Option.some.injEq, Prod.mk.injEq] at hd2
        obtain ⟨rfl, rfl⟩ := hd2
        obtain ⟨i2, hi2, hsq, hocc⟩ := firstOccupant_some _ _ _ _ _ _ hfo
        have hpos2 := hs _ _ _ hocc
        have heq : stepFrom d2 (deref b king).column (deref b king).row i2
            = stepFrom d (deref b king).column (deref b king).row i := by
          rw [← hsq]
          apply Prod.ext
          · rw [← hpos2.2.1, hPpos.2.1]
          · rw [← hpos2.2.2, hPpos.2.2]
        exact (stepFrom_inj_dir _ _ _ _ _ _ hi2 hi heq).1
    subst hd1
    rw [hpin] at hz2
    exact (Option.some.inj hz2).symm

/-- The shape test of every class but the knights accepts only moves along a row, a
column or a diagonal. -/
theorem validMovement_shape (color : PIECE_COLOR) (type : PIECE_TYPE) (p : chessPiece)
    (c r : Int) (h : validMovement color type p c r = true) (ht : type ≠ KNIGHT) :
    c - p.column = 0 ∨ r - p.row = 0 ∨ (r - p.row).natAbs = (c - p.column).natAbs := by
  cases color <;> cases type <;>
    first
      | exact absurd rfl ht
      | (simp only [validMovement, whitePawn.validMovement, whiteBishop.validMovement,
          whiteRook.validMovement, whiteQueen.validMovement, whiteKing.validMovement,
          blackPawn.validMovement, blackBishop.validMovement, blackRook.validMovement,
          blackQueen.validMovement, blackKing.validMovement] at h
         split_ifs at h <;> simp only [decide_eq_true_eq] at h <;> omega)

theorem tdiv_eq_one_of_shape (dR dC : Int) (hC : dC ≠ 0)
    (hshape : dR = 0 ∨ dR.natAbs = dC.natAbs) (h : Int.tdiv dR dC = 1) : dR = dC := by
  rcases hshape with h0 | habs
  · rw [h0, Int.zero_tdiv] at h
    exact absurd h (by decide)
  · rcases Int.natAbs_eq_natAbs_iff.mp habs with h1 | h1
    · exact h1
    · rw [h1, Int.neg_tdiv, Int.tdiv_self hC] at h
      exact absurd h (by decide)

theorem tdiv_eq_neg_one_of_shape (dR dC : Int) (hC : dC ≠ 0)
    (hshape : dR = 0 ∨ dR.natAbs = dC.natAbs) (h : Int.tdiv dR dC = -1) : dR = -dC := by
  rcases hshape with h0 | habs
  · rw [h0, Int.zero_tdiv] at h
    exact absurd h (by decide)
  · rcases Int.natAbs_eq_natAbs_iff.mp habs with h1 | h1
    · rw [h1, Int.tdiv_self hC] at h
      exact absurd h (by decide)
    · exact h1

theorem pin_slope_pos (X Y : Int) (hX : X ≠ 0) (hY : Y = X) :
    (if X = 0 then false else if ¬ Int.tdiv Y X = 1 then false else true) = true := by
  subst hY
  simp [hX, Int.tdiv_self hX]

theorem pin_slope_neg (X Y : Int) (hX : X ≠ 0) (hY : Y = -X) :
    (if X = 0 then false else if ¬ Int.tdiv Y X = -1 then false else true) = true := by
  subst hY
  simp [hX, Int.neg_tdiv, Int.tdiv_self hX]

theorem onLine_stepFrom (d : PIN_DIR) (c r : Int) (n : Nat) :
    onLine d c r (stepFrom d c r n).1 (stepFrom d c r n).2 = true := by
  cases d <;> simp [onLine, stepFrom, dirStep]

/-- C3. Pin correctness. On a board whose table entries are sound and whose pin
collection is the one `scanForPins` computes for the king of the side to move: let `P`,
a piece of the side to move, be the first occupant of direction `d` from that king and
let the next occupant `Q` behind it be an enemy rook or queen (orthogonal `d`), or an
enemy bishop or queen (diagonal `d`).  Then `movementLogic` rejects every destination of
`P` off the line through the king in direction `d`; every destination on that line other
than the square of `P` passes the pin test unless `P` is a knight; and if `P` is a knight
every destination is rejected. -/
theorem C3_pin_correctness (b : chessBoardClass) (P Q : PieceRef) (d : PIN_DIR) (i k : Nat)
    (hsound : tableSound b = true)
    (hpins : b.pinVector = (scanForPins b (kingRef b.turn)).1)
    (hi : 1 ≤ i) (hik : i < k)
    (hP : getSquareContents b
      (stepFrom d (deref b (kingRef b.turn)).column (deref b (kingRef b.turn)).row i).1
      (stepFrom d (deref b (kingRef b.turn)).column (deref b (kingRef b.turn)).row i).2 = some P)
    (hPc : P.color = b.turn)
    (hgap1 : ∀ j, 1 ≤ j → j < i → getSquareContents b
      (stepFrom d (deref b (kingRef b.turn)).column (deref b (kingRef b.turn)).row j).1
      (stepFrom d (deref b (kingRef b.turn)).column (deref b (kingRef b.turn)).row j).2 = none)
    (hQ : getSquareContents b
      (stepFrom d (deref b (kingRef b.turn)).column (deref b (kingRef b.turn)).row k).1
      (stepFrom d (deref b (kingRef b.turn)).column (deref b (kingRef b.turn)).row k).2 = some Q)
    (hQc : Q.color ≠ b.turn)
    (hQt : if isOrthogonal d then Q.type = ROOK ∨ Q.type = QUEEN
      else Q.type = BISHOP ∨ Q.type = QUEEN)
    (hgap2 : ∀ j, i < j → j < k → getSquareContents b
      (stepFrom d (deref b (kingRef b.turn)).column (deref b (kingRef b.turn)).row j).1
      (stepFrom d (deref b (kingRef b.turn)).column (deref b (kingRef b.turn)).row j).2 = none) :
    (∀ destC destR,
        onLine d (deref b (kingRef b.turn)).column (deref b (kingRef b.turn)).row destC destR
          = false →
        movementLogic b P destC destR = false)
    ∧ (∀ destC destR, P.type ≠ KNIGHT →
        onLine d (deref b (kingRef b.turn)).column (deref b (kingRef b.turn)).row destC destR
          = true →
        (destC, destR) ≠ ((deref b P).column, (deref b P).row) →
        pinTest b P destC destR = true)
    ∧ (P.type = KNIGHT → ∀ destC destR, movementLogic b P destC destR = false) := by
  have hfind : b.pinVector.find? (fun e => e.1.1 = P) = some ((P, Q), d) := by
    rw [hpins]
    exact find_pin b (kingRef b.turn) P Q d i k hsound hi hik hP hPc hgap1 hQ hQc hQt hgap2
  have hs := (tableSound_iff b).mp hsound
  have hPpos := hs _ _ _ hP
  have hQpos := hs _ _ _ hQ
  generalize hkc : (deref b (kingRef b.turn)).column = kc at *
  generalize hkr : (deref b (kingRef b.turn)).row = kr at *
  refine ⟨?_, ?_, ?_⟩
  · intro destC destR hoff
    by_contra hne
    have hacc : movementLogic b P destC destR = true := by simpa using hne
    obtain ⟨hvalid, _, _, _, _, _, _, _, hpin⟩ :=
      (movementLogic_eq_true b P destC destR).mp hacc
    unfold pinTest at hpin
    rw [hfind] at hpin
    simp only at hpin
    by_cases hkn : P.type = KNIGHT
    · simp [hkn] at hpin
    · have hshape := validMovement_shape _ _ _ _ _ hvalid hkn
      simp only [hkn, if_false] at hpin
      by_cases hcap : getSquareContents b destC destR = some Q
      · have hd := hs _ _ _ hcap
        have h1 : destC = (stepFrom d kc kr k).1 := by rw [← hd.2.1, hQpos.2.1]
        have h2 : destR = (stepFrom d kc kr k).2 := by rw [← hd.2.2, hQpos.2.2]
        rw [h1, h2, onLine_stepFrom] at hoff
        exact absurd hoff (by decide)
      · simp only [hcap, if_false] at hpin
        rw [hPpos.2.1, hPpos.2.2] at hpin hshape
        cases d <;> simp only [onLine, stepFrom, dirStep, decide_eq_false_iff_not] at hoff hpin hshape <;>
          simp only [reduceCtorEq, or_self, or_false, false_or, or_true, true_or, true_and, false_and,
            if_false, if_true] at hpin
        · split_ifs at hpin; omega
        · split_ifs at hpin with h1 h2
          have := tdiv_eq_one_of_shape _ _ h1 (by omega) (not_not.mp h2)
          omega
        · split_ifs at hpin; omega
        · split_ifs at hpin with h1 h2
          have := tdiv_eq_neg_one_of_shape _ _ h1 (by omega) (not_not.mp h2)
          omega
        · split_ifs at hpin; omega
        · split_ifs at hpin with h1 h2
          have := tdiv_eq_one_of_shape _ _ h1 (by omega) (not_not.mp h2)
          omega
        · split_ifs at hpin; omega
        · split_ifs at hpin with h1 h2
          have := tdiv_eq_neg_one_of_shape _ _ h1 (by omega) (not_not.mp h2)
          omega
  · intro destC destR hkn hon hne
    unfold pinTest
    rw [hfind]
    simp only [hkn, if_false]
    by_cases hcap : getSquareContents b destC destR = some Q
    · simp [hcap]
    · simp only [hcap, if_false]
      rw [hPpos.2.1, hPpos.2.2] at hne ⊢
      cases d <;> simp only [onLine, stepFrom, dirStep, decide_eq_true_eq, ne_eq,
          Prod.mk.injEq, not_and] at hon hne ⊢ <;>
        simp only [reduceCtorEq, or_self, or_false, false_or, or_true, true_or, true_and,
          false_and, if_false, if_true]
      · rw [if_pos (by omega)]
      · have hC : destC - (kc + ↑i * 1) ≠ 0 := by omega
        have hR : destR - (kr + ↑i * 1) = destC - (kc + ↑i * 1) := by omega
        exact pin_slope_pos _ _ hC hR
      · rw [if_pos (by omega)]
      · have hC : destC - (kc + ↑i * -1) ≠ 0 := by omega
        have hR : destR - (kr + ↑i * 1) = -(destC - (kc + ↑i * -1)) := by omega
        exact pin_slope_neg _ _ hC hR
      · rw [if_pos (by omega)]
      · have hC : destC - (kc + ↑i * -1) ≠ 0 := by omega
        have hR : destR - (kr + ↑i * -1) = destC - (kc + ↑i * -1) := by omega
        exact pin_slope_pos _ _ hC hR
      · rw [if_pos (by omega)]
      · have hC : destC - (kc + ↑i * 1) ≠ 0 := by omega
        have hR : destR - (kr + ↑i * -1) = -(destC - (kc + ↑i * 1)) := by omega
        exact pin_slope_neg _ _ hC hR
  · intro hkn destC destR
    by_contra hne
    have hacc : movementLogic b P destC destR = true := by simpa using hne
    have hpin := ((movementLogic_eq_true b P destC destR).mp hacc).2.2.2.2.2.2.2.2
    unfold pinTest at hpin
    rw [hfind] at hpin
    simp [hkn] at hpin

set_option maxRecDepth 100000 in
/-- Witness for C3: after 1. e4 d5 2. Bb5+ Nc6 3. a3 the knight on c6 is the first
occupant down-left of the black king and the bishop on b5 the next one; the table is
sound, the pin collection is fresh, and every move of the knight is rejected. -/
theorem C3_pin_correctness_witness :
    tableSound (boardAfter pinnedKnightGame) = true
      ∧ getSquareContents (boardAfter pinnedKnightGame) 2 5 = some ⟨BLACK, KNIGHT, 0⟩
      ∧ getSquareContents (boardAfter pinnedKnightGame) 1 4 = some ⟨WHITE, BISHOP, 1⟩
      ∧ ∀ destC destR,
          movementLogic (boardAfter pinnedKnightGame) ⟨BLACK, KNIGHT, 0⟩ destC destR = false :=
  have h : tableSound (boardAfter pinnedKnightGame) = true
      ∧ getSquareContents (boardAfter pinnedKnightGame) 2 5 = some ⟨BLACK, KNIGHT, 0⟩
      ∧ getSquareContents (boardAfter pinnedKnightGame) 1 4 = some ⟨WHITE, BISHOP, 1⟩
      ∧ (boardAfter pinnedKnightGame).pinVector
          = (scanForPins (boardAfter pinnedKnightGame)
              (kingRef (boardAfter pinnedKnightGame).turn)).1
      ∧ getSquareContents (boardAfter pinnedKnightGame)
          (stepFrom DOWN_LEFT
            (deref (boardAfter pinnedKnightGame)
              (kingRef (boardAfter pinnedKnightGame).turn)).column
            (deref (boardAfter pinnedKnightGame)
              (kingRef (boardAfter pinnedKnightGame).turn)).row 2).1
          (stepFrom DOWN_LEFT
            (deref (boardAfter pinnedKnightGame)
              (kingRef (boardAfter pinnedKnightGame).turn)).column
            (deref (boardAfter pinnedKnightGame)
              (kingRef (boardAfter pinnedKnightGame).turn)).row 2).2
          = some ⟨BLACK, KNIGHT, 0⟩
      ∧ (⟨BLACK, KNIGHT, 0⟩ : PieceRef).color = (boardAfter pinnedKnightGame).turn
      ∧ getSquareContents (boardAfter pinnedKnightGame)
          (stepFrom DOWN_LEFT
            (deref (boardAfter pinnedKnightGame)
              (kingRef (boardAfter pinnedKnightGame).turn)).column
            (deref (boardAfter pinnedKnightGame)
              (kingRef (boardAfter pinnedKnightGame).turn)).row 1).1
          (stepFrom DOWN_LEFT
            (deref (boardAfter pinnedKnightGame)
              (kingRef (boardAfter pinnedKnightGame).turn)).column
            (deref (boardAfter pinnedKnightGame)
              (kingRef (boardAfter pinnedKnightGame).turn)).row 1).2
          = none
      ∧ getSquareContents (boardAfter pinnedKnightGame)
          (stepFrom DOWN_LEFT
            (deref (boardAfter pinnedKnightGame)
              (kingRef (boardAfter pinnedKnightGame).turn)).column
            (deref (boardAfter pinnedKnightGame)
              (kingRef (boardAfter pinnedKnightGame).turn)).row 3).1
          (stepFrom DOWN_LEFT
            (deref (boardAfter pinnedKnightGame)
              (kingRef (boardAfter pinnedKnightGame).turn)).column
            (deref (boardAfter pinnedKnightGame)
              (kingRef (boardAfter pinnedKnightGame).turn)).row 3).2
          = some ⟨WHITE, BISHOP, 1⟩
      ∧ (⟨WHITE, BISHOP, 1⟩ : PieceRef).color ≠ (boardAfter pinnedKnightGame).turn := by
    decide!
  ⟨h.1, h.2.1, h.2.2.1,
    (C3_pin_correctness (boardAfter pinnedKnightGame) ⟨BLACK, KNIGHT, 0⟩ ⟨WHITE, BISHOP, 1⟩
      DOWN_LEFT 2 3 h.1 h.2.2.2.1 (by decide) (by decide) h.2.2.2.2.1 h.2.2.2.2.2.1
      (by
        intro j h1 h2
        have hj : j = 1 := by omega
        subst hj
        exact h.2.2.2.2.2.2.1)
      h.2.2.2.2.2.2.2.1 h.2.2.2.2.2.2.2.2 (by decide)
      (by
        intro j h1 h2
        omega)).2.2 rfl⟩

/-! ## Soundness of the lookup table is preserved -/

theorem sound_setSquare_none (b : chessBoardClass) (c r : Int) (h : Sound b) :
    Sound (setSquare b c r none) := by
  intro c1 r1 p hp
  rw [getSquareContents_setSquare] at hp
  split_ifs at hp
  simpa using h c1 r1 p hp

/-- Pointing a square at a piece that records this square keeps the table sound. -/
theorem sound_setSquare_own (b : chessBoardClass) (q : PieceRef) (h : Sound b)
    (hq : q.idx < (pieces b q.color q.type).length) :
    Sound (setSquare b (deref b q).column (deref b q).row (some q)) := by
  intro c1 r1 p hp
  rw [getSquareContents_setSquare] at hp
  split_ifs at hp with h1 h2
  · simp only [Option.some.injEq] at hp
    subst hp
    simp only [pieces_setSquare, deref_setSquare]
    exact ⟨hq, h1.1.symm, h1.2.symm⟩
  · simpa using h c1 r1 p hp

/-- A member call that changes neither `column` nor `row` keeps the table sound. -/
theorem sound_updatePiece_flag (b : chessBoardClass) (q : PieceRef) (f : chessPiece → chessPiece)
    (hf : ∀ x, (f x).column = x.column ∧ (f x).row = x.row) (h : Sound b) :
    Sound (updatePiece b q f) := by
  intro c1 r1 p hp
  rw [getSquareContents_updatePiece] at hp
  have := h c1 r1 p hp
  rw [length_pieces_updatePiece, deref_updatePiece]
  split_ifs with h1
  · rw [(hf _).1, (hf _).2, ← h1.1]
    exact this
  · exact this

theorem sound_restoreKing (b : chessBoardClass) (king : PieceRef) (h : Sound b)
    (hk : king.idx < (pieces b king.color king.type).length) :
    Sound (restoreKing b king) := by
  unfold restoreKing
  have h1 : Sound (liftKing b king) := sound_setSquare_none b _ _ h
  have h2 := sound_setSquare_own (liftKing b king) king h1 (by simpa [liftKing] using hk)
  simpa using h2

/-- The three statements `piece.moveTo(destC, destR); board[destC][destR] = &piece;
board[origC][origR] = NULL;` keep the table sound when `(origC, origR)` is the square
the piece recorded. -/
theorem sound_relocate (b : chessBoardClass) (piece : PieceRef) (destC destR : Int)
    (h : Sound b) (hv : piece.idx < (pieces b piece.color piece.type).length) :
    Sound (setSquare (setSquare (updatePiece b piece (fun p => moveTo piece.type p destC destR))
      destC destR (some piece)) (deref b piece).column (deref b piece).row none) := by
  intro c1 r1 p hp
  rw [getSquareContents_setSquare] at hp
  split_ifs at hp with h1
  rw [getSquareContents_setSquare] at hp
  simp only [pieces_setSquare, deref_setSquare, length_pieces_updatePiece, deref_updatePiece]
  split_ifs at hp with h2 h3
  · simp only [Option.some.injEq] at hp
    subst hp
    simp only [hv, and_self, if_true, true_and]
    cases ht : piece.type <;> simp [moveTo, h2.1, h2.2]
  · rw [getSquareContents_updatePiece] at hp
    have hs := h c1 r1 p hp
    have hne : p ≠ piece := by
      intro he
      subst he
      exact h1 ⟨hs.2.1.symm, hs.2.2.symm⟩
    simp only [hne, false_and, if_false]
    exact hs

theorem moveTo_column (t : PIECE_TYPE) (p : chessPiece) (c r : Int) :
    (moveTo t p c r).column = c := by
  cases t <;> rfl

theorem moveTo_row (t : PIECE_TYPE) (p : chessPiece) (c r : Int) :
    (moveTo t p c r).row = r := by
  cases t <;> rfl

/-- A member call that leaves `column` and `row` of the object as they are keeps the
table sound. -/
theorem sound_updatePiece_at (b : chessBoardClass) (q : PieceRef) (f : chessPiece → chessPiece)
    (hf : (f (deref b q)).column = (deref b q).column ∧ (f (deref b q)).row = (deref b q).row)
    (h : Sound b) : Sound (updatePiece b q f) := by
  intro c1 r1 p hp
  rw [getSquareContents_updatePiece] at hp
  have := h c1 r1 p hp
  rw [length_pieces_updatePiece, deref_updatePiece]
  split_ifs with h1
  · rw [hf.1, hf.2, ← h1.1]
    exact this
  · exact this

/-- Moving a piece that no table entry points at, and pointing its new square at it,
keeps the table sound. -/
theorem sound_place (b : chessBoardClass) (piece : PieceRef) (destC destR : Int)
    (h : Sound b) (hv : piece.idx < (pieces b piece.color piece.type).length)
    (hno : ∀ c r, getSquareContents b c r ≠ some piece) :
    Sound (setSquare (updatePiece b piece (fun p => moveTo piece.type p destC destR))
      destC destR (some piece)) := by
  intro c1 r1 p hp
  rw [getSquareContents_setSquare] at hp
  simp only [pieces_setSquare, deref_setSquare, length_pieces_updatePiece, deref_updatePiece]
  split_ifs at hp with h2 h3
  · simp only [Option.some.injEq] at hp
    subst hp
    simp only [hv, and_self, if_true, true_and]
    rw [moveTo_column, moveTo_row]
    exact ⟨h2.1.symm, h2.2.symm⟩
  · rw [getSquareContents_updatePiece] at hp
    have hs := h c1 r1 p hp
    have hne : p ≠ piece := by
      intro he
      subst he
      exact hno c1 r1 hp
    simp only [hne, false_and, if_false]
    exact hs

theorem no_entry_after_clear (b : chessBoardClass) (piece : PieceRef) (h : Sound b) :
    ∀ c r, getSquareContents (setSquare b (deref b piece).column (deref b piece).row none) c r
      ≠ some piece := by
  intro c r hp
  rw [getSquareContents_setSquare] at hp
  split_ifs at hp with h1
  have := h c r piece hp
  exact h1 ⟨this.2.1.symm, this.2.2.symm⟩

theorem sound_castleMove (b b1 : chessBoardClass) (piece : PieceRef) (destC destR corner rookC : Int)
    (h : Sound b) (hv : piece.idx < (pieces b piece.color piece.type).length)
    (hcorner : corner ≠ (deref b piece).column)
    (hc : castleMove b piece (deref b piece).column (deref b piece).row destC destR corner rookC
      = some b1) :
    Sound b1 ∧ (deref b1 piece).column = destC ∧ (deref b1 piece).row = destR
      ∧ piece.idx < (pieces b1 piece.color piece.type).length := by
  unfold castleMove at hc
  cases hr : getSquareContents b corner (deref b piece).row with
  | none => simp [hr] at hc
  | some rook =>
    simp only [hr, Option.some.injEq] at hc
    have hrs := h _ _ _ hr
    have hne : rook ≠ piece := by
      intro he
      rw [he] at hrs
      exact hcorner hrs.2.1.symm
    have hne2 : piece ≠ rook := fun e => hne e.symm
    -- the two squares are emptied
    have hs1 : Sound (setSquare b (deref b piece).column (deref b piece).row none) :=
      sound_setSquare_none _ _ _ h
    have hno1 := no_entry_after_clear b piece h
    generalize hb1 : setSquare b (deref b piece).column (deref b piece).row none = s1 at *
    have hd1 : ∀ q, deref s1 q = deref b q := by
      intro q
      rw [← hb1, deref_setSquare]
    have hl1 : ∀ c t, pieces s1 c t = pieces b c t := by
      intro c t
      rw [← hb1, pieces_setSquare]
    have hs2 : Sound (setSquare s1 corner (deref b piece).row none) :=
      sound_setSquare_none _ _ _ hs1
    have hno2 : ∀ c r, getSquareContents (setSquare s1 corner (deref b piece).row none) c r
        ≠ some piece := by
      intro c r hp
      rw [getSquareContents_setSquare] at hp
      split_ifs at hp
      exact hno1 c r hp
    have hnoR : ∀ c r, getSquareContents (setSquare s1 corner (deref b piece).row none) c r
        ≠ some rook := by
      have := no_entry_after_clear s1 rook hs1
      rw [hd1, hrs.2.1, hrs.2.2] at this
      exact this
    generalize hb2 : setSquare s1 corner (deref b piece).row none = s2 at *
    have hd2 : ∀ q, deref s2 q = deref b q := by
      intro q
      rw [← hb2, deref_setSquare, hd1]
    have hl2 : ∀ c t, pieces s2 c t = pieces b c t := by
      intro c t
      rw [← hb2, pieces_setSquare, hl1]
    -- the king is moved
    have hs4 := sound_place s2 piece destC destR hs2 (by rw [hl2]; exact hv) hno2
    have hnoR4 : ∀ c r, getSquareContents (setSquare (updatePiece s2 piece
        (fun p => moveTo piece.type p destC destR)) destC destR (some piece)) c r ≠ some rook := by
      intro c r hp
      rw [getSquareContents_setSquare] at hp
      split_ifs at hp with h1 h2
      · simp only [Option.some.injEq] at hp
        exact hne hp.symm
      · rw [getSquareContents_updatePiece] at hp
        exact hnoR c r hp
    generalize hb4 : setSquare (updatePiece s2 piece (fun p => moveTo piece.type p destC destR))
      destC destR (some piece) = s4 at *
    have hl4 : ∀ c t, (pieces s4 c t).length = (pieces b c t).length := by
      intro c t
      rw [← hb4, pieces_setSquare, length_pieces_updatePiece, hl2]
    have hd4 : deref s4 piece = moveTo piece.type (deref b piece) destC destR := by
      rw [← hb4, deref_setSquare, deref_updatePiece, hl2, hd2]
      simp [hv]
    -- the rook is moved
    have hs6 := sound_place s4 rook rookC destR hs4 (by rw [hl4]; exact hrs.1) hnoR4
    rw [hc] at hs6
    refine ⟨hs6, ?_, ?_, ?_⟩
    · rw [← hc, deref_setSquare, deref_updatePiece]
      simp only [hne2, false_and, if_false]
      rw [hd4, moveTo_column]
    · rw [← hc, deref_setSquare, deref_updatePiece]
      simp only [hne2, false_and, if_false]
      rw [hd4, moveTo_row]
    · rw [← hc, pieces_setSquare, length_pieces_updatePiece, hl4]
      exact hv

theorem deref_updatePiece_setCaptured_pos (b : chessBoardClass) (o q : PieceRef) :
    (deref (updatePiece b o (setCaptured true)) q).column = (deref b q).column
      ∧ (deref (updatePiece b o (setCaptured true)) q).row = (deref b q).row := by
  rw [deref_updatePiece]
  split_ifs with h
  · rw [h.1]
    exact ⟨rfl, rfl⟩
  · exact ⟨rfl, rfl⟩

theorem sound_placePiece (b : chessBoardClass) (occupier : Option PieceRef) (piece : PieceRef)
    (origC origR destC destR : Int)
    (h : Sound b) (hv : piece.idx < (pieces b piece.color piece.type).length)
    (hpos : ((deref b piece).column = origC ∧ (deref b piece).row = origR)
      ∨ ((deref b piece).column = destC ∧ (deref b piece).row = destR)) :
    Sound (placePiece b occupier piece origC origR destC destR) := by
  unfold placePiece
  -- the occupier is flagged
  have hcap : ∃ b3, (match occupier with
      | some o => updatePiece b o (setCaptured true)
      | none => b) = b3 ∧ Sound b3
      ∧ piece.idx < (pieces b3 piece.color piece.type).length
      ∧ (deref b3 piece).column = (deref b piece).column
      ∧ (deref b3 piece).row = (deref b piece).row := by
    cases occupier with
    | none => exact ⟨b, rfl, h, hv, rfl, rfl⟩
    | some o =>
      refine ⟨_, rfl, sound_updatePiece_flag b o _ (fun x => ⟨rfl, rfl⟩) h, ?_, ?_, ?_⟩
      · rw [length_pieces_updatePiece]
        exact hv
      · exact (deref_updatePiece_setCaptured_pos b o piece).1
      · exact (deref_updatePiece_setCaptured_pos b o piece).2
  obtain ⟨b3, hb3, hs3, hv3, hc3, hr3⟩ := hcap
  simp only [hb3]
  rcases hpos with ⟨h1, h2⟩ | ⟨h1, h2⟩
  · have := sound_relocate b3 piece destC destR hs3 hv3
    rw [hc3, hr3, h1, h2] at this
    exact this
  · apply sound_setSquare_none
    have hs4 : Sound (updatePiece b3 piece (fun p => moveTo piece.type p destC destR)) := by
      apply sound_updatePiece_at _ _ _ _ hs3
      rw [moveTo_column, moveTo_row, hc3, hr3, h1, h2]
      exact ⟨rfl, rfl⟩
    have hv4 : piece.idx < (pieces (updatePiece b3 piece
        (fun p => moveTo piece.type p destC destR)) piece.color piece.type).length := by
      rw [length_pieces_updatePiece]
      exact hv3
    have := sound_setSquare_own _ piece hs4 hv4
    rw [deref_updatePiece] at this
    simp only [hv3, and_self, if_true] at this
    rw [moveTo_column, moveTo_row] at this
    exact this

theorem deref_append_valid (b : chessBoardClass) (c : PIECE_COLOR) (t : PIECE_TYPE)
    (x : chessPiece) (q : PieceRef) (hq : q.idx < (pieces b q.color q.type).length) :
    deref (setPieces b c t (pieces b c t ++ [x])) q = deref b q := by
  unfold deref
  rw [pieces_setPieces]
  split_ifs with h
  · obtain ⟨rfl, rfl⟩ := h
    simp only [List.getD_eq_getElem?_getD]
    rw [List.getElem?_append_left hq]
  · rfl

theorem sound_append (b : chessBoardClass) (c : PIECE_COLOR) (t : PIECE_TYPE) (x : chessPiece)
    (h : Sound b) : Sound (setPieces b c t (pieces b c t ++ [x])) := by
  intro c1 r1 p hp
  have hp2 : getSquareContents b c1 r1 = some p := by
    simpa [getSquareContents] using hp
  have hs := h c1 r1 p hp2
  rw [deref_append_valid b c t x p hs.1, pieces_setPieces]
  refine ⟨?_, hs.2⟩
  split_ifs with h1
  · obtain ⟨rfl, rfl⟩ := h1
    simp only [List.length_append, List.length_singleton]
    omega
  · exact hs.1

theorem sound_foldl_resync (c : PIECE_COLOR) (t : PIECE_TYPE) (l : List Nat)
    (acc : chessBoardClass) (h : Sound acc)
    (hl : ∀ i ∈ l, i < (pieces acc c t).length) :
    Sound (l.foldl (fun a i =>
      setSquare a (deref a ⟨c, t, i⟩).column (deref a ⟨c, t, i⟩).row (some ⟨c, t, i⟩)) acc) := by
  induction l generalizing acc with
  | nil => exact h
  | cons i l ih =>
    simp only [List.foldl_cons]
    apply ih
    · exact sound_setSquare_own acc ⟨c, t, i⟩ h (hl i (List.mem_cons_self _ _))
    · intro j hj
      rw [pieces_setSquare]
      exact hl j (List.mem_cons_of_mem _ hj)

theorem sound_resync (b : chessBoardClass) (c : PIECE_COLOR) (t : PIECE_TYPE) (h : Sound b) :
    Sound (resync b c t) := by
  unfold resync
  apply sound_foldl_resync c t _ b h
  intro i hi
  exact List.mem_range.mp hi

theorem sound_pawnPromotion (b : chessBoardClass) (pawn : PieceRef) (choice : PromotionChoice)
    (h : Sound b) : Sound (pawnPromotion b pawn choice) := by
  unfold pawnPromotion
  apply sound_resync
  generalize (if b.ownedByAI = true then QUEEN else choice.toType) = type
  have h1 : Sound (setSquare b (deref b pawn).column (deref b pawn).row none) :=
    sound_setSquare_none _ _ _ h
  generalize hb1 : setSquare b (deref b pawn).column (deref b pawn).row none = b1 at *
  have h2 := sound_append b1 pawn.color type (newPiece type (deref b pawn).column (deref b pawn).row) h1
  generalize hb2 : setPieces b1 pawn.color type
    (pieces b1 pawn.color type ++ [newPiece type (deref b pawn).column (deref b pawn).row]) = b2 at *
  have hnew : deref b2 ⟨pawn.color, type, (pieces b1 pawn.color type).length⟩
      = newPiece type (deref b pawn).column (deref b pawn).row := by
    rw [← hb2]
    unfold deref
    simp [List.getD_eq_getElem?_getD]
  have hvalid : (pieces b1 pawn.color type).length < (pieces b2 pawn.color type).length := by
    rw [← hb2]
    simp
  have := sound_setSquare_own b2 ⟨pawn.color, type, (pieces b1 pawn.color type).length⟩ h2 hvalid
  rw [hnew] at this
  exact this

theorem sound_promoteOnLastRow (b : chessBoardClass) (piece : PieceRef) (destR : Int)
    (forceMove : Bool) (choice : PromotionChoice) (h : Sound b) :
    Sound (promoteOnLastRow b piece destR forceMove choice) := by
  unfold promoteOnLastRow
  split_ifs
  · exact sound_pawnPromotion _ _ _ (sound_updatePiece_flag _ _ _ (fun x => ⟨rfl, rfl⟩) h)
  · exact h

theorem deref_afterEnPassant (b : chessBoardClass) (piece : PieceRef) (destC destR : Int)
    (q : PieceRef) : deref (afterEnPassant b piece destC destR) q = deref b q := by
  unfold afterEnPassant
  split_ifs <;> simp

theorem pieces_afterEnPassant (b : chessBoardClass) (piece : PieceRef) (destC destR : Int)
    (c : PIECE_COLOR) (t : PIECE_TYPE) :
    pieces (afterEnPassant b piece destC destR) c t = pieces b c t := by
  unfold afterEnPassant
  split_ifs <;> simp

theorem sound_afterEnPassant (b : chessBoardClass) (piece : PieceRef) (destC destR : Int)
    (h : Sound b) : Sound (afterEnPassant b piece destC destR) := by
  unfold afterEnPassant
  split_ifs
  · exact sound_setSquare_none _ _ _ h
  · exact h

theorem sound_performMove (b b1 : chessBoardClass) (piece : PieceRef) (destC destR : Int)
    (forceMove : Bool) (choice : PromotionChoice)
    (h : Sound b) (hv : piece.idx < (pieces b piece.color piece.type).length)
    (hdc : 0 ≤ destC ∧ destC ≤ 7)
    (hp : performMove b piece destC destR forceMove choice = some b1) : Sound b1 := by
  unfold performMove at hp
  simp only [Option.map_eq_some'] at hp
  obtain ⟨b2, hcastle, hrest⟩ := hp
  rw [← hrest]
  apply sound_promoteOnLastRow
  have hs0 := sound_afterEnPassant b piece destC destR h
  have hd0 := deref_afterEnPassant b piece destC destR piece
  have hv0 : piece.idx < (pieces (afterEnPassant b piece destC destR)
      piece.color piece.type).length := by
    rw [pieces_afterEnPassant]
    exact hv
  generalize afterEnPassant b piece destC destR = b0 at *
  unfold afterCastle at hcastle
  split_ifs at hcastle with hk hlt
  · rw [← hd0] at hcastle
    obtain ⟨hs2, hc2, hr2, hv2⟩ := sound_castleMove b0 b2 piece destC destR 0 (destC + 1) hs0 hv0
      (by rw [hd0]; omega) hcastle
    exact sound_placePiece _ _ _ _ _ _ _ hs2 hv2 (Or.inr ⟨hc2, hr2⟩)
  · rw [← hd0] at hcastle
    obtain ⟨hs2, hc2, hr2, hv2⟩ := sound_castleMove b0 b2 piece destC destR 7 (destC - 1) hs0 hv0
      (by rw [hd0]; omega) hcastle
    exact sound_placePiece _ _ _ _ _ _ _ hs2 hv2 (Or.inr ⟨hc2, hr2⟩)
  · simp only [Option.some.injEq] at hcastle
    subst hcastle
    exact sound_placePiece _ _ _ _ _ _ _ hs0 hv0 (Or.inl ⟨hd0 ▸ rfl, hd0 ▸ rfl⟩)

/-! ## No piece vector ever shrinks -/

/-- Every piece vector of the second board is at least as long as in the first. -/
def LenLe (b b1 : chessBoardClass) : Prop :=
  ∀ c t, (pieces b c t).length ≤ (pieces b1 c t).length

theorem LenLe.ll_refl (b : chessBoardClass) : LenLe b b := fun _ _ => le_refl _

theorem LenLe.ll_trans {b b1 b2 : chessBoardClass} (h1 : LenLe b b1) (h2 : LenLe b1 b2) :
    LenLe b b2 := fun c t => le_trans (h1 c t) (h2 c t)

theorem lenLe_setSquare (b : chessBoardClass) (c r : Int) (v : Option PieceRef) :
    LenLe b (setSquare b c r v) := fun c1 t1 => by simp

theorem lenLe_updatePiece (b : chessBoardClass) (p : PieceRef) (f : chessPiece → chessPiece) :
    LenLe b (updatePiece b p f) := fun c1 t1 => by rw [length_pieces_updatePiece]

theorem lenLe_foldl_setSquare (f : chessBoardClass → Nat → Int × Int × Option PieceRef)
    (l : List Nat) (acc : chessBoardClass) :
    LenLe acc (l.foldl (fun a i => setSquare a (f a i).1 (f a i).2.1 (f a i).2.2) acc) := by
  induction l generalizing acc with
  | nil => exact LenLe.ll_refl acc
  | cons i l ih => exact (lenLe_setSquare acc _ _ _).ll_trans (ih _)

theorem lenLe_pawnPromotion (b : chessBoardClass) (pawn : PieceRef) (choice : PromotionChoice) :
    LenLe b (pawnPromotion b pawn choice) := by
  unfold pawnPromotion resync
  generalize (if b.ownedByAI = true then QUEEN else choice.toType) = type
  refine LenLe.ll_trans ?_ (lenLe_foldl_setSquare
    (fun a i => ((deref a ⟨pawn.color, type, i⟩).column, (deref a ⟨pawn.color, type, i⟩).row,
      some ⟨pawn.color, type, i⟩)) _ _)
  refine LenLe.ll_trans ?_ (lenLe_setSquare _ _ _ _)
  intro c t
  rw [pieces_setPieces]
  split_ifs with h
  · obtain ⟨rfl, rfl⟩ := h
    simp
  · simp

theorem lenLe_performMove (b b1 : chessBoardClass) (piece : PieceRef) (destC destR : Int)
    (forceMove : Bool) (choice : PromotionChoice)
    (hp : performMove b piece destC destR forceMove choice = some b1) : LenLe b b1 := by
  unfold performMove at hp
  simp only [Option.map_eq_some'] at hp
  obtain ⟨b2, hcastle, hrest⟩ := hp
  rw [← hrest]
  have h0 : LenLe b (afterEnPassant b piece destC destR) := by
    intro c t
    rw [pieces_afterEnPassant]
  have h1 : LenLe (afterEnPassant b piece destC destR) b2 := by
    have hcm : ∀ (x x1 : chessBoardClass) (oc orr corner rookC : Int),
        castleMove x piece oc orr destC destR corner rookC = some x1 → LenLe x x1 := by
      intro x x1 oc orr corner rookC hx
      unfold castleMove at hx
      cases hr : getSquareContents x corner orr with
      | none => simp [hr] at hx
      | some rook =>
        simp only [hr, Option.some.injEq] at hx
        subst hx
        exact (((((lenLe_setSquare x _ _ _).ll_trans (lenLe_setSquare _ _ _ _)).ll_trans
          (lenLe_updatePiece _ _ _)).ll_trans (lenLe_setSquare _ _ _ _)).ll_trans
          (lenLe_updatePiece _ _ _)).ll_trans (lenLe_setSquare _ _ _ _)
    unfold afterCastle at hcastle
    split_ifs at hcastle
    · exact hcm _ _ _ _ _ _ hcastle
    · exact hcm _ _ _ _ _ _ hcastle
    · simp only [Option.some.injEq] at hcastle
      rw [hcastle]
      exact LenLe.ll_refl _
  have h2 : LenLe b2 (placePiece b2 (moveOccupier b piece destC destR) piece
      (deref b piece).column (deref b piece).row destC destR) := by
    unfold placePiece
    cases moveOccupier b piece destC destR with
    | none =>
      exact ((lenLe_updatePiece _ _ _).ll_trans (lenLe_setSquare _ _ _ _)).ll_trans
        (lenLe_setSquare _ _ _ _)
    | some o =>
      exact (((lenLe_updatePiece _ _ _).ll_trans (lenLe_updatePiece _ _ _)).ll_trans
        (lenLe_setSquare _ _ _ _)).ll_trans (lenLe_setSquare _ _ _ _)
  have h3 : ∀ x, LenLe x (promoteOnLastRow x piece destR forceMove choice) := by
    intro x
    unfold promoteOnLastRow
    split_ifs
    · exact (lenLe_updatePiece _ _ _).ll_trans (lenLe_pawnPromotion _ _ _)
    · exact LenLe.ll_refl x
  exact ((h0.ll_trans h1).ll_trans h2).ll_trans (h3 _)

theorem sound_swapTurn (b : chessBoardClass) (h : Sound b) : Sound (swapTurn b) := by
  intro c r p hp
  rw [getSquareContents_swapTurn] at hp
  have hs := h c r p hp
  unfold deref
  rw [pieces_swapTurn]
  split_ifs with h1
  · simp only [List.length_map, List.getD_eq_getElem?_getD, List.getElem?_map]
    refine ⟨hs.1, ?_⟩
    have hget : (pieces b p.color p.type)[p.idx]? = some ((pieces b p.color p.type)[p.idx]) :=
      List.getElem?_eq_getElem hs.1
    have hd : deref b p = (pieces b p.color p.type)[p.idx] := by
      simp [deref, List.getD_eq_getElem?_getD, hget]
    rw [hget]
    simp only [Option.map_some', Option.getD_some]
    rw [← hd]
    exact hs.2
  · exact hs

theorem sound_refreshDerived (b : chessBoardClass) (h : Sound b)
    (hk : 0 < (pieces b b.turn KING).length) : Sound (refreshDerived b) := by
  have hr := sound_restoreKing b (kingRef b.turn) h hk
  intro c r p hp
  rw [getSquareContents_refreshDerived] at hp
  have := hr c r p hp
  rw [pieces_refreshDerived, deref_refreshDerived]
  simpa using this

/-- The invariant of the boards built by `init` and successful non-forced moves. -/
theorem inv_move (b b1 : chessBoardClass) (origC origR destC destR : Int)
    (choice : PromotionChoice) (hs : Sound b) (hk : KingsExist b)
    (hm : move b origC origR destC destR false false choice = some (true, b1)) :
    Sound b1 ∧ KingsExist b1 := by
  obtain ⟨piece, bm, hp, _, _, hlogic, hperf, rfl⟩ := move_success _ _ _ _ _ _ _ hm
  have hvalid := ((movementLogic_eq_true b piece destC destR).mp hlogic).1
  have hin : 0 ≤ destC ∧ destC ≤ 7 := by
    have hb : inBounds destC destR = true := by
      by_contra hne
      have hf : inBounds destC destR = false := by simpa using hne
      cases hc : piece.color <;> cases ht : piece.type <;>
        simp [hc, ht, validMovement, whitePawn.validMovement, whiteKnight.validMovement,
          whiteBishop.validMovement, whiteRook.validMovement, whiteQueen.validMovement,
          whiteKing.validMovement, blackPawn.validMovement, blackKnight.validMovement,
          blackBishop.validMovement, blackRook.validMovement, blackQueen.validMovement,
          blackKing.validMovement, hf] at hvalid
    simp only [inBounds, Bool.not_eq_true', Bool.or_eq_false_iff, decide_eq_false_iff_not,
      not_lt] at hb
    omega
  have hsm := sound_performMove b bm piece destC destR false choice hs (hs _ _ _ hp).1 hin hperf
  have hlen := lenLe_performMove b bm piece destC destR false choice hperf
  have hkm : KingsExist (swapTurn bm) := by
    intro color
    rw [pieces_swapTurn]
    simp only [reduceCtorEq, and_false, if_false]
    exact lt_of_lt_of_le (hk color) (hlen color KING)
  refine ⟨sound_refreshDerived _ (sound_swapTurn bm hsm) (hkm _), ?_⟩
  intro color
  rw [pieces_refreshDerived]
  exact hkm color

theorem sound_init (b0 : chessBoardClass) : Sound (init b0) := by
  intro c r p hp
  have hb := getSquareContents_inBounds _ _ _ _ hp
  have hc : c = 0 ∨ c = 1 ∨ c = 2 ∨ c = 3 ∨ c = 4 ∨ c = 5 ∨ c = 6 ∨ c = 7 := by omega
  have hr : r = 0 ∨ r = 1 ∨ r = 2 ∨ r = 3 ∨ r = 4 ∨ r = 5 ∨ r = 6 ∨ r = 7 := by omega
  rcases hc with rfl | rfl | rfl | rfl | rfl | rfl | rfl | rfl <;>
    rcases hr with rfl | rfl | rfl | rfl | rfl | rfl | rfl | rfl <;>
    simp [getSquareContents, init] at hp <;> subst hp <;>
    exact ⟨by simp [init, pieces], rfl, rfl⟩

theorem kingsExist_init (b0 : chessBoardClass) : KingsExist (init b0) := by
  intro color
  cases color <;> simp [init, pieces]

theorem inv_reachable (b : chessBoardClass) (h : Reachable b) : Sound b ∧ KingsExist b := by
  induction h with
  | init b0 => exact ⟨sound_init b0, kingsExist_init b0⟩
  | step b b1 origC origR destC destR choice _ hm ih => exact inv_move _ _ _ _ _ _ _ ih.1 ih.2 hm

/-! ## En-passant flags through a move -/

theorem pieces_foldl_setSquare (f : chessBoardClass → Nat → Int × Int × Option PieceRef)
    (l : List Nat) (acc : chessBoardClass) (c : PIECE_COLOR) (t : PIECE_TYPE) :
    pieces (l.foldl (fun a i => setSquare a (f a i).1 (f a i).2.1 (f a i).2.2) acc) c t
      = pieces acc c t := by
  induction l generalizing acc with
  | nil => rfl
  | cons i l ih =>
    simp only [List.foldl_cons]
    rw [ih, pieces_setSquare]

theorem pieces_resync (b : chessBoardClass) (c : PIECE_COLOR) (t : PIECE_TYPE)
    (c1 : PIECE_COLOR) (t1 : PIECE_TYPE) : pieces (resync b c t) c1 t1 = pieces b c1 t1 :=
  pieces_foldl_setSquare
    (fun a i => ((deref a ⟨c, t, i⟩).column, (deref a ⟨c, t, i⟩).row, some ⟨c, t, i⟩)) _ b c1 t1

/-- `pawnPromotion` leaves the pawn vectors as they are. -/
theorem pieces_pawnPromotion_pawn (b : chessBoardClass) (pawn : PieceRef)
    (choice : PromotionChoice) (c : PIECE_COLOR) :
    pieces (pawnPromotion b pawn choice) c PAWN = pieces b c PAWN := by
  unfold pawnPromotion
  rw [pieces_resync, pieces_setSquare, pieces_setPieces, pieces_setSquare]
  have ht : (if b.ownedByAI = true then QUEEN else choice.toType) ≠ PAWN := by
    split_ifs
    · decide
    · cases choice <;> decide
  simp [ht]

theorem deref_of_pieces_eq (b b1 : chessBoardClass) (q : PieceRef)
    (h : pieces b1 q.color q.type = pieces b q.color q.type) : deref b1 q = deref b q := by
  unfold deref
  rw [h]

theorem deref_promoteOnLastRow_pawn (b : chessBoardClass) (piece : PieceRef) (destR : Int)
    (forceMove : Bool) (choice : PromotionChoice) (q : PieceRef) (hq : q.type = PAWN) :
    (deref (promoteOnLastRow b piece destR forceMove choice) q).enPassant = (deref b q).enPassant
      ∧ (deref (promoteOnLastRow b piece destR forceMove choice) q).column = (deref b q).column
      ∧ (deref (promoteOnLastRow b piece destR forceMove choice) q).row = (deref b q).row := by
  unfold promoteOnLastRow
  split_ifs
  · rw [deref_of_pieces_eq (updatePiece b piece (setCaptured true)) _ q
      (by rw [hq]; exact pieces_pawnPromotion_pawn _ _ _ _), deref_updatePiece]
    split_ifs with h
    · rw [h.1]
      exact ⟨rfl, rfl, rfl⟩
    · exact ⟨rfl, rfl, rfl⟩
  · exact ⟨rfl, rfl, rfl⟩

/-- The flag, column and row of a pawn after the "vanilla movement case". -/
theorem deref_placePiece_pawn (b : chessBoardClass) (occupier : Option PieceRef)
    (piece : PieceRef) (origC origR destC destR : Int) (q : PieceRef) (hq : q.type = PAWN) :
    (q ≠ piece → (deref (placePiece b occupier piece origC origR destC destR) q).enPassant
        = (deref b q).enPassant)
      ∧ (q = piece → piece.idx < (pieces b piece.color piece.type).length →
          (deref (placePiece b occupier piece origC origR destC destR) q).column = destC
          ∧ (deref (placePiece b occupier piece origC origR destC destR) q).row = destR
          ∧ ((deref (placePiece b occupier piece origC origR destC destR) q).enPassant = true →
              (deref b q).enPassant = true ∨ ((deref b q).row - destR).natAbs = 2)) := by
  unfold placePiece
  have hcap : ∃ b3, (match occupier with
      | some o => updatePiece b o (setCaptured true)
      | none => b) = b3
      ∧ (∀ x, (deref b3 x).enPassant = (deref b x).enPassant ∧ (deref b3 x).row = (deref b x).row)
      ∧ (∀ c t, (pieces b3 c t).length = (pieces b c t).length) := by
    cases occupier with
    | none => exact ⟨b, rfl, fun x => ⟨rfl, rfl⟩, fun c t => rfl⟩
    | some o =>
      refine ⟨_, rfl, ?_, fun c t => length_pieces_updatePiece _ _ _ _ _⟩
      intro x
      rw [deref_updatePiece]
      split_ifs with h
      · rw [h.1]
        exact ⟨rfl, rfl⟩
      · exact ⟨rfl, rfl⟩
  obtain ⟨b3, hb3, hd3, hl3⟩ := hcap
  simp only [hb3, deref_setSquare, deref_updatePiece]
  constructor
  · intro hne
    simp only [hne, false_and, if_false]
    exact (hd3 q).1
  · intro he hv
    subst he
    simp only [hl3, hv, and_self, if_true]
    refine ⟨moveTo_column _ _ _ _, moveTo_row _ _ _ _, ?_⟩
    rw [hq]
    simp only [moveTo]
    intro hflag
    split_ifs at hflag with h2
    · right
      rw [← (hd3 q).2]
      exact h2
    · left
      rw [← (hd3 q).1]
      exact hflag

/-- The castling block leaves the flag of every pawn as it is, when the move stays on
the row of the king. -/
theorem castleMove_pawn_flag (b b1 : chessBoardClass) (piece : PieceRef)
    (destC destR corner rookC : Int) (h : Sound b) (hk : piece.type = KING)
    (hrow : destR = (deref b piece).row)
    (hc : castleMove b piece (deref b piece).column (deref b piece).row destC destR corner rookC
      = some b1) (q : PieceRef) (hq : q.type = PAWN) :
    (deref b1 q).enPassant = (deref b q).enPassant := by
  unfold castleMove at hc
  cases hr : getSquareContents b corner (deref b piece).row with
  | none => simp [hr] at hc
  | some rook =>
    simp only [hr, Option.some.injEq] at hc
    have hrs := h _ _ _ hr
    have hne : q ≠ piece := by
      intro he
      rw [he, hk] at hq
      exact absurd hq (by decide)
    have hd4 : ∀ x, x ≠ piece →
        deref (setSquare (updatePiece (setSquare (setSquare b (deref b piece).column
          (deref b piece).row none) corner (deref b piece).row none) piece
          (fun p => moveTo piece.type p destC destR)) destC destR (some piece)) x = deref b x := by
      intro x hx
      rw [deref_setSquare, deref_updatePiece]
      simp [hx]
    rw [← hc, deref_setSquare, deref_updatePiece]
    split_ifs with h1
    · obtain ⟨he, _⟩ := h1
      subst he
      rw [hd4 q hne, hq]
      simp only [moveTo]
      rw [hrs.2.2, ← hrow]
      simp
    · rw [hd4 q hne]

/-- A pawn whose en-passant flag is up after `performMove` either had it up before, or
is the moved piece and has just advanced two rows to the destination. -/
theorem performMove_pawn_flag (b bm : chessBoardClass) (piece : PieceRef) (destC destR : Int)
    (forceMove : Bool) (choice : PromotionChoice) (hs : Sound b)
    (hv : piece.idx < (pieces b piece.color piece.type).length)
    (hrow : piece.type = KING → ((deref b piece).column - destC).natAbs = 2 →
      destR = (deref b piece).row)
    (hperf : performMove b piece destC destR forceMove choice = some bm)
    (q : PieceRef) (hq : q.type = PAWN) (hflag : (deref bm q).enPassant = true) :
    (deref b q).enPassant = true
      ∨ (q = piece ∧ ((deref b piece).row - destR).natAbs = 2
        ∧ (deref bm q).column = destC ∧ (deref bm q).row = destR) := by
  unfold performMove at hperf
  simp only [Option.map_eq_some'] at hperf
  obtain ⟨b2, hcastle, hrest⟩ := hperf
  rw [← hrest] at hflag ⊢
  obtain ⟨hp1, hp2, hp3⟩ := deref_promoteOnLastRow_pawn
    (placePiece b2 (moveOccupier b piece destC destR) piece (deref b piece).column
      (deref b piece).row destC destR) piece destR forceMove choice q hq
  rw [hp1] at hflag
  rw [hp2, hp3]
  obtain ⟨hne_case, heq_case⟩ := deref_placePiece_pawn b2 (moveOccupier b piece destC destR) piece
    (deref b piece).column (deref b piece).row destC destR q hq
  have hs0 := sound_afterEnPassant b piece destC destR hs
  have hd0 := deref_afterEnPassant b piece destC destR
  have hl0 := pieces_afterEnPassant b piece destC destR
  generalize afterEnPassant b piece destC destR = b0 at *
  unfold afterCastle at hcastle
  split_ifs at hcastle with hk hlt
  · left
    have hne : q ≠ piece := by
      intro he
      rw [he, hk.1] at hq
      exact absurd hq (by decide)
    rw [hne_case hne] at hflag
    rw [← hd0 piece] at hcastle
    rw [castleMove_pawn_flag b0 b2 piece destC destR 0 (destC + 1) hs0 hk.1
      (by rw [hd0]; exact hrow hk.1 hk.2) hcastle q hq, hd0] at hflag
    exact hflag
  · left
    have hne : q ≠ piece := by
      intro he
      rw [he, hk.1] at hq
      exact absurd hq (by decide)
    rw [hne_case hne] at hflag
    rw [← hd0 piece] at hcastle
    rw [castleMove_pawn_flag b0 b2 piece destC destR 7 (destC - 1) hs0 hk.1
      (by rw [hd0]; exact hrow hk.1 hk.2) hcastle q hq, hd0] at hflag
    exact hflag
  · simp only [Option.some.injEq] at hcastle
    subst hcastle
    by_cases he : q = piece
    · obtain ⟨h1, h2, h3⟩ := heq_case he (by rw [hl0]; exact hv)
      rcases h3 hflag with h4 | h4
      · left
        rw [← hd0]
        exact h4
      · right
        rw [hd0, he] at h4
        exact ⟨he, h4, h1, h2⟩
    · left
      rw [hne_case he, hd0] at hflag
      exact hflag

theorem deref_init_enPassant (b0 : chessBoardClass) (q : PieceRef) (hq : q.type = PAWN) :
    (deref (init b0) q).enPassant = false := by
  obtain ⟨c, t, i⟩ := q
  simp only at hq
  subst hq
  cases c <;>
    simp only [deref, init, pieces, List.getD_eq_getElem?_getD, List.getElem?_map] <;>
    cases (List.range 8)[i]? <;> rfl

theorem deref_swapTurn_other (b : chessBoardClass) (q : PieceRef)
    (h : ¬ (q.color = enemyOf b.turn ∧ q.type = PAWN)) : deref (swapTurn b) q = deref b q := by
  unfold deref
  rw [pieces_swapTurn]
  simp [h]

theorem deref_swapTurn_cleared (b : chessBoardClass) (q : PieceRef)
    (h : q.color = enemyOf b.turn ∧ q.type = PAWN) :
    (deref (swapTurn b) q).enPassant = false := by
  unfold deref
  rw [pieces_swapTurn]
  simp only [h, and_self, if_true, List.getD_eq_getElem?_getD, List.getElem?_map]
  cases (pieces b (enemyOf b.turn) PAWN)[q.idx]? <;> rfl

/-- In a reachable position no pawn of the side to move has its en-passant flag up. -/
theorem reachable_flags_clear (b : chessBoardClass) (h : Reachable b) (q : PieceRef)
    (hc : q.color = b.turn) (hq : q.type = PAWN) : (deref b q).enPassant = false := by
  cases h with
  | init b0 => exact deref_init_enPassant b0 q hq
  | step b0 _ origC origR destC destR choice _ hm =>
    obtain ⟨piece, bm, _, _, _, _, _, rfl⟩ := move_success _ _ _ _ _ _ _ hm
    rw [deref_refreshDerived]
    rw [turn_refreshDerived, turn_swapTurn] at hc
    exact deref_swapTurn_cleared bm q ⟨hc, hq⟩

/-- What an accepted diagonal pawn move onto an empty square needs: the square beside
the pawn on the destination file holds a pawn whose en-passant flag is up. -/
theorem enPassant_gate (b : chessBoardClass) (P : PieceRef) (destC destR : Int)
    (hPt : P.type = PAWN) (hdiag : destC ≠ (deref b P).column)
    (hempty : getSquareContents b destC destR = none)
    (hacc : movementLogic b P destC destR = true) :
    ∃ Q, getSquareContents b destC (deref b P).row = some Q ∧ Q.type = PAWN
      ∧ (deref b Q).enPassant = true := by
  have hg := ((movementLogic_eq_true b P destC destR).mp hacc).2.2.2.2.1
  unfold enPassantRefused at hg
  have hd : ¬ (deref b P).column = destC := fun e => hdiag e.symm
  simp only [hPt, hd, not_false_eq_true, and_self, if_true, hempty] at hg
  cases hQ : getSquareContents b destC (deref b P).row with
  | none => simp [hQ] at hg
  | some Q =>
    simp only [hQ] at hg
    by_cases hQt : Q.type = PAWN
    · refine ⟨Q, rfl, hQt, ?_⟩
      simpa [hQt] using hg
    · simp [hQt] at hg

theorem color_eq_of_ne_enemy (c d : PIECE_COLOR) (h : c ≠ enemyOf d) : c = d := by
  cases c <;> cases d <;> simp [enemyOf] at h ⊢

theorem color_ne_enemyOf (c : PIECE_COLOR) : c ≠ enemyOf c := by
  cases c <;> simp [enemyOf]

/-- The shape test of a pawn accepts a two-row move only along its column. -/
theorem pawn_two_rows (color : PIECE_COLOR) (p : chessPiece) (c r : Int)
    (h : validMovement color PAWN p c r = true) (h2 : (p.row - r).natAbs = 2) :
    c = p.column := by
  cases color
  · simp only [validMovement, whitePawn.validMovement] at h
    split_ifs at h <;> omega
  · simp only [validMovement, blackPawn.validMovement] at h
    split_ifs at h <;> omega

/-- The shape test of a king accepts a two-column move only along its row. -/
theorem king_two_columns_row (color : PIECE_COLOR) (p : chessPiece) (c r : Int)
    (h : validMovement color KING p c r = true) (h2 : (p.column - c).natAbs = 2) :
    r = p.row := by
  cases color
  · simp only [validMovement, whiteKing.validMovement] at h
    split_ifs at h <;> simp only [decide_eq_true_eq] at h <;> omega
  · simp only [validMovement, blackKing.validMovement] at h
    split_ifs at h <;> simp only [decide_eq_true_eq] at h <;> omega

/-- C9. In a position reached from `init()` by successful non-forced moves, let a pawn
of the side to move be accepted for a diagonal move onto an empty square.  Then the
position is not the one `init()` leaves, and whatever successful half-move led to it,
that half-move was the two-row advance, along the destination file, of the enemy pawn
that now stands beside the mover on that file. -/
theorem C9_enPassant_only_after_double_step (b : chessBoardClass) (hb : Reachable b)
    (P : PieceRef) (pc pr destC destR : Int)
    (hP : getSquareContents b pc pr = some P) (hPt : P.type = PAWN) (hPc : P.color = b.turn)
    (hdiag : destC ≠ pc) (hempty : getSquareContents b destC destR = none)
    (hacc : movementLogic b P destC destR = true) :
    (∀ b00, b ≠ init b00)
      ∧ ∀ (b0 : chessBoardClass) (origC origR dC dR : Int) (choice : PromotionChoice),
          Reachable b0 → move b0 origC origR dC dR false false choice = some (true, b) →
          ∃ Q, getSquareContents b destC pr = some Q ∧ Q.type = PAWN ∧ Q.color ≠ P.color
            ∧ getSquareContents b0 origC origR = some Q
            ∧ origC = destC ∧ dC = destC ∧ dR = pr ∧ (origR - dR).natAbs = 2 := by
  have hsound := (inv_reachable b hb).1
  have hPpos := hsound _ _ _ hP
  obtain ⟨Q, hQ, hQt, hQflag⟩ := enPassant_gate b P destC destR hPt
    (by rw [hPpos.2.1]; exact hdiag) hempty hacc
  rw [hPpos.2.2] at hQ
  have hQpos := hsound _ _ _ hQ
  constructor
  · intro b00 he
    rw [he, deref_init_enPassant b00 Q hQt] at hQflag
    exact absurd hQflag (by decide)
  · intro b0 origC origR dC dR choice hb0 hm
    obtain ⟨X, bm, hX, hXc, _, hlogic, hperf, hbeq⟩ := move_success _ _ _ _ _ _ _ hm
    have hs0 := (inv_reachable b0 hb0).1
    have hXpos := hs0 _ _ _ hX
    have hmeta := sameMeta_performMove _ _ _ _ _ _ _ hperf
    have hturn : b.turn = enemyOf b0.turn := by
      rw [hbeq, turn_refreshDerived, turn_swapTurn, hmeta.1]
    have hQc : Q.color ≠ enemyOf bm.turn := by
      intro he
      have := deref_swapTurn_cleared bm Q ⟨he, hQt⟩
      rw [hbeq, deref_refreshDerived, this] at hQflag
      exact absurd hQflag (by decide)
    have hQd : deref b Q = deref bm Q := by
      rw [hbeq, deref_refreshDerived, deref_swapTurn_other bm Q (fun e => hQc e.1)]
    have hQc0 : Q.color = b0.turn := by
      rw [← hmeta.1]
      exact color_eq_of_ne_enemy _ _ hQc
    have hflag0 := reachable_flags_clear b0 hb0 Q hQc0 hQt
    have hvalid := ((movementLogic_eq_true b0 X dC dR).mp hlogic).1
    rw [hQd] at hQflag hQpos
    rcases performMove_pawn_flag b0 bm X dC dR false choice hs0 hXpos.1
      (by
        intro hk h2
        rw [hk] at hvalid
        exact king_two_columns_row _ _ _ _ hvalid h2)
      hperf Q hQt hQflag with h1 | ⟨h1, h2, h3, h4⟩
    · rw [hflag0] at h1
      exact absurd h1 (by decide)
    · subst h1
      rw [hQt] at hvalid
      have hcol := pawn_two_rows _ _ _ _ hvalid h2
      rw [hXpos.2.2] at h2
      rw [hXpos.2.1] at hcol
      refine ⟨Q, hQ, hQt, ?_, hX, ?_, ?_, ?_, h2⟩
      · rw [hPc, hturn, hQc0]
        exact color_ne_enemyOf _
      · rw [← hcol, ← h3, hQpos.2.1]
      · rw [← h3, hQpos.2.1]
      · rw [← h4, hQpos.2.2]

set_option maxRecDepth 100000 in
/-- Witness for C9: after 1. a4 h6 2. a5 b5 the move a5xb6 onto the empty square b6 is
accepted, and the half-move that led to the position was the advance b7-b5. -/
theorem C9_enPassant_only_after_double_step_witness :
    movementLogic (boardAfter enPassantGame) ⟨WHITE, PAWN, 0⟩ 1 5 = true
      ∧ ((∀ b00, boardAfter enPassantGame ≠ init b00)
        ∧ ∀ (b0 : chessBoardClass) (origC origR dC dR : Int) (choice : PromotionChoice),
          Reachable b0 →
          move b0 origC origR dC dR false false choice = some (true, boardAfter enPassantGame) →
          ∃ Q, getSquareContents (boardAfter enPassantGame) 1 4 = some Q ∧ Q.type = PAWN
            ∧ Q.color ≠ WHITE
            ∧ getSquareContents b0 origC origR = some Q
            ∧ origC = 1 ∧ dC = 1 ∧ dR = 4 ∧ (origR - dR).natAbs = 2) :=
  have h : movementLogic (boardAfter enPassantGame) ⟨WHITE, PAWN, 0⟩ 1 5 = true
      ∧ (play startBoard enPassantGame).isSome = true
      ∧ getSquareContents (boardAfter enPassantGame) 0 4 = some ⟨WHITE, PAWN, 0⟩
      ∧ (⟨WHITE, PAWN, 0⟩ : PieceRef).color = (boardAfter enPassantGame).turn
      ∧ getSquareContents (boardAfter enPassantGame) 1 5 = none := by
    decide!
  ⟨h.1,
    C9_enPassant_only_after_double_step (boardAfter enPassantGame)
      (boardAfter_reachable enPassantGame h.2.1) ⟨WHITE, PAWN, 0⟩ 0 4 1 5
      h.2.2.1 rfl h.2.2.2.1 (by decide) h.2.2.2.2 h.1⟩

/-! ## Castling and en passant succeed -/

/-- Every pinned piece of a freshly computed pin collection is the occupant of a square
at least one step away from the king. -/
theorem mem_scanForPins (b : chessBoardClass) (king : PieceRef)
    (e : (PieceRef × PieceRef) × PIN_DIR) (he : e ∈ (scanForPins b king).1) :
    ∃ (d : PIN_DIR) (i : Nat), 1 ≤ i
      ∧ getSquareContents b (stepFrom d (deref b king).column (deref b king).row i).1
          (stepFrom d (deref b king).column (deref b king).row i).2 = some e.1.1 := by
  simp only [scanForPins] at he
  split_ifs at he with hemp
  · simp at he
  · rw [List.mem_filterMap] at he
    obtain ⟨cand, hcand, hpin⟩ := he
    have h1 : e.1.1 = cand.1 := by
      unfold pinOf at hpin
      split at hpin
      · simp at hpin
      · split_ifs at hpin <;> simp at hpin <;> subst hpin <;> rfl
    simp only [scanForDefenders, defendersOf, List.mem_filterMap] at hcand
    obtain ⟨d, _, hd⟩ := hcand
    cases hfo : firstOccupant b d (deref b king).column (deref b king).row with
    | none => simp [hfo] at hd
    | some res =>
      obtain ⟨sq, occ⟩ := res
      simp only [hfo] at hd
      split_ifs at hd
      simp only [Option.some.injEq] at hd
      obtain ⟨i, hi, hsq, hocc⟩ := firstOccupant_some _ _ _ _ _ _ hfo
      refine ⟨d, i, hi, ?_⟩
      rw [h1, ← hd, ← hsq]
      exact hocc

theorem stepFrom_ne_origin (d : PIN_DIR) (c r : Int) (i : Nat) (hi : 1 ≤ i) :
    stepFrom d c r i ≠ (c, r) := by
  cases d <;> simp only [stepFrom, dirStep, ne_eq, Prod.mk.injEq, not_and] <;> omega

/-- The king is never the pinned piece of a freshly computed pin collection. -/
theorem king_not_pinned (b : chessBoardClass) (king : PieceRef) (hs : Sound b) :
    (scanForPins b king).1.find? (fun e => e.1.1 = king) = none := by
  rw [List.find?_eq_none]
  intro e he hk
  simp only [decide_eq_true_eq] at hk
  obtain ⟨d, i, hi, hsq⟩ := mem_scanForPins b king e he
  rw [hk] at hsq
  have := hs _ _ _ hsq
  exact stepFrom_ne_origin d _ _ i hi (Prod.ext this.2.1.symm this.2.2.symm)

/-- The king-side castling move passes `movementLogic`. -/
theorem castle_kingside_logic (b : chessBoardClass) (cl : PIECE_COLOR) (rk : PieceRef)
    (hsound : Sound b) (hchk : b.checkVector = [])
    (hpins : b.pinVector = (scanForPins b (kingRef cl)).1)
    (hK : getSquareContents b 4 (homeRow cl) = some (kingRef cl))
    (hKf : (deref b (kingRef cl)).canCastle = true)
    (hR : getSquareContents b 7 (homeRow cl) = some rk)
    (hRok : rk.type = ROOK → (deref b rk).canCastle = true)
    (hf1 : getSquareContents b 5 (homeRow cl) = none)
    (hg1 : getSquareContents b 6 (homeRow cl) = none)
    (haf : getAttackers b 5 (homeRow cl) = []) (hag : getAttackers b 6 (homeRow cl) = []) :
    movementLogic b (kingRef cl) 6 (homeRow cl) = true := by
  have hKpos := hsound _ _ _ hK
  rw [movementLogic_eq_true]
  have hcol : (deref b (kingRef cl)).column = 4 := hKpos.2.1
  have hrow : (deref b (kingRef cl)).row = homeRow cl := hKpos.2.2
  have h1 : ((6 : Int) - 4 - 1).toNat = 1 := by decide
  have h2 : ((7 : Int) - 4 - 1).toNat = 2 := by decide
  refine ⟨?_, ?_, ?_, ?_, ?_, ?_, ?_, ?_, ?_⟩
  · have hK2 := hKf
    revert hcol hrow hK2
    generalize deref b (kingRef cl) = kp
    intro hcol hrow hK2
    cases cl <;>
      simp [kingRef, validMovement, whiteKing.validMovement, blackKing.validMovement, inBounds,
        isMove, hcol, hrow, hK2, homeRow]
  · intro o ho
    rw [hg1] at ho
    exact absurd ho (by simp)
  · intro h
    have := h.2.2
    unfold isPathClear at this
    rw [hcol, hrow] at this
    simp [h1, between, List.range', allEmpty, hf1] at this
  · intro h
    exact absurd h.1 (by simp [kingRef])
  · simp [enPassantRefused, kingRef]
  · unfold castlingRefused
    rw [hcol, hrow]
    simp [kingRef, h2, between, List.range', allEmpty, hf1, hg1, haf, hag, hR]
    intro hro
    exact hRok hro
  · intro h
    rw [hag] at h
    exact absurd h.2 (by simp)
  · simp [checkRefused, hchk]
  · unfold pinTest
    rw [hpins, king_not_pinned b (kingRef cl) hsound]

/-- The lookup table after `swapTurn` and the recomputation: only the square recorded
for the king of the new side to move can differ, and it points at that king. -/
theorem getSquareContents_after_turn (bm : chessBoardClass) (c r : Int) :
    getSquareContents (refreshDerived (swapTurn bm)) c r
      = if c = (deref bm (kingRef (enemyOf bm.turn))).column
            ∧ r = (deref bm (kingRef (enemyOf bm.turn))).row
          then (if c < 0 ∨ c > 7 ∨ r < 0 ∨ r > 7 then none else some (kingRef (enemyOf bm.turn)))
        else getSquareContents bm c r := by
  rw [getSquareContents_refreshDerived, getSquareContents_restoreKing, turn_swapTurn,
    getSquareContents_swapTurn, deref_swapTurn_other bm (kingRef (enemyOf bm.turn))
      (by simp [kingRef])]

/-- A square whose table entry is not disturbed by the recomputation: the king of the
new side to move is recorded elsewhere, or is the entry. -/
theorem getSquareContents_after_turn_of_placed (bm : chessBoardClass) (c r : Int)
    (h : getSquareContents bm (deref bm (kingRef (enemyOf bm.turn))).column
      (deref bm (kingRef (enemyOf bm.turn))).row = some (kingRef (enemyOf bm.turn))) :
    getSquareContents (refreshDerived (swapTurn bm)) c r = getSquareContents bm c r := by
  rw [getSquareContents_after_turn]
  have hb := getSquareContents_inBounds bm _ _ _ h
  split_ifs with h1 h2
  · rw [← h1.1, ← h1.2] at hb
    omega
  · rw [h1.1, h1.2, h]
  · rfl

theorem deref_after_turn (bm : chessBoardClass) (q : PieceRef)
    (h : ¬ (q.color = enemyOf bm.turn ∧ q.type = PAWN)) :
    deref (refreshDerived (swapTurn bm)) q = deref bm q := by
  rw [deref_refreshDerived, deref_swapTurn_other bm q h]

/-- What `performMove` does on the king-side castling move. -/
theorem performMove_castle_kingside (b : chessBoardClass) (cl : PIECE_COLOR) (rk : PieceRef)
    (choice : PromotionChoice) (hsound : Sound b)
    (hK : getSquareContents b 4 (homeRow cl) = some (kingRef cl))
    (hR : getSquareContents b 7 (homeRow cl) = some rk) (hRt : rk.type = ROOK)
    (hg1 : getSquareContents b 6 (homeRow cl) = none) :
    ∃ bm, performMove b (kingRef cl) 6 (homeRow cl) false choice = some bm
      ∧ bm.turn = b.turn
      ∧ (∀ c r, getSquareContents bm c r
          = if c = 6 ∧ r = homeRow cl then some (kingRef cl)
            else if c = 5 ∧ r = homeRow cl then some rk
            else if (c = 4 ∨ c = 7) ∧ r = homeRow cl then none
            else getSquareContents b c r)
      ∧ (∀ q, deref bm q
          = if q = kingRef cl then moveTo KING (moveTo KING (deref b (kingRef cl)) 6 (homeRow cl)) 6 (homeRow cl)
            else if q = rk then moveTo ROOK (deref b rk) 5 (homeRow cl)
            else deref b q) := by
  have hKpos := hsound _ _ _ hK
  have hRpos := hsound _ _ _ hR
  have hhr : 0 ≤ homeRow cl ∧ homeRow cl ≤ 7 := by cases cl <;> simp [homeRow]
  have hne : rk ≠ kingRef cl := by
    intro h
    rw [h] at hRt
    simp [kingRef] at hRt
  unfold performMove
  rw [hKpos.2.1, hKpos.2.2]
  have h1 : afterEnPassant b (kingRef cl) 6 (homeRow cl) = b := by
    simp [afterEnPassant, enPassantCapture, kingRef]
  have h2 : moveOccupier b (kingRef cl) 6 (homeRow cl) = none := by
    simp [moveOccupier, enPassantCapture, kingRef, hg1]
  rw [h1, h2]
  have h3 : afterCastle b (kingRef cl) 4 (homeRow cl) 6 (homeRow cl)
      = castleMove b (kingRef cl) 4 (homeRow cl) 6 (homeRow cl) 7 5 := by
    simp [afterCastle, kingRef]
  rw [h3]
  unfold castleMove
  rw [hR]
  simp only [Option.map_some']
  have h4 : ∀ x, promoteOnLastRow x (kingRef cl) (homeRow cl) false choice = x := by
    intro x
    simp [promoteOnLastRow, kingRef]
  rw [h4]
  refine ⟨_, rfl, ?_, ?_, ?_⟩
  · simp [placePiece]
  · intro c r
    simp only [placePiece, getSquareContents_setSquare, getSquareContents_updatePiece]
    split_ifs <;> first | rfl | omega
  · intro q
    have hkv : (kingRef cl).idx < (pieces b (kingRef cl).color KING).length := hKpos.1
    have hrv : rk.idx < (pieces b rk.color ROOK).length := by
      rw [← hRt]
      exact hRpos.1
    have hkt : (kingRef cl).type = KING := rfl
    simp only [placePiece, deref_setSquare, deref_updatePiece, length_pieces_updatePiece,
      pieces_setSquare, hkv, hrv, and_true, hRt, hkt]
    by_cases hq : q = kingRef cl
    · subst hq
      simp [Ne.symm hne]
    · by_cases hq2 : q = rk
      · subst hq2
        simp [hq, hne]
      · simp [hq, hq2, hne]

/-- C5. Castling succeeds. Let `cl` be the side to move, not in check and not
checkmated, on a board whose table entries are sound and whose pin collection is the one
`scanForPins` computes for its king. If its king stands on the e-file square of its home
row (row 0 for White, row 7 for Black) and the rook on the h-file square of that row are
both castle-eligible, the f- and g-file squares of that row are empty and the attack scan
`getAttackers` finds no enemy piece attacking either, and the enemy king stands on the
square it records, then `move(4, row, 6, row)` returns true; afterwards the king is on the
g-file square, the rook on the f-file square, the e- and h-file squares are empty in the
lookup table, and both castle flags are cleared. -/
theorem C5_castling_succeeds (b : chessBoardClass) (cl : PIECE_COLOR) (rk : PieceRef)
    (choice : PromotionChoice)
    (hsound : tableSound b = true)
    (hturn : b.turn = cl) (hcm : b.checkmate = false) (hchk : b.checkVector = [])
    (hpins : b.pinVector = (scanForPins b (kingRef cl)).1)
    (hK : getSquareContents b 4 (homeRow cl) = some (kingRef cl))
    (hKf : (deref b (kingRef cl)).canCastle = true)
    (hR : getSquareContents b 7 (homeRow cl) = some rk)
    (hRt : rk.type = ROOK) (hRf : (deref b rk).canCastle = true)
    (hf1 : getSquareContents b 5 (homeRow cl) = none)
    (hg1 : getSquareContents b 6 (homeRow cl) = none)
    (haf : getAttackers b 5 (homeRow cl) = []) (hag : getAttackers b 6 (homeRow cl) = [])
    (hEK : getSquareContents b (deref b (kingRef (enemyOf cl))).column
      (deref b (kingRef (enemyOf cl))).row = some (kingRef (enemyOf cl))) :
    ∃ b1, move b 4 (homeRow cl) 6 (homeRow cl) false false choice = some (true, b1)
      ∧ getSquareContents b1 6 (homeRow cl) = some (kingRef cl)
      ∧ (deref b1 (kingRef cl)).column = 6 ∧ (deref b1 (kingRef cl)).row = homeRow cl
      ∧ getSquareContents b1 5 (homeRow cl) = some rk
      ∧ (deref b1 rk).column = 5 ∧ (deref b1 rk).row = homeRow cl
      ∧ getSquareContents b1 4 (homeRow cl) = none
      ∧ getSquareContents b1 7 (homeRow cl) = none
      ∧ (deref b1 (kingRef cl)).canCastle = false
      ∧ (deref b1 rk).canCastle = false := by
  have hs := (tableSound_iff b).mp hsound
  have hlogic := castle_kingside_logic b cl rk hs hchk hpins hK hKf hR (fun _ => hRf)
    hf1 hg1 haf hag
  obtain ⟨bm, hpm, hbt, hbsq, hbd⟩ := performMove_castle_kingside b cl rk choice hs hK hR hRt hg1
  have hne : rk ≠ kingRef cl := by
    intro h
    rw [h] at hRt
    simp [kingRef] at hRt
  have hek1 : kingRef (enemyOf cl) ≠ kingRef cl := by
    cases cl <;> simp [kingRef, enemyOf]
  have hek2 : kingRef (enemyOf cl) ≠ rk := by
    intro h
    rw [← h] at hRt
    simp [kingRef] at hRt
  have hekd : deref bm (kingRef (enemyOf cl)) = deref b (kingRef (enemyOf cl)) := by
    rw [hbd]
    simp [hek1, hek2]
  have hplaced : getSquareContents bm (deref bm (kingRef (enemyOf bm.turn))).column
      (deref bm (kingRef (enemyOf bm.turn))).row = some (kingRef (enemyOf bm.turn)) := by
    rw [hbt, hturn, hekd, hbsq]
    have hb := getSquareContents_inBounds b _ _ _ hEK
    split_ifs with h1 h2 h3
    · rw [h1.1, h1.2, hg1] at hEK
      exact absurd hEK (by simp)
    · rw [h2.1, h2.2, hf1] at hEK
      exact absurd hEK (by simp)
    · rcases h3.1 with h4 | h4
      · rw [h4, h3.2, hK] at hEK
        exact absurd (Option.some.inj hEK).symm hek1
      · rw [h4, h3.2, hR] at hEK
        exact absurd (Option.some.inj hEK) (Ne.symm hek2)
    · exact hEK
  have hmove : move b 4 (homeRow cl) 6 (homeRow cl) false false choice
      = some (true, refreshDerived (swapTurn bm)) := by
    unfold move
    simp [hK, kingRef, hturn, hcm]
    simp only [kingRef] at hlogic hpm
    simp [hlogic, hpm]
  refine ⟨_, hmove, ?_, ?_, ?_, ?_, ?_, ?_, ?_, ?_, ?_, ?_⟩
  · rw [getSquareContents_after_turn_of_placed bm _ _ hplaced, hbsq]
    simp
  · rw [deref_after_turn bm _ (by simp [kingRef]), hbd]
    simp [moveTo]
  · rw [deref_after_turn bm _ (by simp [kingRef]), hbd]
    simp [moveTo]
  · rw [getSquareContents_after_turn_of_placed bm _ _ hplaced, hbsq]
    simp
  · rw [deref_after_turn bm _ (by simp [hRt]), hbd]
    simp [moveTo, hne]
  · rw [deref_after_turn bm _ (by simp [hRt]), hbd]
    simp [moveTo, hne]
  · rw [getSquareContents_after_turn_of_placed bm _ _ hplaced, hbsq]
    simp
  · rw [getSquareContents_after_turn_of_placed bm _ _ hplaced, hbsq]
    simp
  · rw [deref_after_turn bm _ (by simp [kingRef]), hbd]
    simp [moveTo]
  · rw [deref_after_turn bm _ (by simp [hRt]), hbd]
    simp [moveTo, hne]

set_option maxRecDepth 100000 in
/-- Witness for C5: after 1. g3 Nf6 2. Bg2 Ng8 3. Nf3 Nf6 White castles king-side, and
after 1. a3 g6 2. b3 Bg7 3. c3 Nf6 4. d3 Black does. -/
theorem C5_castling_succeeds_witness :
    (∃ b1, move (boardAfter castlingGame) 4 (homeRow WHITE) 6 (homeRow WHITE) false false
        PromotionChoice.queen = some (true, b1)
      ∧ getSquareContents b1 6 (homeRow WHITE) = some (kingRef WHITE)
      ∧ (deref b1 (kingRef WHITE)).column = 6 ∧ (deref b1 (kingRef WHITE)).row = homeRow WHITE
      ∧ getSquareContents b1 5 (homeRow WHITE) = some ⟨WHITE, ROOK, 1⟩
      ∧ (deref b1 ⟨WHITE, ROOK, 1⟩).column = 5 ∧ (deref b1 ⟨WHITE, ROOK, 1⟩).row = homeRow WHITE
      ∧ getSquareContents b1 4 (homeRow WHITE) = none
      ∧ getSquareContents b1 7 (homeRow WHITE) = none
      ∧ (deref b1 (kingRef WHITE)).canCastle = false
      ∧ (deref b1 ⟨WHITE, ROOK, 1⟩).canCastle = false)
    ∧ (∃ b1, move (boardAfter blackCastlingGame) 4 (homeRow BLACK) 6 (homeRow BLACK) false false
        PromotionChoice.queen = some (true, b1)
      ∧ getSquareContents b1 6 (homeRow BLACK) = some (kingRef BLACK)
      ∧ (deref b1 (kingRef BLACK)).column = 6 ∧ (deref b1 (kingRef BLACK)).row = homeRow BLACK
      ∧ getSquareContents b1 5 (homeRow BLACK) = some ⟨BLACK, ROOK, 1⟩
      ∧ (deref b1 ⟨BLACK, ROOK, 1⟩).column = 5 ∧ (deref b1 ⟨BLACK, ROOK, 1⟩).row = homeRow BLACK
      ∧ getSquareContents b1 4 (homeRow BLACK) = none
      ∧ getSquareContents b1 7 (homeRow BLACK) = none
      ∧ (deref b1 (kingRef BLACK)).canCastle = false
      ∧ (deref b1 ⟨BLACK, ROOK, 1⟩).canCastle = false) :=
  have h0 : tableSound (boardAfter castlingGame) = true
      ∧ (boardAfter castlingGame).turn = WHITE
      ∧ (boardAfter castlingGame).checkmate = false
      ∧ (boardAfter castlingGame).checkVector = []
      ∧ (boardAfter castlingGame).pinVector = (scanForPins (boardAfter castlingGame) (kingRef WHITE)).1
      ∧ getSquareContents (boardAfter castlingGame) 4 (homeRow WHITE) = some (kingRef WHITE)
      ∧ (deref (boardAfter castlingGame) (kingRef WHITE)).canCastle = true
      ∧ getSquareContents (boardAfter castlingGame) 7 (homeRow WHITE) = some ⟨WHITE, ROOK, 1⟩
      ∧ (deref (boardAfter castlingGame) ⟨WHITE, ROOK, 1⟩).canCastle = true
      ∧ getSquareContents (boardAfter castlingGame) 5 (homeRow WHITE) = none
      ∧ getSquareContents (boardAfter castlingGame) 6 (homeRow WHITE) = none
      ∧ getAttackers (boardAfter castlingGame) 5 (homeRow WHITE) = []
      ∧ getAttackers (boardAfter castlingGame) 6 (homeRow WHITE) = []
      ∧ getSquareContents (boardAfter castlingGame) (deref (boardAfter castlingGame) (kingRef (enemyOf WHITE))).column
          (deref (boardAfter castlingGame) (kingRef (enemyOf WHITE))).row = some (kingRef (enemyOf WHITE)) := by
    decide!
  have h1 : tableSound (boardAfter blackCastlingGame) = true
      ∧ (boardAfter blackCastlingGame).turn = BLACK
      ∧ (boardAfter blackCastlingGame).checkmate = false
      ∧ (boardAfter blackCastlingGame).checkVector = []
      ∧ (boardAfter blackCastlingGame).pinVector = (scanForPins (boardAfter blackCastlingGame) (kingRef BLACK)).1
      ∧ getSquareContents (boardAfter blackCastlingGame) 4 (homeRow BLACK) = some (kingRef BLACK)
      ∧ (deref (boardAfter blackCastlingGame) (kingRef BLACK)).canCastle = true
      ∧ getSquareContents (boardAfter blackCastlingGame) 7 (homeRow BLACK) = some ⟨BLACK, ROOK, 1⟩
      ∧ (deref (boardAfter blackCastlingGame) ⟨BLACK, ROOK, 1⟩).canCastle = true
      ∧ getSquareContents (boardAfter blackCastlingGame) 5 (homeRow BLACK) = none
      ∧ getSquareContents (boardAfter blackCastlingGame) 6 (homeRow BLACK) = none
      ∧ getAttackers (boardAfter blackCastlingGame) 5 (homeRow BLACK) = []
      ∧ getAttackers (boardAfter blackCastlingGame) 6 (homeRow BLACK) = []
      ∧ getSquareContents (boardAfter blackCastlingGame) (deref (boardAfter blackCastlingGame) (kingRef (enemyOf BLACK))).column
          (deref (boardAfter blackCastlingGame) (kingRef (enemyOf BLACK))).row = some (kingRef (enemyOf BLACK)) := by
    decide!
  ⟨C5_castling_succeeds (boardAfter castlingGame) WHITE ⟨WHITE, ROOK, 1⟩ PromotionChoice.queen
      h0.1 h0.2.1 h0.2.2.1 h0.2.2.2.1 h0.2.2.2.2.1 h0.2.2.2.2.2.1 h0.2.2.2.2.2.2.1
      h0.2.2.2.2.2.2.2.1 rfl h0.2.2.2.2.2.2.2.2.1 h0.2.2.2.2.2.2.2.2.2.1 h0.2.2.2.2.2.2.2.2.2.2.1 h0.2.2.2.2.2.2.2.2.2.2.2.1 h0.2.2.2.2.2.2.2.2.2.2.2.2.1
      h0.2.2.2.2.2.2.2.2.2.2.2.2.2,
    C5_castling_succeeds (boardAfter blackCastlingGame) BLACK ⟨BLACK, ROOK, 1⟩ PromotionChoice.queen
      h1.1 h1.2.1 h1.2.2.1 h1.2.2.2.1 h1.2.2.2.2.1 h1.2.2.2.2.2.1 h1.2.2.2.2.2.2.1
      h1.2.2.2.2.2.2.2.1 rfl h1.2.2.2.2.2.2.2.2.1 h1.2.2.2.2.2.2.2.2.2.1 h1.2.2.2.2.2.2.2.2.2.2.1 h1.2.2.2.2.2.2.2.2.2.2.2.1 h1.2.2.2.2.2.2.2.2.2.2.2.2.1
      h1.2.2.2.2.2.2.2.2.2.2.2.2.2⟩

/-- What `performMove` does to the flag of a pawn that advances two rows. -/
theorem performMove_double_step (b bm : chessBoardClass) (Q : PieceRef) (f r7 r5 : Int)
    (choice : PromotionChoice) (hs : Sound b)
    (hQ : getSquareContents b f r7 = some Q) (hQt : Q.type = PAWN)
    (h2 : (r7 - r5).natAbs = 2) (hr5 : r5 ≠ 0 ∧ r5 ≠ 7)
    (hperf : performMove b Q f r5 false choice = some bm) :
    (deref bm Q).enPassant = true := by
  have hpos := hs _ _ _ hQ
  unfold performMove at hperf
  rw [hpos.2.1, hpos.2.2] at hperf
  have h1 : afterEnPassant b Q f r5 = b := by
    simp [afterEnPassant, enPassantCapture, hpos.2.1]
  have h3 : afterCastle b Q f r7 f r5 = some b := by
    simp [afterCastle, hQt]
  rw [h1, h3] at hperf
  simp only [Option.map_some', Option.some.injEq] at hperf
  have h4 : ∀ x, promoteOnLastRow x Q r5 false choice = x := by
    intro x
    simp [promoteOnLastRow, hr5]
  rw [h4] at hperf
  rw [← hperf]
  generalize moveOccupier b Q f r5 = occ
  have hv : Q.idx < (pieces b Q.color PAWN).length := by
    rw [← hQt]
    exact hpos.1
  cases occ with
  | none =>
    simp only [placePiece, deref_setSquare, deref_updatePiece, hQt, hv, and_self, if_true]
    simp [moveTo, hpos.2.2, h2]
  | some o =>
    simp only [placePiece, deref_setSquare, deref_updatePiece, length_pieces_updatePiece, hQt, hv,
      and_self, if_true, true_and]
    split_ifs with ho
    · obtain ⟨rfl, _⟩ := ho
      simp [moveTo, setCaptured, hpos.2.2, h2]
    · simp [moveTo, hpos.2.2, h2]

/-- The diagonal step of a pawn onto the square behind an enemy pawn that stands beside
it with its en-passant flag up passes `movementLogic` when the side is not in check and
the pawn is not named in the pin collection. -/
theorem enPassant_logic (b : chessBoardClass) (P Q : PieceRef) (f g r5 r6 : Int)
    (hs : Sound b) (hP : getSquareContents b g r5 = some P) (hPt : P.type = PAWN)
    (hdir : (P.color = WHITE ∧ r6 = r5 + 1) ∨ (P.color = BLACK ∧ r6 = r5 - 1))
    (hr6 : 0 ≤ r6 ∧ r6 ≤ 7) (hadj : (g - f).natAbs = 1)
    (hempty : getSquareContents b f r6 = none)
    (hQ : getSquareContents b f r5 = some Q) (hQt : Q.type = PAWN)
    (hflag : (deref b Q).enPassant = true)
    (hchk : b.checkVector = [])
    (hpin : b.pinVector.find? (fun e => e.1.1 = P) = none) :
    movementLogic b P f r6 = true := by
  have hPpos := hs _ _ _ hP
  have hfb := getSquareContents_inBounds b _ _ _ hQ
  have hcol : (deref b P).column = g := hPpos.2.1
  have hrow : (deref b P).row = r5 := hPpos.2.2
  have hgf : ¬ g = f := by
    intro h
    rw [h] at hadj
    simp at hadj
  rw [movementLogic_eq_true]
  refine ⟨?_, ?_, ?_, ?_, ?_, ?_, ?_, ?_, ?_⟩
  · rw [hPt]
    revert hcol hrow
    generalize deref b P = kp
    intro hcol hrow
    have hin : inBounds f r6 = true := by
      simp only [inBounds, Bool.not_eq_true', Bool.or_eq_false_iff, decide_eq_false_iff_not]
      omega
    have hmv : isMove kp f r6 = true := by
      simp only [isMove, hcol, hrow, Bool.not_eq_true', Bool.and_eq_false_imp, beq_iff_eq]
      intro h
      exact absurd h.symm hgf
    rcases hdir with ⟨hc, hr⟩ | ⟨hc, hr⟩
    · rw [hc]
      subst hr
      simp [validMovement, whitePawn.validMovement, hin, hmv, hcol, hrow, hgf, hadj]
    · rw [hc]
      subst hr
      simp [validMovement, blackPawn.validMovement, hin, hmv, hcol, hrow, hgf, hadj]
  · intro o ho
    rw [hempty] at ho
    exact absurd ho (by simp)
  · intro h
    exact absurd hPt h.2.1
  · intro h
    have := h.2
    unfold pawnPathBlocked at this
    rw [hcol] at this
    simp [hgf] at this
  · unfold enPassantRefused
    rw [hcol, hrow]
    simp [hPt, hgf, hempty, hQ, hQt, hflag]
  · unfold castlingRefused
    simp [hPt]
  · intro h
    rw [hPt] at h
    exact absurd h.1 (by simp)
  · simp [checkRefused, hchk]
  · unfold pinTest
    rw [hpin]

/-- What `performMove` does on an en-passant capture. -/
theorem performMove_enPassant (b : chessBoardClass) (P Q : PieceRef) (f g r5 r6 : Int)
    (choice : PromotionChoice) (hs : Sound b)
    (hP : getSquareContents b g r5 = some P) (hPt : P.type = PAWN)
    (hQ : getSquareContents b f r5 = some Q)
    (hgf : g ≠ f) (hr6 : 0 < r6 ∧ r6 < 7) (hrr : r6 ≠ r5)
    (hempty : getSquareContents b f r6 = none) :
    ∃ bm, performMove b P f r6 false choice = some bm
      ∧ bm.turn = b.turn
      ∧ (∀ c r, getSquareContents bm c r
          = if c = f ∧ r = r6 then some P
            else if (c = f ∨ c = g) ∧ r = r5 then none
            else getSquareContents b c r)
      ∧ (∀ q, deref bm q
          = if q = P then moveTo PAWN (deref b P) f r6
            else if q = Q then setCaptured true (deref b Q)
            else deref b q) := by
  have hPpos := hs _ _ _ hP
  have hQpos := hs _ _ _ hQ
  have hfb := getSquareContents_inBounds b _ _ _ hQ
  have hgb := getSquareContents_inBounds b _ _ _ hP
  have hne : Q ≠ P := by
    intro h
    rw [h] at hQpos
    exact hgf (hPpos.2.1.symm.trans hQpos.2.1)
  unfold performMove
  rw [hPpos.2.1, hPpos.2.2]
  have hcap : enPassantCapture b P f r6 = true := by
    simp [enPassantCapture, hPt, hPpos.2.1, hgf, hempty]
  have h1 : afterEnPassant b P f r6 = setSquare b f r5 none := by
    simp [afterEnPassant, hcap, hPpos.2.2]
  have h2 : moveOccupier b P f r6 = some Q := by
    simp [moveOccupier, hcap, hPpos.2.2, hQ]
  rw [h1, h2]
  have h3 : afterCastle (setSquare b f r5 none) P g r5 f r6 = some (setSquare b f r5 none) := by
    simp [afterCastle, hPt]
  rw [h3]
  simp only [Option.map_some']
  have h4 : ∀ x, promoteOnLastRow x P r6 false choice = x := by
    intro x
    have h0 : ¬ r6 = 0 := by omega
    have h7 : ¬ r6 = 7 := by omega
    simp [promoteOnLastRow, h0, h7]
  rw [h4]
  refine ⟨_, rfl, ?_, ?_, ?_⟩
  · simp [placePiece]
  · intro c r
    simp only [placePiece, getSquareContents_setSquare, getSquareContents_updatePiece]
    split_ifs <;> first | rfl | omega
  · intro q
    have hpv : P.idx < (pieces b P.color PAWN).length := by
      rw [← hPt]
      exact hPpos.1
    have hqv := hQpos.1
    simp only [placePiece, deref_setSquare, deref_updatePiece, length_pieces_updatePiece,
      pieces_setSquare, hPt, hpv, hqv, and_true]
    by_cases hq : q = P
    · subst hq
      simp [Ne.symm hne]
    · by_cases hq2 : q = Q
      · subst hq2
        simp [hq]
      · simp [hq, hq2]

theorem deref_swapTurn_captured (b : chessBoardClass) (q : PieceRef) :
    (deref (swapTurn b) q).captured = (deref b q).captured := by
  by_cases h : q.color = enemyOf b.turn ∧ q.type = PAWN
  · unfold deref
    rw [pieces_swapTurn]
    simp only [h, and_self, if_true, List.getD_eq_getElem?_getD, List.getElem?_map]
    cases (pieces b (enemyOf b.turn) PAWN)[q.idx]? <;> rfl
  · rw [deref_swapTurn_other b q h]

/-- C8. En passant succeeds. In a position reached from `init()` by successful moves, let
an enemy pawn `Q` advance two rows along file `f` from its home row (b7-b5 for Black,
b2-b4 for White), the move returning true and leaving the board `b`. In `b` let `Q` stand
on its destination, let a pawn `P` of the side now to move stand beside it on a
neighbouring file `g`, let the square behind `Q` on file `f` be empty, the side to move not
be in check, `P` not be the pinned piece of any entry of the pin collection, and the king
of the side of `Q` stand on the square it records. Then the diagonal move of `P` onto the
square behind `Q` returns true; afterwards `P` is on that square, the lookup table is
empty on the square `Q` stood on and on the origin of `P`, and `Q` is flagged captured. -/
theorem C8_enPassant_succeeds (b0 b : chessBoardClass) (P Q : PieceRef) (f g r7 r5 r6 : Int)
    (ch0 ch : PromotionChoice)
    (hrows : (P.color = WHITE ∧ r7 = 6 ∧ r5 = 4 ∧ r6 = 5)
      ∨ (P.color = BLACK ∧ r7 = 1 ∧ r5 = 3 ∧ r6 = 2))
    (hreach : Reachable b0)
    (hQ0 : getSquareContents b0 f r7 = some Q) (hQt : Q.type = PAWN)
    (hprev : move b0 f r7 f r5 false false ch0 = some (true, b))
    (hQ : getSquareContents b f r5 = some Q)
    (hP : getSquareContents b g r5 = some P) (hPt : P.type = PAWN) (hPc : P.color = b.turn)
    (hadj : (g - f).natAbs = 1)
    (hempty : getSquareContents b f r6 = none)
    (hchk : b.checkVector = [])
    (hpin : b.pinVector.find? (fun e => e.1.1 = P) = none)
    (hEK : getSquareContents b (deref b (kingRef Q.color)).column
      (deref b (kingRef Q.color)).row = some (kingRef Q.color)) :
    ∃ b1, move b g r5 f r6 false false ch = some (true, b1)
      ∧ getSquareContents b1 f r6 = some P
      ∧ (deref b1 P).column = f ∧ (deref b1 P).row = r6
      ∧ getSquareContents b1 f r5 = none
      ∧ getSquareContents b1 g r5 = none
      ∧ (deref b1 Q).captured = true := by
  obtain ⟨X, bm0, hX, hXc, hcm0, _, hperf0, hbeq⟩ := move_success _ _ _ _ _ _ _ hprev
  rw [hQ0] at hX
  obtain rfl := Option.some.inj hX
  have hinv0 := inv_reachable b0 hreach
  have hs0 := hinv0.1
  have hs := (inv_move b0 b f r7 f r5 ch0 hinv0.1 hinv0.2 hprev).1
  have hmeta := sameMeta_performMove _ _ _ _ _ _ _ hperf0
  have hturn : b.turn = enemyOf Q.color := by
    rw [hbeq, turn_refreshDerived, turn_swapTurn, hmeta.1, hXc]
  have h2 : (r7 - r5).natAbs = 2 := by
    rcases hrows with ⟨_, h7, h5, _⟩ | ⟨_, h7, h5, _⟩ <;> rw [h7, h5] <;> rfl
  have hr5 : r5 ≠ 0 ∧ r5 ≠ 7 := by
    rcases hrows with ⟨_, _, h5, _⟩ | ⟨_, _, h5, _⟩ <;> omega
  have hdir : (P.color = WHITE ∧ r6 = r5 + 1) ∨ (P.color = BLACK ∧ r6 = r5 - 1) := by
    rcases hrows with ⟨hc, _, h5, h6⟩ | ⟨hc, _, h5, h6⟩
    · exact Or.inl ⟨hc, by omega⟩
    · exact Or.inr ⟨hc, by omega⟩
  have hr6 : 0 < r6 ∧ r6 < 7 := by
    rcases hrows with ⟨_, _, _, h6⟩ | ⟨_, _, _, h6⟩ <;> omega
  have hrr : r6 ≠ r5 := by
    rcases hrows with ⟨_, _, h5, h6⟩ | ⟨_, _, h5, h6⟩ <;> omega
  have hgf : g ≠ f := by
    intro h
    rw [h] at hadj
    simp at hadj
  have hQc : ¬ (Q.color = enemyOf bm0.turn ∧ Q.type = PAWN) := by
    intro h
    rw [hmeta.1, ← hXc] at h
    exact color_ne_enemyOf _ h.1
  have hflag : (deref b Q).enPassant = true := by
    rw [hbeq, deref_after_turn bm0 Q hQc]
    exact performMove_double_step b0 bm0 Q f r7 r5 ch0 hs0 hQ0 hQt h2 hr5 hperf0
  have hcm : b.checkmate = false := by
    cases hc : b.checkmate with
    | false => rfl
    | true =>
      rw [hbeq] at hc
      rcases (refreshDerived_checkmate _).mp hc with h | h
      · rw [sameMeta_swapTurn_checkmate, hmeta.2.1, hcm0] at h
        exact absurd h (by decide)
      · rw [← hbeq] at h
        exact absurd hchk h.1
  have hlogic := enPassant_logic b P Q f g r5 r6 hs hP hPt hdir ⟨by omega, by omega⟩ hadj
    hempty hQ hQt hflag hchk hpin
  obtain ⟨bm, hpm, hbt, hbsq, hbd⟩ :=
    performMove_enPassant b P Q f g r5 r6 ch hs hP hPt hQ hgf hr6 hrr hempty
  have hek : enemyOf bm.turn = Q.color := by
    rw [hbt, hturn]
    cases Q.color <;> rfl
  have hek1 : kingRef Q.color ≠ P := by
    intro h
    rw [← h] at hPt
    simp [kingRef] at hPt
  have hek2 : kingRef Q.color ≠ Q := by
    intro h
    rw [← h] at hQt
    simp [kingRef] at hQt
  have hekd : deref bm (kingRef Q.color) = deref b (kingRef Q.color) := by
    rw [hbd]
    simp [hek1, hek2]
  have hplaced : getSquareContents bm (deref bm (kingRef (enemyOf bm.turn))).column
      (deref bm (kingRef (enemyOf bm.turn))).row = some (kingRef (enemyOf bm.turn)) := by
    rw [hek, hekd, hbsq]
    split_ifs with h1 h3
    · rw [h1.1, h1.2, hempty] at hEK
      exact absurd hEK (by simp)
    · rcases h3.1 with h4 | h4
      · rw [h4, h3.2, hQ] at hEK
        exact absurd (Option.some.inj hEK).symm hek2
      · rw [h4, h3.2, hP] at hEK
        exact absurd (Option.some.inj hEK).symm hek1
    · exact hEK
  have hmove : move b g r5 f r6 false false ch = some (true, refreshDerived (swapTurn bm)) := by
    unfold move
    simp [hP, hPc, hcm, hlogic, hpm]
  have hPn : ¬ (P.color = enemyOf bm.turn ∧ P.type = PAWN) := by
    intro h
    rw [hbt, hPc] at h
    exact color_ne_enemyOf _ h.1
  refine ⟨_, hmove, ?_, ?_, ?_, ?_, ?_, ?_⟩
  · rw [getSquareContents_after_turn_of_placed bm _ _ hplaced, hbsq]
    simp
  · rw [deref_after_turn bm P hPn, hbd]
    simp [moveTo]
  · rw [deref_after_turn bm P hPn, hbd]
    simp [moveTo]
  · rw [getSquareContents_after_turn_of_placed bm _ _ hplaced, hbsq]
    simp [hrr.symm]
  · rw [getSquareContents_after_turn_of_placed bm _ _ hplaced, hbsq]
    simp [hrr.symm, hgf]
  · rw [deref_refreshDerived, deref_swapTurn_captured, hbd]
    have hne : Q ≠ P := by
      intro h
      have h1 := (hs _ _ _ hQ).2.1
      have h2 := (hs _ _ _ hP).2.1
      rw [h] at h1
      exact hgf (h2.symm.trans h1)
    simp [hne, setCaptured]

set_option maxRecDepth 100000 in
/-- Witness for C8: after 1. a4 h6 2. a5 b5 White captures a5xb6 en passant, and after
1. h3 a5 2. h4 a4 3. b4 Black captures a4xb3 en passant. -/
theorem C8_enPassant_succeeds_witness :
    (∃ b1, move (boardAfter enPassantGame) 0 4 1 5 false false PromotionChoice.queen
        = some (true, b1)
      ∧ getSquareContents b1 1 5 = some ⟨WHITE, PAWN, 0⟩
      ∧ (deref b1 ⟨WHITE, PAWN, 0⟩).column = 1 ∧ (deref b1 ⟨WHITE, PAWN, 0⟩).row = 5
      ∧ getSquareContents b1 1 4 = none
      ∧ getSquareContents b1 0 4 = none
      ∧ (deref b1 ⟨BLACK, PAWN, 1⟩).captured = true)
    ∧ (∃ b1, move (boardAfter blackEnPassantGame) 0 3 1 2 false false PromotionChoice.queen
        = some (true, b1)
      ∧ getSquareContents b1 1 2 = some ⟨BLACK, PAWN, 0⟩
      ∧ (deref b1 ⟨BLACK, PAWN, 0⟩).column = 1 ∧ (deref b1 ⟨BLACK, PAWN, 0⟩).row = 2
      ∧ getSquareContents b1 1 3 = none
      ∧ getSquareContents b1 0 3 = none
      ∧ (deref b1 ⟨WHITE, PAWN, 1⟩).captured = true) :=
  have h0 : (play startBoard (enPassantGame.take 3)).isSome = true
      ∧ getSquareContents (boardAfter (enPassantGame.take 3)) 1 6 = some ⟨BLACK, PAWN, 1⟩
      ∧ (play startBoard ((enPassantGame.take 3) ++ [hm 1 6 1 4])).isSome = true
      ∧ getSquareContents (boardAfter enPassantGame) 1 4 = some ⟨BLACK, PAWN, 1⟩
      ∧ getSquareContents (boardAfter enPassantGame) 0 4 = some ⟨WHITE, PAWN, 0⟩
      ∧ (⟨WHITE, PAWN, 0⟩ : PieceRef).color = (boardAfter enPassantGame).turn
      ∧ getSquareContents (boardAfter enPassantGame) 1 5 = none
      ∧ (boardAfter enPassantGame).checkVector = []
      ∧ (boardAfter enPassantGame).pinVector.find? (fun e => e.1.1 = ⟨WHITE, PAWN, 0⟩) = none
      ∧ getSquareContents (boardAfter enPassantGame) (deref (boardAfter enPassantGame) (kingRef (⟨BLACK, PAWN, 1⟩ : PieceRef).color)).column
          (deref (boardAfter enPassantGame) (kingRef (⟨BLACK, PAWN, 1⟩ : PieceRef).color)).row = some (kingRef (⟨BLACK, PAWN, 1⟩ : PieceRef).color) := by
    decide!
  have h1 : (play startBoard (blackEnPassantGame.take 4)).isSome = true
      ∧ getSquareContents (boardAfter (blackEnPassantGame.take 4)) 1 1 = some ⟨WHITE, PAWN, 1⟩
      ∧ (play startBoard ((blackEnPassantGame.take 4) ++ [hm 1 1 1 3])).isSome = true
      ∧ getSquareContents (boardAfter blackEnPassantGame) 1 3 = some ⟨WHITE, PAWN, 1⟩
      ∧ getSquareContents (boardAfter blackEnPassantGame) 0 3 = some ⟨BLACK, PAWN, 0⟩
      ∧ (⟨BLACK, PAWN, 0⟩ : PieceRef).color = (boardAfter blackEnPassantGame).turn
      ∧ getSquareContents (boardAfter blackEnPassantGame) 1 2 = none
      ∧ (boardAfter blackEnPassantGame).checkVector = []
      ∧ (boardAfter blackEnPassantGame).pinVector.find? (fun e => e.1.1 = ⟨BLACK, PAWN, 0⟩) = none
      ∧ getSquareContents (boardAfter blackEnPassantGame) (deref (boardAfter blackEnPassantGame) (kingRef (⟨WHITE, PAWN, 1⟩ : PieceRef).color)).column
          (deref (boardAfter blackEnPassantGame) (kingRef (⟨WHITE, PAWN, 1⟩ : PieceRef).color)).row = some (kingRef (⟨WHITE, PAWN, 1⟩ : PieceRef).color) := by
    decide!
  ⟨C8_enPassant_succeeds (boardAfter (enPassantGame.take 3)) (boardAfter enPassantGame)
      ⟨WHITE, PAWN, 0⟩ ⟨BLACK, PAWN, 1⟩ 1 0 6 4 5 PromotionChoice.queen PromotionChoice.queen
      (Or.inl ⟨rfl, rfl, rfl, rfl⟩)
      (boardAfter_reachable (enPassantGame.take 3) h0.1)
      h0.2.1 rfl
      (move_boardAfter (enPassantGame.take 3) (hm 1 6 1 4) h0.2.2.1)
      h0.2.2.2.1 h0.2.2.2.2.1 rfl h0.2.2.2.2.2.1 (by decide) h0.2.2.2.2.2.2.1 h0.2.2.2.2.2.2.2.1
      h0.2.2.2.2.2.2.2.2.1 h0.2.2.2.2.2.2.2.2.2,
    C8_enPassant_succeeds (boardAfter (blackEnPassantGame.take 4)) (boardAfter blackEnPassantGame)
      ⟨BLACK, PAWN, 0⟩ ⟨WHITE, PAWN, 1⟩ 1 0 1 3 2 PromotionChoice.queen PromotionChoice.queen
      (Or.inr ⟨rfl, rfl, rfl, rfl⟩)
      (boardAfter_reachable (blackEnPassantGame.take 4) h1.1)
      h1.2.1 rfl
      (move_boardAfter (blackEnPassantGame.take 4) (hm 1 1 1 3) h1.2.2.1)
      h1.2.2.2.1 h1.2.2.2.2.1 rfl h1.2.2.2.2.2.1 (by decide) h1.2.2.2.2.2.2.1 h1.2.2.2.2.2.2.2.1
      h1.2.2.2.2.2.2.2.2.1 h1.2.2.2.2.2.2.2.2.2⟩

/-! ## Shape tests of the piece classes -/

/-- The shape test of every class rejects a destination off the board. -/
theorem validMovement_inBounds (color : PIECE_COLOR) (type : PIECE_TYPE) (p : chessPiece)
    (c r : Int) (h : validMovement color type p c r = true) :
    0 ≤ c ∧ c ≤ 7 ∧ 0 ≤ r ∧ r ≤ 7 := by
  have hb : inBounds c r = true := by
    by_contra hne
    have hf : inBounds c r = false := by simpa using hne
    cases color <;> cases type <;>
      simp [hf, validMovement, whitePawn.validMovement, whiteKnight.validMovement,
        whiteBishop.validMovement, whiteRook.validMovement, whiteQueen.validMovement,
        whiteKing.validMovement, blackPawn.validMovement, blackKnight.validMovement,
        blackBishop.validMovement, blackRook.validMovement, blackQueen.validMovement,
        blackKing.validMovement] at h
  simp only [inBounds, Bool.not_eq_true', Bool.or_eq_false_iff, decide_eq_false_iff_not] at hb
  omega

/-- The shape test of every class rejects the square the piece stands on. -/
theorem validMovement_isMove (color : PIECE_COLOR) (type : PIECE_TYPE) (p : chessPiece)
    (c r : Int) (h : validMovement color type p c r = true) :
    ¬ (c = p.column ∧ r = p.row) := by
  have hb : isMove p c r = true := by
    by_contra hne
    have hf : isMove p c r = false := by simpa using hne
    cases color <;> cases type <;>
      simp [hf, validMovement, whitePawn.validMovement, whiteKnight.validMovement,
        whiteBishop.validMovement, whiteRook.validMovement, whiteQueen.validMovement,
        whiteKing.validMovement, blackPawn.validMovement, blackKnight.validMovement,
        blackBishop.validMovement, blackRook.validMovement, blackQueen.validMovement,
        blackKing.validMovement] at h
  rintro ⟨hc, hr⟩
  simp [isMove, hc, hr] at hb

/-- C17. For each of the twelve piece classes `validMovement(c, r)` is false when
`(c, r)` lies off the board and when it is the square the piece records; so on a board
whose table entries are sound, a non-forced `move` that returns true, probing or not, has
a destination on the board that differs from its origin. -/
theorem C17_shape_rejects_off_board_and_no_op :
    (∀ (color : PIECE_COLOR) (type : PIECE_TYPE) (p : chessPiece) (c r : Int),
        (c < 0 ∨ c > 7 ∨ r < 0 ∨ r > 7) ∨ (c = p.column ∧ r = p.row) →
        validMovement color type p c r = false)
      ∧ (∀ (b b1 : chessBoardClass) (origC origR destC destR : Int) (noMove : Bool)
          (choice : PromotionChoice), tableSound b = true →
          move b origC origR destC destR noMove false choice = some (true, b1) →
          (0 ≤ destC ∧ destC ≤ 7 ∧ 0 ≤ destR ∧ destR ≤ 7)
            ∧ (destC, destR) ≠ (origC, origR)) := by
  constructor
  · intro color type p c r h
    cases hv : validMovement color type p c r with
    | false => rfl
    | true =>
      have h1 := validMovement_inBounds color type p c r hv
      have h2 := validMovement_isMove color type p c r hv
      rcases h with h | h
      · omega
      · exact absurd h h2
  · intro b b1 origC origR destC destR noMove choice hsound hm
    have hs := (tableSound_iff b).mp hsound
    have hlogic : ∃ piece, getSquareContents b origC origR = some piece
        ∧ movementLogic b piece destC destR = true := by
      unfold move at hm
      cases hp : getSquareContents b origC origR with
      | none => simp [hp] at hm
      | some piece =>
        refine ⟨piece, rfl, ?_⟩
        simp only [hp, Bool.false_eq_true, if_false] at hm
        split_ifs at hm with h1 h2 h3 h4
        · simp at hm
        · simp at hm
        · simp only [Option.some.injEq, Prod.mk.injEq] at hm
          exact hm.1
        · exact h4
        · simp at hm
    obtain ⟨piece, hp, hacc⟩ := hlogic
    have hv := ((movementLogic_eq_true b piece destC destR).mp hacc).1
    have h1 := validMovement_inBounds _ _ _ _ _ hv
    have h2 := validMovement_isMove _ _ _ _ _ hv
    have hpos := hs _ _ _ hp
    refine ⟨h1, ?_⟩
    intro he
    simp only [Prod.mk.injEq] at he
    rw [hpos.2.1, hpos.2.2] at h2
    exact h2 he

set_option maxRecDepth 100000 in
/-- Witness for C17: 1. e4 from the starting position is accepted; its destination is on
the board and differs from its origin. -/
theorem C17_shape_rejects_off_board_and_no_op_witness :
    tableSound (boardAfter []) = true
      ∧ move (boardAfter []) 4 1 4 3 false false PromotionChoice.queen
          = some (true, boardAfter kingsPawnOpening)
      ∧ ((0 : Int) ≤ 4 ∧ (4 : Int) ≤ 7 ∧ (0 : Int) ≤ 3 ∧ (3 : Int) ≤ 7)
      ∧ ((4 : Int), (3 : Int)) ≠ (4, 1) :=
  ⟨by decide!, move_boardAfter [] (hm 4 1 4 3) (by decide!),
    C17_shape_rejects_off_board_and_no_op.2 (boardAfter []) (boardAfter kingsPawnOpening)
      4 1 4 3 false PromotionChoice.queen (by decide!)
      (move_boardAfter [] (hm 4 1 4 3) (by decide!))⟩

/-- C18. The shape test is colour-symmetric up to the forward direction: the white piece
of a type on `(c, r)` accepts `(c1, r1)` exactly when the black piece of that type on
`(c, 7 - r)` with the same flags accepts `(c1, 7 - r1)`.  The test is a function of the
piece's own record and the destination alone. -/
theorem C18_shape_colour_symmetric (type : PIECE_TYPE) (p : chessPiece) (c1 r1 : Int) :
    validMovement WHITE type p c1 r1
      = validMovement BLACK type { p with row := 7 - p.row } c1 (7 - r1) := by
  have hin : inBounds c1 (7 - r1) = inBounds c1 r1 := by
    rw [Bool.eq_iff_iff]
    simp only [inBounds, Bool.not_eq_true', Bool.or_eq_false_iff, decide_eq_false_iff_not]
    omega
  have hmv : isMove { p with row := 7 - p.row } c1 (7 - r1) = isMove p c1 r1 := by
    rw [Bool.eq_iff_iff]
    simp only [isMove, Bool.not_eq_true', Bool.and_eq_false_imp, beq_iff_eq,
      beq_eq_false_iff_ne, ne_eq]
    constructor <;> intro h hc <;> have := h hc <;> omega
  cases type <;>
    simp only [validMovement, whitePawn.validMovement, whiteKnight.validMovement,
      whiteBishop.validMovement, whiteRook.validMovement, whiteQueen.validMovement,
      whiteKing.validMovement, blackPawn.validMovement, blackKnight.validMovement,
      blackBishop.validMovement, blackRook.validMovement, blackQueen.validMovement,
      blackKing.validMovement, hin, hmv] <;>
    rw [Bool.eq_iff_iff] <;>
    split_ifs <;>
    simp only [decide_eq_true_eq, Bool.false_eq_true, iff_false, false_iff, iff_true, true_iff,
      not_true_eq_false, not_false_eq_true] <;>
    omega


/-- C19. A white pawn on `(c, r)` accepts `(c1, r1)` exactly when `(c1, r1)` is on the
board and either `c1 = c` and `r1 = r + 1`, or `c1 = c`, `r = 1` and `r1 = 3`, or
`|c1 - c| = 1` and `r1 = r + 1`; a black pawn likewise with rows decreasing and the
double step only from row 6 to row 4.  So an accepted destination is one or two rows
ahead, two rows only from the starting row and along the file. -/
theorem C19_pawn_shape (p : chessPiece) (c1 r1 : Int) :
    (validMovement WHITE PAWN p c1 r1 = true ↔
        (0 ≤ c1 ∧ c1 ≤ 7 ∧ 0 ≤ r1 ∧ r1 ≤ 7)
          ∧ ((c1 = p.column ∧ r1 = p.row + 1) ∨ (c1 = p.column ∧ p.row = 1 ∧ r1 = 3)
            ∨ ((c1 - p.column).natAbs = 1 ∧ r1 = p.row + 1)))
      ∧ (validMovement BLACK PAWN p c1 r1 = true ↔
        (0 ≤ c1 ∧ c1 ≤ 7 ∧ 0 ≤ r1 ∧ r1 ≤ 7)
          ∧ ((c1 = p.column ∧ r1 = p.row - 1) ∨ (c1 = p.column ∧ p.row = 6 ∧ r1 = 4)
            ∨ ((c1 - p.column).natAbs = 1 ∧ r1 = p.row - 1)))
      ∧ (validMovement WHITE PAWN p c1 r1 = true →
          (r1 = p.row + 1 ∨ (r1 = p.row + 2 ∧ p.row = 1 ∧ c1 = p.column)))
      ∧ (validMovement BLACK PAWN p c1 r1 = true →
          (r1 = p.row - 1 ∨ (r1 = p.row - 2 ∧ p.row = 6 ∧ c1 = p.column))) := by
  have hin : inBounds c1 r1 = true ↔ (0 ≤ c1 ∧ c1 ≤ 7 ∧ 0 ≤ r1 ∧ r1 ≤ 7) := by
    simp only [inBounds, Bool.not_eq_true', Bool.or_eq_false_iff, decide_eq_false_iff_not]
    omega
  have hmv : isMove p c1 r1 = true ↔ ¬ (c1 = p.column ∧ r1 = p.row) := by
    simp only [isMove, Bool.not_eq_true', Bool.and_eq_false_imp, beq_iff_eq,
      beq_eq_false_iff_ne, ne_eq, not_and]
  have hw : validMovement WHITE PAWN p c1 r1 = true ↔
      (0 ≤ c1 ∧ c1 ≤ 7 ∧ 0 ≤ r1 ∧ r1 ≤ 7)
        ∧ ((c1 = p.column ∧ r1 = p.row + 1) ∨ (c1 = p.column ∧ p.row = 1 ∧ r1 = 3)
          ∨ ((c1 - p.column).natAbs = 1 ∧ r1 = p.row + 1)) := by
    simp only [validMovement, whitePawn.validMovement]
    by_cases h1 : inBounds c1 r1 = true
    · by_cases h2 : isMove p c1 r1 = true
      · have h1' := hin.mp h1
        have h2' := hmv.mp h2
        simp only [h1, h2, Bool.not_true, Bool.false_eq_true, if_false]
        split_ifs <;> simp only [Bool.false_eq_true, true_iff, false_iff] <;> omega
      · have h2' : ¬ ¬ (c1 = p.column ∧ r1 = p.row) := fun h => h2 (hmv.mpr h)
        simp only [h1, h2, Bool.not_true, Bool.false_eq_true, if_false, Bool.not_false, if_true,
          false_iff]
        omega
    · have h1' : ¬ (0 ≤ c1 ∧ c1 ≤ 7 ∧ 0 ≤ r1 ∧ r1 ≤ 7) := fun h => h1 (hin.mpr h)
      simp only [h1, Bool.not_false, if_true, Bool.false_eq_true, false_iff]
      exact fun h => h1' h.1
  have hb : validMovement BLACK PAWN p c1 r1 = true ↔
      (0 ≤ c1 ∧ c1 ≤ 7 ∧ 0 ≤ r1 ∧ r1 ≤ 7)
        ∧ ((c1 = p.column ∧ r1 = p.row - 1) ∨ (c1 = p.column ∧ p.row = 6 ∧ r1 = 4)
          ∨ ((c1 - p.column).natAbs = 1 ∧ r1 = p.row - 1)) := by
    simp only [validMovement, blackPawn.validMovement]
    by_cases h1 : inBounds c1 r1 = true
    · by_cases h2 : isMove p c1 r1 = true
      · have h1' := hin.mp h1
        have h2' := hmv.mp h2
        simp only [h1, h2, Bool.not_true, Bool.false_eq_true, if_false]
        split_ifs <;> simp only [Bool.false_eq_true, true_iff, false_iff] <;> omega
      · have h2' : ¬ ¬ (c1 = p.column ∧ r1 = p.row) := fun h => h2 (hmv.mpr h)
        simp only [h1, h2, Bool.not_true, Bool.false_eq_true, if_false, Bool.not_false, if_true,
          false_iff]
        omega
    · have h1' : ¬ (0 ≤ c1 ∧ c1 ≤ 7 ∧ 0 ≤ r1 ∧ r1 ≤ 7) := fun h => h1 (hin.mpr h)
      simp only [h1, Bool.not_false, if_true, Bool.false_eq_true, false_iff]
      exact fun h => h1' h.1
  refine ⟨hw, hb, ?_, ?_⟩
  · intro h
    obtain ⟨_, h1 | h1 | h1⟩ := hw.mp h
    · exact Or.inl h1.2
    · exact Or.inr ⟨by omega, h1.2.1, h1.1⟩
    · exact Or.inl h1.2
  · intro h
    obtain ⟨_, h1 | h1 | h1⟩ := hb.mp h
    · exact Or.inl h1.2
    · exact Or.inr ⟨by omega, h1.2.1, h1.1⟩
    · exact Or.inl h1.2

/-- C20, as stated, fails: the white king on `(4, 3)` accepts the diagonal step to
`(5, 4)`, which is at Manhattan distance 2 and is no castling shape. -/
theorem C20_counterexample :
    validMovement WHITE KING (newPiece KING 4 3) 5 4 = true
      ∧ ((5 : Int) - 4).natAbs + ((4 : Int) - 3).natAbs = 2
      ∧ ¬ (((5 : Int) - 4).natAbs = 2 ∧ (4 : Int) = 3) := by
  decide

/-- C20, amended. The shape test of a king accepts exactly the destinations on the board
one step away in any of the eight directions, plus the destinations two columns away on
the same row when the king stands on its home row (row 0 for White, row 7 for Black) and
its castle flag is set. -/
theorem C20_king_shape (color : PIECE_COLOR) (p : chessPiece) (c1 r1 : Int) :
    validMovement color KING p c1 r1 = true ↔
      (0 ≤ c1 ∧ c1 ≤ 7 ∧ 0 ≤ r1 ∧ r1 ≤ 7)
        ∧ (((c1 - p.column).natAbs ≤ 1 ∧ (r1 - p.row).natAbs ≤ 1
              ∧ ¬ (c1 = p.column ∧ r1 = p.row))
          ∨ ((c1 - p.column).natAbs = 2 ∧ r1 = p.row ∧ p.row = homeRow color
            ∧ p.canCastle = true)) := by
  have hin : inBounds c1 r1 = true ↔ (0 ≤ c1 ∧ c1 ≤ 7 ∧ 0 ≤ r1 ∧ r1 ≤ 7) := by
    simp only [inBounds, Bool.not_eq_true', Bool.or_eq_false_iff, decide_eq_false_iff_not]
    omega
  have hmv : isMove p c1 r1 = true ↔ ¬ (c1 = p.column ∧ r1 = p.row) := by
    simp only [isMove, Bool.not_eq_true', Bool.and_eq_false_imp, beq_iff_eq,
      beq_eq_false_iff_ne, ne_eq, not_and]
  by_cases h1 : inBounds c1 r1 = true
  · by_cases h2 : isMove p c1 r1 = true
    · have h1' := hin.mp h1
      have h2' := hmv.mp h2
      cases color <;>
        simp only [validMovement, whiteKing.validMovement, blackKing.validMovement, homeRow,
          h1, h2, Bool.not_true, Bool.false_eq_true, if_false] <;>
        split_ifs with ha hb hc <;>
        simp only [Bool.false_eq_true, true_iff, false_iff, decide_eq_true_eq] <;>
        first
        | omega
        | exact ⟨h1', Or.inr ⟨ha.1, ha.2.1, ha.2.2, hb⟩⟩
        | (rintro ⟨_, h | h⟩
           · omega
           · exact hb h.2.2.2)
    · have h2' : ¬ ¬ (c1 = p.column ∧ r1 = p.row) := fun h => h2 (hmv.mpr h)
      cases color <;>
        simp only [validMovement, whiteKing.validMovement, blackKing.validMovement, homeRow,
          h1, h2, Bool.not_true, Bool.false_eq_true, if_false, Bool.not_false, if_true,
          false_iff] <;>
        omega
  · have h1' : ¬ (0 ≤ c1 ∧ c1 ≤ 7 ∧ 0 ≤ r1 ∧ r1 ≤ 7) := fun h => h1 (hin.mpr h)
    cases color <;>
      simp only [validMovement, whiteKing.validMovement, blackKing.validMovement,
        h1, Bool.not_false, if_true, Bool.false_eq_true, false_iff] <;>
      exact fun h => h1' h.1

/-! ## Rejected moves, probes and out-of-range queries -/

/-- A move that passes `movementLogic` does not dereference a null rook pointer in
`performMove`. -/
theorem performMove_isSome (b : chessBoardClass) (piece : PieceRef) (destC destR : Int)
    (choice : PromotionChoice) (h : movementLogic b piece destC destR = true) :
    ∃ bm, performMove b piece destC destR false choice = some bm := by
  have hc := ((movementLogic_eq_true b piece destC destR).mp h).2.2.2.2.2.1
  unfold performMove
  by_cases hk : piece.type = KING ∧ ((deref b piece).column - destC).natAbs = 2
  · have h1 : afterEnPassant b piece destC destR = b := by
      simp [afterEnPassant, enPassantCapture, hk.1]
    rw [h1]
    unfold castlingRefused at hc
    simp only [hk, and_self, if_true] at hc
    by_cases hlt : destC < (deref b piece).column
    · simp only [hlt, if_true] at hc
      cases hr : getSquareContents b 0 (deref b piece).row with
      | none =>
        rw [hr] at hc
        split_ifs at hc
      | some rook => simp [afterCastle, hk, hlt, castleMove, hr]
    · simp only [hlt, if_false] at hc
      cases hr : getSquareContents b 7 (deref b piece).row with
      | none =>
        rw [hr] at hc
        split_ifs at hc
      | some rook => simp [afterCastle, hk, hlt, castleMove, hr]
  · have h1 : ∀ x, afterCastle x piece (deref b piece).column (deref b piece).row destC destR
        = some x := by
      intro x
      simp [afterCastle, hk]
    rw [h1]
    exact ⟨_, rfl⟩

/-- C12. A non-forced `move`, probing or not, returns false exactly when the origin is
empty, or the piece there is not of the colour to move, or the checkmate flag is up, or
`movementLogic` rejects the move; and then the board it leaves is the board it was given:
every field of the state is what it was before the call. -/
theorem C12_rejected_move_leaves_state (b b1 : chessBoardClass) (origC origR destC destR : Int)
    (noMove : Bool) (choice : PromotionChoice) :
    move b origC origR destC destR noMove false choice = some (false, b1) ↔
      b1 = b ∧ (getSquareContents b origC origR = none
        ∨ ∃ piece, getSquareContents b origC origR = some piece
            ∧ (piece.color ≠ b.turn ∨ b.checkmate = true
              ∨ movementLogic b piece destC destR = false)) := by
  unfold move
  cases hp : getSquareContents b origC origR with
  | none =>
    simp only [Bool.false_eq_true, if_false, Option.some.injEq, Prod.mk.injEq, true_and,
      true_or, and_true]
    exact eq_comm
  | some piece =>
    simp only [Bool.false_eq_true, if_false, reduceCtorEq, Option.some.injEq, exists_eq_left',
      false_or]
    by_cases h1 : piece.color ≠ b.turn
    · simp [h1]
      exact eq_comm
    · by_cases h2 : b.checkmate = true
      · simp [h1, h2]
        exact eq_comm
      · by_cases h3 : movementLogic b piece destC destR = true
        · obtain ⟨bm, hbm⟩ := performMove_isSome b piece destC destR choice h3
          cases noMove <;> simp [h1, h2, h3, hbm]
        · have h3' : movementLogic b piece destC destR = false := by simpa using h3
          cases noMove <;> simp [h1, h2, h3'] <;> exact eq_comm

/-- C13. A probe (`noMove = true`, not forced) returns a flag and leaves the board it was
given, so a second probe of the same move, which runs on that same board, returns the
same flag again; and the flag is true exactly when the call with `noMove = false` executes
the move and returns true. -/
theorem C13_probe_pure_and_faithful (b : chessBoardClass) (origC origR destC destR : Int)
    (choice : PromotionChoice) :
    ∃ ok, move b origC origR destC destR true false choice = some (ok, b)
      ∧ ((move b origC origR destC destR true false choice).bind
          (fun first => (move first.2 origC origR destC destR true false choice).map
            (fun second => (first.1, second.1, second.2)))) = some (ok, ok, b)
      ∧ (ok = true ↔ ∃ b1, move b origC origR destC destR false false choice = some (true, b1)) := by
  have key : ∃ ok, move b origC origR destC destR true false choice = some (ok, b)
      ∧ (ok = true ↔
          ∃ b1, move b origC origR destC destR false false choice = some (true, b1)) := by
    unfold move
    cases hp : getSquareContents b origC origR with
    | none => exact ⟨false, by simp⟩
    | some piece =>
      by_cases h1 : piece.color ≠ b.turn
      · exact ⟨false, by simp [h1]⟩
      · by_cases h2 : b.checkmate = true
        · exact ⟨false, by simp [h1, h2]⟩
        · by_cases h3 : movementLogic b piece destC destR = true
          · obtain ⟨bm, hbm⟩ := performMove_isSome b piece destC destR choice h3
            exact ⟨true, by simp [h1, h2, h3, hbm]⟩
          · have h3' : movementLogic b piece destC destR = false := by simpa using h3
            exact ⟨false, by simp [h1, h2, h3']⟩
  obtain ⟨ok, hok, hiff⟩ := key
  exact ⟨ok, hok, by simp [hok], hiff⟩

/-- C16, as stated, fails: in the starting position the square `(8, 7)` is off the board
and the attack scan reports the black rook on h8, which its leftward scan meets first. -/
theorem C16_counterexample :
    inBounds 8 7 = false ∧ getAttackers startBoard 8 7 = [⟨BLACK, ROOK, 1⟩] := by
  decide

theorem mem_attackerOnRay (b : chessBoardClass) (d : PIN_DIR) (col row : Int) (p : PieceRef)
    (h : p ∈ attackerOnRay b d col row) :
    p.color = enemyOf b.turn ∧ ∃ i, 1 ≤ i
      ∧ getSquareContents b (stepFrom d col row i).1 (stepFrom d col row i).2 = some p := by
  unfold attackerOnRay at h
  cases hf : firstOccupant b d col row with
  | none => simp [hf] at h
  | some res =>
    obtain ⟨sq, q⟩ := res
    simp only [hf] at h
    split_ifs at h with ht
    · simp only [List.mem_singleton] at h
      subst h
      obtain ⟨i, hi, hsq, hocc⟩ := firstOccupant_some _ _ _ _ _ _ hf
      refine ⟨?_, i, hi, ?_⟩
      · cases d <;> simp [threatens] at ht <;> exact ht.1
      · rw [← hsq]
        exact hocc
    · simp at h

theorem mem_knightsAround (b : chessBoardClass) (color : PIECE_COLOR) (col row : Int)
    (p : PieceRef) (h : p ∈ knightsAround b color col row) :
    p.color = color ∧ ∃ o ∈ knightOffsets,
      getSquareContents b (col + o.1) (row + o.2) = some p := by
  unfold knightsAround at h
  rw [List.mem_filterMap] at h
  obtain ⟨o, ho, hp⟩ := h
  cases hq : getSquareContents b (col + o.1) (row + o.2) with
  | none => simp [hq] at hp
  | some q =>
    simp only [hq] at hp
    split_ifs at hp with hc
    simp only [Option.some.injEq] at hp
    subst hp
    exact ⟨hc.1, o, ho, hq⟩

/-- Every piece the attack scan reports, for a target on or off the board, is an enemy
piece the lookup found on a square of the board other than the target. -/
theorem mem_getAttackers (b : chessBoardClass) (col row : Int) (p : PieceRef)
    (h : p ∈ getAttackers b col row) :
    p.color = enemyOf b.turn ∧ ∃ c r, (0 ≤ c ∧ c ≤ 7 ∧ 0 ≤ r ∧ r ≤ 7) ∧ (c, r) ≠ (col, row)
      ∧ getSquareContents b c r = some p := by
  have ray : ∀ d, p ∈ attackerOnRay b d col row →
      p.color = enemyOf b.turn ∧ ∃ c r, (0 ≤ c ∧ c ≤ 7 ∧ 0 ≤ r ∧ r ≤ 7) ∧ (c, r) ≠ (col, row)
        ∧ getSquareContents b c r = some p := by
    intro d hd
    obtain ⟨hc, i, hi, hsq⟩ := mem_attackerOnRay b d col row p hd
    exact ⟨hc, _, _, getSquareContents_inBounds b _ _ _ hsq,
      stepFrom_ne_origin d col row i hi, hsq⟩
  unfold getAttackers at h
  simp only [List.mem_append] at h
  rcases h with (((((((h | h) | h) | h) | h) | h) | h) | h) | h
  · exact ray _ h
  · exact ray _ h
  · exact ray _ h
  · exact ray _ h
  · exact ray _ h
  · exact ray _ h
  · exact ray _ h
  · exact ray _ h
  · obtain ⟨hc, o, ho, hsq⟩ := mem_knightsAround b _ col row p h
    refine ⟨hc, _, _, getSquareContents_inBounds b _ _ _ hsq, ?_, hsq⟩
    simp only [knightOffsets, List.mem_cons, List.mem_singleton, List.not_mem_nil, or_false] at ho
    rcases ho with rfl | rfl | rfl | rfl | rfl | rfl | rfl | rfl <;>
      simp only [ne_eq, Prod.mk.injEq, not_and] <;> omega

/-- C16, amended. An out-of-range query never fails: `getSquareContents(c, r)` returns no
piece for every pair with `c` or `r` outside `0..7`; and whatever the target square, on or
off the board, each attacker that either attack scan reports is an enemy piece that the
bounds-checked lookup found on a square of the board other than the target (the king-aware
scan looks at the board with the king lifted off its square). -/
theorem C16_out_of_range_queries (b : chessBoardClass) :
    (∀ c r : Int, (c < 0 ∨ c > 7 ∨ r < 0 ∨ r > 7) → getSquareContents b c r = none)
      ∧ (∀ (col row : Int) (p : PieceRef), p ∈ getAttackers b col row →
          p.color = enemyOf b.turn
            ∧ ∃ c r, (0 ≤ c ∧ c ≤ 7 ∧ 0 ≤ r ∧ r ≤ 7) ∧ (c, r) ≠ (col, row)
              ∧ getSquareContents b c r = some p)
      ∧ (∀ (king : PieceRef) (col row : Int) (p : PieceRef),
          p ∈ (getAttackersKing b king col row).1 →
          p.color = enemyOf b.turn
            ∧ ∃ c r, (0 ≤ c ∧ c ≤ 7 ∧ 0 ≤ r ∧ r ≤ 7) ∧ (c, r) ≠ (col, row)
              ∧ getSquareContents (liftKing b king) c r = some p) := by
  refine ⟨?_, ?_, ?_⟩
  · intro c r h
    simp [getSquareContents, h]
  · intro col row p h
    exact mem_getAttackers b col row p h
  · intro king col row p h
    have := mem_getAttackers (liftKing b king) col row p h
    simpa [liftKing] using this

/-! ## Promotion and `init` at their failing inputs -/

set_option maxRecDepth 100000 in
/-- C11, the code at the failing input. After 1. Nf3 e5 2. d4 d6 3. dxe5 Bg4 4. exd6 Bxf3
5. dxc7 a6 6. Nd2 a5 7. Nxf3 a4 the lookup table holds the knight from b1 on f3. After
8. cxb8=N the pawn is flagged captured and the new knight, the third element of the white
knights, stands on b8 in the table; but the table at f3 now refers to the captured knight
from g1, although the knight from b1 is not captured and records f3 as its square. -/
theorem C11_table_misses_live_knight :
    (play startBoard knightPromotionGame).isSome = true
      ∧ getSquareContents (boardAfter (knightPromotionGame.take 14)) 5 2
          = some ⟨WHITE, KNIGHT, 0⟩
      ∧ (deref (boardAfter knightPromotionGame) ⟨WHITE, PAWN, 3⟩).captured = true
      ∧ (pieces (boardAfter knightPromotionGame) WHITE KNIGHT).length = 3
      ∧ getSquareContents (boardAfter knightPromotionGame) 1 7 = some ⟨WHITE, KNIGHT, 2⟩
      ∧ (deref (boardAfter knightPromotionGame) ⟨WHITE, KNIGHT, 0⟩).captured = false
      ∧ (deref (boardAfter knightPromotionGame) ⟨WHITE, KNIGHT, 0⟩).column = 5
      ∧ (deref (boardAfter knightPromotionGame) ⟨WHITE, KNIGHT, 0⟩).row = 2
      ∧ getSquareContents (boardAfter knightPromotionGame) 5 2 = some ⟨WHITE, KNIGHT, 1⟩
      ∧ (deref (boardAfter knightPromotionGame) ⟨WHITE, KNIGHT, 1⟩).captured = true := by
  decide!

set_option maxRecDepth 100000 in
/-- C15, the code at the failing input. After 1. d4 e6 2. Nc3 Bb4 the pin collection
names the white knight from b1; `init()` leaves that entry in place, and the move
Nb1-c3, which the starting position accepts on a fresh board, is then rejected. -/
theorem C15_init_keeps_pin_collection :
    (play startBoard pinnedWhiteKnightGame).isSome = true
      ∧ (init (boardAfter pinnedWhiteKnightGame)).pinVector
          = [((⟨WHITE, KNIGHT, 0⟩, ⟨BLACK, BISHOP, 1⟩), UP_LEFT)]
      ∧ (move (init (boardAfter pinnedWhiteKnightGame)) 1 0 2 2 false false
          PromotionChoice.queen).map Prod.fst = some false
      ∧ (move (init blankBoard) 1 0 2 2 false false PromotionChoice.queen).map Prod.fst
          = some true := by
  decide!

/-! ## A forced move and its inverse -/

theorem deref_swapTurn_position (b : chessBoardClass) (q : PieceRef) :
    (deref (swapTurn b) q).column = (deref b q).column
      ∧ (deref (swapTurn b) q).row = (deref b q).row := by
  by_cases h : q.color = enemyOf b.turn ∧ q.type = PAWN
  · unfold deref
    rw [pieces_swapTurn]
    simp only [h, and_self, if_true, List.getD_eq_getElem?_getD, List.getElem?_map]
    cases (pieces b (enemyOf b.turn) PAWN)[q.idx]? <;> exact ⟨rfl, rfl⟩
  · rw [deref_swapTurn_other b q h]
    exact ⟨rfl, rfl⟩

theorem length_pieces_swapTurn (b : chessBoardClass) (c : PIECE_COLOR) (t : PIECE_TYPE) :
    (pieces (swapTurn b) c t).length = (pieces b c t).length := by
  rw [pieces_swapTurn]
  split_ifs <;> simp

/-- A forced move of the piece on `(ac, ar)` onto the empty square `(bc, br)` that runs
none of the special blocks of `performMove`. -/
theorem forced_plain_move (b : chessBoardClass) (X : PieceRef) (ac ar bc br : Int)
    (noMove : Bool) (choice : PromotionChoice)
    (hA : getSquareContents b ac ar = some X)
    (hX : X.idx < (pieces b X.color X.type).length ∧ (deref b X).column = ac
      ∧ (deref b X).row = ar)
    (hB : getSquareContents b bc br = none)
    (hBin : 0 ≤ bc ∧ bc ≤ 7 ∧ 0 ≤ br ∧ br ≤ 7)
    (hcastle : ¬ (X.type = KING ∧ (ac - bc).natAbs = 2))
    (hep : ¬ (X.type = PAWN ∧ ac ≠ bc))
    (hpromo : ¬ (X.type = PAWN ∧ (br = 0 ∨ br = 7)))
    (hK : KingsInTable b) :
    ∃ b1, move b ac ar bc br noMove true choice = some (true, b1)
      ∧ b1.turn = enemyOf b.turn
      ∧ (∀ c r, getSquareContents b1 c r
          = if c = bc ∧ r = br then some X
            else if c = ac ∧ r = ar then none
            else getSquareContents b c r)
      ∧ (∀ q, (deref b1 q).captured = (deref b q).captured
          ∧ (deref b1 q).column = (if q = X then bc else (deref b q).column)
          ∧ (deref b1 q).row = (if q = X then br else (deref b q).row))
      ∧ (∀ c t, (pieces b1 c t).length = (pieces b c t).length)
      ∧ KingsInTable b1 := by
  have hAin := getSquareContents_inBounds b _ _ _ hA
  have hAB : ¬ (ac = bc ∧ ar = br) := by
    rintro ⟨h1, h2⟩
    rw [h1, h2, hB] at hA
    exact absurd hA (by simp)
  have hperf : performMove b X bc br false choice
      = some (placePiece b none X ac ar bc br) := by
    unfold performMove
    rw [hX.2.1, hX.2.2]
    have hcap : enPassantCapture b X bc br = false := by
      simp only [enPassantCapture, hX.2.1, decide_eq_false_iff_not]
      intro h
      exact hep ⟨h.1, h.2.1⟩
    have h1 : afterEnPassant b X bc br = b := by
      simp [afterEnPassant, hcap]
    have h2 : moveOccupier b X bc br = none := by
      simp [moveOccupier, hcap, hB]
    have h3 : afterCastle b X ac ar bc br = some b := by
      simp only [afterCastle]
      rw [if_neg hcastle]
    rw [h1, h2, h3]
    simp only [Option.map_some', Option.some.injEq]
    unfold promoteOnLastRow
    rw [if_neg]
    intro h
    exact hpromo ⟨h.1, h.2.1⟩
  generalize hbm : placePiece b none X ac ar bc br = bm at hperf
  have hbt : bm.turn = b.turn := by
    rw [← hbm]
    simp [placePiece]
  have hbsq : ∀ c r, getSquareContents bm c r
      = if c = bc ∧ r = br then some X
        else if c = ac ∧ r = ar then none
        else getSquareContents b c r := by
    intro c r
    rw [← hbm]
    simp only [placePiece, getSquareContents_setSquare, getSquareContents_updatePiece]
    split_ifs <;> first | rfl | omega
  have hbd : ∀ q, deref bm q = if q = X then moveTo X.type (deref b X) bc br else deref b q := by
    intro q
    rw [← hbm]
    simp only [placePiece, deref_setSquare, deref_updatePiece, hX.1, and_true]
  have hbl : ∀ c t, (pieces bm c t).length = (pieces b c t).length := by
    intro c t
    rw [← hbm]
    simp only [placePiece, pieces_setSquare, length_pieces_updatePiece]
  have hcapt : ∀ p c r, (moveTo X.type p c r).captured = p.captured := by
    intro p c r
    cases X.type <;> rfl
  have hview : ∀ q, (deref bm q).captured = (deref b q).captured
      ∧ (deref bm q).column = (if q = X then bc else (deref b q).column)
      ∧ (deref bm q).row = (if q = X then br else (deref b q).row) := by
    intro q
    rw [hbd]
    by_cases hq : q = X
    · subst hq
      simp only [if_true, hcapt, moveTo_column, moveTo_row, and_self]
    · simp only [hq, if_false, and_self]
  have hKm : ∀ color, getSquareContents bm (deref bm (kingRef color)).column
      (deref bm (kingRef color)).row = some (kingRef color) := by
    intro color
    have hk := hK color
    rw [(hview _).2.1, (hview _).2.2, hbsq]
    by_cases hq : kingRef color = X
    · simp only [hq, if_true, and_self]
    · simp only [hq, if_false]
      split_ifs with h1 h2
      · rw [h1.1, h1.2, hB] at hk
        exact absurd hk (by simp)
      · rw [h2.1, h2.2, hA] at hk
        exact absurd (Option.some.inj hk).symm hq
      · exact hk
  have hmove : move b ac ar bc br noMove true choice
      = some (true, refreshDerived (swapTurn bm)) := by
    unfold move
    simp [hA, hperf]
  refine ⟨_, hmove, ?_, ?_, ?_, ?_, ?_⟩
  · rw [turn_refreshDerived, turn_swapTurn, hbt]
  · intro c r
    rw [getSquareContents_after_turn_of_placed bm c r (hKm _), hbsq]
  · intro q
    rw [deref_refreshDerived, deref_swapTurn_captured, (deref_swapTurn_position bm q).1,
      (deref_swapTurn_position bm q).2]
    exact hview q
  · intro c t
    rw [pieces_refreshDerived, length_pieces_swapTurn, hbl]
  · intro color
    rw [deref_refreshDerived, (deref_swapTurn_position bm _).1, (deref_swapTurn_position bm _).2,
      getSquareContents_after_turn_of_placed bm _ _ (hKm _)]
    exact hKm color


set_option maxRecDepth 100000 in
/-- C14, as stated, fails. On the board that `init()` and the forced move of the black
rook from a8 onto e1 leave, the table refers to that rook on e1. The forced move of the
white pawn a2-a3, an empty square, and the forced move back leave the table at e1
referring to the white king. -/
theorem C14_counterexample :
    (move startBoard 0 7 4 0 false true PromotionChoice.queen).isSome = true
      ∧ getSquareContents kingCapturedBoard 0 1 = some ⟨WHITE, PAWN, 0⟩
      ∧ getSquareContents kingCapturedBoard 0 2 = none
      ∧ getSquareContents kingCapturedBoard 4 0 = some ⟨BLACK, ROOK, 0⟩
      ∧ (thereAndBack kingCapturedBoard 0 1 0 2 PromotionChoice.queen).map
          (fun b2 => getSquareContents b2 4 0) = some (some ⟨WHITE, KING, 0⟩) := by
  decide!

/-- C14, amended. On a board whose table entries are sound and whose table refers to each
king on the square that king records, let the piece on `A = (ac, ar)` be moved by a
forced `move` onto an empty square `B = (bc, br)` of the board, where neither that move
nor the move back runs the castling, en-passant or promotion block of `performMove` (a
king does not change column by two, a pawn stays on its file and neither square of a pawn
is on row 0 or row 7). Then `move(A, B, forced)` followed by `move(B, A, forced)` return
true and leave a board with the lookup table, the turn, and the position and captured flag
of every piece of the original board; castle and en-passant flags are not compared. -/
theorem C14_forced_round_trip (b : chessBoardClass) (X : PieceRef) (ac ar bc br : Int)
    (choice : PromotionChoice)
    (hsound : tableSound b = true) (hK : KingsInTable b)
    (hA : getSquareContents b ac ar = some X)
    (hB : getSquareContents b bc br = none)
    (hBin : 0 ≤ bc ∧ bc ≤ 7 ∧ 0 ≤ br ∧ br ≤ 7)
    (hcastle : ¬ (X.type = KING ∧ (ac - bc).natAbs = 2))
    (hep : ¬ (X.type = PAWN ∧ ac ≠ bc))
    (hpromo : ¬ (X.type = PAWN ∧ (br = 0 ∨ br = 7 ∨ ar = 0 ∨ ar = 7))) :
    ∃ b2, thereAndBack b ac ar bc br choice = some b2
      ∧ b2.turn = b.turn
      ∧ (∀ c r, getSquareContents b2 c r = getSquareContents b c r)
      ∧ (∀ q, (deref b2 q).column = (deref b q).column ∧ (deref b2 q).row = (deref b q).row
          ∧ (deref b2 q).captured = (deref b q).captured)
      ∧ (∀ c t, (pieces b2 c t).length = (pieces b c t).length) := by
  have hs := (tableSound_iff b).mp hsound
  have hX := hs _ _ _ hA
  have hAin := getSquareContents_inBounds b _ _ _ hA
  have hAB : ¬ (ac = bc ∧ ar = br) := by
    rintro ⟨h1, h2⟩
    rw [h1, h2, hB] at hA
    exact absurd hA (by simp)
  obtain ⟨b1, hm1, ht1, hsq1, hd1, hl1, hK1⟩ :=
    forced_plain_move b X ac ar bc br false choice hA hX hB hBin hcastle hep
      (fun h => hpromo ⟨h.1, by tauto⟩) hK
  have hA1 : getSquareContents b1 bc br = some X := by
    rw [hsq1]
    simp
  have hB1 : getSquareContents b1 ac ar = none := by
    rw [hsq1]
    simp [hAB]
  have hX1 : X.idx < (pieces b1 X.color X.type).length ∧ (deref b1 X).column = bc
      ∧ (deref b1 X).row = br := by
    refine ⟨by rw [hl1]; exact hX.1, ?_, ?_⟩
    · rw [(hd1 X).2.1]
      simp
    · rw [(hd1 X).2.2]
      simp
  obtain ⟨b2, hm2, ht2, hsq2, hd2, hl2, _⟩ :=
    forced_plain_move b1 X bc br ac ar false choice hA1 hX1 hB1 hAin
      (fun h => hcastle ⟨h.1, by omega⟩) (fun h => hep ⟨h.1, fun e => h.2 e.symm⟩)
      (fun h => hpromo ⟨h.1, by tauto⟩) hK1
  refine ⟨b2, ?_, ?_, ?_, ?_, ?_⟩
  · simp [thereAndBack, hm1, hm2]
  · rw [ht2, ht1]
    cases b.turn <;> rfl
  · intro c r
    rw [hsq2]
    by_cases h1 : c = ac ∧ r = ar
    · rw [if_pos h1, h1.1, h1.2, hA]
    · rw [if_neg h1]
      by_cases h2 : c = bc ∧ r = br
      · rw [if_pos h2, h2.1, h2.2, hB]
      · rw [if_neg h2, hsq1, if_neg h2, if_neg h1]
  · intro q
    rw [(hd2 q).1, (hd2 q).2.1, (hd2 q).2.2, (hd1 q).1, (hd1 q).2.1, (hd1 q).2.2]
    by_cases hq : q = X
    · subst hq
      simp [hX.2.1, hX.2.2]
    · simp [hq]
  · intro c t
    rw [hl2, hl1]

set_option maxRecDepth 100000 in
/-- Witness for C14: in the starting position the forced move Ng1-f3 and the forced move
back restore the table, the turn and every position and captured flag. -/
theorem C14_forced_round_trip_witness :
    ∃ b2, thereAndBack startBoard 6 0 5 2 PromotionChoice.queen = some b2
      ∧ b2.turn = startBoard.turn
      ∧ (∀ c r, getSquareContents b2 c r = getSquareContents startBoard c r)
      ∧ (∀ q, (deref b2 q).column = (deref startBoard q).column
          ∧ (deref b2 q).row = (deref startBoard q).row
          ∧ (deref b2 q).captured = (deref startBoard q).captured)
      ∧ (∀ c t, (pieces b2 c t).length = (pieces startBoard c t).length) :=
  C14_forced_round_trip startBoard ⟨WHITE, KNIGHT, 1⟩ 6 0 5 2 PromotionChoice.queen
    (by decide!) (fun color => by cases color <;> decide!) (by decide!) (by decide!)
    (by decide) (by decide) (by decide) (by decide)

/-! ## Legality at two failing inputs -/

set_option maxRecDepth 100000 in
/-- C27, the code at the failing input. The moves 1. e4 c6 2. e5 Qa5 3. Ke2 a6 4. Kf3 b6
5. Kg4 Bb7 6. Kg5 d5 7. exd6 are all accepted. In the position they leave, Black is to
move, the white king stands on g5, the attack scan run for White finds the black queen on
a5 attacking g5, and the probe of the queen move a5-g5, onto the square of the king,
returns true. -/
theorem C27_enPassant_exposes_king :
    (play startBoard epExposureGame).isSome = true
      ∧ (boardAfter epExposureGame).turn = BLACK
      ∧ getSquareContents (boardAfter epExposureGame) 6 4 = some (kingRef WHITE)
      ∧ getSquareContents (boardAfter epExposureGame) 0 4 = some ⟨BLACK, QUEEN, 0⟩
      ∧ getAttackers (withTurn (boardAfter epExposureGame) WHITE) 6 4 = [⟨BLACK, QUEEN, 0⟩]
      ∧ (move (boardAfter epExposureGame) 0 4 6 4 true false PromotionChoice.queen).map
          Prod.fst = some true := by
  decide!

set_option maxRecDepth 100000 in
/-- C28, the code at the failing input. After 1. f4 e5 2. g4 d5 3. d3 Bxg4 4. e3 Bb4+
5. Qd2 Qh4 White is in check from the queen on h4, the escape collection is empty, the
savior collection holds the white queen, which the pin collection names as pinned by the
bishop on b4, no move from any square of the board to any square of the board passes the
probe, and the checkmate flag is down. -/
theorem C28_pinned_savior_hides_checkmate :
    (play startBoard pinnedSaviorGame).isSome = true
      ∧ (boardAfter pinnedSaviorGame).turn = WHITE
      ∧ (boardAfter pinnedSaviorGame).checkVector = [⟨BLACK, QUEEN, 0⟩]
      ∧ (boardAfter pinnedSaviorGame).escapeVector = []
      ∧ (boardAfter pinnedSaviorGame).saviorVector = [⟨WHITE, QUEEN, 0⟩]
      ∧ (boardAfter pinnedSaviorGame).pinVector
          = [((⟨WHITE, QUEEN, 0⟩, ⟨BLACK, BISHOP, 1⟩), UP_LEFT)]
      ∧ allSquares.all (fun o => allSquares.all (fun d =>
          (move (boardAfter pinnedSaviorGame) o.1 o.2 d.1 d.2 true false
            PromotionChoice.queen).map Prod.fst == some false)) = true
      ∧ (boardAfter pinnedSaviorGame).checkmate = false := by
  decide!

/-! ## The attack scan and the pin scan, characterised -/

theorem findSome_range'_first {β : Type} (f : Nat → Option β) (n s : Nat) (y : β)
    (h : (List.range' s n).findSome? f = some y) :
    ∃ i, s ≤ i ∧ i < s + n ∧ f i = some y ∧ ∀ j, s ≤ j → j < i → f j = none := by
  induction n generalizing s with
  | zero => simp at h
  | succ n ih =>
    rw [List.range'_succ, List.findSome?_cons] at h
    cases hs : f s with
    | some z =>
      rw [hs] at h
      simp only [Option.some.injEq] at h
      subst h
      exact ⟨s, le_refl s, by omega, hs, fun j h1 h2 => by omega⟩
    | none =>
      rw [hs] at h
      obtain ⟨i, h1, h2, h3, h4⟩ := ih (s + 1) h
      refine ⟨i, by omega, by omega, h3, ?_⟩
      intro j hj1 hj2
      by_cases hjs : j = s
      · rw [hjs]
        exact hs
      · exact h4 j (by omega) hj2

/-- What a directional loop finds: the occupant of the nearest occupied square. -/
theorem firstOccupant_iff (b : chessBoardClass) (d : PIN_DIR) (c r : Int)
    (sq : Int × Int) (p : PieceRef) :
    firstOccupant b d c r = some (sq, p) ↔
      ∃ i : Nat, 1 ≤ i ∧ sq = stepFrom d c r i
        ∧ getSquareContents b (stepFrom d c r i).1 (stepFrom d c r i).2 = some p
        ∧ ∀ j, 1 ≤ j → j < i →
            getSquareContents b (stepFrom d c r j).1 (stepFrom d c r j).2 = none := by
  constructor
  · intro h
    unfold firstOccupant ray at h
    rw [List.findSome?_map] at h
    obtain ⟨i, h1, _, h3, h4⟩ := findSome_range'_first _ _ _ _ h
    simp only [Function.comp_apply, Option.map_eq_some', Prod.mk.injEq] at h3
    obtain ⟨q, hq, hsq, hqp⟩ := h3
    subst hqp
    refine ⟨i, h1, hsq.symm, hq, ?_⟩
    intro j hj1 hj2
    have := h4 j hj1 hj2
    simpa using this
  · rintro ⟨i, hi, hsq, hp, hgap⟩
    rw [hsq]
    exact firstOccupant_eq b d c r i p hi hgap hp

/-- The test of the attack scan on the occupant `p` of the `i`-th square of direction `d`. -/
theorem threatens_iff (d : PIN_DIR) (enemy : PIECE_COLOR) (col row : Int) (i : Nat) (hi : 1 ≤ i)
    (p : PieceRef) :
    threatens d enemy col row (stepFrom d col row i) p = true ↔
      p.color = enemy
        ∧ ((isOrthogonal d = true ∧ (p.type = ROOK ∨ p.type = QUEEN))
          ∨ (isOrthogonal d = false ∧ (p.type = BISHOP ∨ p.type = QUEEN))
          ∨ (i = 1 ∧ p.type = KING)
          ∨ (i = 1 ∧ p.type = PAWN
              ∧ (((d = UP_RIGHT ∨ d = UP_LEFT) ∧ p.color = BLACK)
                ∨ ((d = DOWN_LEFT ∨ d = DOWN_RIGHT) ∧ p.color = WHITE)))) := by
  have hadj : stepFrom d col row i = stepFrom d col row 1 ↔ i = 1 := by
    constructor
    · intro h
      exact (stepFrom_inj_dir d d col row i 1 hi (le_refl 1) h).2
    · intro h
      rw [h]
  obtain ⟨pc, pt, pi⟩ := p
  cases d <;> cases pt <;> cases pc <;> cases enemy <;>
    simp [threatens, isOrthogonal, hadj]

theorem mem_attackerOnRay_iff (b : chessBoardClass) (d : PIN_DIR) (col row : Int)
    (p : PieceRef) :
    p ∈ attackerOnRay b d col row ↔
      ∃ i : Nat, 1 ≤ i
        ∧ getSquareContents b (stepFrom d col row i).1 (stepFrom d col row i).2 = some p
        ∧ (∀ j, 1 ≤ j → j < i →
            getSquareContents b (stepFrom d col row j).1 (stepFrom d col row j).2 = none)
        ∧ threatens d (enemyOf b.turn) col row (stepFrom d col row i) p = true := by
  unfold attackerOnRay
  constructor
  · intro h
    cases hf : firstOccupant b d col row with
    | none => simp [hf] at h
    | some res =>
      obtain ⟨sq, q⟩ := res
      simp only [hf] at h
      split_ifs at h with ht
      · simp only [List.mem_singleton] at h
        subst h
        obtain ⟨i, hi, hsq, hp, hgap⟩ := (firstOccupant_iff b d col row sq p).mp hf
        rw [hsq] at ht
        exact ⟨i, hi, hp, hgap, ht⟩
      · simp at h
  · rintro ⟨i, hi, hp, hgap, ht⟩
    rw [firstOccupant_eq b d col row i p hi hgap hp]
    simp [ht]

theorem mem_knightsAround_iff (b : chessBoardClass) (color : PIECE_COLOR) (col row : Int)
    (p : PieceRef) :
    p ∈ knightsAround b color col row ↔
      p.color = color ∧ p.type = KNIGHT
        ∧ ∃ o ∈ knightOffsets, getSquareContents b (col + o.1) (row + o.2) = some p := by
  unfold knightsAround
  rw [List.mem_filterMap]
  constructor
  · rintro ⟨o, ho, hp⟩
    cases hq : getSquareContents b (col + o.1) (row + o.2) with
    | none => simp [hq] at hp
    | some q =>
      simp only [hq] at hp
      split_ifs at hp with hc
      simp only [Option.some.injEq] at hp
      subst hp
      exact ⟨hc.1, hc.2, o, ho, hq⟩
  · rintro ⟨hc, ht, o, ho, hq⟩
    exact ⟨o, ho, by simp [hq, hc, ht]⟩

/-- The directions in the order in which the attack scan runs its eight loops. -/
theorem getAttackers_eq (b : chessBoardClass) (col row : Int) :
    getAttackers b col row
      = [LEFT, RIGHT, DOWN, UP, UP_RIGHT, UP_LEFT, DOWN_LEFT, DOWN_RIGHT].flatMap
          (fun d => attackerOnRay b d col row)
        ++ knightsAround b (enemyOf b.turn) col row := by
  simp [getAttackers, List.flatMap_cons, List.append_assoc]

theorem mem_getAttackers_iff (b : chessBoardClass) (col row : Int) (p : PieceRef) :
    p ∈ getAttackers b col row ↔
      (∃ d, p ∈ attackerOnRay b d col row) ∨ p ∈ knightsAround b (enemyOf b.turn) col row := by
  rw [getAttackers_eq, List.mem_append, List.mem_flatMap]
  constructor
  · rintro (⟨d, _, h⟩ | h)
    · exact Or.inl ⟨d, h⟩
    · exact Or.inr h
  · rintro (⟨d, h⟩ | h)
    · exact Or.inl ⟨d, by cases d <;> simp, h⟩
    · exact Or.inr h

theorem knightOffset_off_ray (d : PIN_DIR) (col row : Int) (i : Nat) (o : Int × Int)
    (ho : o ∈ knightOffsets) : stepFrom d col row i ≠ (col + o.1, row + o.2) := by
  simp only [knightOffsets, List.mem_cons, List.mem_singleton, List.not_mem_nil, or_false] at ho
  rcases ho with rfl | rfl | rfl | rfl | rfl | rfl | rfl | rfl <;>
    cases d <;> simp only [stepFrom, dirStep, ne_eq, Prod.mk.injEq, not_and] <;> omega

/-- C29. The attack scan returns precisely the pieces of the colour not to move that the
lookup table holds in capturing position for the target: a knight a knight's move away;
or the occupant of the nearest occupied square in one of the eight directions that is a
rook or queen (the direction along a rank or file), a bishop or queen (along a diagonal),
a king on the adjacent square, or a pawn on the diagonally adjacent square with the target
ahead of it (a black pawn above the target, a white pawn below it).  On a board whose
table entries are sound the scan lists no piece twice. -/
theorem C29_getAttackers_exact (b : chessBoardClass) (col row : Int)
    (hsound : tableSound b = true) :
    (∀ p, p ∈ getAttackers b col row ↔
        p.color = enemyOf b.turn
          ∧ ((p.type = KNIGHT ∧ ∃ o ∈ knightOffsets,
                getSquareContents b (col + o.1) (row + o.2) = some p)
            ∨ ∃ (d : PIN_DIR) (i : Nat), 1 ≤ i
                ∧ getSquareContents b (stepFrom d col row i).1 (stepFrom d col row i).2 = some p
                ∧ (∀ j, 1 ≤ j → j < i →
                    getSquareContents b (stepFrom d col row j).1 (stepFrom d col row j).2 = none)
                ∧ ((isOrthogonal d = true ∧ (p.type = ROOK ∨ p.type = QUEEN))
                  ∨ (isOrthogonal d = false ∧ (p.type = BISHOP ∨ p.type = QUEEN))
                  ∨ (i = 1 ∧ p.type = KING)
                  ∨ (i = 1 ∧ p.type = PAWN
                      ∧ (((d = UP_RIGHT ∨ d = UP_LEFT) ∧ p.color = BLACK)
                        ∨ ((d = DOWN_LEFT ∨ d = DOWN_RIGHT) ∧ p.color = WHITE))))))
      ∧ (getAttackers b col row).Nodup := by
  have hs := (tableSound_iff b).mp hsound
  constructor
  · intro p
    rw [mem_getAttackers_iff]
    constructor
    · rintro (⟨d, h⟩ | h)
      · obtain ⟨i, hi, hp, hgap, ht⟩ := (mem_attackerOnRay_iff b d col row p).mp h
        have ht2 := (threatens_iff d (enemyOf b.turn) col row i hi p).mp ht
        exact ⟨ht2.1, Or.inr ⟨d, i, hi, hp, hgap, ht2.2⟩⟩
      · obtain ⟨hc, ht, ho⟩ := (mem_knightsAround_iff b _ col row p).mp h
        exact ⟨hc, Or.inl ⟨ht, ho⟩⟩
    · rintro ⟨hc, ⟨ht, ho⟩ | ⟨d, i, hi, hp, hgap, hk⟩⟩
      · exact Or.inr ((mem_knightsAround_iff b _ col row p).mpr ⟨hc, ht, ho⟩)
      · exact Or.inl ⟨d, (mem_attackerOnRay_iff b d col row p).mpr
          ⟨i, hi, hp, hgap, (threatens_iff d (enemyOf b.turn) col row i hi p).mpr ⟨hc, hk⟩⟩⟩
  · rw [getAttackers_eq, List.nodup_append]
    refine ⟨?_, ?_, ?_⟩
    · rw [List.nodup_flatMap]
      constructor
      · intro d _
        unfold attackerOnRay
        cases firstOccupant b d col row with
        | none => exact List.nodup_nil
        | some res =>
          simp only
          split_ifs
          · exact List.nodup_singleton _
          · exact List.nodup_nil
      · apply List.Nodup.pairwise_of_forall_ne (by decide)
        intro d1 _ d2 _ hne
        intro p h1 h2
        obtain ⟨i1, hi1, hp1, _, _⟩ := (mem_attackerOnRay_iff b d1 col row p).mp h1
        obtain ⟨i2, hi2, hp2, _, _⟩ := (mem_attackerOnRay_iff b d2 col row p).mp h2
        have e1 := hs _ _ _ hp1
        have e2 := hs _ _ _ hp2
        have heq : stepFrom d1 col row i1 = stepFrom d2 col row i2 :=
          Prod.ext (e1.2.1.symm.trans e2.2.1) (e1.2.2.symm.trans e2.2.2)
        exact hne (stepFrom_inj_dir d1 d2 col row i1 i2 hi1 hi2 heq).1
    · unfold knightsAround
      apply List.Nodup.filterMap
      · intro o1 o2 p h1 h2
        have g : ∀ o : Int × Int, p ∈ (match getSquareContents b (col + o.1) (row + o.2) with
            | none => none
            | some q => if q.color = enemyOf b.turn ∧ q.type = KNIGHT then some q else none) →
            getSquareContents b (col + o.1) (row + o.2) = some p := by
          intro o h
          cases hq : getSquareContents b (col + o.1) (row + o.2) with
          | none => simp [hq] at h
          | some q =>
            simp only [hq] at h
            split_ifs at h
            · simp only [Option.mem_def, Option.some.injEq] at h
              rw [h]
            · simp at h
        have e1 := hs _ _ _ (g o1 h1)
        have e2 := hs _ _ _ (g o2 h2)
        apply Prod.ext
        · have := e1.2.1.symm.trans e2.2.1
          omega
        · have := e1.2.2.symm.trans e2.2.2
          omega
      · decide
    · intro p h1 h2
      rw [List.mem_flatMap] at h1
      obtain ⟨d, _, h1⟩ := h1
      obtain ⟨i, hi, hp, _, _⟩ := (mem_attackerOnRay_iff b d col row p).mp h1
      obtain ⟨_, _, o, ho, hq⟩ := (mem_knightsAround_iff b _ col row p).mp h2
      have e1 := hs _ _ _ hp
      have e2 := hs _ _ _ hq
      exact knightOffset_off_ray d col row i o ho
        (Prod.ext (e1.2.1.symm.trans e2.2.1) (e1.2.2.symm.trans e2.2.2))

theorem pinOf_congr_defenders (b : chessBoardClass) (king : PieceRef)
    (cand : PieceRef × PIN_DIR) :
    pinOf (scanForDefenders b king).2 king.color cand = pinOf b king.color cand := by
  unfold pinOf scanForDefenders
  simp only [deref_withDefenderVector]
  rw [firstOccupant_congr (withDefenderVector b (defendersOf b king)) b _ _ _
    (fun c1 r1 => rfl)]

/-- An entry of the pin scan comes from the first occupant of its direction from the
king, a friendly piece, through the second scan from that piece. -/
theorem mem_scanForPins_source (b : chessBoardClass) (king : PieceRef)
    (e : (PieceRef × PieceRef) × PIN_DIR) (he : e ∈ (scanForPins b king).1) :
    ∃ sq P, firstOccupant b e.2 (deref b king).column (deref b king).row = some (sq, P)
      ∧ P.color = king.color ∧ pinOf b king.color (P, e.2) = some e := by
  simp only [scanForPins] at he
  split_ifs at he with hemp
  · simp at he
  · rw [List.mem_filterMap] at he
    obtain ⟨cand, hcand, hpin⟩ := he
    rw [pinOf_congr_defenders] at hpin
    obtain ⟨P1, d1⟩ := cand
    have hd : e.2 = d1 := by
      unfold pinOf at hpin
      split at hpin
      · simp at hpin
      · split_ifs at hpin <;> simp at hpin <;> subst hpin <;> rfl
    simp only [scanForDefenders, defendersOf, List.mem_filterMap] at hcand
    obtain ⟨d2, _, hd2⟩ := hcand
    cases hfo : firstOccupant b d2 (deref b king).column (deref b king).row with
    | none => simp [hfo] at hd2
    | some res =>
      obtain ⟨sq, occ⟩ := res
      simp only [hfo] at hd2
      split_ifs at hd2 with hc
      simp only [Option.some.injEq, Prod.mk.injEq] at hd2
      obtain ⟨rfl, rfl⟩ := hd2
      rw [hd]
      exact ⟨sq, occ, hfo, hc, hpin⟩

theorem pinOf_some (b : chessBoardClass) (friendly : PIECE_COLOR) (P : PieceRef) (d : PIN_DIR)
    (e : (PieceRef × PieceRef) × PIN_DIR) (h : pinOf b friendly (P, d) = some e) :
    ∃ sq Q, firstOccupant b d (deref b P).column (deref b P).row = some (sq, Q)
      ∧ Q.color ≠ friendly
      ∧ (if isOrthogonal d then Q.type = ROOK ∨ Q.type = QUEEN
          else Q.type = BISHOP ∨ Q.type = QUEEN)
      ∧ e = ((P, Q), d) := by
  unfold pinOf at h
  cases hfo : firstOccupant b d (deref b P).column (deref b P).row with
  | none => simp [hfo] at h
  | some res =>
    obtain ⟨sq, Q⟩ := res
    simp only [hfo] at h
    refine ⟨sq, Q, rfl, ?_⟩
    split_ifs at h with h1 h2 h3 h4
    · simp only [Option.some.injEq] at h
      exact ⟨h1, by simp [h2, h3], h.symm⟩
    · simp only [Option.some.injEq] at h
      exact ⟨h1, by simp [h2, h4], h.symm⟩

/-- C30. On a board whose table entries are sound, `scanForPins(king)` returns exactly
the triples (defender, pinner, direction) in which the defender is the nearest occupant
of the direction from the king and of the colour of the king, the pinner is the nearest
occupant beyond the defender in the same direction and of the other colour, and the
pinner is a rook or queen when the direction runs along a rank or file and a bishop or
queen when it runs along a diagonal.  No two entries have the same direction, and the king
is the defender of no entry. -/
theorem C30_scanForPins_exact (b : chessBoardClass) (king : PieceRef)
    (hsound : tableSound b = true) :
    (∀ (P Q : PieceRef) (d : PIN_DIR), ((P, Q), d) ∈ (scanForPins b king).1 ↔
        ∃ i k : Nat, 1 ≤ i ∧ i < k
          ∧ getSquareContents b (stepFrom d (deref b king).column (deref b king).row i).1
              (stepFrom d (deref b king).column (deref b king).row i).2 = some P
          ∧ P.color = king.color
          ∧ (∀ j, 1 ≤ j → j < i →
              getSquareContents b (stepFrom d (deref b king).column (deref b king).row j).1
                (stepFrom d (deref b king).column (deref b king).row j).2 = none)
          ∧ getSquareContents b (stepFrom d (deref b king).column (deref b king).row k).1
              (stepFrom d (deref b king).column (deref b king).row k).2 = some Q
          ∧ Q.color ≠ king.color
          ∧ (if isOrthogonal d then Q.type = ROOK ∨ Q.type = QUEEN
              else Q.type = BISHOP ∨ Q.type = QUEEN)
          ∧ (∀ j, i < j → j < k →
              getSquareContents b (stepFrom d (deref b king).column (deref b king).row j).1
                (stepFrom d (deref b king).column (deref b king).row j).2 = none))
      ∧ (∀ e1 ∈ (scanForPins b king).1, ∀ e2 ∈ (scanForPins b king).1, e1.2 = e2.2 → e1 = e2)
      ∧ ((scanForPins b king).1.map (fun e => e.2)).Nodup
      ∧ (∀ e ∈ (scanForPins b king).1, e.1.1 ≠ king) := by
  have hs := (tableSound_iff b).mp hsound
  have hinj : ∀ e1 ∈ (scanForPins b king).1, ∀ e2 ∈ (scanForPins b king).1,
      e1.2 = e2.2 → e1 = e2 := by
    intro e1 h1 e2 h2 hd
    obtain ⟨sq1, P1, hf1, _, hp1⟩ := mem_scanForPins_source b king e1 h1
    obtain ⟨sq2, P2, hf2, _, hp2⟩ := mem_scanForPins_source b king e2 h2
    rw [hd, hf2] at hf1
    simp only [Option.some.injEq, Prod.mk.injEq] at hf1
    rw [hd, ← hf1.2, hp2] at hp1
    exact (Option.some.inj hp1).symm
  have hnd : (scanForPins b king).1.Nodup := by
    simp only [scanForPins]
    split_ifs
    · exact List.nodup_nil
    · apply List.Nodup.filterMap
      · intro c1 c2 e h1 h2
        simp only [Option.mem_def, pinOf_congr_defenders] at h1 h2
        obtain ⟨P1, d1⟩ := c1
        obtain ⟨P2, d2⟩ := c2
        obtain ⟨_, _, _, _, _, he1⟩ := pinOf_some b king.color P1 d1 e h1
        obtain ⟨_, _, _, _, _, he2⟩ := pinOf_some b king.color P2 d2 e h2
        rw [he1] at he2
        simp only [Prod.mk.injEq] at he2
        exact Prod.ext he2.1.1 he2.2
      · simp only [scanForDefenders, defendersOf]
        apply List.Nodup.filterMap
        · intro d1 d2 c h1 h2
          have g : ∀ d : PIN_DIR, c ∈ (match firstOccupant b d (deref b king).column
              (deref b king).row with
              | none => none
              | some (_, occupier) =>
                if occupier.color = king.color then some (occupier, d) else none) → c.2 = d := by
            intro d h
            cases hfo : firstOccupant b d (deref b king).column (deref b king).row with
            | none => simp [hfo] at h
            | some res =>
              simp only [hfo] at h
              split_ifs at h
              · simp only [Option.mem_def, Option.some.injEq] at h
                rw [← h]
              · simp at h
          exact (g d1 h1).symm.trans (g d2 h2)
        · decide
  refine ⟨?_, hinj, ?_, ?_⟩
  · intro P Q d
    constructor
    · intro h
      obtain ⟨sq, P1, hf, hc, hp⟩ := mem_scanForPins_source b king _ h
      obtain ⟨sq2, Q1, hf2, hQc, hQt, he⟩ := pinOf_some b king.color P1 d _ hp
      simp only [Prod.mk.injEq, and_true] at he
      obtain ⟨rfl, rfl⟩ := he
      obtain ⟨i, hi, _, hPi, hgap1⟩ := (firstOccupant_iff b d _ _ sq P).mp hf
      have hPpos := hs _ _ _ hPi
      rw [hPpos.2.1, hPpos.2.2] at hf2
      obtain ⟨m, hm, _, hQm, hgap2⟩ := (firstOccupant_iff b d _ _ sq2 Q).mp hf2
      rw [stepFrom_add] at hQm
      refine ⟨i, i + m, hi, by omega, hPi, hc, hgap1, hQm, hQc, hQt, ?_⟩
      intro j hj1 hj2
      have := hgap2 (j - i) (by omega) (by omega)
      rw [stepFrom_add] at this
      have hji : i + (j - i) = j := by omega
      rw [hji] at this
      exact this
    · rintro ⟨i, k, hi, hik, hP, hPc, hgap1, hQ, hQc, hQt, hgap2⟩
      exact List.mem_of_find?_eq_some
        (find_pin b king P Q d i k hsound hi hik hP hPc hgap1 hQ hQc hQt hgap2)
  · exact List.Nodup.map_on (fun e1 h1 e2 h2 h => hinj e1 h1 e2 h2 h) hnd
  · intro e he hk
    have := king_not_pinned b king hs
    rw [List.find?_eq_none] at this
    exact this e he (by simpa using hk)

set_option maxRecDepth 100000 in
/-- C29 at a concrete board: in the starting position, with White to move, the knight on
b8 stands a knight's move from c6, so the scan of c6 lists it, and the scan lists nothing
twice. -/
theorem C29_getAttackers_exact_witness :
    tableSound startBoard = true
      ∧ (⟨BLACK, KNIGHT, 0⟩ : PieceRef) ∈ getAttackers startBoard 2 5
      ∧ (getAttackers startBoard 2 5).Nodup :=
  have h : tableSound startBoard = true
      ∧ (⟨BLACK, KNIGHT, 0⟩ : PieceRef).color = enemyOf startBoard.turn
      ∧ getSquareContents startBoard (2 + ((-1, 2) : Int × Int).1)
          (5 + ((-1, 2) : Int × Int).2) = some ⟨BLACK, KNIGHT, 0⟩ := by decide!
  ⟨h.1,
   ((C29_getAttackers_exact startBoard 2 5 h.1).1 ⟨BLACK, KNIGHT, 0⟩).mpr
     ⟨h.2.1, Or.inl ⟨rfl, (-1, 2), by decide, h.2.2⟩⟩,
   (C29_getAttackers_exact startBoard 2 5 h.1).2⟩

set_option maxRecDepth 100000 in
/-- C30 at a concrete board: after 1. f4 e5 2. g4 d5 3. d3 Bxg4 4. e3 Bb4+ 5. Qd2 Qh4 the
table is sound, the pin scan for the white king lists no direction twice and never lists
the king. -/
theorem C30_scanForPins_exact_witness :
    tableSound (boardAfter pinnedSaviorGame) = true
      ∧ ((scanForPins (boardAfter pinnedSaviorGame) (kingRef WHITE)).1.map
          (fun e => e.2)).Nodup
      ∧ (∀ e ∈ (scanForPins (boardAfter pinnedSaviorGame) (kingRef WHITE)).1,
          e.1.1 ≠ kingRef WHITE) :=
  have h : tableSound (boardAfter pinnedSaviorGame) = true := by decide!
  ⟨h, (C30_scanForPins_exact (boardAfter pinnedSaviorGame) (kingRef WHITE) h).2.2⟩

/-! ## The game tree: action ordering -/

theorem maxMoveType_foldl_ne_DRAW (tags : List MOVE_TYPE) (m : MOVE_TYPE)
    (hm : m ≠ MOVE_TYPE.DRAW) (h : MOVE_TYPE.DRAW ∉ tags) :
    tags.foldl (fun m t => if m.toNat < t.toNat then t else m) m ≠ MOVE_TYPE.DRAW := by
  induction tags generalizing m with
  | nil => simpa using hm
  | cons t ts ih =>
    simp only [List.mem_cons, not_or] at h
    simp only [List.foldl_cons]
    apply ih _ _ h.2
    split_ifs
    · exact fun e => h.1 e.symm
    · exact hm

/-- A tag list without `DRAW` has a greatest tag other than `DRAW`. -/
theorem maxMoveType_ne_DRAW (tags : List MOVE_TYPE) (h : MOVE_TYPE.DRAW ∉ tags) :
    maxMoveType tags ≠ MOVE_TYPE.DRAW :=
  maxMoveType_foldl_ne_DRAW tags _ (by decide) h

theorem mem_bucket (acts : List action) (cat : MOVE_TYPE) (a : action) :
    a ∈ bucket acts cat ↔ a ∈ acts.map classify ∧ a.bestCategory = some cat := by
  simp [bucket]

theorem mem_sortByHeuristic (l : List action) (a : action) :
    a ∈ sortByHeuristic l ↔ a ∈ l :=
  (List.perm_insertionSort _ l).mem_iff

theorem count_bucket (acts : List action) (cat : MOVE_TYPE) (a : action) :
    (sortByHeuristic (bucket acts cat)).count a
      = if a.bestCategory = some cat then (acts.map classify).count a else 0 := by
  have h0 : (sortByHeuristic (bucket acts cat)).count a = (bucket acts cat).count a :=
    (List.perm_insertionSort _ (bucket acts cat)).count_eq a
  rw [h0]
  split_ifs with h
  · rw [bucket, List.count_filter (by simpa using h), List.map_reverse]
    exact (List.reverse_perm _).count_eq a
  · apply List.count_eq_zero_of_not_mem
    rw [mem_bucket]
    exact fun hh => h hh.2

/-- The stack holds every generated action, with its category recorded, exactly once,
provided no generated action carries the tag `DRAW`. -/
theorem stackOf_perm (acts : List action)
    (h : ∀ a ∈ acts, MOVE_TYPE.DRAW ∉ a.moveTypeList) :
    (stackOf acts).Perm (acts.map classify) := by
  rw [List.perm_iff_count]
  intro a
  rw [stackOf, (List.reverse_perm _).count_eq a]
  simp only [List.flatMap_cons, List.flatMap_nil, List.append_nil, List.count_append,
    count_bucket]
  by_cases hmem : a ∈ acts.map classify
  · obtain ⟨a0, ha0, rfl⟩ := List.mem_map.mp hmem
    have hne := maxMoveType_ne_DRAW a0.moveTypeList (h a0 ha0)
    generalize hc : List.count (classify a0) (List.map classify acts) = n
    simp only [classify, Option.some.injEq]
    cases hm : maxMoveType a0.moveTypeList <;> simp_all
  · rw [List.count_eq_zero_of_not_mem hmem]
    simp

theorem categoryRank_of_mem_bucket (acts : List action) (cat : MOVE_TYPE) (a : action)
    (h : a ∈ sortByHeuristic (bucket acts cat)) : categoryRank a = cat.toNat := by
  rw [mem_sortByHeuristic, mem_bucket] at h
  simp [categoryRank, h.2]

/-- Popping the stack yields the categories in descending order of the enumeration and,
within one category, the heuristic values in non-increasing order. -/
theorem stackOf_sorted (acts : List action) :
    (stackOf acts).Pairwise (fun a b =>
      categoryRank b < categoryRank a
        ∨ (categoryRank a = categoryRank b ∧ b.heuristic ≤ a.heuristic)) := by
  rw [stackOf, List.pairwise_reverse, List.pairwise_flatMap]
  constructor
  · intro cat _
    haveI : IsTotal action (fun a1 a2 => a1.heuristic ≤ a2.heuristic) :=
      ⟨fun a b => le_total a.heuristic b.heuristic⟩
    haveI : IsTrans action (fun a1 a2 => a1.heuristic ≤ a2.heuristic) :=
      ⟨fun a b c h1 h2 => le_trans h1 h2⟩
    have hs : List.Pairwise (fun a1 a2 : action => a1.heuristic ≤ a2.heuristic)
        (sortByHeuristic (bucket acts cat)) :=
      List.sorted_insertionSort _ (bucket acts cat)
    refine List.Pairwise.imp_of_mem ?_ hs
    intro a b ha hb hab
    right
    exact ⟨by rw [categoryRank_of_mem_bucket acts cat a ha,
      categoryRank_of_mem_bucket acts cat b hb], hab⟩
  · have hc : List.Pairwise (fun c1 c2 : MOVE_TYPE => c1.toNat < c2.toNat)
        [MOVE_TYPE.BACKWARD, MOVE_TYPE.FORWARD, MOVE_TYPE.CHECK, MOVE_TYPE.DOUBLE_CHECK,
          MOVE_TYPE.CASTLE, MOVE_TYPE.CAPTURE, MOVE_TYPE.PROMOTION] := by decide
    refine hc.imp ?_
    intro c1 c2 hlt x hx y hy
    left
    rw [categoryRank_of_mem_bucket acts c1 x hx, categoryRank_of_mem_bucket acts c2 y hy]
    exact hlt

/-! ## The game tree: generated actions -/

theorem mem_attempt (H : Heuristic) (board : chessBoardClass) (piece : PieceRef)
    (origC origR : Int) (dest : Int × Int) (a : action)
    (h : a ∈ attempt H board piece origC origR dest) :
    probe board origC origR dest.1 dest.2 = true
      ∧ a = mkAction H board piece origC origR dest.1 dest.2 := by
  unfold attempt at h
  split_ifs at h with hp
  · exact ⟨hp, by simpa using h⟩
  · simp at h

theorem mem_slide (H : Heuristic) (board : chessBoardClass) (piece : PieceRef)
    (origC origR : Int) (pin : Option PIN_DIR) (d : PIN_DIR) (a : action)
    (h : a ∈ slide H board piece origC origR pin d) :
    ∃ dest : Int × Int, probe board origC origR dest.1 dest.2 = true
      ∧ a = mkAction H board piece origC origR dest.1 dest.2 := by
  unfold slide at h
  split_ifs at h
  · simp at h
  · obtain ⟨sq, hsq, hq⟩ := List.mem_map.mp h
    have h1 := List.mem_takeWhile_imp hsq
    exact ⟨sq, h1, hq.symm⟩

theorem mem_flatMap_attempt (H : Heuristic) (board : chessBoardClass) (piece : PieceRef)
    (origC origR : Int) (l : List (Int × Int)) (g : Int × Int → Int × Int) (a : action)
    (h : a ∈ l.flatMap (fun o => attempt H board piece origC origR (g o))) :
    ∃ dest : Int × Int, probe board origC origR dest.1 dest.2 = true
      ∧ a = mkAction H board piece origC origR dest.1 dest.2 := by
  obtain ⟨sq, _, hsq⟩ := List.mem_flatMap.mp h
  exact ⟨_, mem_attempt H board piece origC origR _ a hsq⟩

theorem mem_flatMap_slide (H : Heuristic) (board : chessBoardClass) (piece : PieceRef)
    (origC origR : Int) (pin : Option PIN_DIR) (l : List PIN_DIR) (a : action)
    (h : a ∈ l.flatMap (slide H board piece origC origR pin)) :
    ∃ dest : Int × Int, probe board origC origR dest.1 dest.2 = true
      ∧ a = mkAction H board piece origC origR dest.1 dest.2 := by
  obtain ⟨d, _, hd⟩ := List.mem_flatMap.mp h
  exact mem_slide H board piece origC origR pin d a hd

/-- Every action `buildActions` pushes for a piece has passed the probe on the working
copy of the board of the node, from the square the piece records. -/
theorem mem_builtActions (H : Heuristic) (node : gameStateNode) (piece : PieceRef)
    (a : action) (h : a ∈ builtActions H node piece) :
    ∃ dest : Int × Int,
      probe (assign (init blankBoard) node.gameState) (deref node.gameState piece).column
          (deref node.gameState piece).row dest.1 dest.2 = true
        ∧ a = mkAction H (assign (init blankBoard) node.gameState) piece
            (deref node.gameState piece).column (deref node.gameState piece).row
            dest.1 dest.2 := by
  unfold builtActions at h
  simp only at h
  generalize assign (init blankBoard) node.gameState = board at h ⊢
  generalize (deref node.gameState piece).column = origC at h ⊢
  generalize (deref node.gameState piece).row = origR at h ⊢
  generalize (List.find? (fun e => samePiece node.gameState piece board e.1.1)
    board.pinVector).map (fun e => e.2) = pin at h
  split_ifs at h <;>
    first
      | exact absurd h (List.not_mem_nil _)
      | exact mem_flatMap_attempt H board piece origC origR _ (fun sq => sq) a h
      | (cases htype : piece.type <;> simp only [htype] at h <;>
          first
            | exact absurd h (List.not_mem_nil _)
            | exact mem_flatMap_attempt H board piece origC origR _ _ a h
            | exact mem_flatMap_slide H board piece origC origR pin _ a h)

theorem mem_buildAll (H : Heuristic) (node : gameStateNode) (ps : List PieceRef)
    (acts : List action) (h : buildAll H node ps = some acts) (a : action) (ha : a ∈ acts) :
    ∃ piece ∈ ps, a ∈ builtActions H node piece := by
  induction ps generalizing acts with
  | nil =>
    simp only [buildAll, Option.some.injEq] at h
    subst h
    exact absurd ha (List.not_mem_nil _)
  | cons p ps ih =>
    simp only [buildAll, buildActions] at h
    split_ifs at h with hf
    · simp at h
    · simp only [Option.some_bind, Option.map_eq_some'] at h
      obtain ⟨more, hmore, rfl⟩ := h
      rcases List.mem_append.mp ha with h1 | h1
      · exact ⟨p, List.mem_cons_self _ _, h1⟩
      · obtain ⟨q, hq, hqa⟩ := ih more hmore h1
        exact ⟨q, List.mem_cons_of_mem _ hq, hqa⟩

/-- Every generated action has passed the probe on the working copy of the board of the
node, and its score and tags are those of the heuristic on that copy. -/
theorem mem_generatedActions (H : Heuristic) (node : gameStateNode) (acts : List action)
    (h : generatedActions H node = some acts) (a : action) (ha : a ∈ acts) :
    ∃ piece ∈ piecesOfNode node, ∃ dest : Int × Int,
      probe (assign (init blankBoard) node.gameState) (deref node.gameState piece).column
          (deref node.gameState piece).row dest.1 dest.2 = true
        ∧ a = mkAction H (assign (init blankBoard) node.gameState) piece
            (deref node.gameState piece).column (deref node.gameState piece).row
            dest.1 dest.2 := by
  obtain ⟨piece, hp, hb⟩ := mem_buildAll H node _ acts h a ha
  exact ⟨piece, hp, mem_builtActions H node piece a hb⟩

theorem buildAll_nil_of_empty (H : Heuristic) (node : gameStateNode) (ps : List PieceRef)
    (h : ∀ piece ∈ ps, builtActions H node piece = []) : buildAll H node ps = some [] := by
  induction ps with
  | nil => rfl
  | cons p ps ih =>
    have h1 := h p (List.mem_cons_self _ _)
    have h2 := ih (fun q hq => h q (List.mem_cons_of_mem _ hq))
    simp [buildAll, buildActions, h1, h2, friendlyFire]

/-- When none of the pieces `generateActionList` visits has a move, from the square the
piece records, that passes the probe on the working copy, no action is generated. -/
theorem generatedActions_of_no_probe (H : Heuristic) (node : gameStateNode)
    (h : ∀ piece ∈ piecesOfNode node, ∀ destC destR : Int,
      probe (assign (init blankBoard) node.gameState) (deref node.gameState piece).column
        (deref node.gameState piece).row destC destR = false) :
    generatedActions H node = some [] := by
  apply buildAll_nil_of_empty
  intro piece hpiece
  apply List.eq_nil_iff_forall_not_mem.mpr
  intro a ha
  obtain ⟨dest, hp, _⟩ := mem_builtActions H node piece a ha
  rw [h piece hpiece] at hp
  exact Bool.false_ne_true hp

theorem moveTypeList_mkAction (H : Heuristic) (board : chessBoardClass) (piece : PieceRef)
    (origC origR destC destR : Int) :
    (mkAction H board piece origC origR destC destR).moveTypeList
      = (H board ⟨some piece, origC, origR, destC, destR, 0, [], none⟩).2 := rfl

theorem maxMoveType_foldl_spec (tags : List MOVE_TYPE) (m : MOVE_TYPE) :
    (m.toNat ≤ (tags.foldl (fun m t => if m.toNat < t.toNat then t else m) m).toNat)
      ∧ (∀ t ∈ tags, t.toNat
          ≤ (tags.foldl (fun m t => if m.toNat < t.toNat then t else m) m).toNat)
      ∧ (tags.foldl (fun m t => if m.toNat < t.toNat then t else m) m ∈ tags
          ∨ tags.foldl (fun m t => if m.toNat < t.toNat then t else m) m = m) := by
  induction tags generalizing m with
  | nil => simp
  | cons t ts ih =>
    simp only [List.foldl_cons, List.mem_cons, forall_eq_or_imp]
    obtain ⟨h1, h2, h3⟩ := ih (if m.toNat < t.toNat then t else m)
    refine ⟨?_, ⟨?_, h2⟩, ?_⟩
    · refine le_trans ?_ h1
      split_ifs <;> omega
    · refine le_trans ?_ h1
      split_ifs <;> omega
    · rcases h3 with h3 | h3
      · exact Or.inl (Or.inr h3)
      · rw [h3]
        split_ifs
        · exact Or.inl (Or.inl rfl)
        · exact Or.inr rfl

/-- The category of an action is the greatest of its tags in the order of the enumeration,
and `BACKWARD` when it has no tag. -/
theorem maxMoveType_spec (tags : List MOVE_TYPE) :
    (∀ t ∈ tags, t.toNat ≤ (maxMoveType tags).toNat)
      ∧ (maxMoveType tags ∈ tags ∨ maxMoveType tags = MOVE_TYPE.BACKWARD) :=
  (maxMoveType_foldl_spec tags MOVE_TYPE.BACKWARD).2

theorem generatedActions_no_DRAW (H : Heuristic) (node : gameStateNode)
    (hH : ∀ b a, MOVE_TYPE.DRAW ∉ (H b a).2) (acts : List action)
    (h : generatedActions H node = some acts) :
    ∀ a ∈ acts, MOVE_TYPE.DRAW ∉ a.moveTypeList := by
  intro a ha
  obtain ⟨piece, _, dest, _, rfl⟩ := mem_generatedActions H node acts h a ha
  rw [moveTypeList_mkAction]
  exact hH _ _

/-! ## The game tree: the head of `negamax` -/

theorem negamax_checkmate (H : Heuristic) (maxDepth : Int) (fuel nodePtr : Nat)
    (node : gameStateNode) (alpha beta remainingDepth color : Int)
    (h : node.gameState.checkmate = true) :
    negamax H maxDepth (fuel + 1) nodePtr node alpha beta remainingDepth color
      = some (-color * INT_MAX, node) := by
  simp [negamax, h]

theorem negamax_leaf_odd (H : Heuristic) (maxDepth : Int) (fuel nodePtr : Nat)
    (node : gameStateNode) (alpha beta color : Int)
    (h : node.gameState.checkmate = false) (hm : Int.tmod maxDepth 2 = 1) :
    negamax H maxDepth (fuel + 1) nodePtr node alpha beta 0 color
      = some (color * evaluatePosition node, node) := by
  simp [negamax, h, hm]

theorem negamax_leaf_even (H : Heuristic) (maxDepth : Int) (fuel nodePtr : Nat)
    (node : gameStateNode) (alpha beta color : Int)
    (h : node.gameState.checkmate = false) (hm : Int.tmod maxDepth 2 = 0) :
    negamax H maxDepth (fuel + 1) nodePtr node alpha beta 0 color
      = some (-color * evaluatePosition node, node) := by
  simp [negamax, h, hm]

theorem negamax_draw (H : Heuristic) (maxDepth : Int) (fuel nodePtr : Nat)
    (node : gameStateNode) (alpha beta remainingDepth color : Int)
    (h : node.gameState.checkmate = false) (hd : remainingDepth ≠ 0)
    (hg : generateActionList H node = some [drawData]) :
    negamax H maxDepth (fuel + 1) nodePtr node alpha beta remainingDepth color
      = some (0, { node with actionList := [drawData] }) := by
  simp [negamax, h, hd, hg, drawData]

/-- C23. For every node, window and colour factor, with any positive recursion
allowance: when the checkmate flag of the board of the node is set, `negamax` returns
`-color * INT_MAX`, at every remaining depth; when it is not set and the remaining depth
is 0, `negamax` returns `color * evaluatePosition(node)` if the configured `maxDepth` is
odd and `-color * evaluatePosition(node)` if it is even.  The node is left as it was.  The
test of the source is `maxDepth % 2 == 1` with the remainder of C++, so an odd `maxDepth`
is taken non-negative; `negamax` is a protected member, called by `findBestMove` with the
remaining depth `maxDepth` and by itself with one less, so remaining depth 0 is reached
with a non-negative `maxDepth` only. -/
theorem C23_negamax_terminal_values (H : Heuristic) (maxDepth : Int) (fuel nodePtr : Nat)
    (node : gameStateNode) (alpha beta color : Int) :
    (∀ remainingDepth : Int, node.gameState.checkmate = true →
        negamax H maxDepth (fuel + 1) nodePtr node alpha beta remainingDepth color
          = some (-color * INT_MAX, node))
      ∧ (node.gameState.checkmate = false → 0 ≤ maxDepth → Odd maxDepth →
          negamax H maxDepth (fuel + 1) nodePtr node alpha beta 0 color
            = some (color * evaluatePosition node, node))
      ∧ (node.gameState.checkmate = false → Even maxDepth →
          negamax H maxDepth (fuel + 1) nodePtr node alpha beta 0 color
            = some (-color * evaluatePosition node, node)) := by
  refine ⟨fun d h => negamax_checkmate H maxDepth fuel nodePtr node alpha beta d color h,
    fun h h0 ho => ?_, fun h he => ?_⟩
  · apply negamax_leaf_odd H maxDepth fuel nodePtr node alpha beta color h
    rw [Int.tmod_eq_emod h0 (by decide)]
    exact Int.odd_iff.mp ho
  · apply negamax_leaf_even H maxDepth fuel nodePtr node alpha beta color h
    obtain ⟨k, rfl⟩ := he
    have : k + k = k * 2 := by ring
    rw [this]
    exact Int.mul_tmod_left k 2

/-! ## The game tree: stalemate -/

/-- What the probe `move(origC, origR, destC, destR, true)` returns. -/
theorem probe_eq_true_iff (b : chessBoardClass) (origC origR destC destR : Int) :
    probe b origC origR destC destR = true ↔
      ∃ piece, getSquareContents b origC origR = some piece ∧ piece.color = b.turn
        ∧ b.checkmate = false ∧ movementLogic b piece destC destR = true := by
  unfold probe move
  cases hp : getSquareContents b origC origR with
  | none => simp
  | some piece =>
    by_cases hc : piece.color = b.turn
    · by_cases hm : b.checkmate = true
      · simp [hc, hm]
      · simp [hc, hm]
    · simp [hc]

/-- A probe that passes goes from a square of the board to a square of the board. -/
theorem probe_inBounds (b : chessBoardClass) (origC origR destC destR : Int)
    (h : probe b origC origR destC destR = true) :
    (origC, origR) ∈ allSquares ∧ (destC, destR) ∈ allSquares := by
  obtain ⟨piece, hp, _, _, hm⟩ := (probe_eq_true_iff b origC origR destC destR).mp h
  rw [mem_allSquares, mem_allSquares]
  exact ⟨getSquareContents_inBounds b origC origR piece hp,
    validMovement_inBounds _ _ _ _ _ ((movementLogic_eq_true b piece destC destR).mp hm).1⟩

/-- Checking, for every piece `generateActionList` visits, the probes to the 64 squares
of the board settles every probe from the square of such a piece. -/
theorem no_probe_of_pieces (node : gameStateNode)
    (h : (piecesOfNode node).all (fun piece => allSquares.all (fun d =>
      !probe (assign (init blankBoard) node.gameState) (deref node.gameState piece).column
        (deref node.gameState piece).row d.1 d.2)) = true)
    (piece : PieceRef) (hpiece : piece ∈ piecesOfNode node) (destC destR : Int) :
    probe (assign (init blankBoard) node.gameState) (deref node.gameState piece).column
      (deref node.gameState piece).row destC destR = false := by
  by_contra hne
  have ht : probe (assign (init blankBoard) node.gameState)
      (deref node.gameState piece).column (deref node.gameState piece).row destC destR
        = true := by simpa using hne
  obtain ⟨_, hd⟩ := probe_inBounds _ _ _ _ _ ht
  rw [List.all_eq_true] at h
  have h1 := h _ hpiece
  rw [List.all_eq_true] at h1
  have h2 := h1 _ hd
  simp [ht] at h2

theorem generateActionList_of_no_probe (H : Heuristic) (node : gameStateNode)
    (hesc : node.gameState.escapeVector = [])
    (hnone : ∀ piece ∈ piecesOfNode node, ∀ destC destR : Int,
      probe (assign (init blankBoard) node.gameState) (deref node.gameState piece).column
        (deref node.gameState piece).row destC destR = false) :
    generateActionList H node = some [drawData] := by
  rw [generateActionList, generatedActions_of_no_probe H node hnone]
  simp [stackOf, bucket, sortByHeuristic, hesc]

/-- C21, amended. Let the checkmate flag of the board of a node be down, its escape
collection empty, and let no piece of the colour of the node (the pieces
`generateActionList` visits) have a move, from the square it records, that passes the
legality probe `board.move(..., true)` on the working copy of the board that
`buildActions` tests its candidates on.  Then `generateActionList` returns the stack that
holds the sentinel alone, and `negamax` with any positive recursion allowance and a
remaining depth of at least 1 returns 0, for every window and colour factor, leaving the
stack on the node. -/
theorem C21_stalemate_scores_zero (H : Heuristic) (maxDepth : Int) (fuel nodePtr : Nat)
    (node : gameStateNode) (alpha beta remainingDepth color : Int)
    (hflag : node.gameState.checkmate = false)
    (hesc : node.gameState.escapeVector = [])
    (hnone : ∀ piece ∈ piecesOfNode node, ∀ destC destR : Int,
      probe (assign (init blankBoard) node.gameState) (deref node.gameState piece).column
        (deref node.gameState piece).row destC destR = false)
    (hdepth : 1 ≤ remainingDepth) :
    generateActionList H node = some [drawData]
      ∧ drawData.bestCategory = some MOVE_TYPE.DRAW
      ∧ negamax H maxDepth (fuel + 1) nodePtr node alpha beta remainingDepth color
          = some (0, { node with actionList := [drawData] }) :=
  ⟨generateActionList_of_no_probe H node hesc hnone, rfl,
    negamax_draw H maxDepth fuel nodePtr node alpha beta remainingDepth color hflag
      (by omega) (generateActionList_of_no_probe H node hesc hnone)⟩

set_option maxRecDepth 100000 in
/-- C21 at a stalemate: the root of the tree built on the position with the white king on
a1, the black queen on b3 and the black king on c2.  It is a max node, White is to move
and not in check. -/
theorem C21_stalemate_scores_zero_witness :
    stalemateNode.isMaxNode = true ∧ stalemateNode.gameState.turn = WHITE
      ∧ stalemateNode.gameState.checkVector = []
      ∧ tableSound stalemateNode.gameState = true
      ∧ generateActionList (fun _ _ => (0, [])) stalemateNode = some [drawData]
      ∧ drawData.bestCategory = some MOVE_TYPE.DRAW
      ∧ negamax (fun _ _ => (0, [])) 3 (0 + 1) 0 stalemateNode (-5) 7 2 1
          = some (0, { stalemateNode with actionList := [drawData] }) :=
  have h : stalemateNode.isMaxNode = true ∧ stalemateNode.gameState.turn = WHITE
      ∧ stalemateNode.gameState.checkVector = []
      ∧ tableSound stalemateNode.gameState = true
      ∧ stalemateNode.gameState.checkmate = false
      ∧ stalemateNode.gameState.escapeVector = []
      ∧ (piecesOfNode stalemateNode).all (fun piece => allSquares.all (fun d =>
          !probe (assign (init blankBoard) stalemateNode.gameState)
            (deref stalemateNode.gameState piece).column
            (deref stalemateNode.gameState piece).row d.1 d.2)) = true := by decide!
  ⟨h.1, h.2.1, h.2.2.1, h.2.2.2.1,
    C21_stalemate_scores_zero (fun _ _ => (0, [])) 3 0 0 stalemateNode (-5) 7 2 1
      h.2.2.2.2.1 h.2.2.2.2.2.1 (no_probe_of_pieces stalemateNode h.2.2.2.2.2.2)
      (by decide)⟩

set_option maxRecDepth 100000 in
/-- C21 as stated fails. The tree is built on the board after 1. Nc3 e6 2. Ne4 Ne7 3. a3 g6
4. Nf6 mate and `setTurn(WHITE)`.  At its root White is to move and not in check, the
escape collection is empty, no move passes the probe, on the board of the node or on the
working copy, and `generateActionList` returns the sentinel alone; the checkmate flag is
still set, and `negamax` with remaining depth 1 returns `-INT_MAX`, not 0. -/
theorem C21_counterexample :
    ((newGameTree staleFlagBoard 1).node 0).gameState.turn = WHITE
      ∧ ((newGameTree staleFlagBoard 1).node 0).isMaxNode = true
      ∧ ((newGameTree staleFlagBoard 1).node 0).gameState.checkVector = []
      ∧ ((newGameTree staleFlagBoard 1).node 0).gameState.escapeVector = []
      ∧ allSquares.all (fun o => allSquares.all (fun d =>
          !probe ((newGameTree staleFlagBoard 1).node 0).gameState o.1 o.2 d.1 d.2)) = true
      ∧ allSquares.all (fun o => allSquares.all (fun d =>
          !probe (assign (init blankBoard) ((newGameTree staleFlagBoard 1).node 0).gameState)
            o.1 o.2 d.1 d.2)) = true
      ∧ generateActionList (fun _ _ => (0, [])) ((newGameTree staleFlagBoard 1).node 0)
          = some [drawData]
      ∧ ((newGameTree staleFlagBoard 1).node 0).gameState.checkmate = true
      ∧ (negamax (fun _ _ => (0, [])) 1 1 0 ((newGameTree staleFlagBoard 1).node 0)
          (-100000000) 100000000 1 1).map Prod.fst = some (-2147483647) := by
  decide!

/-! ## The game tree: best move, evaluation and committed moves -/

set_option maxRecDepth 100000 in
/-- C24, the code at the failing input. The tree is built on the starting position with
`maxDepth` 0.  Its current node is not checkmate and twenty actions are generated for it,
yet `findBestMove`, with any heuristic and any positive recursion allowance, returns the
member `bestAction` of the node without ever having assigned it: `negamax` returns the
evaluation at remaining depth 0 before it generates an action. -/
theorem C24_depth_zero_returns_unassigned_action (H : Heuristic) (fuel : Nat) :
    ((newGameTree startBoard 0).node 0).gameState.checkmate = false
      ∧ (generateActionList (fun _ _ => (0, [])) ((newGameTree startBoard 0).node 0)).map
          List.length = some 20
      ∧ (findBestMove H (fuel + 1) (newGameTree startBoard 0)).map Prod.fst = some none := by
  have h : ((newGameTree startBoard 0).node 0).gameState.checkmate = false
      ∧ (generateActionList (fun _ _ => (0, [])) ((newGameTree startBoard 0).node 0)).map
          List.length = some 20 := by decide!
  refine ⟨h.1, h.2, ?_⟩
  have key := negamax_leaf_even H 0 fuel 0 ((newGameTree startBoard 0).node 0)
    (-100000000) 100000000
    (if ((newGameTree startBoard 0).node 0).isMaxNode then 1 else -1) h.1 (by decide)
  unfold findBestMove
  simp only [show (newGameTree startBoard 0).maxDepth = 0 from rfl,
    show (newGameTree startBoard 0).currentGameState = 0 from rfl]
  rw [key]
  rfl

set_option maxRecDepth 100000 in
/-- C25, the code at the failing input. In the tree built on the board after 1. e4 d5 the
node created for 2. exd5 is not checkmate, Black is to move, and the black pawn vector
still has eight elements, the fourth of them captured.  `evaluatePosition` returns -5: it
counts the captured pawn in the material term and adds its table entry.  The value over
the non-captured pieces is -125. -/
theorem C25_evaluation_counts_captured_pawn :
    (play startBoard centreCounterGame).isSome = true
      ∧ (generateChildNode 0 ((newGameTree (boardAfter centreCounterGame) 1).node 0)
          ⟨some ⟨WHITE, PAWN, 4⟩, 4, 3, 3, 4, 0, [], none⟩).isSome = true
      ∧ captureNode.gameState.checkmate = false
      ∧ captureNode.gameState.turn = BLACK
      ∧ captureNode.gameState.bPawns.length = 8
      ∧ (deref captureNode.gameState ⟨BLACK, PAWN, 3⟩).captured = true
      ∧ evaluatePosition captureNode = -5
      ∧ describedEvaluation captureNode.gameState = -125 := by
  decide!

/-- A move whose probe passes is executed by the call without the probe flag. -/
theorem move_of_probe (b : chessBoardClass) (origC origR destC destR : Int)
    (choice : PromotionChoice) (h : probe b origC origR destC destR = true) :
    ∃ b1, move b origC origR destC destR false false choice = some (true, b1) := by
  obtain ⟨piece, hp, hc, hm, hl⟩ := (probe_eq_true_iff b origC origR destC destR).mp h
  obtain ⟨bm, hbm⟩ := performMove_isSome b piece destC destR choice hl
  exact ⟨refreshDerived (swapTurn bm), by simp [move, hp, hc, hm, hl, hbm]⟩

theorem node_set_append_self (nodes : List gameStateNode) (i : Nat) (x y : gameStateNode)
    (h : i < nodes.length) : (nodes.set i x ++ [y]).getD i freshNode = x := by
  rw [List.getD_eq_getElem?_getD, List.getElem?_append_left (by simpa using h)]
  simp [List.getElem?_set, h]

theorem node_set_append_new (nodes : List gameStateNode) (i : Nat) (x y : gameStateNode) :
    (nodes.set i x ++ [y]).getD nodes.length freshNode = y := by
  rw [List.getD_eq_getElem?_getD, List.getElem?_append_right (by simp)]
  simp

theorem node_set_append_other (nodes : List gameStateNode) (i j : Nat) (x y : gameStateNode)
    (hj : j < nodes.length) (hne : j ≠ i) :
    (nodes.set i x ++ [y]).getD j freshNode = nodes.getD j freshNode := by
  rw [List.getD_eq_getElem?_getD, List.getD_eq_getElem?_getD,
    List.getElem?_append_left (by simpa using hj)]
  simp [List.getElem?_set, Ne.symm hne]

theorem cleanUpTree_gameState (n : gameStateNode) :
    (cleanUpTree n).gameState = n.gameState := by
  unfold cleanUpTree
  simp only
  split_ifs <;> rfl

theorem cleanUpTree_isMaxNode (n : gameStateNode) :
    (cleanUpTree n).isMaxNode = n.isMaxNode := by
  unfold cleanUpTree
  simp only
  split_ifs <;> rfl

theorem cleanUpTree_depthLevel (n : gameStateNode) :
    (cleanUpTree n).depthLevel = n.depthLevel := by
  unfold cleanUpTree
  simp only
  split_ifs <;> rfl

/-- The tree `signalMove` leaves, in terms of what `move` returns on the board of the new
node. -/
theorem signalMove_eq (T : chessGameTree) (moveData : action) (flag : Bool)
    (b1 : chessBoardClass)
    (h : move (setTurn (assign (init blankBoard) (T.node T.currentGameState).gameState)
          (if (T.node T.currentGameState).isMaxNode then WHITE else BLACK))
        moveData.origC moveData.origR moveData.destC moveData.destR false false
        PromotionChoice.queen = some (flag, b1)) :
    signalMove T moveData = some
      { T with
        nodes := T.nodes.set T.currentGameState
            { cleanUpTree (T.node T.currentGameState) with
              next := [T.nodes.length], actionList := [], bestAction := some moveData }
          ++ [{ gameStateNode.init freshNode T.currentGameState
                  (cleanUpTree (T.node T.currentGameState)) with
                gameState := b1
                moveHistory := (cleanUpTree (T.node T.currentGameState)).moveHistory
                  ++ [moveData]
                previous := some T.currentGameState
                markedForDelete := false }]
        currentGameState := T.nodes.length } := by
  unfold signalMove
  simp only [gameStateNode.init, cleanUpTree_gameState, cleanUpTree_isMaxNode]
  rw [show Chess.init freshNode.gameState = Chess.init blankBoard from rfl, h]
  rfl

/-- C26, amended. Let the current pointer of the tree point at a node `n` of the store,
and let the action pass the legality probe on the board `signalMove` gives the new node
before it plays the move: the copy of the board of `n` made by `operator=`, with the turn
set to White when `n` is a max node and to Black otherwise.  Then `signalMove` returns,
the store has exactly one node more, `c`, which is the current node; the other data
members of the tree and the other nodes are as before; the parent of `c` is `n`, its
depth is that of `n` plus 1, its parity is the opposite, it is not marked for deletion,
and its board is the board that executing the action leaves on that copy; the stack of
realized children of `n` holds `c` alone, the action list of `n` is empty, and the board
of `n` is unchanged. -/
theorem C26_signalMove_creates_child (T : chessGameTree) (moveData : action)
    (hcur : T.currentGameState < T.nodes.length)
    (hlegal : probe
      (setTurn (assign (init blankBoard) (T.node T.currentGameState).gameState)
        (if (T.node T.currentGameState).isMaxNode then WHITE else BLACK))
      moveData.origC moveData.origR moveData.destC moveData.destR = true) :
    ∃ T1 b1, signalMove T moveData = some T1
      ∧ move (setTurn (assign (init blankBoard) (T.node T.currentGameState).gameState)
            (if (T.node T.currentGameState).isMaxNode then WHITE else BLACK))
          moveData.origC moveData.origR moveData.destC moveData.destR false false
          PromotionChoice.queen = some (true, b1)
      ∧ T1.nodes.length = T.nodes.length + 1
      ∧ T1.currentGameState = T.nodes.length
      ∧ T1.root = T.root ∧ T1.maxDepth = T.maxDepth
      ∧ (∀ i, i < T.nodes.length → i ≠ T.currentGameState → T1.node i = T.node i)
      ∧ (T1.node T1.currentGameState).previous = some T.currentGameState
      ∧ (T1.node T1.currentGameState).depthLevel
          = (T.node T.currentGameState).depthLevel + 1
      ∧ (T1.node T1.currentGameState).isMaxNode = !(T.node T.currentGameState).isMaxNode
      ∧ (T1.node T1.currentGameState).isMinNode = (T.node T.currentGameState).isMaxNode
      ∧ (T1.node T1.currentGameState).markedForDelete = false
      ∧ (T1.node T1.currentGameState).gameState = b1
      ∧ (T1.node T.currentGameState).next = [T1.currentGameState]
      ∧ (T1.node T.currentGameState).actionList = []
      ∧ (T1.node T.currentGameState).gameState = (T.node T.currentGameState).gameState := by
  obtain ⟨b1, hb1⟩ := move_of_probe _ _ _ _ _ PromotionChoice.queen hlegal
  refine ⟨_, b1, signalMove_eq T moveData true b1 hb1, hb1, ?_⟩
  simp only [chessGameTree.node, List.length_append, List.length_set, List.length_singleton,
    node_set_append_new, true_and]
  refine ⟨fun i hi hne => node_set_append_other _ _ _ _ _ hi hne, ?_⟩
  rw [node_set_append_self _ _ _ _ hcur]
  simp [gameStateNode.init, cleanUpTree_depthLevel, cleanUpTree_isMaxNode,
    cleanUpTree_gameState]

set_option maxRecDepth 100000 in
/-- C26 at a concrete tree: the tree built on the starting position and the move 1. e4. -/
theorem C26_signalMove_creates_child_witness :
    ∃ T1 b1, signalMove (newGameTree startBoard 1)
          ⟨some ⟨WHITE, PAWN, 4⟩, 4, 1, 4, 3, 0, [], none⟩ = some T1
      ∧ move (setTurn (assign (init blankBoard)
              ((newGameTree startBoard 1).node 0).gameState) WHITE)
          4 1 4 3 false false PromotionChoice.queen = some (true, b1)
      ∧ T1.nodes.length = 2 ∧ T1.currentGameState = 1
      ∧ (T1.node 1).previous = some 0
      ∧ (T1.node 1).depthLevel = 1
      ∧ (T1.node 1).isMaxNode = false
      ∧ (T1.node 1).markedForDelete = false
      ∧ (T1.node 1).gameState = b1
      ∧ (T1.node 0).next = [1]
      ∧ (T1.node 0).actionList = []
      ∧ (T1.node 0).gameState = ((newGameTree startBoard 1).node 0).gameState := by
  obtain ⟨T1, b1, h1, h2, h3, h4, _, _, _, h8, h9, h10, _, h12, h13, h14, h15, h16⟩ :=
    C26_signalMove_creates_child (newGameTree startBoard 1)
      ⟨some ⟨WHITE, PAWN, 4⟩, 4, 1, 4, 3, 0, [], none⟩ (by decide) (by decide!)
  have e0 : (newGameTree startBoard 1).currentGameState = 0 := rfl
  have e1 : (newGameTree startBoard 1).nodes.length = 1 := rfl
  rw [e0] at h8 h9 h10 h14 h15 h16
  rw [e1] at h3 h4
  rw [h4] at h8 h9 h10 h12 h13 h14
  exact ⟨T1, b1, h1, h2, h3, h4, h8, h9, h10, h12, h13, h14, h15, h16⟩

set_option maxRecDepth 100000 in
/-- C26 as stated fails. The tree is built on the board after 1. e4, where Black is to
move; its root is a max node.  The move e7-e5 passes the legality probe on the board of
the root, and executing it on that board puts the pawn on e5.  `signalMove` for this move
returns, but the board of the new current node is the position after 1. e4 with White to
move: the pawn is still on e7 and e5 is empty, because the copy was given the turn of the
parity of the root before the move was played. -/
theorem C26_counterexample :
    ((newGameTree (boardAfter kingsPawnOpening) 1).node 0).gameState.turn = BLACK
      ∧ ((newGameTree (boardAfter kingsPawnOpening) 1).node 0).isMaxNode = true
      ∧ probe ((newGameTree (boardAfter kingsPawnOpening) 1).node 0).gameState 4 6 4 4 = true
      ∧ (move ((newGameTree (boardAfter kingsPawnOpening) 1).node 0).gameState 4 6 4 4
          false false PromotionChoice.queen).map
          (fun r => (r.1, getSquareContents r.2 4 6, getSquareContents r.2 4 4, r.2.turn))
          = some (true, none, some ⟨BLACK, PAWN, 4⟩, WHITE)
      ∧ (signalMove (newGameTree (boardAfter kingsPawnOpening) 1)
          ⟨some ⟨BLACK, PAWN, 4⟩, 4, 6, 4, 4, 0, [], none⟩).map
          (fun T1 => (T1.currentGameState,
            getSquareContents (T1.node T1.currentGameState).gameState 4 6,
            getSquareContents (T1.node T1.currentGameState).gameState 4 4,
            (T1.node T1.currentGameState).gameState.turn))
          = some (1, some ⟨BLACK, PAWN, 4⟩, none, WHITE) := by
  decide!

theorem attackLine_eq (kc kr ac ar : Int) (hne : (kc, kr) ≠ (ac, ar)) :
    attackLine kc kr ac ar
      = (ac, ar) ::
        (if kc = ac ∨ kr = ar ∨ (kc - ac).natAbs = (kr - ar).natAbs then
          (List.range' 1 (max (ac - kc).natAbs (ar - kr).natAbs - 1)).map
            (fun (i : Nat) => (kc + (i : Int) * (ac - kc).sign, kr + (i : Int) * (ar - kr).sign))
         else []) := by
  have hne2 : ¬ (kc = ac ∧ kr = ar) := by
    intro h
    exact hne (by rw [h.1, h.2])
  have hpos : ∀ x : Int, 0 < x → x.sign = 1 := fun x h => Int.sign_eq_one_of_pos h
  have hneg : ∀ x : Int, x < 0 → x.sign = -1 := fun x h => Int.sign_eq_neg_one_of_neg h
  have hmax : ∀ x y : Nat, max x y = if x ≤ y then y else x := by
    intro x y
    split_ifs with h
    · exact max_eq_right h
    · exact max_eq_left (by omega)
  unfold attackLine between
  congr 1
  by_cases h1 : kc = ac
  · have hr : kr ≠ ar := fun h => hne2 ⟨h1, h⟩
    subst h1
    simp only [true_or, if_true, sub_self, Int.sign_zero, mul_zero, add_zero, Int.natAbs_zero]
    by_cases h2 : kr > ar
    · rw [if_pos h2, hneg _ (by omega : ar - kr < 0)]
      have : max 0 (ar - kr).natAbs - 1 = (kr - ar - 1).toNat := by
        rw [hmax]
        simp only [zero_le, if_true]
        omega
      rw [this]
    · rw [if_neg h2, hpos _ (by omega : 0 < ar - kr)]
      have : max 0 (ar - kr).natAbs - 1 = (ar - kr - 1).toNat := by
        rw [hmax]
        simp only [zero_le, if_true]
        omega
      rw [this]
  · rw [if_neg h1]
    by_cases h2 : kr = ar
    · subst h2
      simp only [true_or, or_true, if_true, sub_self, Int.sign_zero, mul_zero, add_zero,
        Int.natAbs_zero]
      by_cases h3 : kc > ac
      · rw [if_pos h3, hneg _ (by omega : ac - kc < 0)]
        have : max (ac - kc).natAbs 0 - 1 = (kc - ac - 1).toNat := by
          rw [hmax]
          split_ifs <;> omega
        rw [this]
      · rw [if_neg h3, hpos _ (by omega : 0 < ac - kc)]
        have : max (ac - kc).natAbs 0 - 1 = (ac - kc - 1).toNat := by
          rw [hmax]
          split_ifs <;> omega
        rw [this]
    · rw [if_neg h2]
      by_cases h3 : (kc - ac).natAbs = (kr - ar).natAbs
      · rw [if_pos h3, if_pos (Or.inr (Or.inr h3))]
        have hn : ∀ m : Nat, m = (ac - kc).natAbs - 1 →
            max (ac - kc).natAbs (ar - kr).natAbs - 1 = m := by
          intro m hm
          rw [hmax]
          split_ifs <;> omega
        by_cases h4 : kc < ac
        · rw [if_pos h4, hpos _ (by omega : 0 < ac - kc)]
          by_cases h5 : kr < ar
          · rw [if_pos h5, hpos _ (by omega : 0 < ar - kr), hn (ac - kc - 1).toNat (by omega)]
          · have h6 : kr > ar := by omega
            rw [if_neg h5, if_pos h6, hneg _ (by omega : ar - kr < 0),
              hn (ac - kc - 1).toNat (by omega)]
        · have h4b : kc > ac := by omega
          rw [if_neg h4, if_pos h4b, hneg _ (by omega : ac - kc < 0)]
          by_cases h5 : kr < ar
          · rw [if_pos h5, hpos _ (by omega : 0 < ar - kr), hn (kc - ac - 1).toNat (by omega)]
          · have h6 : kr > ar := by omega
            rw [if_neg h5, if_pos h6, hneg _ (by omega : ar - kr < 0),
              hn (kc - ac - 1).toNat (by omega)]
      · rw [if_neg h3, if_neg (by tauto)]

theorem mem_attackLine_box (kc kr ac ar : Int) (hne : (kc, kr) ≠ (ac, ar)) (sq : Int × Int)
    (h : sq ∈ attackLine kc kr ac ar) :
    sq ≠ (kc, kr) ∧ (kc ≤ sq.1 ∧ sq.1 ≤ ac ∨ ac ≤ sq.1 ∧ sq.1 ≤ kc)
      ∧ (kr ≤ sq.2 ∧ sq.2 ≤ ar ∨ ar ≤ sq.2 ∧ sq.2 ≤ kr) := by
  have hne2 : ¬ (kc = ac ∧ kr = ar) := by
    intro h
    exact hne (by rw [h.1, h.2])
  unfold attackLine at h
  rw [List.mem_cons] at h
  rcases h with h | h
  · subst h
    refine ⟨fun h => hne h.symm, ?_, ?_⟩ <;> simp only <;> omega
  · split_ifs at h <;>
      first
        | (rw [mem_between] at h
           obtain ⟨i, h1, h2, rfl⟩ := h
           simp only [ne_eq, Prod.mk.injEq, not_and]
           refine ⟨?_, ?_, ?_⟩ <;> omega)
        | simp at h

/-- C31. With exactly one checker, on a square of the board other than the square of the
king, which is on the board too, `setAttackVector` returns the square of the checker
followed by the squares strictly between king and checker, from the king towards the
checker, when the two share a file, a rank or a diagonal, and the square of the checker
alone otherwise; the square of the king is not in the result and every square of the result
is on the board. -/
theorem C31_setAttackVector_single_checker (b : chessBoardClass) (king checker : PieceRef)
    (hone : b.checkVector = [checker])
    (hking : inBounds (deref b king).column (deref b king).row = true)
    (hchecker : inBounds (deref b checker).column (deref b checker).row = true)
    (hne : ((deref b king).column, (deref b king).row)
      ≠ ((deref b checker).column, (deref b checker).row)) :
    setAttackVector b king
        = ((deref b checker).column, (deref b checker).row) ::
          (if (deref b king).column = (deref b checker).column
              ∨ (deref b king).row = (deref b checker).row
              ∨ ((deref b king).column - (deref b checker).column).natAbs
                  = ((deref b king).row - (deref b checker).row).natAbs then
            (List.range' 1
              (max ((deref b checker).column - (deref b king).column).natAbs
                ((deref b checker).row - (deref b king).row).natAbs - 1)).map
              (fun (i : Nat) =>
                ((deref b king).column
                    + (i : Int) * ((deref b checker).column - (deref b king).column).sign,
                 (deref b king).row
                    + (i : Int) * ((deref b checker).row - (deref b king).row).sign))
           else [])
      ∧ ((deref b king).column, (deref b king).row) ∉ setAttackVector b king
      ∧ ∀ sq ∈ setAttackVector b king, inBounds sq.1 sq.2 = true := by
  have hset : setAttackVector b king
      = attackLine (deref b king).column (deref b king).row
          (deref b checker).column (deref b checker).row := by
    simp [setAttackVector, hone]
  refine ⟨?_, ?_, ?_⟩
  · rw [hset]
    exact attackLine_eq _ _ _ _ hne
  · rw [hset]
    intro h
    exact (mem_attackLine_box _ _ _ _ hne _ h).1 rfl
  · rw [hset]
    intro sq h
    have hbox := mem_attackLine_box _ _ _ _ hne _ h
    simp only [inBounds, Bool.not_eq_true', Bool.or_eq_false_iff, decide_eq_false_iff_not,
      Bool.not_eq_eq_eq_not, Bool.not_true] at hking hchecker ⊢
    omega

set_option maxRecDepth 100000 in
/-- Witness for C31: after 1. e4 f5 2. Qh5+ the only checker is the white queen on h5, the
black king stands on e8, and the result is h5 followed by f7 and g6. -/
theorem C31_setAttackVector_single_checker_witness :
    (boardAfter queenCheckGame).checkVector = [⟨WHITE, QUEEN, 0⟩]
      ∧ setAttackVector (boardAfter queenCheckGame) (kingRef BLACK) = [(7, 4), (5, 6), (6, 5)]
      ∧ ((deref (boardAfter queenCheckGame) (kingRef BLACK)).column,
          (deref (boardAfter queenCheckGame) (kingRef BLACK)).row)
        ∉ setAttackVector (boardAfter queenCheckGame) (kingRef BLACK)
      ∧ ∀ sq ∈ setAttackVector (boardAfter queenCheckGame) (kingRef BLACK),
          inBounds sq.1 sq.2 = true := by
  have h : (boardAfter queenCheckGame).checkVector = [⟨WHITE, QUEEN, 0⟩]
      ∧ inBounds (deref (boardAfter queenCheckGame) (kingRef BLACK)).column
          (deref (boardAfter queenCheckGame) (kingRef BLACK)).row = true
      ∧ inBounds (deref (boardAfter queenCheckGame) ⟨WHITE, QUEEN, 0⟩).column
          (deref (boardAfter queenCheckGame) ⟨WHITE, QUEEN, 0⟩).row = true
      ∧ ((deref (boardAfter queenCheckGame) (kingRef BLACK)).column,
          (deref (boardAfter queenCheckGame) (kingRef BLACK)).row)
        ≠ ((deref (boardAfter queenCheckGame) ⟨WHITE, QUEEN, 0⟩).column,
          (deref (boardAfter queenCheckGame) ⟨WHITE, QUEEN, 0⟩).row)
      ∧ setAttackVector (boardAfter queenCheckGame) (kingRef BLACK) = [(7, 4), (5, 6), (6, 5)] := by
    decide!
  have h2 := C31_setAttackVector_single_checker (boardAfter queenCheckGame) (kingRef BLACK)
    ⟨WHITE, QUEEN, 0⟩ h.1 h.2.1 h.2.2.1 h.2.2.2.1
  exact ⟨h.1, h.2.2.2.2, h2.2.1, h2.2.2⟩

theorem getSquareContents_liftKing (b : chessBoardClass) (king : PieceRef) (c r : Int) :
    getSquareContents (liftKing b king) c r
      = if c = (deref b king).column ∧ r = (deref b king).row then none
        else getSquareContents b c r := by
  unfold liftKing
  rw [getSquareContents_setSquare]
  split_ifs <;> rfl

theorem mem_aroundKing (kc kr : Int) (sq : Int × Int) :
    sq ∈ aroundKing kc kr ↔
      (0 ≤ sq.1 ∧ sq.1 ≤ 7 ∧ 0 ≤ sq.2 ∧ sq.2 ≤ 7)
        ∧ (sq.1 - kc).natAbs ≤ 1 ∧ (sq.2 - kr).natAbs ≤ 1 := by
  obtain ⟨c, r⟩ := sq
  simp only [aroundKing, List.mem_flatMap, List.mem_filter, List.mem_map, List.mem_cons,
    List.mem_singleton, List.not_mem_nil, or_false, decide_eq_true_eq, Prod.mk.injEq]
  constructor
  · rintro ⟨c1, ⟨hc1, hb1⟩, r1, ⟨hr1, hb2⟩, rfl, rfl⟩
    refine ⟨⟨hb1.1, hb1.2, hb2.1, hb2.2⟩, ?_, ?_⟩ <;> omega
  · rintro ⟨⟨h1, h2, h3, h4⟩, h5, h6⟩
    exact ⟨c, ⟨by omega, h1, h2⟩, r, ⟨by omega, h3, h4⟩, rfl, rfl⟩

theorem nodup_aroundKing (kc kr : Int) : (aroundKing kc kr).Nodup := by
  unfold aroundKing
  have hc : ([kc - 1, kc, kc + 1] : List Int).Nodup := by
    simp only [List.nodup_cons, List.mem_cons, List.mem_singleton, List.not_mem_nil,
      not_false_eq_true, List.nodup_nil, and_true, or_false, not_or]
    omega
  have hr : ([kr - 1, kr, kr + 1] : List Int).Nodup := by
    simp only [List.nodup_cons, List.mem_cons, List.mem_singleton, List.not_mem_nil,
      not_false_eq_true, List.nodup_nil, and_true, or_false, not_or]
    omega
  rw [List.nodup_flatMap]
  refine ⟨?_, ?_⟩
  · intro c _
    exact (hr.filter _).map (fun r1 r2 h => by simpa using h)
  · refine (hc.filter _).pairwise_of_forall_ne ?_
    intro c1 _ c2 _ hne
    intro x h1 h2
    simp only [List.mem_map] at h1 h2
    obtain ⟨r1, _, rfl⟩ := h1
    obtain ⟨r2, _, h⟩ := h2
    simp only [Prod.mk.injEq] at h
    exact hne h.1.symm

/-- The test one iteration of the scan for escape squares applies to a square. -/
theorem escapeStep_eq (b : chessBoardClass) (king : PieceRef)
    (hplaced : b.board (deref b king).column (deref b king).row = some king)
    (l : List (Int × Int)) (sq : Int × Int) :
    escapeStep king (l, b) sq
      = (l ++ (if (match getSquareContents b sq.1 sq.2 with
                    | some o => decide (o.color ≠ king.color)
                    | none => true)
                  && (getAttackers (liftKing b king) sq.1 sq.2).isEmpty then [sq] else []), b) := by
  unfold escapeStep getAttackersKing
  simp only [restoreKing_of_placed b king hplaced, List.length_eq_zero]
  cases hq : getSquareContents b sq.1 sq.2 with
  | none =>
    simp only [Bool.true_and, List.isEmpty_iff]
    split_ifs <;> simp
  | some o =>
    by_cases hc : o.color = king.color
    · simp [hc]
    · simp only [hc, if_false, ne_eq, not_false_eq_true, decide_True, Bool.true_and,
        List.isEmpty_iff]
      split_ifs <;> simp

theorem foldl_escapeStep_eq (b : chessBoardClass) (king : PieceRef)
    (hplaced : b.board (deref b king).column (deref b king).row = some king)
    (sqs l : List (Int × Int)) :
    sqs.foldl (escapeStep king) (l, b)
      = (l ++ sqs.filter (fun sq =>
          (match getSquareContents b sq.1 sq.2 with
            | some o => decide (o.color ≠ king.color)
            | none => true)
          && (getAttackers (liftKing b king) sq.1 sq.2).isEmpty), b) := by
  induction sqs generalizing l with
  | nil => simp
  | cons sq sqs ih =>
    rw [List.foldl_cons, escapeStep_eq b king hplaced, ih, List.filter_cons]
    split_ifs <;> simp

/-- C32. For a king that the lookup table holds on the square the king records,
`scanForEscapeSquares(king)` returns, each once, exactly the squares of the board one
king's move away from the king that hold no piece of the colour of the king and for which
the attack scan, run on the table with the king taken off its square, finds no attacker;
the object is the same after the scan as before it. -/
theorem C32_scanForEscapeSquares_exact (b : chessBoardClass) (king : PieceRef)
    (hplaced : getSquareContents b (deref b king).column (deref b king).row = some king) :
    (∀ c r, (c, r) ∈ (scanForEscapeSquares b king).1 ↔
        inBounds c r = true
          ∧ (c - (deref b king).column).natAbs ≤ 1 ∧ (r - (deref b king).row).natAbs ≤ 1
          ∧ (c, r) ≠ ((deref b king).column, (deref b king).row)
          ∧ (∀ o, getSquareContents b c r = some o → o.color ≠ king.color)
          ∧ getAttackers (liftKing b king) c r = [])
      ∧ (scanForEscapeSquares b king).1.Nodup
      ∧ (scanForEscapeSquares b king).2 = b := by
  have hb : b.board (deref b king).column (deref b king).row = some king := by
    unfold getSquareContents at hplaced
    split_ifs at hplaced
    exact hplaced
  have hscan : scanForEscapeSquares b king
      = ((aroundKing (deref b king).column (deref b king).row).filter (fun sq =>
          (match getSquareContents b sq.1 sq.2 with
            | some o => decide (o.color ≠ king.color)
            | none => true)
          && (getAttackers (liftKing b king) sq.1 sq.2).isEmpty), b) := by
    unfold scanForEscapeSquares
    rw [foldl_escapeStep_eq b king hb]
    simp
  rw [hscan]
  refine ⟨?_, (nodup_aroundKing _ _).filter _, rfl⟩
  intro c r
  have hocc : (match getSquareContents b c r with
        | some o => decide (o.color ≠ king.color)
        | none => true) = true
      ↔ ∀ o, getSquareContents b c r = some o → o.color ≠ king.color := by
    cases getSquareContents b c r with
    | none => simp
    | some o => simp
  simp only [List.mem_filter, mem_aroundKing, Bool.and_eq_true, hocc, List.isEmpty_iff, inBounds,
    ne_eq, Prod.mk.injEq, Bool.not_eq_true', Bool.or_eq_false_iff, decide_eq_false_iff_not]
  constructor
  · rintro ⟨⟨⟨h1, h2, h3, h4⟩, h5, h6⟩, h7, h8⟩
    refine ⟨⟨⟨⟨by omega, by omega⟩, by omega⟩, by omega⟩, h5, h6, ?_, h7, h8⟩
    intro hcr
    rw [hcr.1, hcr.2] at h7
    exact h7 king hplaced rfl
  · rintro ⟨⟨⟨⟨h1, h2⟩, h3⟩, h4⟩, h5, h6, _, h7, h8⟩
    exact ⟨⟨⟨by omega, by omega, by omega, by omega⟩, h5, h6⟩, h7, h8⟩

set_option maxRecDepth 100000 in
/-- Witness for C32: with the white king on e2 checked by the black rook on e8, the scan
returns d1, d2, d3, f1, f2 and f3; e1, behind the king on the file of the rook, is not
among them although the plain attack scan finds no attacker of e1. -/
theorem C32_scanForEscapeSquares_exact_witness :
    getSquareContents fileCheckBoard 4 1 = some (kingRef WHITE)
      ∧ (scanForEscapeSquares fileCheckBoard (kingRef WHITE)).1
          = [(3, 0), (3, 1), (3, 2), (5, 0), (5, 1), (5, 2)]
      ∧ getAttackers fileCheckBoard 4 0 = []
      ∧ ¬ (getAttackers (liftKing fileCheckBoard (kingRef WHITE)) 4 0 = [])
      ∧ (4, 0) ∉ (scanForEscapeSquares fileCheckBoard (kingRef WHITE)).1 := by
  have h : getSquareContents fileCheckBoard
        (deref fileCheckBoard (kingRef WHITE)).column (deref fileCheckBoard (kingRef WHITE)).row
        = some (kingRef WHITE)
      ∧ getSquareContents fileCheckBoard 4 1 = some (kingRef WHITE)
      ∧ (scanForEscapeSquares fileCheckBoard (kingRef WHITE)).1
          = [(3, 0), (3, 1), (3, 2), (5, 0), (5, 1), (5, 2)]
      ∧ getAttackers fileCheckBoard 4 0 = []
      ∧ ¬ (getAttackers (liftKing fileCheckBoard (kingRef WHITE)) 4 0 = []) := by
    decide!
  refine ⟨h.2.1, h.2.2.1, h.2.2.2.1, h.2.2.2.2, ?_⟩
  intro hmem
  exact h.2.2.2.2
    (((C32_scanForEscapeSquares_exact fileCheckBoard (kingRef WHITE) h.1).1 4 0).mp hmem).2.2.2.2.2

theorem turn_liftKing (b : chessBoardClass) (king : PieceRef) : (liftKing b king).turn = b.turn := by
  simp [liftKing]

theorem enemyOf_ne (c : PIECE_COLOR) : enemyOf c ≠ c := by
  cases c <;> simp [enemyOf]

theorem threatens_color (d : PIN_DIR) (enemy : PIECE_COLOR) (col row : Int) (sq : Int × Int)
    (p : PieceRef) (h : threatens d enemy col row sq p = true) : p.color = enemy := by
  cases d <;> simp only [threatens, Bool.decide_and, Bool.and_eq_true, decide_eq_true_eq] at h <;>
    exact h.1

/-- Taking a king of the side to move off its square does not change the knights found
around a target. -/
theorem knightsAround_liftKing (b : chessBoardClass) (king : PieceRef) (col row : Int)
    (hcolor : king.color = b.turn)
    (hplaced : getSquareContents b (deref b king).column (deref b king).row = some king) :
    knightsAround (liftKing b king) (enemyOf b.turn) col row
      = knightsAround b (enemyOf b.turn) col row := by
  unfold knightsAround
  congr 1
  funext o
  rw [getSquareContents_liftKing]
  split_ifs with h
  · rw [h.1, h.2, hplaced]
    simp only
    rw [if_neg]
    intro hc
    exact enemyOf_ne b.turn (by rw [← hc.1, hcolor])
  · rfl

/-- With no attacker of the square of the king, taking the king off its square does not
change what a directional loop of the attack scan reports for any target: a piece the loop
reaches only through the square of the king would attack that square too. -/
theorem attackerOnRay_liftKing (b : chessBoardClass) (king : PieceRef) (d : PIN_DIR)
    (col row : Int) (hcolor : king.color = b.turn)
    (hplaced : getSquareContents b (deref b king).column (deref b king).row = some king)
    (hsafe : getAttackers b (deref b king).column (deref b king).row = []) :
    attackerOnRay (liftKing b king) d col row = attackerOnRay b d col row := by
  have hlift := getSquareContents_liftKing b king
  unfold attackerOnRay
  rw [turn_liftKing]
  cases hf : firstOccupant b d col row with
  | none =>
    have hnone : firstOccupant (liftKing b king) d col row = none := by
      unfold firstOccupant at hf ⊢
      rw [List.findSome?_eq_none_iff] at hf ⊢
      intro sq hsq
      have := hf sq hsq
      simp only [Option.map_eq_none'] at this ⊢
      rw [hlift]
      split_ifs
      · rfl
      · exact this
    rw [hnone]
  | some res =>
    obtain ⟨sq, p⟩ := res
    obtain ⟨i, hi, hsq, hp, hgap⟩ := (firstOccupant_iff b d col row sq p).mp hf
    by_cases hK : stepFrom d col row i = ((deref b king).column, (deref b king).row)
    · -- the loop stops at the king on the plain table
      have hpk : p = king := by
        rw [hK] at hp
        simp only at hp
        rw [hplaced] at hp
        exact (Option.some.inj hp).symm
      have hrhs : threatens d (enemyOf b.turn) col row sq p = false := by
        by_contra hne
        have ht : threatens d (enemyOf b.turn) col row sq p = true := by simpa using hne
        have := threatens_color _ _ _ _ _ _ ht
        rw [hpk, hcolor] at this
        exact enemyOf_ne b.turn this.symm
      simp only [hrhs, Bool.false_eq_true, if_false]
      cases hf2 : firstOccupant (liftKing b king) d col row with
      | none => rfl
      | some res2 =>
        obtain ⟨sq2, p2⟩ := res2
        obtain ⟨i2, hi2, hsq2, hp2, hgap2⟩ :=
          (firstOccupant_iff (liftKing b king) d col row sq2 p2).mp hf2
        simp only
        rw [if_neg]
        intro ht
        rw [hlift] at hp2
        split_ifs at hp2 with hK2
        have hne : i2 ≠ i := by
          intro h
          rw [h] at hK2
          exact hK2 ⟨congrArg Prod.fst hK, congrArg Prod.snd hK⟩
        have hlt : i < i2 := by
          by_contra hle
          have := hgap i2 hi2 (by omega)
          rw [this] at hp2
          exact absurd hp2 (by simp)
        rw [hsq2] at ht
        have ht2 := (threatens_iff d (enemyOf b.turn) col row i2 hi2 p2).mp ht
        have hslider : (isOrthogonal d = true ∧ (p2.type = ROOK ∨ p2.type = QUEEN))
            ∨ (isOrthogonal d = false ∧ (p2.type = BISHOP ∨ p2.type = QUEEN)) := by
          rcases ht2.2 with h | h | h | h
          · exact Or.inl h
          · exact Or.inr h
          · omega
          · omega
        have hstep : ∀ j : Nat, stepFrom d (deref b king).column (deref b king).row j
            = stepFrom d col row (i + j) := by
          intro j
          have := stepFrom_add d col row i j
          rw [hK] at this
          exact this
        have hmem : p2 ∈ attackerOnRay b d (deref b king).column (deref b king).row := by
          rw [mem_attackerOnRay_iff]
          refine ⟨i2 - i, by omega, ?_, ?_, ?_⟩
          · rw [hstep, show i + (i2 - i) = i2 by omega]
            exact hp2
          · intro j hj1 hj2
            rw [hstep]
            have h1 := hgap2 (i + j) (by omega) (by omega)
            rw [hlift] at h1
            split_ifs at h1 with hK3
            · exfalso
              have : stepFrom d col row (i + j) = stepFrom d col row i := by
                rw [hK]
                exact Prod.ext hK3.1 hK3.2
              have := (stepFrom_inj_dir d d col row (i + j) i (by omega) hi this).2
              omega
            · exact h1
          · rw [threatens_iff d (enemyOf b.turn) _ _ (i2 - i) (by omega) p2]
            refine ⟨ht2.1, ?_⟩
            rcases hslider with h | h
            · exact Or.inl h
            · exact Or.inr (Or.inl h)
        have : p2 ∈ getAttackers b (deref b king).column (deref b king).row :=
          (mem_getAttackers_iff _ _ _ _).mpr (Or.inl ⟨d, hmem⟩)
        rw [hsafe] at this
        exact absurd this (List.not_mem_nil _)
    · have hsame : firstOccupant (liftKing b king) d col row = some (sq, p) := by
        rw [hsq]
        apply firstOccupant_eq _ d col row i p hi
        · intro j hj1 hj2
          rw [hlift]
          split_ifs
          · rfl
          · exact hgap j hj1 hj2
        · rw [hlift, if_neg]
          · exact hp
          · intro h
            exact hK (Prod.ext h.1 h.2)
      rw [hsame]

/-- C33. When the lookup table holds the king of the side to move on the square that king
records and the attack scan finds no attacker of that square, the king-aware scan, which
runs with the king taken off the table, returns for every target the list the plain scan
returns. -/
theorem C33_plain_and_king_aware_scans_agree (b : chessBoardClass) (col row : Int)
    (hplaced : getSquareContents b (deref b (kingRef b.turn)).column
      (deref b (kingRef b.turn)).row = some (kingRef b.turn))
    (hsafe : getAttackers b (deref b (kingRef b.turn)).column
      (deref b (kingRef b.turn)).row = []) :
    (getAttackersKing b (kingRef b.turn) col row).1 = getAttackers b col row := by
  have hcolor : (kingRef b.turn).color = b.turn := rfl
  simp only [getAttackersKing, getAttackers, turn_liftKing,
    attackerOnRay_liftKing b (kingRef b.turn) _ col row hcolor hplaced hsafe,
    knightsAround_liftKing b (kingRef b.turn) col row hcolor hplaced]

set_option maxRecDepth 100000 in
/-- Witness for C33, at two targets.  After 1. g3 b6 2. Bg2 Ba6 3. Nf3 Nf6 4. e4 Ng8 White
is to move, the white king is on e1 in the table and has no attacker; f1, the square next
to the king that it crosses when castling, is attacked by the bishop on a6, and the
king-aware scan, whose ray from f1 runs on through e1, returns the same single attacker.
In the starting position the plain scan finds three attackers of c6, the pawns on d7 and
b7 and the knight on b8, and the king-aware scan returns the same list. -/
theorem C33_plain_and_king_aware_scans_agree_witness :
    (boardAfter attackedTransitGame).turn = WHITE
      ∧ getSquareContents (boardAfter attackedTransitGame) 4 0 = some (kingRef WHITE)
      ∧ getAttackers (boardAfter attackedTransitGame) 4 0 = []
      ∧ getAttackers (boardAfter attackedTransitGame) 5 0 = [⟨BLACK, BISHOP, 0⟩]
      ∧ (getAttackersKing (boardAfter attackedTransitGame) (kingRef WHITE) 5 0).1
          = [⟨BLACK, BISHOP, 0⟩]
      ∧ getAttackers startBoard 4 0 = []
      ∧ getAttackers startBoard 2 5
          = [⟨BLACK, PAWN, 3⟩, ⟨BLACK, PAWN, 1⟩, ⟨BLACK, KNIGHT, 0⟩]
      ∧ (getAttackersKing startBoard (kingRef WHITE) 2 5).1
          = [⟨BLACK, PAWN, 3⟩, ⟨BLACK, PAWN, 1⟩, ⟨BLACK, KNIGHT, 0⟩] := by
  have h : getSquareContents startBoard (deref startBoard (kingRef startBoard.turn)).column
        (deref startBoard (kingRef startBoard.turn)).row = some (kingRef startBoard.turn)
      ∧ getAttackers startBoard (deref startBoard (kingRef startBoard.turn)).column
        (deref startBoard (kingRef startBoard.turn)).row = []
      ∧ getAttackers startBoard 4 0 = []
      ∧ getAttackers startBoard 2 5
          = [⟨BLACK, PAWN, 3⟩, ⟨BLACK, PAWN, 1⟩, ⟨BLACK, KNIGHT, 0⟩] := by
    decide!
  have g : getSquareContents (boardAfter attackedTransitGame)
        (deref (boardAfter attackedTransitGame)
          (kingRef (boardAfter attackedTransitGame).turn)).column
        (deref (boardAfter attackedTransitGame)
          (kingRef (boardAfter attackedTransitGame).turn)).row
        = some (kingRef (boardAfter attackedTransitGame).turn)
      ∧ getAttackers (boardAfter attackedTransitGame)
        (deref (boardAfter attackedTransitGame)
          (kingRef (boardAfter attackedTransitGame).turn)).column
        (deref (boardAfter attackedTransitGame)
          (kingRef (boardAfter attackedTransitGame).turn)).row = []
      ∧ (boardAfter attackedTransitGame).turn = WHITE
      ∧ getSquareContents (boardAfter attackedTransitGame) 4 0 = some (kingRef WHITE)
      ∧ getAttackers (boardAfter attackedTransitGame) 4 0 = []
      ∧ getAttackers (boardAfter attackedTransitGame) 5 0 = [⟨BLACK, BISHOP, 0⟩] := by
    decide!
  have key := C33_plain_and_king_aware_scans_agree startBoard 2 5 h.1 h.2.1
  have hturn : startBoard.turn = WHITE := rfl
  rw [hturn, h.2.2.2] at key
  have key2 := C33_plain_and_king_aware_scans_agree (boardAfter attackedTransitGame) 5 0
    g.1 g.2.1
  rw [g.2.2.1, g.2.2.2.2.2] at key2
  exact ⟨g.2.2.1, g.2.2.2.1, g.2.2.2.2.1, g.2.2.2.2.2, key2, h.2.2.1, h.2.2.2, key⟩

/-- With a checker in the check collection, an accepted king move goes to an escape
square. -/
theorem check_gate_king (b : chessBoardClass) (piece : PieceRef) (destC destR : Int)
    (hcheck : b.checkVector ≠ []) (hk : piece.type = KING)
    (hacc : movementLogic b piece destC destR = true) : (destC, destR) ∈ b.escapeVector := by
  have hr := ((movementLogic_eq_true b piece destC destR).mp hacc).2.2.2.2.2.2.2.1
  have hlen : b.checkVector.length > 0 := by
    cases hcv : b.checkVector with
    | nil => exact absurd hcv hcheck
    | cons x xs => simp
  unfold checkRefused at hr
  simp only [hlen, if_true] at hr
  by_contra hne
  simp [hk, hne] at hr

theorem turn_refreshCheck (b : chessBoardClass) : (refreshCheck b).turn = b.turn := by
  rw [refreshCheck_eq]
  simp [restoreKing, liftKing]

theorem deref_refreshCheck (b : chessBoardClass) (p : PieceRef) :
    deref (refreshCheck b) p = deref b p := by
  rw [refreshCheck_eq]
  simp

/-- The escape collection the recomputation stores is the result of the scan for escape
squares, run for the king of the side to move on the board the scan for check leaves. -/
theorem escapeVector_refreshDerived (b : chessBoardClass) :
    (refreshDerived b).escapeVector
      = (scanForEscapeSquares (refreshCheck b) (kingRef b.turn)).1 := by
  have h1 : ∀ x : chessBoardClass, (refreshCheckmate x).escapeVector = x.escapeVector := by
    intro x
    unfold refreshCheckmate
    split_ifs <;> simp
  have h2 : ∀ x : chessBoardClass, (refreshSaviors x).escapeVector = x.escapeVector := by
    intro x
    unfold refreshSaviors
    split_ifs <;> simp
  have h3 : ∀ x : chessBoardClass, (refreshPins x).escapeVector = x.escapeVector := by
    intro x
    rw [refreshPins_eq]
    simp
  unfold refreshDerived
  rw [h1, h2, h3]
  unfold refreshEscape
  rw [withEscapeVector_escapeVector, turn_refreshCheck]

theorem mem_foldl_escapeStep (king : PieceRef) (sqs : List (Int × Int))
    (acc : List (Int × Int) × chessBoardClass) (sq : Int × Int)
    (h : sq ∈ (sqs.foldl (escapeStep king) acc).1) : sq ∈ acc.1 ∨ sq ∈ sqs := by
  induction sqs generalizing acc with
  | nil => exact Or.inl h
  | cons x xs ih =>
    rw [List.foldl_cons] at h
    rcases ih _ h with h1 | h1
    · have hstep : sq ∈ acc.1 ∨ sq = x := by
        unfold escapeStep at h1
        cases hq : getSquareContents acc.2 x.1 x.2 with
        | none =>
          simp only [hq] at h1
          split_ifs at h1
          · simp only [List.mem_append, List.mem_singleton] at h1
            exact h1
          · exact Or.inl h1
        | some o =>
          simp only [hq] at h1
          split_ifs at h1
          · exact Or.inl h1
          · simp only [List.mem_append, List.mem_singleton] at h1
            exact h1
          · exact Or.inl h1
      rcases hstep with h2 | h2
      · exact Or.inl h2
      · exact Or.inr (by rw [h2]; exact List.mem_cons_self _ _)
    · exact Or.inr (List.mem_cons_of_mem _ h1)

/-- Every escape square the recomputation stores is at most one column and one row away
from the square the king of the side to move records. -/
theorem escapeVector_near_king (b : chessBoardClass) (sq : Int × Int)
    (h : sq ∈ (refreshDerived b).escapeVector) :
    (sq.1 - (deref b (kingRef b.turn)).column).natAbs ≤ 1
      ∧ (sq.2 - (deref b (kingRef b.turn)).row).natAbs ≤ 1 := by
  rw [escapeVector_refreshDerived] at h
  unfold scanForEscapeSquares at h
  rcases mem_foldl_escapeStep _ _ _ _ h with h1 | h1
  · simp at h1
  · rw [deref_refreshCheck] at h1
    exact ((mem_aroundKing _ _ _).mp h1).2

/-- C34. On a board whose derived state has just been recomputed, as `move` and `setTurn`
leave it, with a checker in the check collection, `movementLogic` rejects every move of
the king of the side to move that changes its column by two, and a non-forced `move` from
the square of that king to such a destination returns false and leaves the board as it
is. -/
theorem C34_no_castling_in_check (b0 : chessBoardClass) (destC destR : Int) (noMove : Bool)
    (choice : PromotionChoice)
    (hcheck : (refreshDerived b0).checkVector ≠ [])
    (htwo : (destC - (deref (refreshDerived b0) (kingRef (refreshDerived b0).turn)).column).natAbs
      = 2) :
    movementLogic (refreshDerived b0) (kingRef (refreshDerived b0).turn) destC destR = false
      ∧ move (refreshDerived b0)
          (deref (refreshDerived b0) (kingRef (refreshDerived b0).turn)).column
          (deref (refreshDerived b0) (kingRef (refreshDerived b0).turn)).row
          destC destR noMove false choice = some (false, refreshDerived b0) := by
  rw [turn_refreshDerived, deref_refreshDerived] at htwo
  have hlogic : movementLogic (refreshDerived b0) (kingRef b0.turn) destC destR = false := by
    by_contra hne
    have hacc : movementLogic (refreshDerived b0) (kingRef b0.turn) destC destR = true := by
      simpa using hne
    have hmem := check_gate_king (refreshDerived b0) (kingRef b0.turn) destC destR hcheck rfl hacc
    have := (escapeVector_near_king b0 _ hmem).1
    simp only at this
    omega
  rw [turn_refreshDerived, deref_refreshDerived]
  refine ⟨hlogic, ?_⟩
  have hsq := getSquareContents_refreshDerived b0 (deref b0 (kingRef b0.turn)).column
    (deref b0 (kingRef b0.turn)).row
  rw [getSquareContents_restoreKing] at hsq
  simp only [and_self, if_true] at hsq
  unfold move
  rw [hsq]
  by_cases hb : (deref b0 (kingRef b0.turn)).column < 0 ∨ (deref b0 (kingRef b0.turn)).column > 7
      ∨ (deref b0 (kingRef b0.turn)).row < 0 ∨ (deref b0 (kingRef b0.turn)).row > 7
  · simp [hb]
  · have hcol : (kingRef b0.turn).color = (refreshDerived b0).turn := by
      rw [turn_refreshDerived]
      rfl
    simp only [hb, if_false, Bool.false_eq_true, hcol, ne_eq, not_true_eq_false, hlogic]
    cases noMove <;> simp

set_option maxRecDepth 100000 in
/-- Witness for C34: after 1. e4 f5 2. Qh5+ and `setTurn(BLACK)` Black is in check, the
black king stands on e8, and its two-square move to g8 is rejected. -/
theorem C34_no_castling_in_check_witness :
    (setTurn (boardAfter queenCheckGame) BLACK).checkVector ≠ []
      ∧ (setTurn (boardAfter queenCheckGame) BLACK).turn = BLACK
      ∧ (deref (setTurn (boardAfter queenCheckGame) BLACK) (kingRef BLACK)).column = 4
      ∧ (deref (setTurn (boardAfter queenCheckGame) BLACK) (kingRef BLACK)).row = 7
      ∧ movementLogic (setTurn (boardAfter queenCheckGame) BLACK) (kingRef BLACK) 6 7 = false
      ∧ move (setTurn (boardAfter queenCheckGame) BLACK) 4 7 6 7 false false
          PromotionChoice.queen = some (false, setTurn (boardAfter queenCheckGame) BLACK) := by
  have h : (setTurn (boardAfter queenCheckGame) BLACK).checkVector ≠ []
      ∧ (setTurn (boardAfter queenCheckGame) BLACK).turn = BLACK
      ∧ (deref (setTurn (boardAfter queenCheckGame) BLACK) (kingRef BLACK)).column = 4
      ∧ (deref (setTurn (boardAfter queenCheckGame) BLACK) (kingRef BLACK)).row = 7 := by
    decide!
  have h2 := C34_no_castling_in_check (withTurn (boardAfter queenCheckGame) BLACK) 6 7 false
    PromotionChoice.queen h.1
    (by
      have e1 : (refreshDerived (withTurn (boardAfter queenCheckGame) BLACK)).turn = BLACK := h.2.1
      rw [e1]
      have e2 : (deref (refreshDerived (withTurn (boardAfter queenCheckGame) BLACK))
        (kingRef BLACK)).column = 4 := h.2.2.1
      rw [e2]
      decide)
  have e1 : (refreshDerived (withTurn (boardAfter queenCheckGame) BLACK)).turn = BLACK := h.2.1
  have e2 : (deref (refreshDerived (withTurn (boardAfter queenCheckGame) BLACK))
    (kingRef BLACK)).column = 4 := h.2.2.1
  have e3 : (deref (refreshDerived (withTurn (boardAfter queenCheckGame) BLACK))
    (kingRef BLACK)).row = 7 := h.2.2.2
  rw [e1, e2, e3] at h2
  exact ⟨h.1, h.2.1, h.2.2.1, h.2.2.2, h2.1, h2.2⟩

set_option maxRecDepth 100000 in
/-- C35, the code at the failing input. After 1. d4 Nc6 2. Bf4 Na5 3. Qd2 Nc4 4. Nc3 Na3
White is to move and not in check, the castle flags of the white king on e1 and of the
rook on a1 are up, b1, c1 and d1 are empty, and the attack scan finds no attacker of d1 or
of c1; it finds the knight on a3 as an attacker of b1.  The shape test of the king accepts
e1-c1, the castling block of `movementLogic` refuses it, `movementLogic` rejects the move
and `move` returns false. -/
theorem C35_b_file_attack_blocks_castling :
    (play startBoard knightOnA3Game).isSome = true
      ∧ (boardAfter knightOnA3Game).turn = WHITE
      ∧ (boardAfter knightOnA3Game).checkVector = []
      ∧ getSquareContents (boardAfter knightOnA3Game) 4 0 = some (kingRef WHITE)
      ∧ (deref (boardAfter knightOnA3Game) (kingRef WHITE)).canCastle = true
      ∧ getSquareContents (boardAfter knightOnA3Game) 0 0 = some ⟨WHITE, ROOK, 0⟩
      ∧ (deref (boardAfter knightOnA3Game) ⟨WHITE, ROOK, 0⟩).canCastle = true
      ∧ getSquareContents (boardAfter knightOnA3Game) 1 0 = none
      ∧ getSquareContents (boardAfter knightOnA3Game) 2 0 = none
      ∧ getSquareContents (boardAfter knightOnA3Game) 3 0 = none
      ∧ getAttackers (boardAfter knightOnA3Game) 3 0 = []
      ∧ getAttackers (boardAfter knightOnA3Game) 2 0 = []
      ∧ getAttackers (boardAfter knightOnA3Game) 1 0 = [⟨BLACK, KNIGHT, 0⟩]
      ∧ validMovement WHITE KING (deref (boardAfter knightOnA3Game) (kingRef WHITE)) 2 0 = true
      ∧ castlingRefused (boardAfter knightOnA3Game) (kingRef WHITE) 2 = true
      ∧ movementLogic (boardAfter knightOnA3Game) (kingRef WHITE) 2 0 = false
      ∧ (move (boardAfter knightOnA3Game) 4 0 2 0 false false PromotionChoice.queen).map Prod.fst
          = some false := by
  decide!

theorem unprunedMax_ge_iff (score : action → Option Int) (a : action) (rest : List action)
    (V beta : Int) (h : unprunedMax score a rest = some V) :
    beta ≤ V ↔ ∃ x ∈ a :: rest, ∃ v, score x = some v ∧ beta ≤ v := by
  induction rest generalizing a V with
  | nil =>
    simp only [unprunedMax] at h
    simp [h]
  | cons b rest ih =>
    simp only [unprunedMax, Option.bind_eq_some, Option.map_eq_some'] at h
    obtain ⟨s, hs, m, hm, rfl⟩ := h
    have := ih b m hm
    rw [le_max_iff, this]
    constructor
    · rintro (h1 | ⟨x, hx, v, hv, hle⟩)
      · exact ⟨a, List.mem_cons_self _ _, s, hs, h1⟩
      · exact ⟨x, List.mem_cons_of_mem _ hx, v, hv, hle⟩
    · rintro ⟨x, hx, v, hv, hle⟩
      rcases List.mem_cons.mp hx with rfl | hx
      · rw [hs] at hv
        exact Or.inl (by rw [Option.some.inj hv]; exact hle)
      · exact Or.inr ⟨x, hx, v, hv, hle⟩

/-- The loop of `negamax` against the unpruned maximum: when every score the loop asks
for, with a window below `beta`, is obtained and agrees with the unpruned score inside
the window, stays at or below the window when the unpruned score does and at or above it
when the unpruned score does, the loop returns the unpruned maximum clamped to the
window. -/
theorem negamaxLoop_clamp (score : action → Int → Option Int) (uscore : action → Option Int)
    (beta : Int) (rest : List action) :
    ∀ (a : action) (best : Option action) (alpha V : Int),
      (∀ x ∈ a :: rest, ∀ al v, al < beta → uscore x = some v →
        ∃ s, score x al = some s
          ∧ (beta ≤ v → beta ≤ s) ∧ (v ≤ al → s ≤ al) ∧ (al < v → v < beta → s = v)) →
      alpha < beta → unprunedMax uscore a rest = some V →
      ∃ r, negamaxLoop score beta (a :: rest) best alpha = some r
        ∧ r.1 = min beta (max alpha V) := by
  induction rest with
  | nil =>
    intro a best alpha V hscore hwin hV
    simp only [unprunedMax] at hV
    obtain ⟨s, hs, h1, h2, h3⟩ := hscore a (List.mem_cons_self _ _) alpha V hwin hV
    simp only [negamaxLoop, hs]
    by_cases hb : s ≥ beta
    · refine ⟨_, by rw [if_pos hb], ?_⟩
      simp only [min_def, max_def]
      split_ifs <;> omega
    · rw [if_neg hb]
      by_cases ha : s > alpha
      · refine ⟨_, by rw [if_pos ha], ?_⟩
        simp only [min_def, max_def]
        split_ifs <;> omega
      · refine ⟨_, by rw [if_neg ha], ?_⟩
        simp only [min_def, max_def]
        split_ifs <;> omega
  | cons b rest ih =>
    intro a best alpha V hscore hwin hV
    simp only [unprunedMax, Option.bind_eq_some, Option.map_eq_some'] at hV
    obtain ⟨v0, hv0, m, hm, rfl⟩ := hV
    obtain ⟨s, hs, h1, h2, h3⟩ := hscore a (List.mem_cons_self _ _) alpha v0 hwin hv0
    have hrest : ∀ x ∈ b :: rest, ∀ al v, al < beta → uscore x = some v →
        ∃ s, score x al = some s
          ∧ (beta ≤ v → beta ≤ s) ∧ (v ≤ al → s ≤ al) ∧ (al < v → v < beta → s = v) :=
      fun x hx => hscore x (List.mem_cons_of_mem _ hx)
    rw [negamaxLoop]
    simp only [hs]
    by_cases hb : s ≥ beta
    · refine ⟨_, by rw [if_pos hb], ?_⟩
      simp only [min_def, max_def]
      split_ifs <;> omega
    · rw [if_neg hb]
      by_cases ha : s > alpha
      · rw [if_pos ha]
        obtain ⟨r, hr, hval⟩ := ih b (some a) s m hrest (by omega) hm
        refine ⟨r, hr, ?_⟩
        rw [hval]
        simp only [min_def, max_def]
        split_ifs <;> omega
      · rw [if_neg ha]
        obtain ⟨r, hr, hval⟩ := ih b best alpha m hrest hwin hm
        refine ⟨r, hr, ?_⟩
        rw [hval]
        simp only [min_def, max_def]
        split_ifs <;> omega

/-- The value `negamax` returns against the unpruned value of the same node: inside the
window it is the unpruned value, at or below the window when the unpruned value is, at or
above it when the unpruned value is; and it is the unpruned value clamped to the window
when the node passes the terminal tests and its action stack does not carry the draw
sentinel. -/
theorem negamax_window (H : Heuristic) (maxDepth : Int) :
    ∀ (fuel nodePtr : Nat) (node : gameStateNode) (alpha beta remainingDepth color V : Int),
      alpha < beta →
      unprunedValue H maxDepth fuel nodePtr node remainingDepth color = some V →
      ∃ r, negamax H maxDepth fuel nodePtr node alpha beta remainingDepth color = some r
        ∧ (beta ≤ V → beta ≤ r.1) ∧ (V ≤ alpha → r.1 ≤ alpha)
        ∧ (alpha < V → V < beta → r.1 = V)
        ∧ (node.gameState.checkmate = false → remainingDepth ≠ 0 →
            (∀ top rest, generateActionList H node = some (top :: rest) →
              top.bestCategory ≠ some MOVE_TYPE.DRAW) →
            r.1 = min beta (max alpha V)) := by
  intro fuel
  induction fuel with
  | zero =>
    intro nodePtr node alpha beta remainingDepth color V _ hV
    simp [unprunedValue] at hV
  | succ fuel ih =>
    intro nodePtr node alpha beta remainingDepth color V hwin hV
    by_cases hmate : node.gameState.checkmate = true
    · have hV2 : V = -color * INT_MAX := by
        simp [unprunedValue, hmate] at hV
        rw [← hV]
        ring
      refine ⟨(-color * INT_MAX, node), by simp [negamax, hmate], ?_⟩
      subst hV2
      simp [hmate]
    · have hm : node.gameState.checkmate = false := by simpa using hmate
      by_cases hodd : remainingDepth = 0 ∧ Int.tmod maxDepth 2 = 1
      · have hV2 : V = color * evaluatePosition node := by
          simp [unprunedValue, hm, hodd] at hV
          exact hV.symm
        refine ⟨(color * evaluatePosition node, node), by simp [negamax, hm, hodd], ?_⟩
        subst hV2
        simp [hodd.1]
      · by_cases heven : remainingDepth = 0 ∧ Int.tmod maxDepth 2 = 0
        · have hV2 : V = -color * evaluatePosition node := by
            simp [unprunedValue, hm, heven] at hV
            rw [← hV]
            ring
          refine ⟨(-color * evaluatePosition node, node),
            by simp [negamax, hm, heven], ?_⟩
          subst hV2
          simp [heven.1]
        · rw [unprunedValue] at hV
          rw [negamax]
          simp only [hm, Bool.false_eq_true, hodd, heven, if_false] at hV ⊢
          cases hg : generateActionList H node with
          | none => simp [hg] at hV
          | some l =>
            cases l with
            | nil => simp [hg] at hV
            | cons top rest =>
              simp only [hg] at hV ⊢
              by_cases hdraw : top.bestCategory = some MOVE_TYPE.DRAW
              · simp only [hdraw, if_true, Option.some.injEq] at hV ⊢
                subst hV
                refine ⟨_, rfl, fun h => h, fun h => h, fun _ _ => rfl, ?_⟩
                intro _ _ hno
                exact absurd hdraw (hno top rest rfl)
              · simp only [hdraw, if_false] at hV ⊢
                have hscore : ∀ x ∈ top :: rest, ∀ al v, al < beta →
                    (generateChildNode nodePtr node x).bind (fun child =>
                      (unprunedValue H maxDepth fuel (nodePtr + 1) child (remainingDepth - 1)
                        (-color)).map (fun v => -v)) = some v →
                    ∃ s, (generateChildNode nodePtr node x).bind (fun child =>
                        (negamax H maxDepth fuel (nodePtr + 1) child (-beta) (-al)
                          (remainingDepth - 1) (-color)).map (fun r => -r.1)) = some s
                      ∧ (beta ≤ v → beta ≤ s) ∧ (v ≤ al → s ≤ al)
                      ∧ (al < v → v < beta → s = v) := by
                  intro x _ al v hal hv
                  cases hc : generateChildNode nodePtr node x with
                  | none => simp [hc] at hv
                  | some child =>
                    simp only [hc, Option.some_bind, Option.map_eq_some'] at hv ⊢
                    obtain ⟨vc, hvc, rfl⟩ := hv
                    obtain ⟨r, hr, q1, q2, q3, _⟩ :=
                      ih (nodePtr + 1) child (-beta) (-al) (remainingDepth - 1) (-color) vc
                        (by omega) hvc
                    refine ⟨-r.1, ⟨r, hr, rfl⟩, ?_, ?_, ?_⟩
                    · intro h
                      have := q2 (by omega)
                      omega
                    · intro h
                      have := q1 (by omega)
                      omega
                    · intro h1 h2
                      have := q3 (by omega) (by omega)
                      omega
                obtain ⟨r, hr, hval⟩ := negamaxLoop_clamp _ _ beta rest top node.bestAction
                  alpha V hscore hwin hV
                rw [hr]
                refine ⟨_, rfl, ?_, ?_, ?_, fun _ _ _ => hval⟩
                · intro h
                  simp only [Option.map_some', hval, min_def, max_def]
                  split_ifs <;> omega
                · intro h
                  simp only [Option.map_some', hval, min_def, max_def]
                  split_ifs <;> omega
                · intro h1 h2
                  simp only [Option.map_some', hval, min_def, max_def]
                  split_ifs <;> omega

/-- C36. For a node whose board is not checkmate, with remaining depth at least 1 and an
action stack whose top is not the draw sentinel, and a window `alpha < beta`: whenever the
recursion without window and cutoff yields a value `V` for the node, `negamax`, with the
same recursion allowance, returns `min(beta, max(alpha, V))`.  That value is `beta`
exactly when the negated unpruned value of the child of some action of the node reaches
`beta`, and it is `max(alpha, V)`, the final alpha, otherwise. -/
theorem C36_alpha_beta_clamps_unpruned_value (H : Heuristic) (maxDepth : Int)
    (fuel nodePtr : Nat) (node : gameStateNode) (alpha beta remainingDepth color V : Int)
    (hmate : node.gameState.checkmate = false) (hdepth : 1 ≤ remainingDepth)
    (hlist : ∃ top rest, generateActionList H node = some (top :: rest)
      ∧ top.bestCategory ≠ some MOVE_TYPE.DRAW)
    (hwin : alpha < beta)
    (hV : unprunedValue H maxDepth (fuel + 1) nodePtr node remainingDepth color = some V) :
    (negamax H maxDepth (fuel + 1) nodePtr node alpha beta remainingDepth color).map Prod.fst
        = some (min beta (max alpha V))
      ∧ (∀ l, generateActionList H node = some l →
          (min beta (max alpha V) = beta ↔
            ∃ a ∈ l, ∃ v, unprunedChildScore H maxDepth fuel nodePtr node remainingDepth color a
              = some v ∧ beta ≤ v))
      ∧ (V < beta → min beta (max alpha V) = max alpha V) := by
  obtain ⟨top, rest, hg, hdraw⟩ := hlist
  obtain ⟨r, hr, _, _, _, hclamp⟩ :=
    negamax_window H maxDepth (fuel + 1) nodePtr node alpha beta remainingDepth color V hwin hV
  have hval := hclamp hmate (by omega) (by
    intro t rs h
    rw [hg] at h
    simp only [Option.some.injEq, List.cons.injEq] at h
    rw [← h.1]
    exact hdraw)
  refine ⟨by rw [hr, Option.map_some', hval], ?_, ?_⟩
  · intro l hl
    rw [hg] at hl
    simp only [Option.some.injEq] at hl
    subst hl
    have hd0 : ¬ (remainingDepth = 0 ∧ Int.tmod maxDepth 2 = 1) := fun h => by omega
    have hd1 : ¬ (remainingDepth = 0 ∧ Int.tmod maxDepth 2 = 0) := fun h => by omega
    have hmax : unprunedMax (unprunedChildScore H maxDepth fuel nodePtr node remainingDepth color)
        top rest = some V := by
      rw [unprunedValue] at hV
      simp only [hmate, Bool.false_eq_true, hd0, hd1, if_false, hg, hdraw] at hV
      exact hV
    rw [← unprunedMax_ge_iff _ top rest V beta hmax]
    simp only [min_def, max_def]
    split_ifs <;> constructor <;> intro h <;> omega
  · intro h
    simp only [min_def, max_def]
    split_ifs <;> omega

set_option maxRecDepth 100000 in
/-- Witness for C36: the root of the tree built, with `maxDepth` 1, on the board with the
white king on a1 checked by the black rook on a8.  With the heuristic that is 0 and tags
nothing, two king moves are generated, the unpruned value at remaining depth 1 is 480, and
with the window from -100000000 to 400 `negamax` returns 400. -/
theorem C36_alpha_beta_clamps_unpruned_value_witness :
    ((newGameTree cornerCheckBoard 1).node 0).gameState.checkmate = false
      ∧ unprunedValue (fun _ _ => (0, [])) 1 2 0 ((newGameTree cornerCheckBoard 1).node 0) 1 1
          = some 480
      ∧ (negamax (fun _ _ => (0, [])) 1 2 0 ((newGameTree cornerCheckBoard 1).node 0)
          (-100000000) 400 1 1).map Prod.fst = some 400 := by
  have h : ((newGameTree cornerCheckBoard 1).node 0).gameState.checkmate = false
      ∧ (match generateActionList (fun _ _ => (0, [])) ((newGameTree cornerCheckBoard 1).node 0) with
          | some (top :: _) => decide (top.bestCategory ≠ some MOVE_TYPE.DRAW)
          | _ => false) = true
      ∧ unprunedValue (fun _ _ => (0, [])) 1 2 0 ((newGameTree cornerCheckBoard 1).node 0) 1 1
          = some 480 := by
    decide!
  have hlist : ∃ top rest,
      generateActionList (fun _ _ => (0, [])) ((newGameTree cornerCheckBoard 1).node 0)
        = some (top :: rest) ∧ top.bestCategory ≠ some MOVE_TYPE.DRAW := by
    have h2 := h.2.1
    generalize generateActionList (fun _ _ => (0, [])) ((newGameTree cornerCheckBoard 1).node 0)
      = g at h2
    cases g with
    | none => simp at h2
    | some l =>
      cases l with
      | nil => simp at h2
      | cons top rest =>
        simp only [decide_eq_true_eq] at h2
        exact ⟨top, rest, rfl, h2⟩
  have key := (C36_alpha_beta_clamps_unpruned_value (fun _ _ => (0, [])) 1 1 0
    ((newGameTree cornerCheckBoard 1).node 0) (-100000000) 400 1 1 480 h.1 (by decide) hlist
    (by decide) h.2.2).1
  have hmin : min (400 : Int) (max (-100000000) 480) = 400 := by decide
  rw [hmin] at key
  exact ⟨h.1, h.2.2, key⟩

set_option maxRecDepth 100000 in
/-- C37, the code at the failing input. For every child whose board has the checkmate
flag set, the score its parent computes with the colour factor `c`,
`-negamax(child, -beta, -alpha, d - 1, -c)`, is `-c * INT_MAX`.  In the tree built on the
board after 1. e4 f6 2. d4 g5 the root is a max node, so `findBestMove` searches it with
`c = 1`; `generateChildNode` creates a child for 3. Qh5, the checkmate flag of its board
is set, and the score of the mating move is `-INT_MAX`, for every heuristic, depth and
window. -/
theorem C37_white_mate_scored_lowest (H : Heuristic) (maxDepth : Int) (fuel : Nat)
    (alpha beta d : Int) :
    (∀ (nodePtr : Nat) (child : gameStateNode) (c : Int), child.gameState.checkmate = true →
        (negamax H maxDepth (fuel + 1) nodePtr child (-beta) (-alpha) (d - 1) (-c)).map
          (fun r => -r.1) = some (-c * INT_MAX))
      ∧ (play startBoard mateInOneGame).isSome = true
      ∧ ((newGameTree (boardAfter mateInOneGame) 1).node 0).isMaxNode = true
      ∧ ((newGameTree (boardAfter mateInOneGame) 1).node 0).gameState.checkmate = false
      ∧ ((generateChildNode 0 ((newGameTree (boardAfter mateInOneGame) 1).node 0)
            matingAction).map (fun child => child.gameState.checkmate)) = some true
      ∧ (generateChildNode 0 ((newGameTree (boardAfter mateInOneGame) 1).node 0)
            matingAction).bind (fun child =>
          (negamax H maxDepth (fuel + 1) 1 child (-beta) (-alpha) (d - 1) (-1)).map
            (fun r => -r.1)) = some (-2147483647) := by
  have hgen : ∀ (nodePtr : Nat) (child : gameStateNode) (c : Int),
      child.gameState.checkmate = true →
      (negamax H maxDepth (fuel + 1) nodePtr child (-beta) (-alpha) (d - 1) (-c)).map
        (fun r => -r.1) = some (-c * INT_MAX) := by
    intro nodePtr child c hc
    rw [negamax_checkmate H maxDepth fuel nodePtr child (-beta) (-alpha) (d - 1) (-c) hc]
    simp only [Option.map_some', Option.some.injEq]
    ring
  have h : (play startBoard mateInOneGame).isSome = true
      ∧ ((newGameTree (boardAfter mateInOneGame) 1).node 0).isMaxNode = true
      ∧ ((newGameTree (boardAfter mateInOneGame) 1).node 0).gameState.checkmate = false
      ∧ ((generateChildNode 0 ((newGameTree (boardAfter mateInOneGame) 1).node 0)
            matingAction).map (fun child => child.gameState.checkmate)) = some true := by
    decide!
  refine ⟨hgen, h.1, h.2.1, h.2.2.1, h.2.2.2, ?_⟩
  have h4 := h.2.2.2
  generalize generateChildNode 0 ((newGameTree (boardAfter mateInOneGame) 1).node 0)
    matingAction = g at h4 ⊢
  cases g with
  | none => simp at h4
  | some child =>
    simp only [Option.map_some', Option.some.injEq] at h4
    rw [Option.some_bind, hgen 1 child 1 h4]
    rfl

/-! ## The copy made by `operator=` -/

theorem getSquareContents_setPieces (b : chessBoardClass) (color : PIECE_COLOR)
    (type : PIECE_TYPE) (l : List chessPiece) (c r : Int) :
    getSquareContents (setPieces b color type l) c r = getSquareContents b c r := by
  simp [getSquareContents]

theorem getSquareContents_copyPiece_frame (obj : chessBoardClass) (color : PIECE_COLOR)
    (type : PIECE_TYPE) (s : chessBoardClass) (i : Nat) (c r : Int) :
    getSquareContents (copyPiece obj color type s i) c r
      = if (deref obj ⟨color, type, i⟩).captured = true then getSquareContents s c r
        else getSquareContents (setSquare (setPieces s color type
          (pieces s color type ++ [deref obj ⟨color, type, i⟩]))
          (deref obj ⟨color, type, i⟩).column (deref obj ⟨color, type, i⟩).row
          (some ⟨color, type, (pieces s color type).length⟩)) c r := by
  unfold copyPiece
  simp only
  split_ifs <;>
    simp only [getSquareContents_withCheckVector, getSquareContents_withDefenderVector,
      getSquareContents_withPinVector, getSquareContents_withSaviorVector]

theorem getSquareContents_copyPiece (obj : chessBoardClass) (color : PIECE_COLOR)
    (type : PIECE_TYPE) (s : chessBoardClass) (i : Nat) (c r : Int) :
    getSquareContents (copyPiece obj color type s i) c r
      = if (deref obj ⟨color, type, i⟩).captured = false
            ∧ c = (deref obj ⟨color, type, i⟩).column ∧ r = (deref obj ⟨color, type, i⟩).row
            ∧ ¬ (c < 0 ∨ c > 7 ∨ r < 0 ∨ r > 7)
          then some ⟨color, type, (pieces s color type).length⟩
        else getSquareContents s c r := by
  rw [getSquareContents_copyPiece_frame]
  cases h : (deref obj ⟨color, type, i⟩).captured with
  | true => simp
  | false =>
    simp only [Bool.false_eq_true, if_false, true_and]
    rw [getSquareContents_setSquare, getSquareContents_setPieces]
    by_cases hpos : c = (deref obj ⟨color, type, i⟩).column ∧ r = (deref obj ⟨color, type, i⟩).row
    · by_cases hb : c < 0 ∨ c > 7 ∨ r < 0 ∨ r > 7
      · have : getSquareContents s c r = none := by simp [getSquareContents, hb]
        rw [if_pos hpos, if_pos hb, if_neg (fun hh => hh.2.2 hb), this]
      · rw [if_pos hpos, if_neg hb, if_pos ⟨hpos.1, hpos.2, hb⟩]
    · rw [if_neg hpos, if_neg (fun hh => hpos ⟨hh.1, hh.2.1⟩)]

theorem pieces_copyPiece_frame (obj : chessBoardClass) (color : PIECE_COLOR) (type : PIECE_TYPE)
    (s : chessBoardClass) (i : Nat) (c1 : PIECE_COLOR) (t1 : PIECE_TYPE) :
    pieces (copyPiece obj color type s i) c1 t1
      = if (deref obj ⟨color, type, i⟩).captured = true then pieces s c1 t1
        else pieces (setPieces s color type
          (pieces s color type ++ [deref obj ⟨color, type, i⟩])) c1 t1 := by
  unfold copyPiece
  simp only
  split_ifs <;>
    simp only [pieces_withCheckVector, pieces_withDefenderVector, pieces_withPinVector,
      pieces_withSaviorVector, pieces_setSquare]

theorem pieces_copyPiece (obj : chessBoardClass) (color : PIECE_COLOR) (type : PIECE_TYPE)
    (s : chessBoardClass) (i : Nat) (c1 : PIECE_COLOR) (t1 : PIECE_TYPE) :
    pieces (copyPiece obj color type s i) c1 t1
      = if (deref obj ⟨color, type, i⟩).captured = false ∧ color = c1 ∧ type = t1
          then pieces s c1 t1 ++ [deref obj ⟨color, type, i⟩]
        else pieces s c1 t1 := by
  rw [pieces_copyPiece_frame]
  cases h : (deref obj ⟨color, type, i⟩).captured with
  | true => simp
  | false =>
    simp only [Bool.false_eq_true, if_false, true_and, pieces_setPieces]
    split_ifs with h1
    · rw [← h1.1, ← h1.2]
    · rfl

theorem turn_copyPiece (obj : chessBoardClass) (color : PIECE_COLOR) (type : PIECE_TYPE)
    (s : chessBoardClass) (i : Nat) : (copyPiece obj color type s i).turn = s.turn := by
  unfold copyPiece
  simp only
  split_ifs <;> simp

theorem pinVector_copyPiece (obj : chessBoardClass) (color : PIECE_COLOR) (type : PIECE_TYPE)
    (s : chessBoardClass) (i : Nat) :
    ∀ e ∈ (copyPiece obj color type s i).pinVector, e ∈ s.pinVector ∨ e.1.1.type = type := by
  intro e he
  unfold copyPiece at he
  simp only at he
  split_ifs at he <;>
    (try simp only [withDefenderVector_pinVector, withPinVector_pinVector,
      withSaviorVector_pinVector, withCheckVector_pinVector, setSquare_pinVector,
      setPieces_pinVector, List.mem_append, List.mem_map, List.mem_filter] at he) <;>
    first
      | exact Or.inl he
      | (rcases he with he | ⟨x, _, rfl⟩
         · exact Or.inl he
         · exact Or.inr rfl)

theorem deref_copyPiece_old (obj : chessBoardClass) (color : PIECE_COLOR) (type : PIECE_TYPE)
    (s : chessBoardClass) (i : Nat) (q : PieceRef)
    (hq : q.idx < (pieces s q.color q.type).length) :
    deref (copyPiece obj color type s i) q = deref s q := by
  unfold deref
  rw [pieces_copyPiece]
  split_ifs with h
  · simp only [List.getD_eq_getElem?_getD]
    rw [List.getElem?_append_left hq]
  · rfl

theorem length_pieces_copyPiece (obj : chessBoardClass) (color : PIECE_COLOR) (type : PIECE_TYPE)
    (s : chessBoardClass) (i : Nat) (c1 : PIECE_COLOR) (t1 : PIECE_TYPE) :
    (pieces s c1 t1).length ≤ (pieces (copyPiece obj color type s i) c1 t1).length := by
  rw [pieces_copyPiece]
  split_ifs <;> simp

theorem copyInv_copyPiece (obj : chessBoardClass) (color : PIECE_COLOR) (type : PIECE_TYPE)
    (s : chessBoardClass) (i : Nat) (htype : type ≠ KING)
    (hi : i < (pieces obj color type).length) (h : CopyInv obj s) :
    CopyInv obj (copyPiece obj color type s i) := by
  obtain ⟨hent, hpin, hturn⟩ := h
  refine ⟨?_, ?_, ?_⟩
  · intro c r p1 hp1
    rw [getSquareContents_copyPiece] at hp1
    split_ifs at hp1 with hcond
    · simp only [Option.some.injEq] at hp1
      subst hp1
      obtain ⟨hcap, hc, hr, _⟩ := hcond
      have hpieces : pieces (copyPiece obj color type s i) color type
          = pieces s color type ++ [deref obj ⟨color, type, i⟩] := by
        rw [pieces_copyPiece, if_pos ⟨hcap, rfl, rfl⟩]
      have hderef : deref (copyPiece obj color type s i) ⟨color, type, (pieces s color type).length⟩
          = deref obj ⟨color, type, i⟩ := by
        have hd : deref (copyPiece obj color type s i) ⟨color, type, (pieces s color type).length⟩
            = (pieces (copyPiece obj color type s i) color type).getD (pieces s color type).length
                (newPiece type 0 0) := rfl
        rw [hd, hpieces, List.getD_eq_getElem?_getD, List.getElem?_append_right (le_refl _)]
        simp
      refine ⟨?_, ?_, ?_, fun hk => absurd hk htype, ⟨color, type, i⟩, ?_, rfl, rfl⟩
      · simp only [hpieces, List.length_append, List.length_singleton]
        omega
      · rw [hderef, hc]
      · rw [hderef, hr]
      · exact ⟨hi, hc.symm, hr.symm, fun hk => absurd hk htype, fun _ => hcap⟩
    · obtain ⟨h1, h2, h3, h4, h5⟩ := hent c r p1 hp1
      rw [deref_copyPiece_old obj color type s i p1 h1]
      exact ⟨lt_of_lt_of_le h1 (length_pieces_copyPiece _ _ _ _ _ _ _), h2, h3, h4, h5⟩
  · intro e he
    rcases pinVector_copyPiece obj color type s i e he with h1 | h1
    · exact hpin e h1
    · rw [h1]
      exact htype
  · rw [turn_copyPiece, hturn]

theorem copyInv_foldl_copyPiece (obj : chessBoardClass) (color : PIECE_COLOR) (type : PIECE_TYPE)
    (htype : type ≠ KING) (l : List Nat) (hl : ∀ i ∈ l, i < (pieces obj color type).length)
    (s : chessBoardClass) (h : CopyInv obj s) :
    CopyInv obj (l.foldl (copyPiece obj color type) s) := by
  induction l generalizing s with
  | nil => exact h
  | cons i l ih =>
    rw [List.foldl_cons]
    exact ih (fun j hj => hl j (List.mem_cons_of_mem _ hj)) _
      (copyInv_copyPiece obj color type s i htype (hl i (List.mem_cons_self _ _)) h)

theorem copyInv_copyVector (obj : chessBoardClass) (color : PIECE_COLOR) (type : PIECE_TYPE)
    (htype : type ≠ KING) (s : chessBoardClass) (h : CopyInv obj s) :
    CopyInv obj (copyVector obj color type s) :=
  copyInv_foldl_copyPiece obj color type htype _ (fun _ hi => List.mem_range.mp hi) s h

theorem pieces_foldl_copyPiece_other (obj : chessBoardClass) (color : PIECE_COLOR)
    (type : PIECE_TYPE) (c1 : PIECE_COLOR) (t1 : PIECE_TYPE) (hne : ¬ (color = c1 ∧ type = t1))
    (l : List Nat) (s : chessBoardClass) :
    pieces (l.foldl (copyPiece obj color type) s) c1 t1 = pieces s c1 t1 := by
  induction l generalizing s with
  | nil => rfl
  | cons _ l ih =>
    rw [List.foldl_cons, ih, pieces_copyPiece, if_neg (fun h => hne h.2)]

theorem pieces_copyVector_other (obj : chessBoardClass) (color : PIECE_COLOR)
    (type : PIECE_TYPE) (c1 : PIECE_COLOR) (t1 : PIECE_TYPE) (hne : ¬ (color = c1 ∧ type = t1))
    (s : chessBoardClass) :
    pieces (copyVector obj color type s) c1 t1 = pieces s c1 t1 :=
  pieces_foldl_copyPiece_other obj color type c1 t1 hne _ s

/-! Occupied squares stay occupied, and a copied piece occupies its square. -/

theorem occ_copyPiece_mono (obj : chessBoardClass) (color : PIECE_COLOR) (type : PIECE_TYPE)
    (s : chessBoardClass) (i : Nat) (c r : Int) (h : getSquareContents s c r ≠ none) :
    getSquareContents (copyPiece obj color type s i) c r ≠ none := by
  rw [getSquareContents_copyPiece]
  split_ifs
  · simp
  · exact h

theorem occ_foldl_copyPiece_mono (obj : chessBoardClass) (color : PIECE_COLOR)
    (type : PIECE_TYPE) (l : List Nat) (s : chessBoardClass) (c r : Int)
    (h : getSquareContents s c r ≠ none) :
    getSquareContents (l.foldl (copyPiece obj color type) s) c r ≠ none := by
  induction l generalizing s with
  | nil => exact h
  | cons i l ih =>
    rw [List.foldl_cons]
    exact ih _ (occ_copyPiece_mono obj color type s i c r h)

theorem occ_foldl_copyPiece_new (obj : chessBoardClass) (color : PIECE_COLOR)
    (type : PIECE_TYPE) (l : List Nat) (s : chessBoardClass) (i : Nat) (hi : i ∈ l)
    (hcap : (deref obj ⟨color, type, i⟩).captured = false)
    (hb : ¬ ((deref obj ⟨color, type, i⟩).column < 0 ∨ (deref obj ⟨color, type, i⟩).column > 7
      ∨ (deref obj ⟨color, type, i⟩).row < 0 ∨ (deref obj ⟨color, type, i⟩).row > 7)) :
    getSquareContents (l.foldl (copyPiece obj color type) s)
      (deref obj ⟨color, type, i⟩).column (deref obj ⟨color, type, i⟩).row ≠ none := by
  induction l generalizing s with
  | nil => exact absurd hi (List.not_mem_nil _)
  | cons j l ih =>
    rw [List.foldl_cons]
    rcases List.mem_cons.mp hi with rfl | hi2
    · apply occ_foldl_copyPiece_mono
      rw [getSquareContents_copyPiece, if_pos ⟨hcap, rfl, rfl, hb⟩]
      simp
    · exact ih _ hi2

theorem occ_copyVector_mono (obj : chessBoardClass) (color : PIECE_COLOR) (type : PIECE_TYPE)
    (s : chessBoardClass) (c r : Int) (h : getSquareContents s c r ≠ none) :
    getSquareContents (copyVector obj color type s) c r ≠ none :=
  occ_foldl_copyPiece_mono obj color type _ s c r h

theorem occ_copyVector_new (obj : chessBoardClass) (color : PIECE_COLOR) (type : PIECE_TYPE)
    (s : chessBoardClass) (i : Nat) (hi : i < (pieces obj color type).length)
    (hcap : (deref obj ⟨color, type, i⟩).captured = false)
    (hb : ¬ ((deref obj ⟨color, type, i⟩).column < 0 ∨ (deref obj ⟨color, type, i⟩).column > 7
      ∨ (deref obj ⟨color, type, i⟩).row < 0 ∨ (deref obj ⟨color, type, i⟩).row > 7)) :
    getSquareContents (copyVector obj color type s)
      (deref obj ⟨color, type, i⟩).column (deref obj ⟨color, type, i⟩).row ≠ none :=
  occ_foldl_copyPiece_new obj color type _ s i (List.mem_range.mpr hi) hcap hb

theorem getSquareContents_copyKing (obj : chessBoardClass) (color : PIECE_COLOR)
    (s : chessBoardClass) (k : chessPiece) (hk : (pieces obj color KING).head? = some k)
    (hempty : pieces s color KING = []) (c r : Int) :
    getSquareContents (copyKing obj color s) c r
      = if c = k.column ∧ r = k.row ∧ ¬ (c < 0 ∨ c > 7 ∨ r < 0 ∨ r > 7)
          then some (kingRef color)
        else getSquareContents s c r := by
  have hd : deref (setPieces s color KING (pieces s color KING ++ [k])) (kingRef color) = k := by
    simp [deref, kingRef, hempty]
  unfold copyKing
  simp only [hk, hd]
  have key : getSquareContents (setSquare (setPieces s color KING (pieces s color KING ++ [k]))
      k.column k.row (some (kingRef color))) c r
      = if c = k.column ∧ r = k.row ∧ ¬ (c < 0 ∨ c > 7 ∨ r < 0 ∨ r > 7)
          then some (kingRef color)
        else getSquareContents s c r := by
    rw [getSquareContents_setSquare, getSquareContents_setPieces]
    by_cases hpos : c = k.column ∧ r = k.row
    · by_cases hb : c < 0 ∨ c > 7 ∨ r < 0 ∨ r > 7
      · have : getSquareContents s c r = none := by simp [getSquareContents, hb]
        rw [if_pos hpos, if_pos hb, if_neg (fun hh => hh.2.2 hb), this]
      · rw [if_pos hpos, if_neg hb, if_pos ⟨hpos.1, hpos.2, hb⟩]
    · rw [if_neg hpos, if_neg (fun hh => hpos ⟨hh.1, hh.2.1⟩)]
  by_cases hs : (setSquare (setPieces s color KING (pieces s color KING ++ [k]))
      k.column k.row (some (kingRef color))).turn = color ∧ kingRef color ∈ obj.saviorVector
  · rw [if_pos hs, getSquareContents_withSaviorVector, key]
  · rw [if_neg hs, key]

theorem copyKing_none (obj : chessBoardClass) (color : PIECE_COLOR) (s : chessBoardClass)
    (hk : (pieces obj color KING).head? = none) : copyKing obj color s = s := by
  simp [copyKing, hk]

theorem pieces_copyKing (obj : chessBoardClass) (color : PIECE_COLOR)
    (s : chessBoardClass) (c1 : PIECE_COLOR) (t1 : PIECE_TYPE) :
    pieces (copyKing obj color s) c1 t1
      = if color = c1 ∧ KING = t1 then
          pieces s c1 t1 ++ (match (pieces obj color KING).head? with
            | none => []
            | some k => [k])
        else pieces s c1 t1 := by
  unfold copyKing
  cases hk : (pieces obj color KING).head? with
  | none => simp
  | some k =>
    simp only
    split_ifs with h1 h2 h2
    · obtain ⟨rfl, rfl⟩ := h2
      simp
    · simp [h2]
    · obtain ⟨rfl, rfl⟩ := h2
      simp
    · simp [h2]

theorem turn_copyKing (obj : chessBoardClass) (color : PIECE_COLOR) (s : chessBoardClass) :
    (copyKing obj color s).turn = s.turn := by
  unfold copyKing
  cases (pieces obj color KING).head? with
  | none => rfl
  | some k =>
    simp only
    split_ifs <;> simp

theorem pinVector_copyKing (obj : chessBoardClass) (color : PIECE_COLOR) (s : chessBoardClass) :
    (copyKing obj color s).pinVector = s.pinVector := by
  unfold copyKing
  cases (pieces obj color KING).head? with
  | none => rfl
  | some k =>
    simp only
    split_ifs <;> simp

theorem copyInv_copyKing (obj : chessBoardClass) (color : PIECE_COLOR) (s : chessBoardClass)
    (hempty : pieces s color KING = []) (h : CopyInv obj s) :
    CopyInv obj (copyKing obj color s) := by
  cases hk : (pieces obj color KING).head? with
  | none =>
    rw [copyKing_none obj color s hk]
    exact h
  | some k =>
    obtain ⟨hent, hpin, hturn⟩ := h
    have hpk : pieces (copyKing obj color s) color KING = [k] := by
      rw [pieces_copyKing, if_pos ⟨rfl, rfl⟩, hempty, hk]
      rfl
    have hobj : ∃ ks, pieces obj color KING = k :: ks := by
      cases hl : pieces obj color KING with
      | nil => simp [hl] at hk
      | cons x xs =>
        simp only [hl, List.head?_cons, Option.some.injEq] at hk
        exact ⟨xs, by rw [hk]⟩
    obtain ⟨ks, hks⟩ := hobj
    refine ⟨?_, ?_, ?_⟩
    · intro c r p1 hp1
      rw [getSquareContents_copyKing obj color s k hk hempty] at hp1
      split_ifs at hp1 with hcond
      · simp only [Option.some.injEq] at hp1
        subst hp1
        have hd : deref (copyKing obj color s) (kingRef color) = k := by
          have : deref (copyKing obj color s) (kingRef color)
              = (pieces (copyKing obj color s) color KING).getD 0 (newPiece KING 0 0) := rfl
          rw [this, hpk]
          rfl
        have hdo : deref obj (kingRef color) = k := by
          have : deref obj (kingRef color)
              = (pieces obj color KING).getD 0 (newPiece KING 0 0) := rfl
          rw [this, hks]
          rfl
        refine ⟨?_, ?_, ?_, fun _ => rfl, kingRef color, ?_, rfl, rfl⟩
        · show 0 < (pieces (copyKing obj color s) color KING).length
          rw [hpk]
          exact Nat.one_pos
        · rw [hd, hcond.1]
        · rw [hd, hcond.2.1]
        · refine ⟨?_, ?_, ?_, fun _ => rfl, fun hne => absurd rfl hne⟩
          · show 0 < (pieces obj color KING).length
            rw [hks]
            exact Nat.succ_pos _
          · rw [hdo, hcond.1]
          · rw [hdo, hcond.2.1]
      · obtain ⟨h1, h2, h3, h4, h5⟩ := hent c r p1 hp1
        have hne : ¬ (color = p1.color ∧ KING = p1.type) := by
          rintro ⟨hc, ht⟩
          rw [← hc, ← ht, hempty] at h1
          exact absurd h1 (Nat.not_lt_zero _)
        have hpieces : pieces (copyKing obj color s) p1.color p1.type = pieces s p1.color p1.type := by
          rw [pieces_copyKing, if_neg hne]
        have hd : deref (copyKing obj color s) p1 = deref s p1 := by
          unfold deref
          rw [hpieces]
        rw [hd, hpieces]
        exact ⟨h1, h2, h3, h4, h5⟩
    · rw [pinVector_copyKing]
      exact hpin
    · rw [turn_copyKing, hturn]

theorem occ_copyKing_mono (obj : chessBoardClass) (color : PIECE_COLOR) (s : chessBoardClass)
    (hempty : pieces s color KING = []) (c r : Int) (h : getSquareContents s c r ≠ none) :
    getSquareContents (copyKing obj color s) c r ≠ none := by
  cases hk : (pieces obj color KING).head? with
  | none =>
    rw [copyKing_none obj color s hk]
    exact h
  | some k =>
    rw [getSquareContents_copyKing obj color s k hk hempty]
    split_ifs
    · simp
    · exact h

theorem occ_copyKing_new (obj : chessBoardClass) (color : PIECE_COLOR) (s : chessBoardClass)
    (hempty : pieces s color KING = []) (hlen : 0 < (pieces obj color KING).length)
    (hb : ¬ ((deref obj (kingRef color)).column < 0 ∨ (deref obj (kingRef color)).column > 7
      ∨ (deref obj (kingRef color)).row < 0 ∨ (deref obj (kingRef color)).row > 7)) :
    getSquareContents (copyKing obj color s) (deref obj (kingRef color)).column
      (deref obj (kingRef color)).row ≠ none := by
  cases hl : pieces obj color KING with
  | nil =>
    rw [hl] at hlen
    exact absurd hlen (Nat.lt_irrefl _)
  | cons k ks =>
    have hdo : deref obj (kingRef color) = k := by
      have : deref obj (kingRef color)
          = (pieces obj color KING).getD 0 (newPiece KING 0 0) := rfl
      rw [this, hl]
      rfl
    rw [hdo] at hb ⊢
    rw [getSquareContents_copyKing obj color s k (by rw [hl]; rfl) hempty,
      if_pos ⟨rfl, rfl, hb⟩]
    simp

theorem pieces_king_before_copyKing (obj : chessBoardClass) (color c1 : PIECE_COLOR)
    (s : chessBoardClass) :
    pieces (copyVector obj color QUEEN (copyVector obj color ROOK (copyVector obj color BISHOP
      (copyVector obj color KNIGHT (copyVector obj color PAWN s))))) c1 KING = pieces s c1 KING := by
  rw [pieces_copyVector_other _ _ _ _ _ (by simp), pieces_copyVector_other _ _ _ _ _ (by simp),
    pieces_copyVector_other _ _ _ _ _ (by simp), pieces_copyVector_other _ _ _ _ _ (by simp),
    pieces_copyVector_other _ _ _ _ _ (by simp)]

theorem pieces_king_copyColor_other (obj : chessBoardClass) (color c1 : PIECE_COLOR)
    (hne : color ≠ c1) (s : chessBoardClass) :
    pieces (copyColor obj color s) c1 KING = pieces s c1 KING := by
  unfold copyColor
  rw [pieces_copyKing, if_neg (fun h => hne h.1), pieces_king_before_copyKing]

theorem copyInv_copyColor (obj : chessBoardClass) (color : PIECE_COLOR) (s : chessBoardClass)
    (hempty : pieces s color KING = []) (h : CopyInv obj s) :
    CopyInv obj (copyColor obj color s) := by
  unfold copyColor
  apply copyInv_copyKing
  · rw [pieces_king_before_copyKing, hempty]
  · exact copyInv_copyVector _ _ _ (by simp) _ (copyInv_copyVector _ _ _ (by simp) _
      (copyInv_copyVector _ _ _ (by simp) _ (copyInv_copyVector _ _ _ (by simp) _
        (copyInv_copyVector _ _ _ (by simp) _ h))))

theorem occ_copyColor_mono (obj : chessBoardClass) (color : PIECE_COLOR) (s : chessBoardClass)
    (hempty : pieces s color KING = []) (c r : Int) (h : getSquareContents s c r ≠ none) :
    getSquareContents (copyColor obj color s) c r ≠ none := by
  unfold copyColor
  apply occ_copyKing_mono
  · rw [pieces_king_before_copyKing, hempty]
  · exact occ_copyVector_mono _ _ _ _ _ _ (occ_copyVector_mono _ _ _ _ _ _
      (occ_copyVector_mono _ _ _ _ _ _ (occ_copyVector_mono _ _ _ _ _ _
        (occ_copyVector_mono _ _ _ _ _ _ h))))

/-- The copy blocks of one colour leave a table entry on the square of every piece of
that colour they copy. -/
theorem occ_copyColor_new (obj : chessBoardClass) (s : chessBoardClass) (p : PieceRef)
    (hempty : pieces s p.color KING = []) (c r : Int) (hlive : LivePiece obj p c r)
    (hb : ¬ (c < 0 ∨ c > 7 ∨ r < 0 ∨ r > 7)) :
    getSquareContents (copyColor obj p.color s) c r ≠ none := by
  obtain ⟨color, type, i⟩ := p
  obtain ⟨hlen, hc, hr, hking, hcap⟩ := hlive
  simp only at hlen hc hr hking hcap hempty ⊢
  have hk0 : pieces (copyVector obj color QUEEN (copyVector obj color ROOK
      (copyVector obj color BISHOP (copyVector obj color KNIGHT (copyVector obj color PAWN s)))))
      color KING = [] := by
    rw [pieces_king_before_copyKing, hempty]
  unfold copyColor
  subst hc
  subst hr
  cases type with
  | KING =>
    have hi : i = 0 := hking rfl
    subst hi
    exact occ_copyKing_new obj color _ hk0 hlen hb
  | PAWN =>
    apply occ_copyKing_mono _ _ _ hk0
    exact occ_copyVector_mono _ _ _ _ _ _ (occ_copyVector_mono _ _ _ _ _ _
      (occ_copyVector_mono _ _ _ _ _ _ (occ_copyVector_mono _ _ _ _ _ _
        (occ_copyVector_new obj color PAWN s i hlen (hcap (by simp)) hb))))
  | KNIGHT =>
    apply occ_copyKing_mono _ _ _ hk0
    exact occ_copyVector_mono _ _ _ _ _ _ (occ_copyVector_mono _ _ _ _ _ _
      (occ_copyVector_mono _ _ _ _ _ _
        (occ_copyVector_new obj color KNIGHT _ i hlen (hcap (by simp)) hb)))
  | BISHOP =>
    apply occ_copyKing_mono _ _ _ hk0
    exact occ_copyVector_mono _ _ _ _ _ _ (occ_copyVector_mono _ _ _ _ _ _
      (occ_copyVector_new obj color BISHOP _ i hlen (hcap (by simp)) hb))
  | ROOK =>
    apply occ_copyKing_mono _ _ _ hk0
    exact occ_copyVector_mono _ _ _ _ _ _
      (occ_copyVector_new obj color ROOK _ i hlen (hcap (by simp)) hb)
  | QUEEN =>
    apply occ_copyKing_mono _ _ _ hk0
    exact occ_copyVector_new obj color QUEEN _ i hlen (hcap (by simp)) hb

/-- The object `operator=` starts its copy loops on. -/
theorem copyInv_cleared (self obj : chessBoardClass) :
    CopyInv obj
      { self with
        ownedByAI := true
        bPawns := [], bKnights := [], bBishops := [], bRooks := [], bQueens := [], bKing := []
        wPawns := [], wKnights := [], wBishops := [], wRooks := [], wQueens := [], wKing := []
        checkVector := [], escapeVector := [], attackVector := []
        saviorVector := [], pinVector := [], defenderVector := []
        turn := obj.turn
        board := fun c r => if c < 0 ∨ c > 7 ∨ r < 0 ∨ r > 7 then self.board c r else none } := by
  refine ⟨?_, ?_, rfl⟩
  · intro c r p1 hp1
    simp only [getSquareContents] at hp1
    split_ifs at hp1
  · intro e he
    exact absurd he (List.not_mem_nil _)

/-- The board `operator=` leaves satisfies the copy invariant, and it holds a table entry
on the square of every piece of `obj` that is copied and stands on the board. -/
theorem copyInv_assign (self obj : chessBoardClass) :
    CopyInv obj (assign self obj)
      ∧ ∀ p c r, LivePiece obj p c r → ¬ (c < 0 ∨ c > 7 ∨ r < 0 ∨ r > 7) →
          getSquareContents (assign self obj) c r ≠ none := by
  have h0 := copyInv_cleared self obj
  generalize hs0 : ({ self with
        ownedByAI := true
        bPawns := [], bKnights := [], bBishops := [], bRooks := [], bQueens := [], bKing := []
        wPawns := [], wKnights := [], wBishops := [], wRooks := [], wQueens := [], wKing := []
        checkVector := [], escapeVector := [], attackVector := []
        saviorVector := [], pinVector := [], defenderVector := []
        turn := obj.turn
        board := fun c r => if c < 0 ∨ c > 7 ∨ r < 0 ∨ r > 7 then self.board c r else none }
      : chessBoardClass) = s0 at h0
  have hk : ∀ color, pieces s0 color KING = [] := by
    intro color
    rw [← hs0]
    cases color <;> rfl
  have h1 := copyInv_copyColor obj BLACK s0 (hk BLACK) h0
  have hkw : pieces (copyColor obj BLACK s0) WHITE KING = [] := by
    rw [pieces_king_copyColor_other obj BLACK WHITE (by simp), hk WHITE]
  have h2 := copyInv_copyColor obj WHITE _ hkw h1
  have hocc : ∀ p c r, LivePiece obj p c r → ¬ (c < 0 ∨ c > 7 ∨ r < 0 ∨ r > 7) →
      getSquareContents (copyColor obj WHITE (copyColor obj BLACK s0)) c r ≠ none := by
    intro p c r hlive hb
    cases hc : p.color with
    | WHITE =>
      have := occ_copyColor_new obj (copyColor obj BLACK s0) p (by rw [hc]; exact hkw) c r hlive hb
      rw [hc] at this
      exact this
    | BLACK =>
      have := occ_copyColor_new obj s0 p (by rw [hc]; exact hk BLACK) c r hlive hb
      rw [hc] at this
      exact occ_copyColor_mono obj WHITE _ hkw c r this
  have hassign : assign self obj
      = { copyColor obj WHITE (copyColor obj BLACK s0) with
          escapeVector := obj.escapeVector
          attackVector := obj.attackVector
          checkmate := obj.checkmate } := by
    rw [← hs0]
    rfl
  rw [hassign]
  exact ⟨h2, hocc⟩

/-- What `wellFormed` says, as propositions. -/
theorem wellFormed_spec (b : chessBoardClass) (h : wellFormed b = true) :
    Sound b
      ∧ (∀ c r p, getSquareContents b c r = some p →
          (p.type = KING → p.idx = 0) ∧ (p.type ≠ KING → (deref b p).captured = false))
      ∧ (∀ p : PieceRef, p.type ≠ KING → p.idx < (pieces b p.color p.type).length →
          (deref b p).captured = false →
          getSquareContents b (deref b p).column (deref b p).row = some p)
      ∧ (∀ color, getSquareContents b (deref b (kingRef color)).column
          (deref b (kingRef color)).row = some (kingRef color)) := by
  unfold wellFormed at h
  simp only [Bool.and_eq_true, List.all_eq_true, Bool.or_eq_true, decide_eq_true_eq,
    List.mem_range] at h
  obtain ⟨⟨hs, h2⟩, h3⟩ := h
  refine ⟨(tableSound_iff b).mp hs, ?_, ?_, ?_⟩
  · intro c r p hp
    have hb := getSquareContents_inBounds b c r p hp
    have := h2 (c, r) ((mem_allSquares c r).mpr hb)
    simp only [hp] at this
    split_ifs at this with hk
    · exact ⟨fun _ => by simpa using this, fun hne => absurd hk hne⟩
    · exact ⟨fun hk2 => absurd hk2 hk, fun _ => by simpa using this⟩
  · intro p hk hlen hcap
    obtain ⟨color, type, i⟩ := p
    have hty : type ∈ [PAWN, KNIGHT, BISHOP, ROOK, QUEEN] := by
      cases type <;> first | exact absurd rfl hk | simp
    have hc := (h3 color (by cases color <;> simp)).1 type hty i hlen
    rcases hc with hc | hc
    · rw [hcap] at hc
      exact absurd hc (by simp)
    · exact hc
  · intro color
    exact (h3 color (by cases color <;> simp)).2

theorem color_type_eq_of_map_eq (o1 o2 : Option PieceRef) (p : PieceRef)
    (h : o1.map (fun p => (p.color, p.type)) = o2.map (fun p => (p.color, p.type)))
    (h1 : o1 = some p) : ∃ q, o2 = some q ∧ q.color = p.color ∧ q.type = p.type := by
  subst h1
  cases o2 with
  | none => simp at h
  | some q =>
    simp only [Option.map_some', Option.some.injEq, Prod.mk.injEq] at h
    exact ⟨q, rfl, h.1.symm, h.2.symm⟩

/-- On a well-formed board a piece that `operator=` copies stands in the table on its
square. -/
theorem live_in_table (obj : chessBoardClass) (hw : wellFormed obj = true) (p : PieceRef)
    (c r : Int) (hlive : LivePiece obj p c r) : getSquareContents obj c r = some p := by
  obtain ⟨_, _, h3, h4⟩ := wellFormed_spec obj hw
  obtain ⟨hlen, hc, hr, hking, hcap⟩ := hlive
  by_cases hk : p.type = KING
  · have hp : p = kingRef p.color := by
      obtain ⟨color, type, i⟩ := p
      simp only at hk
      have hi : i = 0 := hking hk
      simp only [kingRef, PieceRef.mk.injEq, true_and]
      exact ⟨hk, hi⟩
    have := h4 p.color
    rw [← hp, hc, hr] at this
    exact this
  · have := h3 p hk hlen (hcap hk)
    rw [hc, hr] at this
    exact this

/-- On a well-formed board the copy `operator=` makes holds, on every square, a piece of
the colour and type of the piece the original holds there, or none where the original holds
none. -/
theorem table_assign (self obj : chessBoardClass) (hw : wellFormed obj = true) (c r : Int) :
    (getSquareContents (assign self obj) c r).map (fun p => (p.color, p.type))
      = (getSquareContents obj c r).map (fun p => (p.color, p.type)) := by
  obtain ⟨⟨hent, _, _⟩, hocc⟩ := copyInv_assign self obj
  obtain ⟨hs, h2, _, _⟩ := wellFormed_spec obj hw
  cases hC : getSquareContents (assign self obj) c r with
  | some p1 =>
    obtain ⟨_, _, _, _, p, hlive, hcol, hty⟩ := hent c r p1 hC
    rw [live_in_table obj hw p c r hlive]
    simp [hcol, hty]
  | none =>
    cases hO : getSquareContents obj c r with
    | none => rfl
    | some q =>
      exfalso
      have hb := getSquareContents_inBounds obj c r q hO
      have hq := hs c r q hO
      have hq2 := h2 c r q hO
      exact hocc q c r ⟨hq.1, hq.2.1, hq.2.2, hq2.1, hq2.2⟩ (by omega) hC

/-- On the copy of a well-formed board the table holds each king, as the front of its
vector, on the square the king of the original records, and the copied king records that
square. -/
theorem king_assign (self obj : chessBoardClass) (hw : wellFormed obj = true)
    (color : PIECE_COLOR) :
    getSquareContents (assign self obj) (deref obj (kingRef color)).column
        (deref obj (kingRef color)).row = some (kingRef color)
      ∧ (deref (assign self obj) (kingRef color)).column = (deref obj (kingRef color)).column
      ∧ (deref (assign self obj) (kingRef color)).row = (deref obj (kingRef color)).row := by
  obtain ⟨⟨hent, _, _⟩, _⟩ := copyInv_assign self obj
  obtain ⟨_, _, _, h4⟩ := wellFormed_spec obj hw
  have htab := table_assign self obj hw (deref obj (kingRef color)).column
    (deref obj (kingRef color)).row
  rw [h4 color] at htab
  cases hC : getSquareContents (assign self obj) (deref obj (kingRef color)).column
      (deref obj (kingRef color)).row with
  | none => simp [hC] at htab
  | some p1 =>
    simp only [hC, Option.map_some', Option.some.injEq, Prod.mk.injEq] at htab
    obtain ⟨_, hc, hr, hk, _⟩ := hent _ _ p1 hC
    have hp1 : p1 = kingRef color := by
      obtain ⟨pc, pt, pi⟩ := p1
      simp only [kingRef] at htab hk ⊢
      simp only [PieceRef.mk.injEq]
      exact ⟨htab.1, htab.2, hk htab.2⟩
    rw [hp1] at hc hr
    exact ⟨by rw [hp1], hc, hr⟩

theorem threatens_congr (d : PIN_DIR) (enemy : PIECE_COLOR) (col row : Int) (sq : Int × Int)
    (p q : PieceRef) (hc : q.color = p.color) (ht : q.type = p.type) :
    threatens d enemy col row sq q = threatens d enemy col row sq p := by
  cases d <;> simp only [threatens, hc, ht]

/-- The attack scan depends on the table only through the colour and type of the piece on
each square: when two boards with the same turn agree on these, an attacker on one gives
an attacker on the other. -/
theorem getAttackers_nil_of_table (b1 b2 : chessBoardClass) (hturn : b1.turn = b2.turn)
    (htab : ∀ c r, (getSquareContents b1 c r).map (fun p => (p.color, p.type))
      = (getSquareContents b2 c r).map (fun p => (p.color, p.type)))
    (col row : Int) (h : getAttackers b2 col row = []) : getAttackers b1 col row = [] := by
  by_contra hne
  obtain ⟨p, hp⟩ := List.exists_mem_of_ne_nil _ hne
  have hnone : ∀ c r, getSquareContents b1 c r = none → getSquareContents b2 c r = none := by
    intro c r h1
    have := htab c r
    rw [h1] at this
    cases h2 : getSquareContents b2 c r with
    | none => rfl
    | some q => simp [h2] at this
  have hmem : ∃ q, q ∈ getAttackers b2 col row := by
    rcases (mem_getAttackers_iff b1 col row p).mp hp with ⟨d, hd⟩ | hk
    · obtain ⟨i, hi, hpi, hgap, hthr⟩ := (mem_attackerOnRay_iff b1 d col row p).mp hd
      obtain ⟨q, hq, hqc, hqt⟩ := color_type_eq_of_map_eq _ _ p (htab _ _) hpi
      refine ⟨q, (mem_getAttackers_iff b2 col row q).mpr (Or.inl ⟨d, ?_⟩)⟩
      rw [mem_attackerOnRay_iff]
      refine ⟨i, hi, hq, fun j h1 h2 => hnone _ _ (hgap j h1 h2), ?_⟩
      rw [← hturn, threatens_congr d _ col row _ p q hqc hqt]
      exact hthr
    · obtain ⟨hc, ht, o, ho, hpo⟩ := (mem_knightsAround_iff b1 _ col row p).mp hk
      obtain ⟨q, hq, hqc, hqt⟩ := color_type_eq_of_map_eq _ _ p (htab _ _) hpo
      refine ⟨q, (mem_getAttackers_iff b2 col row q).mpr (Or.inr ?_)⟩
      rw [mem_knightsAround_iff]
      exact ⟨by rw [hqc, hc, hturn], by rw [hqt, ht], o, ho, hq⟩
  obtain ⟨q, hq⟩ := hmem
  rw [h] at hq
  exact absurd hq (List.not_mem_nil _)

/-- Taking a king of the side to move off its square removes no attacker of any target. -/
theorem getAttackers_nil_of_lifted (b : chessBoardClass) (king : PieceRef)
    (hcolor : king.color = b.turn)
    (hplaced : getSquareContents b (deref b king).column (deref b king).row = some king)
    (col row : Int) (h : getAttackers (liftKing b king) col row = []) :
    getAttackers b col row = [] := by
  by_contra hne
  obtain ⟨p, hp⟩ := List.exists_mem_of_ne_nil _ hne
  have hlift := getSquareContents_liftKing b king
  have hkeep : ∀ c r, getSquareContents b c r = some p → p.color = enemyOf b.turn →
      getSquareContents (liftKing b king) c r = some p := by
    intro c r h1 h2
    rw [hlift, if_neg]
    · exact h1
    · rintro ⟨rfl, rfl⟩
      rw [hplaced] at h1
      have : king = p := Option.some.inj h1
      rw [← this, hcolor] at h2
      exact enemyOf_ne b.turn h2.symm
  have hmem : p ∈ getAttackers (liftKing b king) col row := by
    rcases (mem_getAttackers_iff b col row p).mp hp with ⟨d, hd⟩ | hk
    · obtain ⟨i, hi, hpi, hgap, hthr⟩ := (mem_attackerOnRay_iff b d col row p).mp hd
      refine (mem_getAttackers_iff _ col row p).mpr (Or.inl ⟨d, ?_⟩)
      rw [mem_attackerOnRay_iff]
      refine ⟨i, hi, hkeep _ _ hpi (threatens_color _ _ _ _ _ _ hthr), ?_, ?_⟩
      · intro j h1 h2
        rw [hlift]
        split_ifs
        · rfl
        · exact hgap j h1 h2
      · rw [turn_liftKing]
        exact hthr
    · obtain ⟨hc, ht, o, ho, hpo⟩ := (mem_knightsAround_iff b _ col row p).mp hk
      refine (mem_getAttackers_iff _ col row p).mpr (Or.inr ?_)
      rw [mem_knightsAround_iff, turn_liftKing]
      exact ⟨hc, ht, o, ho, hkeep _ _ hpo hc⟩
  rw [h] at hmem
  exact absurd hmem (List.not_mem_nil _)

theorem escapeVector_assign (self obj : chessBoardClass) :
    (assign self obj).escapeVector = obj.escapeVector := rfl

theorem checkmate_assign (self obj : chessBoardClass) :
    (assign self obj).checkmate = obj.checkmate := rfl

theorem turn_assign (self obj : chessBoardClass) : (assign self obj).turn = obj.turn :=
  (copyInv_assign self obj).1.2.2

theorem destC_mkAction (H : Heuristic) (board : chessBoardClass) (piece : PieceRef)
    (origC origR destC destR : Int) :
    (mkAction H board piece origC origR destC destR).destC = destC := rfl

theorem destR_mkAction (H : Heuristic) (board : chessBoardClass) (piece : PieceRef)
    (origC origR destC destR : Int) :
    (mkAction H board piece origC origR destC destR).destR = destR := rfl

/-- A move that passes the probe does not end on a piece of the side to move. -/
theorem probe_dest_not_friendly (b : chessBoardClass) (origC origR destC destR : Int)
    (h : probe b origC origR destC destR = true) (o : PieceRef)
    (ho : getSquareContents b destC destR = some o) : o.color ≠ b.turn := by
  obtain ⟨piece, _, hc, _, hl⟩ := (probe_eq_true_iff b origC origR destC destR).mp h
  have := ((movementLogic_eq_true b piece destC destR).mp hl).2.1 o ho
  rw [hc] at this
  exact this

/-- For a piece of the colour of the side to move of the working copy, the closing loop of
`buildActions` meets no entry it cannot pop. -/
theorem friendlyFire_false (H : Heuristic) (node : gameStateNode) (piece : PieceRef)
    (hcolor : piece.color = node.gameState.turn) :
    friendlyFire node piece (builtActions H node piece) = false := by
  unfold friendlyFire
  rw [List.any_eq_false]
  intro a ha
  obtain ⟨dest, hprobe, rfl⟩ := mem_builtActions H node piece a ha
  rw [destC_mkAction, destR_mkAction]
  cases ho : getSquareContents (assign (init blankBoard) node.gameState) dest.1 dest.2 with
  | none => simp
  | some o =>
    have := probe_dest_not_friendly _ _ _ _ _ hprobe o ho
    rw [turn_assign, ← hcolor] at this
    simp [this]

theorem buildAll_some (H : Heuristic) (node : gameStateNode) (ps : List PieceRef)
    (h : ∀ piece ∈ ps, friendlyFire node piece (builtActions H node piece) = false) :
    ∃ acts, buildAll H node ps = some acts
      ∧ ∀ piece ∈ ps, ∀ a ∈ builtActions H node piece, a ∈ acts := by
  induction ps with
  | nil => exact ⟨[], rfl, fun _ hp => absurd hp (List.not_mem_nil _)⟩
  | cons p ps ih =>
    obtain ⟨more, hmore, hmem⟩ := ih (fun q hq => h q (List.mem_cons_of_mem _ hq))
    refine ⟨builtActions H node p ++ more, ?_, ?_⟩
    · simp [buildAll, buildActions, h p (List.mem_cons_self _ _), hmore]
    · intro q hq a ha
      rcases List.mem_cons.mp hq with rfl | hq2
      · exact List.mem_append_left _ ha
      · exact List.mem_append_right _ (hmem q hq2 a ha)

theorem color_of_mem_piecesOfNode (node : gameStateNode) (piece : PieceRef)
    (h : piece ∈ piecesOfNode node) :
    piece.color = if node.isMaxNode then WHITE else BLACK := by
  unfold piecesOfNode at h
  simp only [List.mem_append, List.mem_flatMap, List.mem_map, List.mem_range,
    List.mem_singleton] at h
  rcases h with ⟨type, _, i, _, rfl⟩ | rfl
  · rfl
  · rfl

theorem king_mem_piecesOfNode (node : gameStateNode) :
    kingRef (if node.isMaxNode then WHITE else BLACK) ∈ piecesOfNode node := by
  unfold piecesOfNode
  simp

theorem mem_kingOffsets (dc dr : Int) (h1 : dc.natAbs ≤ 1) (h2 : dr.natAbs ≤ 1)
    (hne : ¬ (dc = 0 ∧ dr = 0)) : (dc, dr) ∈ kingOffsets := by
  have hc : dc = -1 ∨ dc = 0 ∨ dc = 1 := by omega
  have hr : dr = -1 ∨ dr = 0 ∨ dr = 1 := by omega
  rcases hc with rfl | rfl | rfl <;> rcases hr with rfl | rfl | rfl <;>
    first
      | (simp [kingOffsets]
         done)
      | (exfalso
         apply hne
         constructor <;> rfl)

/-- The action `buildActions` pushes for a king move that passes the probe, to an escape
square next to the king. -/
theorem king_action_built (H : Heuristic) (node : gameStateNode) (color : PIECE_COLOR)
    (sq : Int × Int)
    (hesc : sq ∈ node.gameState.escapeVector)
    (hc : (sq.1 - (deref node.gameState (kingRef color)).column).natAbs ≤ 1)
    (hr : (sq.2 - (deref node.gameState (kingRef color)).row).natAbs ≤ 1)
    (hne : sq ≠ ((deref node.gameState (kingRef color)).column,
      (deref node.gameState (kingRef color)).row))
    (hprobe : probe (assign (init blankBoard) node.gameState)
      (deref node.gameState (kingRef color)).column (deref node.gameState (kingRef color)).row
      sq.1 sq.2 = true) :
    builtActions H node (kingRef color) ≠ [] := by
  have hmem : ∃ a, a ∈ builtActions H node (kingRef color) := by
    unfold builtActions
    have ht : (kingRef color).type = KING := rfl
    have hesc2 : sq ∈ (assign (init blankBoard) node.gameState).escapeVector := by
      rw [escapeVector_assign]
      exact hesc
    simp only [ht, ne_eq, not_true_eq_false, and_false, false_and, if_false, if_true]
    generalize assign (init blankBoard) node.gameState = board at hprobe hesc2 ⊢
    generalize (deref node.gameState (kingRef color)).column = origC at hprobe hc hne ⊢
    generalize (deref node.gameState (kingRef color)).row = origR at hprobe hr hne ⊢
    split_ifs with hchk
    · refine ⟨mkAction H board (kingRef color) origC origR sq.1 sq.2, ?_⟩
      rw [List.mem_flatMap]
      refine ⟨sq, hesc2, ?_⟩
      simp [attempt, hprobe]
    · refine ⟨mkAction H board (kingRef color) origC origR sq.1 sq.2, ?_⟩
      rw [List.mem_flatMap]
      refine ⟨(sq.1 - origC, sq.2 - origR), mem_kingOffsets _ _ hc hr ?_, ?_⟩
      · rintro ⟨h1, h2⟩
        apply hne
        exact Prod.ext (by simp only; omega) (by simp only; omega)
      · have e1 : origC + (sq.1 - origC) = sq.1 := by ring
        have e2 : origR + (sq.2 - origR) = sq.2 := by ring
        simp only [e1, e2, attempt, hprobe, if_true, List.mem_singleton]
  obtain ⟨a, ha⟩ := hmem
  exact List.ne_nil_of_mem ha

theorem getSquareContents_refreshCheck (b : chessBoardClass) (c r : Int) :
    getSquareContents (refreshCheck b) c r
      = getSquareContents (restoreKing b (kingRef b.turn)) c r := by
  rw [refreshCheck_eq]
  simp

theorem getAttackers_congr (b1 b2 : chessBoardClass)
    (h : ∀ c r, getSquareContents b1 c r = getSquareContents b2 c r) (ht : b1.turn = b2.turn)
    (col row : Int) : getAttackers b1 col row = getAttackers b2 col row := by
  simp only [getAttackers, attackerOnRay, knightsAround, firstOccupant_congr b1 b2 _ _ _ h, h, ht]

/-- The scan for escape squares, for a king the table holds on the square the king
records: the squares around the king that pass the test of the scan, in the order of the
two loops. -/
theorem scanForEscapeSquares_eq (b : chessBoardClass) (king : PieceRef)
    (hplaced : b.board (deref b king).column (deref b king).row = some king) :
    (scanForEscapeSquares b king).1
      = (aroundKing (deref b king).column (deref b king).row).filter (fun sq =>
          (match getSquareContents b sq.1 sq.2 with
            | some o => decide (o.color ≠ king.color)
            | none => true)
          && (getAttackers (liftKing b king) sq.1 sq.2).isEmpty) := by
  unfold scanForEscapeSquares
  rw [foldl_escapeStep_eq b king hplaced]
  simp

/-- The escape collection the recomputation stores is the one the scan for escape squares
returns on the board the recomputation leaves, for the king of the side to move. -/
theorem escapeVector_fresh (b : chessBoardClass) :
    (refreshDerived b).escapeVector
      = (scanForEscapeSquares (refreshDerived b) (kingRef (refreshDerived b).turn)).1 := by
  have hp1 : (refreshCheck b).board (deref (refreshCheck b) (kingRef b.turn)).column
      (deref (refreshCheck b) (kingRef b.turn)).row = some (kingRef b.turn) := by
    rw [deref_refreshCheck, refreshCheck_eq]
    have := restoreKing_placed b (kingRef b.turn)
    simp only [deref_restoreKing] at this
    simpa using this
  have hp2 : (refreshDerived b).board (deref (refreshDerived b) (kingRef b.turn)).column
      (deref (refreshDerived b) (kingRef b.turn)).row = some (kingRef b.turn) := by
    rw [deref_refreshDerived]
    obtain ⟨cv, ev, av, sv, dv, pv, h⟩ := refreshDerived_eq b
    rw [h]
    have := restoreKing_placed b (kingRef b.turn)
    simp only [deref_restoreKing] at this
    simpa using this
  have htab : ∀ c r, getSquareContents (refreshCheck b) c r
      = getSquareContents (refreshDerived b) c r := by
    intro c r
    rw [getSquareContents_refreshCheck, getSquareContents_refreshDerived]
  have hlift : ∀ c r, getSquareContents (liftKing (refreshCheck b) (kingRef b.turn)) c r
      = getSquareContents (liftKing (refreshDerived b) (kingRef b.turn)) c r := by
    intro c r
    rw [getSquareContents_liftKing, getSquareContents_liftKing, deref_refreshCheck,
      deref_refreshDerived, htab]
  have e1 := scanForEscapeSquares_eq (refreshCheck b) (kingRef b.turn) hp1
  have e2 := scanForEscapeSquares_eq (refreshDerived b) (kingRef b.turn) hp2
  rw [deref_refreshCheck] at e1
  rw [deref_refreshDerived] at e2
  have hpred : (fun sq : Int × Int =>
        (match getSquareContents (refreshCheck b) sq.1 sq.2 with
          | some o => decide (o.color ≠ (kingRef b.turn).color)
          | none => true)
        && (getAttackers (liftKing (refreshCheck b) (kingRef b.turn)) sq.1 sq.2).isEmpty)
      = (fun sq : Int × Int =>
        (match getSquareContents (refreshDerived b) sq.1 sq.2 with
          | some o => decide (o.color ≠ (kingRef b.turn).color)
          | none => true)
        && (getAttackers (liftKing (refreshDerived b) (kingRef b.turn)) sq.1 sq.2).isEmpty) := by
    funext sq
    rw [htab, getAttackers_congr _ _ hlift (by
      rw [turn_liftKing, turn_liftKing, turn_refreshCheck, turn_refreshDerived])]
  rw [hpred] at e1
  have hturn : kingRef (refreshDerived b).turn = kingRef b.turn := by
    rw [turn_refreshDerived]
  rw [escapeVector_refreshDerived, hturn, e1, e2]

theorem allEmpty_between_zero (b : chessBoardClass) (kc kr dc dr : Int) (n : Nat) (h : n = 0) :
    allEmpty b (between kc kr dc dr n) = true := by
  subst h
  rfl

/-- The path test passes for a destination at most one column and one row away. -/
theorem isPathClear_adjacent (b : chessBoardClass) (piece : PieceRef) (destC destR : Int)
    (hc : (destC - (deref b piece).column).natAbs ≤ 1)
    (hr : (destR - (deref b piece).row).natAbs ≤ 1) :
    isPathClear b piece destC destR = true := by
  unfold isPathClear
  simp only [Bool.and_eq_true]
  constructor
  · split_ifs <;>
      first
        | rfl
        | (apply allEmpty_between_zero
           omega)
  · split_ifs <;>
      first
        | rfl
        | (apply allEmpty_between_zero
           simp only [min_def]
           split_ifs <;> omega)

/-- The shape test of a king accepts a step to another square of the board at most one
column and one row away. -/
theorem king_step_valid (color : PIECE_COLOR) (p : chessPiece) (c r : Int)
    (hb : 0 ≤ c ∧ c ≤ 7 ∧ 0 ≤ r ∧ r ≤ 7)
    (hc : (c - p.column).natAbs ≤ 1) (hr : (r - p.row).natAbs ≤ 1)
    (hne : ¬ (c = p.column ∧ r = p.row)) :
    validMovement color KING p c r = true := by
  have hin : inBounds c r = true := by
    simp only [inBounds, Bool.not_eq_true', Bool.or_eq_false_iff, decide_eq_false_iff_not]
    omega
  have hmv : isMove p c r = true := by
    simp only [isMove, Bool.not_eq_true', Bool.and_eq_false_iff, beq_eq_false_iff_ne, ne_eq]
    by_cases h1 : c = p.column
    · exact Or.inr (fun h2 => hne ⟨h1, h2⟩)
    · exact Or.inl h1
  cases color
  · simp only [validMovement, whiteKing.validMovement, hin, hmv, Bool.not_true,
      Bool.false_eq_true, if_false]
    split_ifs <;>
      first
        | (simp only [decide_eq_true_eq]
           omega)
        | (exfalso
           omega)
  · simp only [validMovement, blackKing.validMovement, hin, hmv, Bool.not_true,
      Bool.false_eq_true, if_false]
    split_ifs <;>
      first
        | (simp only [decide_eq_true_eq]
           omega)
        | (exfalso
           omega)

/-- On the working copy of a well-formed board whose checkmate flag is down and whose
escape collection is the one the scan for escape squares returns, the move of the king of
the side to move to any escape square passes the probe. -/
theorem king_probe_escape (self N : chessBoardClass) (hwf : wellFormed N = true)
    (hmate : N.checkmate = false)
    (hfresh : N.escapeVector = (scanForEscapeSquares N (kingRef N.turn)).1)
    (sq : Int × Int) (hesc : sq ∈ N.escapeVector) :
    (sq.1 - (deref N (kingRef N.turn)).column).natAbs ≤ 1
      ∧ (sq.2 - (deref N (kingRef N.turn)).row).natAbs ≤ 1
      ∧ sq ≠ ((deref N (kingRef N.turn)).column, (deref N (kingRef N.turn)).row)
      ∧ probe (assign self N) (deref N (kingRef N.turn)).column
          (deref N (kingRef N.turn)).row sq.1 sq.2 = true := by
  obtain ⟨_, _, _, hkings⟩ := wellFormed_spec _ hwf
  have hK := hkings N.turn
  have hb : N.board (deref N (kingRef N.turn)).column (deref N (kingRef N.turn)).row
      = some (kingRef N.turn) := by
    unfold getSquareContents at hK
    split_ifs at hK
    exact hK
  have hesc2 := hesc
  rw [hfresh, scanForEscapeSquares_eq N _ hb] at hesc2
  simp only [List.mem_filter, Bool.and_eq_true, List.isEmpty_iff] at hesc2
  obtain ⟨haround, hocc, hlift⟩ := hesc2
  obtain ⟨hbounds, hc, hr⟩ := (mem_aroundKing _ _ _).mp haround
  have hfriend : ∀ o, getSquareContents N sq.1 sq.2 = some o → o.color ≠ N.turn := by
    intro o ho
    rw [ho] at hocc
    simpa [kingRef] using hocc
  have hplain := getAttackers_nil_of_lifted N (kingRef N.turn) rfl hK sq.1 sq.2 hlift
  have htabC := table_assign self N hwf
  have hturnC : (assign self N).turn = N.turn := turn_assign self N
  have hattC := getAttackers_nil_of_table (assign self N) N hturnC htabC sq.1 sq.2 hplain
  have hne : sq ≠ ((deref N (kingRef N.turn)).column, (deref N (kingRef N.turn)).row) := by
    intro h
    have h1 := hfriend (kingRef N.turn) (by rw [h]; exact hK)
    exact h1 rfl
  obtain ⟨hkC, hkcol, hkrow⟩ := king_assign self _ hwf N.turn
  refine ⟨hc, hr, hne, ?_⟩
  rw [probe_eq_true_iff]
  refine ⟨kingRef N.turn, hkC, hturnC.symm, by rw [checkmate_assign]; exact hmate, ?_⟩
  rw [movementLogic_eq_true]
  have hcC : (sq.1 - (deref (assign self N) (kingRef N.turn)).column).natAbs ≤ 1 := by
    rw [hkcol]; exact hc
  have hrC : (sq.2 - (deref (assign self N) (kingRef N.turn)).row).natAbs ≤ 1 := by
    rw [hkrow]; exact hr
  have hty : (kingRef N.turn).type = KING := rfl
  refine ⟨?_, ?_, ?_, ?_, ?_, ?_, ?_, ?_, ?_⟩
  · apply king_step_valid _ _ _ _ hbounds hcC hrC
    rw [hkcol, hkrow]
    intro h
    exact hne (Prod.ext h.1 h.2)
  · intro o ho
    obtain ⟨q, hq, hqc, _⟩ := color_type_eq_of_map_eq _ _ o (htabC sq.1 sq.2) ho
    have := hfriend q hq
    rw [hqc] at this
    exact this
  · rw [isPathClear_adjacent _ _ _ _ hcC hrC]
    simp
  · simp [hty]
  · simp [enPassantRefused, hty]
  · unfold castlingRefused
    rw [if_neg]
    rintro ⟨_, h2⟩
    rw [hkcol] at h2
    omega
  · rw [hattC]
    simp
  · unfold checkRefused
    have hescC : (sq.1, sq.2) ∈ (assign self N).escapeVector := by
      rw [escapeVector_assign]
      exact hesc
    simp [hty, hescC]
  · unfold pinTest
    have hnone : (assign self N).pinVector.find? (fun e => e.1.1 = kingRef N.turn) = none := by
      rw [List.find?_eq_none]
      intro e he
      have := (copyInv_assign self N).1.2.1 e he
      simp only [decide_eq_true_eq]
      intro h
      rw [h] at this
      exact this rfl
    rw [hnone]

/-- C38. Let the heuristic push no `DRAW` tag (the source pushes the seven other tags
only).  For every node whose board is to be moved on by the colour of the node (WHITE for a
max node, BLACK for a min node), is not checkmate, is well formed (the table and the
vectors describe one position) and has the escape collection the scan for escape squares
returns on it, as it is after `move` and after `setTurn`: every call of `buildActions`
returns, and `generateActionList` returns a stack that is not empty.  The stack is the
sentinel alone when no action was generated, and otherwise holds the generated actions,
each of which has passed the probe; when the escape collection is not empty a move of the
king is among them. -/
theorem C38_action_stack_never_empty (H : Heuristic) (node : gameStateNode)
    (hH : ∀ b a, MOVE_TYPE.DRAW ∉ (H b a).2)
    (hparity : node.gameState.turn = if node.isMaxNode then WHITE else BLACK)
    (hmate : node.gameState.checkmate = false)
    (hwf : wellFormed node.gameState = true)
    (hfresh : node.gameState.escapeVector
      = (scanForEscapeSquares node.gameState (kingRef node.gameState.turn)).1) :
    ∃ acts stack, generatedActions H node = some acts
      ∧ generateActionList H node = some stack
      ∧ stack ≠ []
      ∧ ((acts = [] ∧ stack = [drawData]) ∨ (acts ≠ [] ∧ stack.Perm (acts.map classify)))
      ∧ (node.gameState.escapeVector ≠ [] →
          builtActions H node (kingRef node.gameState.turn) ≠ [])
      ∧ ∀ a ∈ acts, ∃ piece ∈ piecesOfNode node, ∃ dest : Int × Int,
          probe (assign (init blankBoard) node.gameState) (deref node.gameState piece).column
              (deref node.gameState piece).row dest.1 dest.2 = true
            ∧ a = mkAction H (assign (init blankBoard) node.gameState) piece
                (deref node.gameState piece).column (deref node.gameState piece).row
                dest.1 dest.2 := by
  obtain ⟨acts, hacts, hall⟩ := buildAll_some H node (piecesOfNode node) (by
    intro piece hp
    apply friendlyFire_false
    rw [color_of_mem_piecesOfNode node piece hp, hparity])
  have hgenerated : generatedActions H node = some acts := hacts
  have hking : node.gameState.escapeVector ≠ [] →
      builtActions H node (kingRef node.gameState.turn) ≠ [] := by
    intro hne
    obtain ⟨sq, hsq⟩ := List.exists_mem_of_ne_nil _ hne
    obtain ⟨hc, hr, hne2, hprobe⟩ :=
      king_probe_escape (init blankBoard) node.gameState hwf hmate hfresh sq hsq
    exact king_action_built H node node.gameState.turn sq hsq hc hr hne2 hprobe
  have hesc : node.gameState.escapeVector ≠ [] → acts ≠ [] := by
    intro hne
    obtain ⟨a, ha⟩ := List.exists_mem_of_ne_nil _ (hking hne)
    have hmem : kingRef node.gameState.turn ∈ piecesOfNode node := by
      rw [hparity]
      exact king_mem_piecesOfNode node
    exact List.ne_nil_of_mem (hall _ hmem a ha)
  have hno := generatedActions_no_DRAW H node hH acts hgenerated
  have hperm := stackOf_perm acts hno
  have hgen : generateActionList H node
      = some (if (stackOf acts).isEmpty ∧ node.gameState.escapeVector.isEmpty then [drawData]
          else stackOf acts) := by
    rw [generateActionList, hgenerated]
    rfl
  by_cases hnil : acts = []
  · have hs : stackOf acts = [] := by
      rw [hnil] at hperm ⊢
      simpa using hperm
    have he : node.gameState.escapeVector = [] := by
      by_contra hne
      exact hesc hne hnil
    rw [hs, he] at hgen
    simp only [List.isEmpty_nil, and_self, if_true] at hgen
    refine ⟨acts, [drawData], hgenerated, hgen, by simp, Or.inl ⟨hnil, rfl⟩, hking, ?_⟩
    exact fun a ha => mem_generatedActions H node acts hgenerated a ha
  · have hne : ¬ (stackOf acts).isEmpty = true := by
      intro h
      have hs : stackOf acts = [] := List.isEmpty_iff.mp h
      rw [hs] at hperm
      have := hperm.symm.eq_nil
      simp only [List.map_eq_nil_iff] at this
      exact hnil this
    rw [if_neg (fun h => hne h.1)] at hgen
    refine ⟨acts, stackOf acts, hgenerated, hgen, ?_, Or.inr ⟨hnil, hperm⟩, hking, ?_⟩
    · intro h
      exact hne (by rw [h]; rfl)
    · exact fun a ha => mem_generatedActions H node acts hgenerated a ha

/-- `evaluateHeuristic` pushes no `DRAW` tag. -/
theorem evaluateHeuristic_no_DRAW (getCheckers getDefenders : chessBoardClass → action → Nat)
    (owner board : chessBoardClass) (moveData : action) :
    MOVE_TYPE.DRAW ∉ (evaluateHeuristic getCheckers getDefenders owner board moveData).2 := by
  intro h
  unfold evaluateHeuristic at h
  cases hp : moveData.piece with
  | none => simp [hp] at h
  | some piece =>
    simp only [hp] at h
    have hcap : MOVE_TYPE.DRAW ∉ (captureVal board moveData piece).2 := by
      unfold captureVal
      cases getSquareContents board moveData.destC moveData.destR <;> simp
    split_ifs at h <;>
      simp only [List.mem_append, List.mem_singleton, List.mem_cons, List.not_mem_nil, hcap,
        reduceCtorEq, false_or, or_false, or_self] at h

set_option maxRecDepth 100000 in
/-- Witness for C38: the root of the tree built on the board with the white king on a1
checked by the black rook on a8.  The root is a max node with White to move, its board is
not checkmate and well formed, and its escape collection, b1 and b2, is what the scan
returns; with `evaluateHeuristic`, no checker and no defender reported, the stack is not
empty. -/
theorem C38_action_stack_never_empty_witness :
    ((newGameTree cornerCheckBoard 1).node 0).gameState.turn = WHITE
      ∧ ((newGameTree cornerCheckBoard 1).node 0).isMaxNode = true
      ∧ ((newGameTree cornerCheckBoard 1).node 0).gameState.checkmate = false
      ∧ wellFormed ((newGameTree cornerCheckBoard 1).node 0).gameState = true
      ∧ ((newGameTree cornerCheckBoard 1).node 0).gameState.escapeVector = [(1, 0), (1, 1)]
      ∧ ∃ stack,
          generateActionList
            (evaluateHeuristic (fun _ _ => 0) (fun _ _ => 0)
              ((newGameTree cornerCheckBoard 1).node 0).gameState)
            ((newGameTree cornerCheckBoard 1).node 0) = some stack
          ∧ stack ≠ [] := by
  have h : ((newGameTree cornerCheckBoard 1).node 0).gameState.turn = WHITE
      ∧ ((newGameTree cornerCheckBoard 1).node 0).isMaxNode = true
      ∧ ((newGameTree cornerCheckBoard 1).node 0).gameState.checkmate = false
      ∧ wellFormed ((newGameTree cornerCheckBoard 1).node 0).gameState = true
      ∧ ((newGameTree cornerCheckBoard 1).node 0).gameState.escapeVector = [(1, 0), (1, 1)]
      ∧ ((newGameTree cornerCheckBoard 1).node 0).gameState.turn
          = (if ((newGameTree cornerCheckBoard 1).node 0).isMaxNode then WHITE else BLACK)
      ∧ ((newGameTree cornerCheckBoard 1).node 0).gameState.escapeVector
          = (scanForEscapeSquares ((newGameTree cornerCheckBoard 1).node 0).gameState
              (kingRef ((newGameTree cornerCheckBoard 1).node 0).gameState.turn)).1 := by
    decide!
  obtain ⟨acts, stack, _, hstack, hne, _⟩ :=
    C38_action_stack_never_empty
      (evaluateHeuristic (fun _ _ => 0) (fun _ _ => 0)
        ((newGameTree cornerCheckBoard 1).node 0).gameState)
      ((newGameTree cornerCheckBoard 1).node 0)
      (evaluateHeuristic_no_DRAW _ _ _) h.2.2.2.2.2.1 h.2.2.1 h.2.2.2.1 h.2.2.2.2.2.2
  exact ⟨h.1, h.2.1, h.2.2.1, h.2.2.2.1, h.2.2.2.2.1, stack, hstack, hne⟩

/-- The tag `PROMOTION` is pushed only for a pawn that records the far rank as the row it
stands on. -/
theorem promotion_tag_only_on_far_rank (getCheckers getDefenders : chessBoardClass → action → Nat)
    (owner board : chessBoardClass) (moveData : action)
    (h : MOVE_TYPE.PROMOTION ∈ (evaluateHeuristic getCheckers getDefenders owner board moveData).2) :
    ∃ piece, moveData.piece = some piece ∧ piece.type = PAWN
      ∧ (deref owner piece).row = (if piece.color = WHITE then 7 else 0) := by
  unfold evaluateHeuristic at h
  cases hp : moveData.piece with
  | none => simp [hp] at h
  | some piece =>
    simp only [hp] at h
    have hcap : MOVE_TYPE.PROMOTION ∉ (captureVal board moveData piece).2 := by
      unfold captureVal
      cases getSquareContents board moveData.destC moveData.destR <;> simp
    have hpromo : getNetPawnPromotion owner moveData > 0 → piece.type = PAWN
        ∧ (deref owner piece).row = (if piece.color = WHITE then 7 else 0) := by
      intro hpos
      unfold getNetPawnPromotion at hpos
      simp only [hp] at hpos
      split_ifs at hpos with h1 h2 h3 h4
      · simp at hpos
      · rw [if_pos h2]
        exact ⟨by simpa using h1, h3⟩
      · simp at hpos
      · rw [if_neg h2]
        exact ⟨by simpa using h1, h4⟩
      · simp at hpos
    refine ⟨piece, rfl, ?_⟩
    apply hpromo
    split_ifs at h <;>
      simp only [List.mem_append, List.mem_singleton, List.mem_cons, List.not_mem_nil, hcap,
        reduceCtorEq, false_or, or_false, or_self] at h <;>
      assumption

set_option maxRecDepth 100000 in
/-- C39, the code at the failing input. Whatever `getCheckers` and `getDefenders` return,
`evaluateHeuristic` pushes the tag `PROMOTION` only for a pawn that already records the far
rank as its row: `getNetPawnPromotion` tests `moveData->piece->getRow()`, the row of the
origin.  After 1. e4 d5 2. Qg4 Bxg4 3. exd5 a6 4. d6 a5 5. dxc7 a4 the white pawn on c7
records row 6.  With no checker and no defender reported, the three actions built for it,
c7-c8, c7xb8 and c7xd8, have the heuristic -4875 with no promotion term and no `PROMOTION`
tag; the stack generated for the root holds 25 actions, its top is c7xb8 with the category
`CAPTURE`, and its bottom, below every other action, is c7-c8 with the category
`FORWARD`. -/
theorem C39_promotion_move_untagged :
    (∀ (getCheckers getDefenders : chessBoardClass → action → Nat) (owner board : chessBoardClass)
        (moveData : action),
        MOVE_TYPE.PROMOTION ∈ (evaluateHeuristic getCheckers getDefenders owner board moveData).2 →
        ∃ piece, moveData.piece = some piece ∧ piece.type = PAWN
          ∧ (deref owner piece).row = (if piece.color = WHITE then 7 else 0))
      ∧ (play startBoard pawnOnC7Game).isSome = true
      ∧ ((newGameTree (boardAfter pawnOnC7Game) 1).node 0).isMaxNode = true
      ∧ ((newGameTree (boardAfter pawnOnC7Game) 1).node 0).gameState.turn = WHITE
      ∧ ((newGameTree (boardAfter pawnOnC7Game) 1).node 0).gameState.checkmate = false
      ∧ getSquareContents ((newGameTree (boardAfter pawnOnC7Game) 1).node 0).gameState 2 6
          = some ⟨WHITE, PAWN, 4⟩
      ∧ (deref ((newGameTree (boardAfter pawnOnC7Game) 1).node 0).gameState
          ⟨WHITE, PAWN, 4⟩).row = 6
      ∧ builtActions
          (evaluateHeuristic (fun _ _ => 0) (fun _ _ => 0)
            ((newGameTree (boardAfter pawnOnC7Game) 1).node 0).gameState)
          ((newGameTree (boardAfter pawnOnC7Game) 1).node 0) ⟨WHITE, PAWN, 4⟩
        = [⟨some ⟨WHITE, PAWN, 4⟩, 2, 6, 2, 7, -4875, [MOVE_TYPE.FORWARD], none⟩,
           ⟨some ⟨WHITE, PAWN, 4⟩, 2, 6, 1, 7, -4875, [MOVE_TYPE.CAPTURE, MOVE_TYPE.FORWARD],
             none⟩,
           ⟨some ⟨WHITE, PAWN, 4⟩, 2, 6, 3, 7, -4875, [MOVE_TYPE.CAPTURE, MOVE_TYPE.FORWARD],
             none⟩]
      ∧ (generateActionList
          (evaluateHeuristic (fun _ _ => 0) (fun _ _ => 0)
            ((newGameTree (boardAfter pawnOnC7Game) 1).node 0).gameState)
          ((newGameTree (boardAfter pawnOnC7Game) 1).node 0)).map
          (fun stack => (stack.length, stack.head?, stack.getLast?))
        = some (25,
            some ⟨some ⟨WHITE, PAWN, 4⟩, 2, 6, 1, 7, -4875,
              [MOVE_TYPE.CAPTURE, MOVE_TYPE.FORWARD], some MOVE_TYPE.CAPTURE⟩,
            some ⟨some ⟨WHITE, PAWN, 4⟩, 2, 6, 2, 7, -4875, [MOVE_TYPE.FORWARD],
              some MOVE_TYPE.FORWARD⟩) := by
  refine ⟨promotion_tag_only_on_far_rank, ?_⟩
  decide!

theorem posValue_mirror_sum (table : List (List Int)) (l : List chessPiece) :
    ((l.map mirrorPiece).map (posValue table BLACK)).sum = (l.map (posValue table WHITE)).sum
      ∧ ((l.map mirrorPiece).map (posValue table WHITE)).sum
          = (l.map (posValue table BLACK)).sum := by
  induction l with
  | nil => simp
  | cons p l ih =>
    simp only [List.map_cons, List.sum_cons, ih.1, ih.2]
    constructor
    · simp [posValue, mirrorPiece]
    · simp [posValue, mirrorPiece]

theorem vectorSize_mirror (g : chessBoardClass) (color : PIECE_COLOR) (type : PIECE_TYPE) :
    vectorSize (mirror g) color type = vectorSize g (enemyOf color) type := by
  cases color <;> cases type <;> simp [vectorSize, pieces, mirror, enemyOf]

theorem vectorPosValue_mirror (table : List (List Int)) (g : chessBoardClass)
    (color : PIECE_COLOR) (type : PIECE_TYPE) :
    vectorPosValue table (mirror g) color type = vectorPosValue table g (enemyOf color) type := by
  cases color <;> cases type <;>
    simp only [vectorPosValue, pieces, mirror, enemyOf] <;>
    first
      | exact (posValue_mirror_sum table _).1
      | exact (posValue_mirror_sum table _).2

theorem isEndgame_mirror (g : chessBoardClass) : isEndgame (mirror g) = isEndgame g := by
  unfold isEndgame
  simp only [vectorSize_mirror, enemyOf]
  split_ifs <;>
    first
      | rfl
      | (simp only [decide_eq_decide]
         constructor <;> intro h <;> omega)
      | (exfalso
         omega)

theorem kingPosValue_mirror (table : List (List Int)) (g : chessBoardClass) (color : PIECE_COLOR)
    (hk : pieces g (enemyOf color) KING ≠ []) :
    posValue table color (deref (mirror g) (kingRef color))
      = posValue table (enemyOf color) (deref g (kingRef (enemyOf color))) := by
  cases color
  · simp only [enemyOf, pieces] at hk
    cases hl : g.bKing with
    | nil => exact absurd hl hk
    | cons k ks => simp [deref, kingRef, pieces, mirror, hl, posValue, mirrorPiece, enemyOf]
  · simp only [enemyOf, pieces] at hk
    cases hl : g.wKing with
    | nil => exact absurd hl hk
    | cons k ks => simp [deref, kingRef, pieces, mirror, hl, posValue, mirrorPiece, enemyOf]

theorem colorPosValue_mirror (g : chessBoardClass) (color : PIECE_COLOR)
    (hk : pieces g (enemyOf color) KING ≠ []) :
    colorPosValue (mirror g) color = colorPosValue g (enemyOf color) := by
  unfold colorPosValue
  rw [isEndgame_mirror, kingPosValue_mirror _ g color hk]
  simp only [vectorPosValue_mirror]

theorem netMaterialChange_mirror (g : chessBoardClass) :
    netMaterialChange (mirror g) = -netMaterialChange g := by
  unfold netMaterialChange
  simp only [vectorSize_mirror, enemyOf]
  ring

/-- C40. For every node whose board has a king in each king vector, `evaluatePosition`
returns the same integer for the node and for the node whose board is the colour mirror of
its board: colours swapped, every row `r` reflected to `7 - r`, the move given to the
other side. -/
theorem C40_evaluatePosition_mirror (node : gameStateNode)
    (hw : node.gameState.wKing ≠ []) (hb : node.gameState.bKing ≠ []) :
    evaluatePosition { node with gameState := mirror node.gameState } = evaluatePosition node := by
  unfold evaluatePosition
  have hcm : (mirror node.gameState).checkmate = node.gameState.checkmate := rfl
  have hturn : (mirror node.gameState).turn = enemyOf node.gameState.turn := rfl
  simp only [hcm, hturn, netMaterialChange_mirror,
    colorPosValue_mirror node.gameState WHITE (by simpa [pieces, enemyOf] using hb),
    colorPosValue_mirror node.gameState BLACK (by simpa [pieces, enemyOf] using hw)]
  by_cases hc : node.gameState.checkmate = true
  · simp [hc]
  · simp only [hc, Bool.false_eq_true, if_false]
    cases ht : node.gameState.turn <;> simp [enemyOf] <;> ring

set_option maxRecDepth 100000 in
/-- Witness for C40: the node holding the board after 1. e4 and the node holding its
mirror, the position after 1... e5 with White to move, both evaluate to -40. -/
theorem C40_evaluatePosition_mirror_witness :
    (boardAfter kingsPawnOpening).wKing ≠ []
      ∧ (boardAfter kingsPawnOpening).bKing ≠ []
      ∧ evaluatePosition { freshNode with gameState := boardAfter kingsPawnOpening } = -40
      ∧ evaluatePosition { freshNode with gameState := mirror (boardAfter kingsPawnOpening) }
          = evaluatePosition { freshNode with gameState := boardAfter kingsPawnOpening } := by
  have h : (boardAfter kingsPawnOpening).wKing ≠ []
      ∧ (boardAfter kingsPawnOpening).bKing ≠ []
      ∧ evaluatePosition { freshNode with gameState := boardAfter kingsPawnOpening } = -40 := by
    decide!
  exact ⟨h.1, h.2.1, h.2.2,
    C40_evaluatePosition_mirror { freshNode with gameState := boardAfter kingsPawnOpening }
      h.1 h.2.1⟩

/-! ## The action stack is best first -/

/-- C22. Let the heuristic push no `DRAW` tag (the source pushes `CAPTURE`, `CHECK`,
`DOUBLE_CHECK`, `FORWARD`, `BACKWARD`, `CASTLE` and `PROMOTION` only) and let the parity of
the node match the side to move of its board.  Then every call of `buildActions` returns
and `generateActionList` returns a stack; when actions were generated the stack holds each
of them exactly once, each with the greatest tag of its tag list as category (`BACKWARD`
for an empty tag list), and when none was generated the stack is the sentinel alone or
empty; popping the stack yields the categories in the order promotion, capture, castle,
double-check, check, forward, backward and, within one category, heuristic values that
never increase. -/
theorem C22_action_stack_best_first (H : Heuristic) (node : gameStateNode)
    (hH : ∀ b a, MOVE_TYPE.DRAW ∉ (H b a).2)
    (hparity : node.gameState.turn = if node.isMaxNode then WHITE else BLACK) :
    ∃ acts stack, generatedActions H node = some acts
      ∧ generateActionList H node = some stack
      ∧ (acts ≠ [] → stack.Perm (acts.map classify))
      ∧ (acts = [] → stack = if node.gameState.escapeVector.isEmpty then [drawData] else [])
      ∧ (∀ a ∈ acts, (classify a).moveTypeList = a.moveTypeList
          ∧ (classify a).bestCategory = some (maxMoveType a.moveTypeList)
          ∧ maxMoveType a.moveTypeList ≠ MOVE_TYPE.DRAW
          ∧ (∀ t ∈ a.moveTypeList, t.toNat ≤ (maxMoveType a.moveTypeList).toNat)
          ∧ (maxMoveType a.moveTypeList ∈ a.moveTypeList
              ∨ maxMoveType a.moveTypeList = MOVE_TYPE.BACKWARD))
      ∧ stack.Pairwise (fun a b =>
          categoryRank b < categoryRank a
            ∨ (categoryRank a = categoryRank b ∧ b.heuristic ≤ a.heuristic)) := by
  obtain ⟨acts, hacts, _⟩ := buildAll_some H node (piecesOfNode node)
    (fun piece hp => friendlyFire_false H node piece
      (by rw [color_of_mem_piecesOfNode node piece hp, hparity]))
  have hacts : generatedActions H node = some acts := hacts
  have hno := generatedActions_no_DRAW H node hH acts hacts
  have hperm := stackOf_perm acts hno
  have hgen : generateActionList H node
      = some (if (stackOf acts).isEmpty ∧ node.gameState.escapeVector.isEmpty then [drawData]
          else stackOf acts) := by
    rw [generateActionList, hacts]
    rfl
  by_cases hnil : acts = []
  · subst hnil
    have hs : stackOf [] = [] := by simpa using hperm
    rw [hs] at hgen
    refine ⟨[], _, hacts, hgen, fun h => absurd rfl h, fun _ => ?_,
      fun a ha => absurd ha (List.not_mem_nil _), ?_⟩
    · by_cases he : node.gameState.escapeVector.isEmpty = true <;> simp [he]
    · split_ifs <;> simp
  · have hne : ¬ (stackOf acts).isEmpty = true := by
      intro hs
      rw [List.isEmpty_iff] at hs
      rw [hs] at hperm
      have := hperm.symm.eq_nil
      simp only [List.map_eq_nil_iff] at this
      exact hnil this
    rw [if_neg (fun h => hne h.1)] at hgen
    exact ⟨acts, stackOf acts, hacts, hgen, fun _ => hperm, fun h => absurd h hnil,
      fun a ha => ⟨rfl, rfl, maxMoveType_ne_DRAW _ (hno a ha), maxMoveType_spec _⟩,
      stackOf_sorted acts⟩

set_option maxRecDepth 100000 in
/-- Witness for C22: the root of the tree built on the board after 1. g3 d5 2. Bg2 e6
3. Nh3 a6, with `evaluateHeuristic`, no checker and no defender reported.  The root is a
max node with White to move; 26 actions are generated and the stack holds them under four
categories, from the top: the capture Bxd5, castling, 22 forward moves with heuristic
values from 5231 down to -1869, and two backward moves. -/
theorem C22_action_stack_best_first_witness :
    (play startBoard bishopTakesOrCastlesGame).isSome = true
      ∧ ((newGameTree (boardAfter bishopTakesOrCastlesGame) 1).node 0).gameState.turn = WHITE
      ∧ ((newGameTree (boardAfter bishopTakesOrCastlesGame) 1).node 0).isMaxNode = true
      ∧ (generateActionList
          (evaluateHeuristic (fun _ _ => 0) (fun _ _ => 0)
            ((newGameTree (boardAfter bishopTakesOrCastlesGame) 1).node 0).gameState)
          ((newGameTree (boardAfter bishopTakesOrCastlesGame) 1).node 0)).map
          (fun stack => stack.map (fun a => (a.bestCategory, a.heuristic)))
        = some
          [(some MOVE_TYPE.CAPTURE, 831), (some MOVE_TYPE.CASTLE, 3312),
           (some MOVE_TYPE.FORWARD, 5231), (some MOVE_TYPE.FORWARD, 4631),
           (some MOVE_TYPE.FORWARD, 4231), (some MOVE_TYPE.FORWARD, 4231),
           (some MOVE_TYPE.FORWARD, 3731), (some MOVE_TYPE.FORWARD, 2131),
           (some MOVE_TYPE.FORWARD, 2131), (some MOVE_TYPE.FORWARD, 1231),
           (some MOVE_TYPE.FORWARD, 1031), (some MOVE_TYPE.FORWARD, 731),
           (some MOVE_TYPE.FORWARD, 631), (some MOVE_TYPE.FORWARD, 631),
           (some MOVE_TYPE.FORWARD, 131), (some MOVE_TYPE.FORWARD, 31),
           (some MOVE_TYPE.FORWARD, 31), (some MOVE_TYPE.FORWARD, -269),
           (some MOVE_TYPE.FORWARD, -769), (some MOVE_TYPE.FORWARD, -769),
           (some MOVE_TYPE.FORWARD, -769), (some MOVE_TYPE.FORWARD, -1369),
           (some MOVE_TYPE.FORWARD, -1869), (some MOVE_TYPE.FORWARD, -1869),
           (some MOVE_TYPE.BACKWARD, -1169), (some MOVE_TYPE.BACKWARD, -1569)]
      ∧ ∃ acts stack,
          generatedActions
            (evaluateHeuristic (fun _ _ => 0) (fun _ _ => 0)
              ((newGameTree (boardAfter bishopTakesOrCastlesGame) 1).node 0).gameState)
            ((newGameTree (boardAfter bishopTakesOrCastlesGame) 1).node 0) = some acts
          ∧ generateActionList
            (evaluateHeuristic (fun _ _ => 0) (fun _ _ => 0)
              ((newGameTree (boardAfter bishopTakesOrCastlesGame) 1).node 0).gameState)
            ((newGameTree (boardAfter bishopTakesOrCastlesGame) 1).node 0) = some stack
          ∧ acts.length = 26
          ∧ stack.Perm (acts.map classify)
          ∧ stack.Pairwise (fun a b =>
              categoryRank b < categoryRank a
                ∨ (categoryRank a = categoryRank b ∧ b.heuristic ≤ a.heuristic)) := by
  have h : (play startBoard bishopTakesOrCastlesGame).isSome = true
      ∧ ((newGameTree (boardAfter bishopTakesOrCastlesGame) 1).node 0).gameState.turn = WHITE
      ∧ ((newGameTree (boardAfter bishopTakesOrCastlesGame) 1).node 0).isMaxNode = true
      ∧ (generateActionList
          (evaluateHeuristic (fun _ _ => 0) (fun _ _ => 0)
            ((newGameTree (boardAfter bishopTakesOrCastlesGame) 1).node 0).gameState)
          ((newGameTree (boardAfter bishopTakesOrCastlesGame) 1).node 0)).map
          (fun stack => stack.map (fun a => (a.bestCategory, a.heuristic)))
        = some
          [(some MOVE_TYPE.CAPTURE, 831), (some MOVE_TYPE.CASTLE, 3312),
           (some MOVE_TYPE.FORWARD, 5231), (some MOVE_TYPE.FORWARD, 4631),
           (some MOVE_TYPE.FORWARD, 4231), (some MOVE_TYPE.FORWARD, 4231),
           (some MOVE_TYPE.FORWARD, 3731), (some MOVE_TYPE.FORWARD, 2131),
           (some MOVE_TYPE.FORWARD, 2131), (some MOVE_TYPE.FORWARD, 1231),
           (some MOVE_TYPE.FORWARD, 1031), (some MOVE_TYPE.FORWARD, 731),
           (some MOVE_TYPE.FORWARD, 631), (some MOVE_TYPE.FORWARD, 631),
           (some MOVE_TYPE.FORWARD, 131), (some MOVE_TYPE.FORWARD, 31),
           (some MOVE_TYPE.FORWARD, 31), (some MOVE_TYPE.FORWARD, -269),
           (some MOVE_TYPE.FORWARD, -769), (some MOVE_TYPE.FORWARD, -769),
           (some MOVE_TYPE.FORWARD, -769), (some MOVE_TYPE.FORWARD, -1369),
           (some MOVE_TYPE.FORWARD, -1869), (some MOVE_TYPE.FORWARD, -1869),
           (some MOVE_TYPE.BACKWARD, -1169), (some MOVE_TYPE.BACKWARD, -1569)]
      ∧ ((newGameTree (boardAfter bishopTakesOrCastlesGame) 1).node 0).gameState.turn
          = (if ((newGameTree (boardAfter bishopTakesOrCastlesGame) 1).node 0).isMaxNode
              then WHITE else BLACK)
      ∧ (generatedActions
          (evaluateHeuristic (fun _ _ => 0) (fun _ _ => 0)
            ((newGameTree (boardAfter bishopTakesOrCastlesGame) 1).node 0).gameState)
          ((newGameTree (boardAfter bishopTakesOrCastlesGame) 1).node 0)).map List.length
        = some 26 := by
    decide!
  obtain ⟨acts, stack, hacts, hstack, hperm, _, _, hsorted⟩ :=
    C22_action_stack_best_first
      (evaluateHeuristic (fun _ _ => 0) (fun _ _ => 0)
        ((newGameTree (boardAfter bishopTakesOrCastlesGame) 1).node 0).gameState)
      ((newGameTree (boardAfter bishopTakesOrCastlesGame) 1).node 0)
      (evaluateHeuristic_no_DRAW _ _ _) h.2.2.2.2.1
  have hlen : acts.length = 26 := by
    have h6 := h.2.2.2.2.2
    rw [hacts] at h6
    simpa using h6
  have hne : acts ≠ [] := by
    intro hnil
    rw [hnil] at hlen
    simp at hlen
  exact ⟨h.1, h.2.1, h.2.2.1, h.2.2.2.1, acts, stack, hacts, hstack, hlen, hperm hne, hsorted⟩

end Chess
